import Mathlib

/-!
# FlexiBLE reference kernel: a shallow embedding

The reference platform of the FlexiBLE plugin
(`platforms/reference/src/ReferenceFlexiBLEKernels.cpp`) is embedded as
pure functions over an ordered field `α`.  The C++ `double` is read as an
exact number: every definition is generic in `α` (so it runs on `ℚ`), and
the library functions `exp`, `sqrt` and `log` are passed in as arguments
`expF`, `sqrtF`, `logF`; the theorems about analysis instantiate `α := ℝ`.

Conventions of the embedding
* a `std::vector<double>` of three components and an `OpenMM::Vec3` are a
  `Vec3 α`;
* reference arguments that a function writes (`der`, `DerList`, `Nodes`,
  `sumOfDeno`, the force buffer, the members `COM` and `SystemTotalMass`)
  are returned next to the result;
* a `throw OpenMMException` is an `Except.error`;
* an out-of-range `operator[]` read, undefined in the source, reads a
  default value (`0`), and an out-of-range write changes nothing; the
  theorems state the index bounds they need;
* the one quotient `0.0 / 0.0` that decides a branch of the source, the
  projection `lMod` of `Calc_r` for a capsule segment of length zero, is
  read as not-a-number: each comparison with it fails (`capsuleRecord`);
* a `for` loop whose condition fails at entry runs no iteration: with a
  negative `FlexiBLEMaxIt[i]` the convergence loop neither iterates nor
  throws (`convergenceLoop`).
-/

namespace FlexiBLE

/-! ## Data model -/

/-- The pair stored in the kernel table (`struct gInfo`): the value of the
exponential part of the pair function and its derivative over `R`. -/
structure gInfo (α : Type) where
  val : α
  der : α
deriving DecidableEq, Repr

/-! ## Pairwise kernel -/

/-- `CalcPairExpPart(alpha, R, der)`: returns `(result, der)`. -/
def CalcPairExpPart {α : Type} [LinearOrderedField α] (alpha R : α) : α × α :=
  if 0 < R then
    let aR := alpha * R
    let aRsq := aR * aR
    let aRcub := aRsq * aR
    (aRcub / (1 + aR),
      3 * (alpha * aRsq) / (1 + aR) - alpha * aRcub / (aRsq + 2 * aR + 1))
  else
    (0, 0)

section Kernel
variable {α : Type} [LinearOrderedField α]

/-- `rC[s].first`: the molecule index stored in record `s`. -/
def recFirst (rC : List (Nat × α)) (s : Nat) : Nat := (rC.getD s (0, 0)).1

/-- `rC[s].second`: the distance stored in record `s`. -/
def recSecond (rC : List (Nat × α)) (s : Nat) : α := (rC.getD s (0, 0)).2

/-- `g[a][b]`. -/
def gAt (g : List (List (gInfo α))) (a b : Nat) : gInfo α := (g.getD a []).getD b ⟨0, 0⟩

/-- `l[i] += v`, for a list of numbers or of vectors. -/
def addAt {β : Type} [AddCommMonoid β] (l : List β) (i : Nat) (v : β) : List β :=
  l.set i (l.getD i 0 + v)

/-- The kernel table `gExpPart` of `execute`: `n = QMSize + MMSize` rows of
`n` entries, zero on the diagonal and
`CalcPairExpPart(AlphaNow, rCenter_Atom[j].second - rCenter_Atom[k].second)`
at `(j, k)`. -/
def gExpPartTable (AlphaNow : α) (n : Nat) (rCenter_Atom : List (Nat × α)) :
    List (List (gInfo α)) :=
  (List.range n).map fun j =>
    (List.range n).map fun k =>
      if j = k then ⟨0, 0⟩
      else
        let Rjk := recSecond rCenter_Atom j - recSecond rCenter_Atom k
        let r := CalcPairExpPart AlphaNow Rjk
        ⟨r.1, r.2⟩

/-! ## Penalty function -/

/-- `CalcPenalFunc(seq, QMSize, g, DerList, rC_Atom, h, part)`: returns the
penalty weight and the updated `DerList`.  `CutoffMethod` is the member the
function reads; `QMSize` is a count, never negative at the two call sites. -/
def CalcPenalFunc (expF : α → α) (CutoffMethod : Int) (seq : List Nat) (QMSize : Nat)
    (g : List (List (gInfo α))) (DerList : List α) (rC_Atom : List (Nat × α)) (h : α)
    (part : Int) : α × List α :=
  let qm := List.range QMSize
  let mm := List.range' QMSize (seq.length - QMSize)
  let ExpPart := qm.foldl (fun acc i =>
    mm.foldl (fun acc j =>
      acc + (gAt g (recFirst rC_Atom (seq.getD i 0)) (recFirst rC_Atom (seq.getD j 0))).val)
      acc) 0
  let result := expF (-ExpPart)
  if h ≤ result ∨ (result < h ∧ CutoffMethod = 1) ∨ part = 0 then
    let DerList1 := qm.foldl (fun DL i =>
      let i_ori := recFirst rC_Atom (seq.getD i 0)
      let der := mm.foldl (fun der j =>
        if i ≠ j then der + -(gAt g i_ori (recFirst rC_Atom (seq.getD j 0))).der else der) 0
      addAt DL i_ori (der * result)) DerList
    let DerList2 := mm.foldl (fun DL j =>
      let j_ori := recFirst rC_Atom (seq.getD j 0)
      let der := qm.foldl (fun der i =>
        if i ≠ j then der + (gAt g (recFirst rC_Atom (seq.getD i 0)) j_ori).der else der) 0
      addAt DL j_ori (der * result)) DerList1
    (result, DerList2)
  else
    (result, DerList)

/-- The molecule that slot `i` of the ordering `seq` designates:
`rC_Atom[seq[i]].first`. -/
def molOf (seq : List Nat) (rC_Atom : List (Nat × α)) (i : Nat) : Nat :=
  recFirst rC_Atom (seq.getD i 0)

/-- The sum of kernel values over the cross pairs, as the specification
words it: `i` in the QM half (`i < QMSize`), `j` in the MM half
(`QMSize ≤ j < |seq|`). -/
def crossSum (seq : List Nat) (QMSize : Nat) (g : List (List (gInfo α)))
    (rC_Atom : List (Nat × α)) : α :=
  ∑ i in Finset.range QMSize, ∑ j in Finset.Ico QMSize seq.length,
    (gAt g (molOf seq rC_Atom i) (molOf seq rC_Atom j)).val

/-- The gradient of one partition with respect to the distance of molecule
`m`, as the specification words it: the weight times the sum of `-der`
over the cross pairs whose QM member is `m` plus the sum of `der` over the
cross pairs whose MM member is `m`. -/
def penalGradient (expF : α → α) (seq : List Nat) (QMSize : Nat)
    (g : List (List (gInfo α))) (rC_Atom : List (Nat × α)) (m : Nat) : α :=
  expF (-crossSum seq QMSize g rC_Atom) *
    ∑ i in Finset.range QMSize, ∑ j in Finset.Ico QMSize seq.length,
      ((if molOf seq rC_Atom j = m then (gAt g (molOf seq rC_Atom i) (molOf seq rC_Atom j)).der
        else 0)
       - (if molOf seq rC_Atom i = m then (gAt g (molOf seq rC_Atom i) (molOf seq rC_Atom j)).der
        else 0))

end Kernel

/-! ## Vector utilities and configuration -/

/-- A three-component vector (`OpenMM::Vec3`, or a `std::vector<double>`
holding three components). -/
abbrev Vec3 (α : Type) := α × α × α

/-- One molecule (`class InternalInfo`): its atom indices and the matching
atom masses. -/
structure InternalInfo (α : Type) where
  Indices : List Nat
  AtomMasses : List α

/-- The members of `ReferenceCalcFlexiBLEForceKernel` that `initialize`
copies from the force object. -/
structure KernelData (α : Type) where
  QMGroups : List (List (InternalInfo α))
  MMGroups : List (List (InternalInfo α))
  AssignedAtomIndex : List Int
  Coefficients : List α
  BoundaryShape : Int
  BoundaryParameters : List (List α)
  EnableTestOutput : Int
  EnableValOutput : Int
  hThre : List α
  FlexiBLEMaxIt : List Int
  IterScales : List α
  CutoffMethod : Int
  T : α

/-- The two errors `execute` throws. -/
inductive FlexError where
  | badNumerator
  | maxIteration
deriving DecidableEq, Repr

section Geometry
variable {α : Type} [LinearOrderedField α]

/-- `Calc_VecMinus(lhs, rhs)`: component-wise `rhs - lhs`. -/
def Calc_VecMinus (lhs rhs : Vec3 α) : Vec3 α :=
  (rhs.1 - lhs.1, rhs.2.1 - lhs.2.1, rhs.2.2 - lhs.2.2)

/-- `Calc_VecSum(lhs, rhs)`: component-wise `rhs + lhs`. -/
def Calc_VecSum (lhs rhs : Vec3 α) : Vec3 α :=
  (rhs.1 + lhs.1, rhs.2.1 + lhs.2.1, rhs.2.2 + lhs.2.2)

/-- `Calc_VecDot(lhs, rhs)`. -/
def Calc_VecDot (lhs rhs : Vec3 α) : α :=
  0 + lhs.1 * rhs.1 + lhs.2.1 * rhs.2.1 + lhs.2.2 * rhs.2.2

/-- `Calc_VecMod(lhs)`. -/
def Calc_VecMod (sqrtF : α → α) (lhs : Vec3 α) : α :=
  sqrtF (0 + lhs.1 * lhs.1 + lhs.2.1 * lhs.2.1 + lhs.2.2 * lhs.2.2)

/-- `QMGroups[group]`. -/
def KernelData.qm (K : KernelData α) (group : Nat) : List (InternalInfo α) :=
  K.QMGroups.getD group []

/-- `MMGroups[group]`. -/
def KernelData.mm (K : KernelData α) (group : Nat) : List (InternalInfo α) :=
  K.MMGroups.getD group []

/-- `Coordinates[a]`. -/
def coordAt (Coordinates : List (Vec3 α)) (a : Nat) : Vec3 α := Coordinates.getD a (0, 0, 0)

/-- `Calc_COM` on the molecule it selected: mass-weighted mean of the atom
coordinates, the total mass replaced by `1` when it is `0`. -/
def Calc_COM_of (Coordinates : List (Vec3 α)) (Molecule : InternalInfo α) : Vec3 α :=
  let acc := (List.range Molecule.Indices.length).foldl (fun (acc : α × Vec3 α) i =>
    let m := Molecule.AtomMasses.getD i 0
    let c := coordAt Coordinates (Molecule.Indices.getD i 0)
    (acc.1 + m, (acc.2.1 + m * c.1, acc.2.2.1 + m * c.2.1, acc.2.2.2 + m * c.2.2)))
    (0, (0, 0, 0))
  let totalMass := if acc.1 = 0 then 1 else acc.1
  (acc.2.1 / totalMass, acc.2.2.1 / totalMass, acc.2.2.2 / totalMass)

/-- `Calc_COM(Coordinates, QMFlag, group, index)`. -/
def Calc_COM (K : KernelData α) (Coordinates : List (Vec3 α)) (QMFlag : Int)
    (group index : Nat) : Vec3 α :=
  let Molecule : InternalInfo α :=
    if QMFlag = 1 then (K.qm group).getD index ⟨[], []⟩
    else if QMFlag = 0 then (K.mm group).getD index ⟨[], []⟩
    else ⟨[], []⟩
  Calc_COM_of Coordinates Molecule

/-- The representative point of molecule `j` in `Calc_r` (`MoleculeVec`,
`pVec`): the centre of mass for `TargetAtom == -1`, the coordinates of atom
`Indices[TargetAtom]` for `TargetAtom >= 0`.  For any other selector the
source leaves the vector empty and then reads it. -/
def moleculePoint (K : KernelData α) (Coordinates : List (Vec3 α)) (QMFlag : Int)
    (iGroup j : Nat) (TargetAtom : Int) : Vec3 α :=
  if TargetAtom = -1 then Calc_COM K Coordinates QMFlag iGroup j
  else if 0 ≤ TargetAtom then
    let mol : InternalInfo α :=
      if QMFlag = 1 then (K.qm iGroup).getD j ⟨[], []⟩ else (K.mm iGroup).getD j ⟨[], []⟩
    coordAt Coordinates (mol.Indices.getD TargetAtom.toNat 0)
  else (0, 0, 0)

/-- The system-wide centre of mass and total mass, as accumulated by the
first block of `Calc_r`: over every atom of every molecule of every QM
group, then of every MM group. -/
def systemCOM (K : KernelData α) (Coordinates : List (Vec3 α)) : Vec3 α × α :=
  let step := fun (acc : α × Vec3 α) (mol : InternalInfo α) =>
    (List.range mol.Indices.length).foldl (fun (acc : α × Vec3 α) k =>
      let m := mol.AtomMasses.getD k 0
      let c := coordAt Coordinates (mol.Indices.getD k 0)
      (acc.1 + m, (acc.2.1 + m * c.1, acc.2.2.1 + m * c.2.1, acc.2.2.2 + m * c.2.2))) acc
  let accQM := K.QMGroups.foldl (fun acc grp => grp.foldl step acc) (0, (0, 0, 0))
  let acc := K.MMGroups.foldl (fun acc grp => grp.foldl step acc) accQM
  ((acc.2.1 / acc.1, acc.2.2.1 / acc.1, acc.2.2.2 / acc.1), acc.1)

/-- One iteration of a sphere loop of `Calc_r` for shape 0: the record and
the displacement of a molecule at `MoleculeVec` from the centre of mass
(`R += pow(COM[l] - MoleculeVec[l], 2.0)`). -/
def sphereRecordCOM (sqrtF : α → α) (COM MoleculeVec : Vec3 α) (first : Nat) :
    (Nat × α) × Vec3 α :=
  let tempVec : Vec3 α :=
    (MoleculeVec.1 - COM.1, MoleculeVec.2.1 - COM.2.1, MoleculeVec.2.2 - COM.2.2)
  let R := 0 + (COM.1 - MoleculeVec.1) ^ 2 + (COM.2.1 - MoleculeVec.2.1) ^ 2
    + (COM.2.2 - MoleculeVec.2.2) ^ 2
  ((first, sqrtF R), tempVec)

/-- One iteration of a sphere loop of `Calc_r` for shape 1: the record and
the displacement of a molecule at `MoleculeVec` from the fixed centre
(`R += pow(MoleculeVec[k] - BoundaryParameters[iGroup][k], 2.0)`). -/
def sphereRecord (sqrtF : α → α) (centre MoleculeVec : Vec3 α) (first : Nat) :
    (Nat × α) × Vec3 α :=
  let tempVec : Vec3 α :=
    (MoleculeVec.1 - centre.1, MoleculeVec.2.1 - centre.2.1, MoleculeVec.2.2 - centre.2.2)
  let R := 0 + (MoleculeVec.1 - centre.1) ^ 2 + (MoleculeVec.2.1 - centre.2.1) ^ 2
    + (MoleculeVec.2.2 - centre.2.2) ^ 2
  ((first, sqrtF R), tempVec)

/-- One iteration of a capsule loop of `Calc_r` (shapes 2 and 3) for the
segment from `L1` to `L2` with direction `LVec` of length `LMod`.  The QM
loops clamp the squared perpendicular distance with `max(., 0.0)`
(`clamp = true`), the MM loops do not.  No record is produced when neither
branch of the source applies.  That is the case of a segment of length
zero: with `LMod = 0` (`LVec` the zero vector) the source computes
`lMod = 0.0 / 0.0`, which is not a number and fails each of the comparisons
`lMod < LMod`, `lMod > 0`, `lMod <= 0` and `lMod >= LMod`, so that nothing
is pushed for the molecule. -/
def capsuleRecord (sqrtF : α → α) (clamp : Bool) (L1 L2 LVec : Vec3 α) (LMod : α)
    (pVec : Vec3 α) (first : Nat) : Option ((Nat × α) × Vec3 α) :=
  let RVec := Calc_VecMinus L1 pVec
  let RMod := Calc_VecMod sqrtF RVec
  let lMod := Calc_VecDot RVec LVec / LMod
  if LMod = 0 then none
  else if lMod < LMod ∧ 0 < lMod then
    let R := if clamp then sqrtF (max (RMod * RMod - lMod * lMod) 0)
      else sqrtF (RMod * RMod - lMod * lMod)
    let intersection : Vec3 α :=
      (L1.1 + LVec.1 * (lMod / LMod), L1.2.1 + LVec.2.1 * (lMod / LMod),
        L1.2.2 + LVec.2.2 * (lMod / LMod))
    some ((first, R), Calc_VecMinus intersection pVec)
  else if lMod ≤ 0 ∨ LMod ≤ lMod then
    let tempVec := if lMod ≤ 0 then RVec else Calc_VecMinus L2 pVec
    some ((first, Calc_VecMod sqrtF tempVec), tempVec)
  else none

end Geometry

/-- What `Calc_r` writes: the records `rCA`, the displacement vectors
`rCA_Vec`, and the members `COM` and `SystemTotalMass`. -/
structure CalcROut (α : Type) where
  rCA : List (Nat × α)
  rCA_Vec : List (Vec3 α)
  COM : Vec3 α
  SystemTotalMass : α

section Distances
variable {α : Type} [LinearOrderedField α]

/-- `BoundaryParameters[iGroup][k]`. -/
def KernelData.param (K : KernelData α) (iGroup k : Nat) : α :=
  (K.BoundaryParameters.getD iGroup []).getD k 0

/-- `Calc_r(rCA, rCA_Vec, Coordinates, iGroup, TargetAtom, drCA)`.  `COM0`
and `STM0` are the members `COM` and `SystemTotalMass` before the call;
they are only overwritten for shapes 0 and 2. -/
def Calc_r (K : KernelData α) (sqrtF : α → α) (COM0 : Vec3 α) (STM0 : α)
    (Coordinates : List (Vec3 α)) (iGroup : Nat) (TargetAtom : Int) : CalcROut α :=
  let cs : Vec3 α × α :=
    if K.BoundaryShape = 0 ∨ K.BoundaryShape = 2 then systemCOM K Coordinates else (COM0, STM0)
  let COM := cs.1
  let nQM := (K.qm iGroup).length
  let nMM := (K.mm iGroup).length
  let pQM := fun j => moleculePoint K Coordinates 1 iGroup j TargetAtom
  let pMM := fun j => moleculePoint K Coordinates 0 iGroup j TargetAtom
  let recs : List ((Nat × α) × Vec3 α) :=
    if K.BoundaryShape = 0 then
      (List.range nQM).map (fun j => sphereRecordCOM sqrtF COM (pQM j) j)
        ++ (List.range nMM).map (fun j => sphereRecordCOM sqrtF COM (pMM j) (j + nQM))
    else if K.BoundaryShape = 1 then
      let centre : Vec3 α := (K.param iGroup 0, K.param iGroup 1, K.param iGroup 2)
      (List.range nQM).map (fun j => sphereRecord sqrtF centre (pQM j) j)
        ++ (List.range nMM).map (fun j => sphereRecord sqrtF centre (pMM j) (j + nQM))
    else if K.BoundaryShape = 2 then
      let LVec : Vec3 α := (K.param iGroup 0, K.param iGroup 1, K.param iGroup 2)
      let halfLVec : Vec3 α := (LVec.1 / 2, LVec.2.1 / 2, LVec.2.2 / 2)
      let LMod := Calc_VecMod sqrtF LVec
      let L1 := Calc_VecMinus halfLVec COM
      let L2 := Calc_VecSum COM halfLVec
      (List.range nQM).filterMap (fun j => capsuleRecord sqrtF true L1 L2 LVec LMod (pQM j) j)
        ++ (List.range nMM).filterMap
            (fun j => capsuleRecord sqrtF false L1 L2 LVec LMod (pMM j) (j + nQM))
    else if K.BoundaryShape = 3 then
      let L1 : Vec3 α := (K.param iGroup 0, K.param iGroup 1, K.param iGroup 2)
      let L2 : Vec3 α := (K.param iGroup 3, K.param iGroup 4, K.param iGroup 5)
      let LVec := Calc_VecMinus L1 L2
      let LMod := Calc_VecMod sqrtF LVec
      (List.range nQM).filterMap (fun j => capsuleRecord sqrtF true L1 L2 LVec LMod (pQM j) j)
        ++ (List.range nMM).filterMap
            (fun j => capsuleRecord sqrtF false L1 L2 LVec LMod (pMM j) (j + nQM))
    else []
  ⟨recs.map Prod.fst, recs.map Prod.snd, COM, cs.2⟩

/-- The length `LMod` of the segment of the capsule of group `iGroup`, as
`Calc_r` computes it: the length of `BoundaryParameters[iGroup][0..2]` for
shape 2, of the vector from `L1` to `L2` otherwise. -/
def capsuleLMod (K : KernelData α) (sqrtF : α → α) (iGroup : Nat) : α :=
  if K.BoundaryShape = 2 then
    Calc_VecMod sqrtF (K.param iGroup 0, K.param iGroup 1, K.param iGroup 2)
  else
    Calc_VecMod sqrtF (Calc_VecMinus (K.param iGroup 0, K.param iGroup 1, K.param iGroup 2)
      (K.param iGroup 3, K.param iGroup 4, K.param iGroup 5))

/-- A capsule boundary (shape 2 or 3) whose segment has length zero. -/
def degenerateCapsule (K : KernelData α) (sqrtF : α → α) (iGroup : Nat) : Prop :=
  (K.BoundaryShape = 2 ∨ K.BoundaryShape = 3) ∧ capsuleLMod K sqrtF iGroup = 0

/-- The block of `Calc_dr` for one molecule when `AtomDragged == -1`: the
unit vector `rCA_Vec[idx] / rCA[idx].second` scaled by each atom's mass
fraction. -/
def drOfMolecule (mol : InternalInfo α) (rCA : List (Nat × α)) (rCA_Vec : List (Vec3 α))
    (idx : Nat) : List (Vec3 α) :=
  let total := (List.range mol.AtomMasses.length).foldl
    (fun t n => t + mol.AtomMasses.getD n 0) 0
  let totalMass := if total = 0 then 1 else total
  let dCOM := (List.range mol.AtomMasses.length).map
    fun n => mol.AtomMasses.getD n 0 / totalMass
  let v := rCA_Vec.getD idx (0, 0, 0)
  let r := recSecond rCA idx
  let gradient : Vec3 α := (v.1 / r, v.2.1 / r, v.2.2 / r)
  dCOM.map fun c => (gradient.1 * c, gradient.2.1 * c, gradient.2.2 * c)

/-- `Calc_dr(iGroup, AtomDragged, rCA, rCA_Vec, drCA)`: returns `drCA`. -/
def Calc_dr (K : KernelData α) (iGroup : Nat) (AtomDragged : Int) (rCA : List (Nat × α))
    (rCA_Vec : List (Vec3 α)) : List (Vec3 α) :=
  if 0 ≤ AtomDragged then
    (List.range rCA.length).map fun i =>
      let v := rCA_Vec.getD i (0, 0, 0)
      let r := recSecond rCA i
      (v.1 / r, v.2.1 / r, v.2.2 / r)
  else if AtomDragged = -1 then
    let nQM := (K.qm iGroup).length
    ((List.range nQM).map fun j =>
        drOfMolecule ((K.qm iGroup).getD j ⟨[], []⟩) rCA rCA_Vec j).flatten
      ++ ((List.range (K.mm iGroup).length).map fun j =>
        drOfMolecule ((K.mm iGroup).getD j ⟨[], []⟩) rCA rCA_Vec (j + nQM)).flatten
  else []

/-- The `std::stable_sort` of `execute` with the comparator
`lhs.second < rhs.second`: the records in non-decreasing distance, ties in
their original order (an insertion sort that puts a record before the first
one that is not smaller computes that arrangement). -/
def sortByDistance (l : List (Nat × α)) : List (Nat × α) :=
  l.insertionSort fun a b => a.2 ≤ b.2

/-- The body of the zero-distance loop of `execute`, over the remaining
positions `js` of the sorted list: stop at the first positive distance, and
replace a distance that is exactly zero by `1.0e-8` in the sorted list and
in the record of the same molecule of the original-order list. -/
def floorLoop : List Nat → List (Nat × α) → List (Nat × α) → List (Nat × α) × List (Nat × α)
  | [], re, orig => (re, orig)
  | j :: js, re, orig =>
    let minDistance : α := 1.0e-8
    if 0 < recSecond re j then (re, orig)
    else if recSecond re j = 0 then
      floorLoop js (re.set j (recFirst re j, minDistance))
        (orig.set (recFirst re j) (recFirst orig (recFirst re j), minDistance))
    else floorLoop js re orig

/-- The zero-distance loop of `execute`: returns `(rCenter_Atom_re,
rCenter_Atom)`. -/
def floorZero (re orig : List (Nat × α)) : List (Nat × α) × List (Nat × α) :=
  floorLoop (List.range re.length) re orig

/-- The single-molecule weights `hList_re` of `execute`. -/
def hList (expF : α → α) (QMSize MMSize : Nat) (g : List (List (gInfo α)))
    (re : List (Nat × α)) : List α :=
  (List.range QMSize).map (fun p =>
      expF (-((List.range' (p + 1) (QMSize - p)).foldl
        (fun e j => e + (gAt g (recFirst re j) (recFirst re p)).val) 0)))
    ++ (List.range' QMSize MMSize).map (fun q =>
      expF (-((List.range' (QMSize - 1) (q - (QMSize - 1))).foldl
        (fun e j => e + (gAt g (recFirst re q) (recFirst re j)).val) 0)))

end Distances

/-! ## Partition search -/

/-- The reference arguments `ProdChild` updates: the visited set `Nodes`
(a list without repetition, newest first), the derivative accumulator
`DerList` and the running sum `sumOfDeno`. -/
structure SearchState (α : Type) where
  Nodes : List (List Char)
  DerList : List α
  sumOfDeno : α

section Search
variable {α : Type} [LinearOrderedField α]

/-- The vector `Node` that `ProdChild` fills from the string `InputNode`:
the positions of the `'1'` characters (plus `LB`) from slot `0` on, the
positions of the other characters (plus `LB`) from slot `QMSize` on. -/
def nodeSeq (InputNode : List Char) (QMSize LB : Nat) : List Nat :=
  ((List.range InputNode.length).foldl (fun (st : List Nat × Nat × Nat) i =>
    if InputNode.getD i ' ' = '1' then (st.1.set st.2.1 (i + LB), st.2.1 + 1, st.2.2)
    else (st.1.set st.2.2 (i + LB), st.2.1, st.2.2 + 1))
    (List.replicate InputNode.length 0, 0, QMSize)).1

/-- `FindRepeat(Nodes, InputNode)`. -/
def FindRepeat (Nodes : List (List Char)) (InputNode : List Char) : Int :=
  if InputNode ∈ Nodes then 1 else 0

/-- The child of `InputNode` made by `child[i] = '0'; child[i + 1] = '1'`. -/
def swapChild (InputNode : List Char) (i : Nat) : List Char :=
  (InputNode.set i '0').set (i + 1) '1'

/-- `DerList[i] += temp[i]` for every `i`. -/
def mergeDer (DerList temp : List α) : List α :=
  (List.range temp.length).foldl (fun DL i => addAt DL i (temp.getD i 0)) DerList

/-- `ProdChild(Nodes, InputNode, h, QMSize, LB, g, DerList, rC_Atom,
sumOfDeno)`, with the recursion depth bounded by `fuel`; at `fuel = 0` the
state is returned untouched. -/
def ProdChildAux (expF : α → α) (CutoffMethod : Int) (h : α) (QMSize LB : Nat)
    (g : List (List (gInfo α))) (rC_Atom : List (Nat × α)) :
    Nat → SearchState α → List Char → SearchState α
  | 0, st, _ => st
  | fuel + 1, st, InputNode =>
    let Node := nodeSeq InputNode QMSize LB
    let r := CalcPenalFunc expF CutoffMethod Node QMSize g
      (List.replicate st.DerList.length 0) rC_Atom h 1
    let nodeVal := r.1
    let temp := r.2
    if h ≤ nodeVal then
      if FindRepeat st.Nodes InputNode = 0 then
        (List.range (InputNode.length - 1)).foldl (fun st i =>
          if InputNode.getD i ' ' = '1' ∧ InputNode.getD (i + 1) ' ' = '0' then
            ProdChildAux expF CutoffMethod h QMSize LB g rC_Atom fuel st (swapChild InputNode i)
          else st)
          ⟨InputNode :: st.Nodes, mergeDer st.DerList temp, st.sumOfDeno + nodeVal⟩
      else st
    else if nodeVal < h ∧ CutoffMethod = 1 then
      if FindRepeat st.Nodes InputNode = 0 then
        ⟨InputNode :: st.Nodes, mergeDer st.DerList temp, st.sumOfDeno + nodeVal⟩
      else st
    else st

/-- A recursion depth no chain of `'10' -> '01'` swaps from `InputNode`
can reach. -/
def searchFuel (InputNode : List Char) : Nat := InputNode.length * InputNode.length + 1

/-- `ProdChild` started on `InputNode`. -/
def ProdChild (expF : α → α) (CutoffMethod : Int) (st : SearchState α) (InputNode : List Char)
    (h : α) (QMSize LB : Nat) (g : List (List (gInfo α))) (rC_Atom : List (Nat × α)) :
    SearchState α :=
  ProdChildAux expF CutoffMethod h QMSize LB g rC_Atom (searchFuel InputNode) st InputNode

/-! ## Convergence loop -/

/-- `ImpQMlb` of `execute`: one past the last QM slot whose weight is below
`h`, `0` when there is none. -/
def ImpQMlb (hList_re : List α) (QMSize : Nat) (h : α) : Nat :=
  match (List.range QMSize).reverse.find? fun p => decide (hList_re.getD p 0 < h) with
  | some p => p + 1
  | none => 0

/-- `ImpMMub` of `execute`: one before the first MM slot whose weight is
below `h`, `0` when there is none. -/
def ImpMMub (hList_re : List α) (QMSize MMSize : Nat) (h : α) : Int :=
  match (List.range' QMSize MMSize).find? fun q => decide (hList_re.getD q 0 < h) with
  | some q => (q : Int) - 1
  | none => 0

/-- The seed string `perfect` of `execute`. -/
def perfect (nImpQM nImpMM : Int) : List Char :=
  (List.range (nImpQM + nImpMM).toNat).map fun k => if (k : Int) < nImpQM then '1' else '0'

/-- One pass of the body of the convergence loop up to the call of
`ProdChild`: returns `(Deno, DerListDen)` for the threshold `h`. -/
def denominatorAt (expF : α → α) (CutoffMethod : Int) (QMSize MMSize : Nat)
    (g : List (List (gInfo α))) (re : List (Nat × α)) (hList_re : List α) (h : α) :
    α × List α :=
  let lb := ImpQMlb hList_re QMSize h
  let ub := ImpMMub hList_re QMSize MMSize h
  let nImpQM : Int := (QMSize : Int) - lb
  let nImpMM : Int := ub - ((QMSize : Int) - 1)
  let st := ProdChild expF CutoffMethod ⟨[], List.replicate (QMSize + MMSize) 0, 0⟩
    (perfect nImpQM nImpMM) h nImpQM.toNat lb g re
  (st.sumOfDeno, st.DerList)

/-- The convergence loop of `execute` from iteration `j` on, with `fuel`
iterations left before `j > IterNum`; returns the accepted `(DenVal,
dDen_dr)` or throws. -/
def denLoop (expF : α → α) (CutoffMethod : Int) (QMSize MMSize : Nat)
    (g : List (List (gInfo α))) (re : List (Nat × α)) (hList_re : List α)
    (ScaleFactor gamma : α) : Nat → Nat → α → α → Except FlexError (α × List α)
  | 0, _, _, _ => .error .maxIteration
  | fuel + 1, j, h, DenLast =>
    let d := denominatorAt expF CutoffMethod QMSize MMSize g re hList_re h
    if j = 1 then
      if d.1 = 1 then .ok d
      else denLoop expF CutoffMethod QMSize MMSize g re hList_re ScaleFactor gamma
        fuel (j + 1) (h * ScaleFactor) d.1
    else if gamma * DenLast < d.1 - DenLast then
      denLoop expF CutoffMethod QMSize MMSize g re hList_re ScaleFactor gamma
        fuel (j + 1) (h * ScaleFactor) d.1
    else if d.1 - DenLast ≤ gamma * DenLast then .ok d
    else denLoop expF CutoffMethod QMSize MMSize g re hList_re ScaleFactor gamma
      fuel (j + 1) h DenLast

/-- The convergence loop of `execute`,
`for (int j = 1; j <= IterNum + 1; j++)` started with `DenLast = 0.0`.
With `IterNum < 0` the condition `j <= IterNum + 1` fails at `j = 1`: the
body never runs, nothing is thrown, and `DenVal` and `dDen_dr` keep the
values of their declarations, `0.0` and `QMSize + MMSize` zeros.  With
`IterNum ≥ 0` the body runs until a `break` or until `j > IterNum`. -/
def convergenceLoop (expF : α → α) (CutoffMethod : Int) (QMSize MMSize : Nat)
    (g : List (List (gInfo α))) (re : List (Nat × α)) (hList_re : List α)
    (ScaleFactor gamma : α) (IterNum : Int) (h : α) : Except FlexError (α × List α) :=
  if IterNum < 0 then .ok (0, List.replicate (QMSize + MMSize) 0)
  else denLoop expF CutoffMethod QMSize MMSize g re hList_re ScaleFactor gamma
    IterNum.toNat 1 h 0

end Search

/-! ## Force and energy assembly -/

/-- The values `execute` holds for one boundary group when its convergence
loop has been left through a `break`. -/
structure GroupEval (α : Type) where
  AtomDragged : Int
  COM : Vec3 α
  SystemTotalMass : α
  rCenter_Atom : List (Nat × α)
  rCenter_Atom_re : List (Nat × α)
  rCenter_Atom_Vec : List (Vec3 α)
  drCenter_Atom_Vec : List (Vec3 α)
  gExpPart : List (List (gInfo α))
  hList_re : List α
  NumeVal : α
  dNume_dr : List α
  DenVal : α
  dDen_dr : List α
  df_dr : List α
  ForceList : List (Vec3 α)

/-- What `execute` leaves behind: the returned energy or the exception, and
the force buffer of the context. -/
structure ExecOut (α : Type) where
  outcome : Except FlexError α
  Force : List (Vec3 α)

section Assembly
variable {α : Type} [LinearOrderedField α]

/-- The search for the dragged atom that `execute` runs when
`AssignedAtomIndex` is empty, over the remaining atoms `js` of the first
molecule, with the current `AtomDragged` and `RatioNow`.  The distance `dr`
is taken at `Positions[Points[i]]`, `i` being the group index, as in the
source. -/
def autoDragLoop (sqrtF : α → α) (Positions : List (Vec3 α)) (Points : List Nat)
    (Masses : List α) (Centroid : Vec3 α) (i : Nat) : List Nat → Int → α → Int
  | [], AtomDragged, _ => AtomDragged
  | j :: js, AtomDragged, RatioNow =>
    let p := coordAt Positions (Points.getD i 0)
    let dr := sqrtF (0 + (Centroid.1 - p.1) ^ 2 + (Centroid.2.1 - p.2.1) ^ 2
      + (Centroid.2.2 - p.2.2) ^ 2)
    if dr < 10e-5 ∧ 2.1 < Masses.getD j 0 then (j : Int)
    else if 10e-5 < dr then
      if RatioNow < Masses.getD j 0 / dr then
        autoDragLoop sqrtF Positions Points Masses Centroid i js j (Masses.getD j 0 / dr)
      else autoDragLoop sqrtF Positions Points Masses Centroid i js AtomDragged RatioNow
    else autoDragLoop sqrtF Positions Points Masses Centroid i js AtomDragged RatioNow

/-- The choice of `AtomDragged` at the head of the group body of
`execute`. -/
def chooseAtomDragged (K : KernelData α) (sqrtF : α → α) (Positions : List (Vec3 α))
    (i : Nat) : Int :=
  if 0 < K.AssignedAtomIndex.length then K.AssignedAtomIndex.getD i 0
  else
    let first : InternalInfo α :=
      if 0 < (K.qm i).length then (K.qm i).getD 0 ⟨[], []⟩ else (K.mm i).getD 0 ⟨[], []⟩
    let Points := first.Indices
    let Masses := first.AtomMasses
    let Centroid : Vec3 α := (List.range Points.length).foldl (fun (c : Vec3 α) j =>
      let p := coordAt Positions (Points.getD j 0)
      (c.1 + p.1 / (Points.length : α), c.2.1 + p.2.1 / (Points.length : α),
        c.2.2 + p.2.2 / (Points.length : α))) (0, 0, 0)
    autoDragLoop sqrtF Positions Points Masses Centroid i (List.range Points.length) (-2) (-1)

/-- `Coe`, `kB * T` in kJ/mol:
`1.3807e-23 * T * 6.02214179e+23 / 1000.0`. -/
def Coe (T : α) : α := 1.3807e-23 * T * 6.02214179e+23 / 1000.0

/-- The vector `ForceList` of `execute`, from `drCenter_Atom_Vec` and
`df_dr`. -/
def buildForceList (AtomDragged : Int) (n NAtoms : Nat) (dr : List (Vec3 α))
    (df_dr : List α) : List (Vec3 α) :=
  if 0 ≤ AtomDragged then
    (List.range n).map fun j =>
      let v := dr.getD j (0, 0, 0)
      (v.1 * df_dr.getD j 0, v.2.1 * df_dr.getD j 0, v.2.2 * df_dr.getD j 0)
  else if AtomDragged = -1 then
    ((List.range n).map fun j =>
      (List.range NAtoms).map fun a =>
        let v := dr.getD (j * NAtoms + a) (0, 0, 0)
        (v.1 * df_dr.getD j 0, v.2.1 * df_dr.getD j 0, v.2.2 * df_dr.getD j 0)).flatten
  else List.replicate n (0, 0, 0)

/-- The body of the group loop of `execute` up to the end of the
convergence loop and the computation of `ForceList`: the values of the
group, or the exception thrown. -/
def evalGroup (K : KernelData α) (expF sqrtF : α → α) (COM0 : Vec3 α) (STM0 : α)
    (Positions : List (Vec3 α)) (i : Nat) : Except FlexError (GroupEval α) :=
  let AtomDragged := chooseAtomDragged K sqrtF Positions i
  let cr := Calc_r K sqrtF COM0 STM0 Positions i AtomDragged
  let fl := floorZero (sortByDistance cr.rCA) cr.rCA
  let rCenter_Atom_re := fl.1
  let rCenter_Atom := fl.2
  let drCenter_Atom_Vec := Calc_dr K i AtomDragged rCenter_Atom cr.rCA_Vec
  let IterNum := K.FlexiBLEMaxIt.getD i 0
  let ScaleFactor := K.IterScales.getD i 0
  let h := K.hThre.getD i 0
  let gamma := K.hThre.getD i 0
  let AlphaNow := K.Coefficients.getD i 0
  let QMSize := (K.qm i).length
  let MMSize := (K.mm i).length
  let NAtoms := ((K.qm i).getD 0 ⟨[], []⟩).Indices.length
  let gExpPart := gExpPartTable AlphaNow (QMSize + MMSize) rCenter_Atom
  let hList_re := hList expF QMSize MMSize gExpPart rCenter_Atom_re
  let nume := CalcPenalFunc expF K.CutoffMethod (List.range (QMSize + MMSize)) QMSize gExpPart
    (List.replicate (QMSize + MMSize) 0) rCenter_Atom h 0
  if |nume.1| < 1.0e-14 ∧ K.EnableTestOutput = 0 then .error .badNumerator
  else
    match convergenceLoop expF K.CutoffMethod QMSize MMSize gExpPart rCenter_Atom_re hList_re
        ScaleFactor gamma IterNum h with
    | .error e => .error e
    | .ok den =>
      let df_dr := (List.range (QMSize + MMSize)).map fun j =>
        1 / nume.1 * nume.2.getD j 0 - 1 / den.1 * den.2.getD j 0
      .ok {
        AtomDragged := AtomDragged, COM := cr.COM, SystemTotalMass := cr.SystemTotalMass,
        rCenter_Atom := rCenter_Atom, rCenter_Atom_re := rCenter_Atom_re,
        rCenter_Atom_Vec := cr.rCA_Vec, drCenter_Atom_Vec := drCenter_Atom_Vec,
        gExpPart := gExpPart, hList_re := hList_re,
        NumeVal := nume.1, dNume_dr := nume.2, DenVal := den.1, dDen_dr := den.2,
        df_dr := df_dr,
        ForceList := buildForceList AtomDragged (QMSize + MMSize) NAtoms drCenter_Atom_Vec df_dr }

/-- Molecule `j` of group `i` in the joint numbering of `execute`:
`QMGroups[i][j]` for `j < QMSize`, `MMGroups[i][j - QMSize]` after. -/
def groupMolecule (K : KernelData α) (i j : Nat) : InternalInfo α :=
  if j < (K.qm i).length then (K.qm i).getD j ⟨[], []⟩
  else (K.mm i).getD (j - (K.qm i).length) ⟨[], []⟩

/-- The `Apply force` loop of `execute`: the direct per-molecule forces. -/
def applyDirect (K : KernelData α) (i : Nat) (AtomDragged : Int) (ForceList : List (Vec3 α))
    (Force : List (Vec3 α)) : List (Vec3 α) :=
  let c := Coe K.T
  let NAtoms := ((K.qm i).getD 0 ⟨[], []⟩).Indices.length
  (List.range ((K.qm i).length + (K.mm i).length)).foldl (fun Force j =>
    let mol := groupMolecule K i j
    if 0 ≤ AtomDragged then
      let f := ForceList.getD j (0, 0, 0)
      addAt Force (mol.Indices.getD AtomDragged.toNat 0) (c * f.1, c * f.2.1, c * f.2.2)
    else if AtomDragged = -1 then
      (List.range mol.Indices.length).foldl (fun Force a =>
        let f := ForceList.getD (j * NAtoms + a) (0, 0, 0)
        addAt Force (mol.Indices.getD a 0) (c * f.1, c * f.2.1, c * f.2.2)) Force
    else Force) Force

/-- The vector `fCOM` of `execute`: minus the sum of `Coe * ForceList[j]`. -/
def fCOM (K : KernelData α) (ForceList : List (Vec3 α)) : Vec3 α :=
  let c := Coe K.T
  let acc : Vec3 α := ForceList.foldl (fun (acc : Vec3 α) f =>
    (acc.1 + c * f.1, acc.2.1 + c * f.2.1, acc.2.2 + c * f.2.2)) (0, 0, 0)
  (acc.1 * -1, acc.2.1 * -1, acc.2.2 * -1)

/-- The recoil loops of `execute`: `fCOM * atomMass / SystemTotalMass` on
every atom of every molecule of every QM group, then of every MM group. -/
def applyRecoil (K : KernelData α) (fC : Vec3 α) (SystemTotalMass : α)
    (Force : List (Vec3 α)) : List (Vec3 α) :=
  let step := fun (Force : List (Vec3 α)) (mol : InternalInfo α) =>
    (List.range mol.Indices.length).foldl (fun Force a =>
      let atomMass := mol.AtomMasses.getD a 0
      addAt Force (mol.Indices.getD a 0)
        (fC.1 * atomMass / SystemTotalMass, fC.2.1 * atomMass / SystemTotalMass,
          fC.2.2 * atomMass / SystemTotalMass)) Force
  let ForceQM := K.QMGroups.foldl (fun Force grp => grp.foldl step Force) Force
  K.MMGroups.foldl (fun Force grp => grp.foldl step Force) ForceQM

/-- Everything `execute` adds to the force buffer for group `i`. -/
def applyGroupForces (K : KernelData α) (i : Nat) (r : GroupEval α) (Force : List (Vec3 α)) :
    List (Vec3 α) :=
  let Force1 := applyDirect K i r.AtomDragged r.ForceList Force
  if K.BoundaryShape = 0 ∨ K.BoundaryShape = 2 then
    applyRecoil K (fCOM K r.ForceList) r.SystemTotalMass Force1
  else Force1

/-- The energy `execute` adds for one group. -/
def groupEnergy (K : KernelData α) (logF : α → α) (r : GroupEval α) : α :=
  -Coe K.T * logF (r.NumeVal / r.DenVal)

/-- The group loop of `execute` over the remaining group indices, with the
current `Energy`, force buffer and members `COM`, `SystemTotalMass`. -/
def executeLoop (K : KernelData α) (expF sqrtF logF : α → α) (Positions : List (Vec3 α)) :
    List Nat → α → List (Vec3 α) → Vec3 α → α → ExecOut α
  | [], Energy, Force, _, _ => ⟨.ok Energy, Force⟩
  | i :: rest, Energy, Force, COM, STM =>
    if (K.qm i).length ≠ 0 ∧ (K.mm i).length ≠ 0 then
      match evalGroup K expF sqrtF COM STM Positions i with
      | .error e => ⟨.error e, Force⟩
      | .ok r =>
        executeLoop K expF sqrtF logF Positions rest (Energy + groupEnergy K logF r)
          (applyGroupForces K i r Force) r.COM r.SystemTotalMass
    else executeLoop K expF sqrtF logF Positions rest Energy Force COM STM

/-- `execute(context, includeForces, includeEnergy)`: `Positions` and
`Force` are the position and force vectors of the context. -/
def execute (K : KernelData α) (expF sqrtF logF : α → α) (Positions Force : List (Vec3 α))
    (includeForces includeEnergy : Bool) : ExecOut α :=
  let _ := includeForces
  let _ := includeEnergy
  executeLoop K expF sqrtF logF Positions (List.range K.QMGroups.length) 0 Force (0, 0, 0) 0

end Assembly

/-- The original-order records of `n` molecules whose distances are given
by `d`: record `k` is `(k, d k)`, the layout `Calc_r` produces. -/
def distRecords {α : Type} (n : Nat) (d : Nat → α) : List (Nat × α) :=
  (List.range n).map fun k => (k, d k)

section SpecSide
variable {α : Type} [LinearOrderedField α]

/-- The boundary groups `execute` evaluates: those with at least one QM and
at least one MM molecule, in increasing index. -/
def qualifyingGroups (K : KernelData α) : List Nat :=
  (List.range K.QMGroups.length).filter fun i =>
    decide ((K.qm i).length ≠ 0 ∧ (K.mm i).length ≠ 0)

/-- The numerator weight and the accepted denominator of group `i`, `(0, 0)`
when the evaluation of the group throws. -/
def groupNumeDen (K : KernelData α) (expF sqrtF : α → α) (Positions : List (Vec3 α))
    (i : Nat) : α × α :=
  match evalGroup K expF sqrtF (0, 0, 0) 0 Positions i with
  | .ok r => (r.NumeVal, r.DenVal)
  | .error _ => (0, 0)

end SpecSide

section SpecSideForces
variable {α : Type} [LinearOrderedField α]

/-- The total mass of the system: the sum of the atom masses over every
atom of every molecule of every QM group and every MM group. -/
def systemMass (K : KernelData α) : α :=
  ((K.QMGroups ++ K.MMGroups).map fun grp =>
    (grp.map fun mol =>
      ((List.range mol.Indices.length).map fun k => mol.AtomMasses.getD k 0).sum).sum).sum

end SpecSideForces

section Example
variable {α : Type} [LinearOrderedField α]

/-- A two-atom system in the style of the repository's tests: one boundary
group with one QM molecule (atom 0, mass 2) and one MM molecule (atom 1,
mass 1), dragged atom 0, `alpha = 1`, threshold `1e-5`, scale `0.5`,
`maxIt = 10`, `T = 300`, and the point `(2, 0, 0)` as boundary parameter.
The boundary shape is left open. -/
def exampleKernel (shape : Int) : KernelData α where
  QMGroups := [[⟨[0], [2]⟩]]
  MMGroups := [[⟨[1], [1]⟩]]
  AssignedAtomIndex := [0]
  Coefficients := [1]
  BoundaryShape := shape
  BoundaryParameters := [[2, 0, 0]]
  EnableTestOutput := 0
  EnableValOutput := 0
  hThre := [1.0e-5]
  FlexiBLEMaxIt := [10]
  IterScales := [0.5]
  CutoffMethod := 0
  T := 300

/-- Positions for `exampleKernel`: the QM atom at `(1, 0, 0)`, the MM atom
at `(4, 0, 0)`; the centre of mass is `(2, 0, 0)`. -/
def examplePositions : List (Vec3 α) := [(1, 0, 0), (4, 0, 0)]

/-- The example system with the fixed-point sphere and an iteration budget
of zero. -/
def exampleKernelNoIter : KernelData α :=
  { (exampleKernel 1 : KernelData α) with FlexiBLEMaxIt := [0] }

/-- The example system with the fixed-point sphere and an iteration budget
of `-1`. -/
def exampleKernelNoLoop : KernelData α :=
  { (exampleKernel 1 : KernelData α) with FlexiBLEMaxIt := [-1] }

end Example

section SpecSideDistances
variable {α : Type} [LinearOrderedField α]

/-- The record and the displacement of molecule `k` of group `i` in the
joint numbering (QM molecules `0 .. QMSize - 1`, then MM molecule `j` at
`j + QMSize`), as one pass of the loop of `Calc_r` for the boundary shape
computes them from the representative point of that molecule; `COM` is
the centre of mass of the system. -/
def moleculeRecord (K : KernelData α) (sqrtF : α → α) (COM : Vec3 α)
    (Coordinates : List (Vec3 α)) (iGroup : Nat) (TargetAtom : Int) (k : Nat) :
    Option ((Nat × α) × Vec3 α) :=
  let nQM := (K.qm iGroup).length
  let pVec : Vec3 α :=
    if k < nQM then moleculePoint K Coordinates 1 iGroup k TargetAtom
    else moleculePoint K Coordinates 0 iGroup (k - nQM) TargetAtom
  if K.BoundaryShape = 0 then some (sphereRecordCOM sqrtF COM pVec k)
  else if K.BoundaryShape = 1 then
    some (sphereRecord sqrtF (K.param iGroup 0, K.param iGroup 1, K.param iGroup 2) pVec k)
  else if K.BoundaryShape = 2 then
    let LVec : Vec3 α := (K.param iGroup 0, K.param iGroup 1, K.param iGroup 2)
    let halfLVec : Vec3 α := (LVec.1 / 2, LVec.2.1 / 2, LVec.2.2 / 2)
    capsuleRecord sqrtF (decide (k < nQM)) (Calc_VecMinus halfLVec COM)
      (Calc_VecSum COM halfLVec) LVec (Calc_VecMod sqrtF LVec) pVec k
  else if K.BoundaryShape = 3 then
    let L1 : Vec3 α := (K.param iGroup 0, K.param iGroup 1, K.param iGroup 2)
    let L2 : Vec3 α := (K.param iGroup 3, K.param iGroup 4, K.param iGroup 5)
    capsuleRecord sqrtF (decide (k < nQM)) L1 L2 (Calc_VecMinus L1 L2)
      (Calc_VecMod sqrtF (Calc_VecMinus L1 L2)) pVec k
  else none

/-- The mass-weighted sum of the positions of every atom of every molecule
of every QM group and every MM group. -/
def systemMoment (K : KernelData α) (Coordinates : List (Vec3 α)) : Vec3 α :=
  ((K.QMGroups ++ K.MMGroups).map fun grp =>
    (grp.map fun mol =>
      ((List.range mol.Indices.length).map fun k =>
        ((mol.AtomMasses.getD k 0 * (coordAt Coordinates (mol.Indices.getD k 0)).1,
          mol.AtomMasses.getD k 0 * (coordAt Coordinates (mol.Indices.getD k 0)).2.1,
          mol.AtomMasses.getD k 0 * (coordAt Coordinates (mol.Indices.getD k 0)).2.2)
          : Vec3 α)).sum).sum).sum

end SpecSideDistances

section SpecSideSearch

/-- The number of inversions of a partition string: the pairs of a `'1'`
and a later `'0'`. -/
def inversions : List Char → Nat
  | [] => 0
  | c :: t => (if c = '1' then t.count '0' else 0) + inversions t

/-- The relation "is a child of" of the partition search: `y` is made from
`x` by one swap of an adjacent `'1'`, `'0'` pair into `'0'`, `'1'`. -/
def IsChild (y x : List Char) : Prop :=
  ∃ i, x.getD i ' ' = '1' ∧ x.getD (i + 1) ' ' = '0' ∧ y = swapChild x i

end SpecSideSearch

section SpecSideConvergence
variable {α : Type} [LinearOrderedField α]

/-- The sorted and the original-order records of group `i` after the
zero-distance loop, as `execute` holds them when the tables are built. -/
def groupRecords (K : KernelData α) (sqrtF : α → α) (COM0 : Vec3 α) (STM0 : α)
    (Positions : List (Vec3 α)) (i : Nat) : List (Nat × α) × List (Nat × α) :=
  floorZero
    (sortByDistance (Calc_r K sqrtF COM0 STM0 Positions i
      (chooseAtomDragged K sqrtF Positions i)).rCA)
    (Calc_r K sqrtF COM0 STM0 Positions i (chooseAtomDragged K sqrtF Positions i)).rCA

/-- The kernel table of group `i`. -/
def groupTable (K : KernelData α) (sqrtF : α → α) (COM0 : Vec3 α) (STM0 : α)
    (Positions : List (Vec3 α)) (i : Nat) : List (List (gInfo α)) :=
  gExpPartTable (K.Coefficients.getD i 0) ((K.qm i).length + (K.mm i).length)
    (groupRecords K sqrtF COM0 STM0 Positions i).2

/-- The numerator weight of group `i` and its gradient, as `execute`
computes them before the underflow check. -/
def groupNumerator (K : KernelData α) (expF sqrtF : α → α) (COM0 : Vec3 α) (STM0 : α)
    (Positions : List (Vec3 α)) (i : Nat) : α × List α :=
  CalcPenalFunc expF K.CutoffMethod (List.range ((K.qm i).length + (K.mm i).length))
    (K.qm i).length (groupTable K sqrtF COM0 STM0 Positions i)
    (List.replicate ((K.qm i).length + (K.mm i).length) 0)
    (groupRecords K sqrtF COM0 STM0 Positions i).2 (K.hThre.getD i 0) 0

/-- The denominator and its gradient that one pass of the convergence loop
of group `i` computes at the threshold `h`. -/
def groupDenominator (K : KernelData α) (expF sqrtF : α → α) (COM0 : Vec3 α) (STM0 : α)
    (Positions : List (Vec3 α)) (i : Nat) (h : α) : α × List α :=
  denominatorAt expF K.CutoffMethod (K.qm i).length (K.mm i).length
    (groupTable K sqrtF COM0 STM0 Positions i) (groupRecords K sqrtF COM0 STM0 Positions i).1
    (hList expF (K.qm i).length (K.mm i).length (groupTable K sqrtF COM0 STM0 Positions i)
      (groupRecords K sqrtF COM0 STM0 Positions i).1) h

/-- The denominator `D_j` of iteration `j ≥ 1` of the convergence loop of
group `i`: the one computed at the threshold `hThre[i] * scale^(j-1)`. -/
def iterDenominator (K : KernelData α) (expF sqrtF : α → α) (COM0 : Vec3 α) (STM0 : α)
    (Positions : List (Vec3 α)) (i j : Nat) : α :=
  (groupDenominator K expF sqrtF COM0 STM0 Positions i
    (K.hThre.getD i 0 * K.IterScales.getD i 0 ^ (j - 1))).1

/-- Iteration `j` of the convergence loop of group `i` is accepted:
iteration 1 when its denominator equals 1, iteration `j ≥ 2` when
`D_j - D_(j-1) ≤ gamma * D_(j-1)`, with `gamma = hThre[i]`. -/
def iterAccepted (K : KernelData α) (expF sqrtF : α → α) (COM0 : Vec3 α) (STM0 : α)
    (Positions : List (Vec3 α)) (i j : Nat) : Prop :=
  if j = 1 then iterDenominator K expF sqrtF COM0 STM0 Positions i 1 = 1
  else iterDenominator K expF sqrtF COM0 STM0 Positions i j
      - iterDenominator K expF sqrtF COM0 STM0 Positions i (j - 1)
    ≤ K.hThre.getD i 0 * iterDenominator K expF sqrtF COM0 STM0 Positions i (j - 1)

end SpecSideConvergence

section SpecSideCapsule
variable {α : Type} [LinearOrderedField α]

/-- The Euclidean distance between two points, with `sqrtF` as square
root. -/
def euclidDist (sqrtF : α → α) (p q : Vec3 α) : α :=
  sqrtF ((p.1 - q.1) ^ 2 + (p.2.1 - q.2.1) ^ 2 + (p.2.2 - q.2.2) ^ 2)

/-- The point `L1 + t * (L2 - L1)` of the line through `L1` and `L2`. -/
def segmentPoint (L1 L2 : Vec3 α) (t : α) : Vec3 α :=
  (L1.1 + t * (L2.1 - L1.1), L1.2.1 + t * (L2.2.1 - L1.2.1), L1.2.2 + t * (L2.2.2 - L1.2.2))

/-- The representative point of molecule `k` of group `iGroup` in the joint
numbering: QM molecule `k` for `k < QMSize`, MM molecule `k - QMSize`
otherwise. -/
def jointPoint (K : KernelData α) (Coordinates : List (Vec3 α)) (iGroup : Nat)
    (TargetAtom : Int) (k : Nat) : Vec3 α :=
  if k < (K.qm iGroup).length then moleculePoint K Coordinates 1 iGroup k TargetAtom
  else moleculePoint K Coordinates 0 iGroup (k - (K.qm iGroup).length) TargetAtom

/-- The first endpoint of the fixed capsule (shape 3) of group `iGroup`. -/
def capsuleL1 (K : KernelData α) (iGroup : Nat) : Vec3 α :=
  (K.param iGroup 0, K.param iGroup 1, K.param iGroup 2)

/-- The second endpoint of the fixed capsule (shape 3) of group `iGroup`. -/
def capsuleL2 (K : KernelData α) (iGroup : Nat) : Vec3 α :=
  (K.param iGroup 3, K.param iGroup 4, K.param iGroup 5)

/-- The example system with the fixed capsule from `(0, 0, 0)` to
`(2, 0, 0)`: the QM atom lies on the segment, the MM atom beyond its second
endpoint. -/
def exampleKernelCapsule : KernelData α :=
  { (exampleKernel 3 : KernelData α) with BoundaryParameters := [[0, 0, 0, 2, 0, 0]] }

/-- A square root on the rationals that is not exact: rounded down to one
decimal place, `⌊10 * sqrt x⌋ / 10`. -/
def sqrtTenth (x : ℚ) : ℚ := (Nat.sqrt ⌊100 * x⌋.toNat : ℚ) / 10

/-- The example system with the fixed capsule from `(0, 0, 0)` to
`(1, 1, 1)`. -/
def exampleKernelDiagonal : KernelData α :=
  { (exampleKernel 3 : KernelData α) with BoundaryParameters := [[0, 0, 0, 1, 1, 1]] }

/-- Positions with the QM atom and the MM atom both at the midpoint
`(1/2, 1/2, 1/2)` of the segment from `(0, 0, 0)` to `(1, 1, 1)`. -/
def exampleOnAxis : List (Vec3 α) :=
  [(1 / 2, 1 / 2, 1 / 2), (1 / 2, 1 / 2, 1 / 2)]

end SpecSideCapsule

section SpecSideRelabel
variable {α : Type} [LinearOrderedField α]

/-- The kernel data after the molecules of boundary group `i` have been
listed in another order: `qm` for its QM molecules, `mm` for its MM
molecules.  Nothing else changes. -/
def relabel (K : KernelData α) (i : Nat) (qm mm : List (InternalInfo α)) : KernelData α :=
  { K with QMGroups := K.QMGroups.set i qm, MMGroups := K.MMGroups.set i mm }

/-- Two kernel data that differ at most in the order of the molecules
inside their QM groups and inside their MM groups. -/
structure Relabelled (K' K : KernelData α) : Prop where
  qmPerm : List.Forall₂ List.Perm K'.QMGroups K.QMGroups
  mmPerm : List.Forall₂ List.Perm K'.MMGroups K.MMGroups
  sameAssigned : K'.AssignedAtomIndex = K.AssignedAtomIndex
  sameCoefficients : K'.Coefficients = K.Coefficients
  sameShape : K'.BoundaryShape = K.BoundaryShape
  sameParameters : K'.BoundaryParameters = K.BoundaryParameters
  sameTestOutput : K'.EnableTestOutput = K.EnableTestOutput
  sameThre : K'.hThre = K.hThre
  sameMaxIt : K'.FlexiBLEMaxIt = K.FlexiBLEMaxIt
  sameScales : K'.IterScales = K.IterScales
  sameCutoff : K'.CutoffMethod = K.CutoffMethod
  sameT : K'.T = K.T

/-- The distance the zero-distance loop of `execute` leaves for a molecule
whose distance was `d`. -/
def floorValue (d : α) : α := if d = 0 then 1.0e-8 else d

/-- The sum of the kernel values over the pairs of a QM distance and an MM
distance, after the zero-distance loop. -/
def pairSum (AlphaNow : α) (dQ dM : List α) : α :=
  (dQ.map fun x =>
    (dM.map fun y => (CalcPairExpPart AlphaNow (floorValue x - floorValue y)).1).sum).sum

/-- The representative point of a molecule for the selector `TargetAtom`,
as a function of the molecule. -/
def pointOfMolecule (Coordinates : List (Vec3 α)) (TargetAtom : Int) (mol : InternalInfo α) :
    Vec3 α :=
  if TargetAtom = -1 then Calc_COM_of Coordinates mol
  else if 0 ≤ TargetAtom then coordAt Coordinates (mol.Indices.getD TargetAtom.toNat 0)
  else (0, 0, 0)

/-- The distance `Calc_r` stores for a molecule of group `iGroup`, as a
function of the molecule; `clamp` tells the QM loop from the MM loop. -/
def molDistance (K : KernelData α) (sqrtF : α → α) (COM : Vec3 α)
    (Coordinates : List (Vec3 α)) (iGroup : Nat) (TargetAtom : Int) (clamp : Bool)
    (mol : InternalInfo α) : α :=
  let pVec := pointOfMolecule Coordinates TargetAtom mol
  if K.BoundaryShape = 0 then (sphereRecordCOM sqrtF COM pVec 0).1.2
  else if K.BoundaryShape = 1 then
    (sphereRecord sqrtF (K.param iGroup 0, K.param iGroup 1, K.param iGroup 2) pVec 0).1.2
  else if K.BoundaryShape = 2 then
    let LVec : Vec3 α := (K.param iGroup 0, K.param iGroup 1, K.param iGroup 2)
    let halfLVec : Vec3 α := (LVec.1 / 2, LVec.2.1 / 2, LVec.2.2 / 2)
    ((capsuleRecord sqrtF clamp (Calc_VecMinus halfLVec COM) (Calc_VecSum COM halfLVec) LVec
      (Calc_VecMod sqrtF LVec) pVec 0).map fun x => x.1.2).getD 0
  else if K.BoundaryShape = 3 then
    let L1 : Vec3 α := (K.param iGroup 0, K.param iGroup 1, K.param iGroup 2)
    let L2 : Vec3 α := (K.param iGroup 3, K.param iGroup 4, K.param iGroup 5)
    ((capsuleRecord sqrtF clamp L1 L2 (Calc_VecMinus L1 L2)
      (Calc_VecMod sqrtF (Calc_VecMinus L1 L2)) pVec 0).map fun x => x.1.2).getD 0
  else 0

/-- The example system with a second QM molecule (atom 1) and the MM
molecule on atom 2. -/
def exampleKernelPair : KernelData α :=
  { (exampleKernel 1 : KernelData α) with
    QMGroups := [[⟨[0], [2]⟩, ⟨[1], [2]⟩]], MMGroups := [[⟨[2], [1]⟩]] }

end SpecSideRelabel

section SpecSideSeed
variable {α : Type} [LinearOrderedField α]

/-- The seed string `perfect` that one pass of the convergence loop hands
to `ProdChild`, for the weights `hList_re` and the threshold `h`. -/
def seedOf (hList_re : List α) (QMSize MMSize : Nat) (h : α) : List Char :=
  perfect ((QMSize : Int) - ImpQMlb hList_re QMSize h)
    (ImpMMub hList_re QMSize MMSize h - ((QMSize : Int) - 1))

/-- The sorted positions the seed covers: the vector `Node` that
`ProdChild` fills from the seed, with `nImpQM` as `QMSize` and `ImpQMlb` as
`LB`. -/
def seedPositions (hList_re : List α) (QMSize MMSize : Nat) (h : α) : List Nat :=
  nodeSeq (seedOf hList_re QMSize MMSize h)
    ((QMSize : Int) - ImpQMlb hList_re QMSize h).toNat (ImpQMlb hList_re QMSize h)

end SpecSideSeed

section SpecSideBuffer

/-- Two runs that started on the force buffers `F` and `F'` and now hold
`G` and `G'` have added the same contribution to every atom. -/
def SameAdded {β : Type} [AddCommGroup β] (F F' G G' : List β) : Prop :=
  G.length = G'.length ∧ ∀ a, G.getD a 0 - F.getD a 0 = G'.getD a 0 - F'.getD a 0

end SpecSideBuffer

section ExampleVariants
variable {α : Type} [LinearOrderedField α]

/-- The example system with the fixed-point sphere and `alpha = 50`. -/
def exampleKernelSteep : KernelData α :=
  { (exampleKernel 1 : KernelData α) with Coefficients := [50] }

/-- The example system with the fixed-point sphere, `alpha = 50` and test
output enabled. -/
def exampleKernelTestOutput : KernelData α :=
  { (exampleKernel 1 : KernelData α) with Coefficients := [50], EnableTestOutput := 1 }

/-- Positions with the QM atom at distance 2 and the MM atom at distance 1
from the point `(2, 0, 0)`. -/
def exampleSwapped : List (Vec3 α) := [(4, 0, 0), (1, 0, 0)]

end ExampleVariants

section ExampleNegative
variable {α : Type} [LinearOrderedField α]

/-- The example system with the fixed-point sphere and the negative
coefficient `alpha = -1/2`. -/
def exampleKernelNegative : KernelData α :=
  { (exampleKernel 1 : KernelData α) with Coefficients := [-1 / 2] }

end ExampleNegative

section SpecSideDrag
variable {α : Type} [LinearOrderedField α]

/-- The search for the dragged atom as the specification words it: the
loop of `execute` over the atoms `js` of the first molecule, with the
distance `dr` of atom `j` taken at that atom's own position
`Positions[Points[j]]`. -/
def ownDistanceDragLoop (sqrtF : α → α) (Positions : List (Vec3 α)) (Points : List Nat)
    (Masses : List α) (Centroid : Vec3 α) : List Nat → Int → α → Int
  | [], AtomDragged, _ => AtomDragged
  | j :: js, AtomDragged, RatioNow =>
    let p := coordAt Positions (Points.getD j 0)
    let dr := sqrtF (0 + (Centroid.1 - p.1) ^ 2 + (Centroid.2.1 - p.2.1) ^ 2
      + (Centroid.2.2 - p.2.2) ^ 2)
    if dr < 10e-5 ∧ 2.1 < Masses.getD j 0 then (j : Int)
    else if 10e-5 < dr then
      if RatioNow < Masses.getD j 0 / dr then
        ownDistanceDragLoop sqrtF Positions Points Masses Centroid js j (Masses.getD j 0 / dr)
      else ownDistanceDragLoop sqrtF Positions Points Masses Centroid js AtomDragged RatioNow
    else ownDistanceDragLoop sqrtF Positions Points Masses Centroid js AtomDragged RatioNow

end SpecSideDrag

section ExampleDrag
variable {α : Type} [LinearOrderedField α]

/-- The example system with the fixed-point sphere and no configured
dragged atom (`AssignedAtomIndex` empty): the first QM molecule is the
single atom 0 of mass 2. -/
def exampleKernelAuto : KernelData α :=
  { (exampleKernel 1 : KernelData α) with AssignedAtomIndex := [] }

/-- A system of two three-atom molecules with no configured dragged atom:
the QM molecule has the atoms 0, 1, 2 with masses 2, 1, 1, the MM molecule
the atoms 3, 4, 5 with masses 1, 1, 1. -/
def exampleKernelDrag : KernelData α :=
  { (exampleKernel 1 : KernelData α) with
    AssignedAtomIndex := [],
    QMGroups := [[⟨[0, 1, 2], [2, 1, 1]⟩]],
    MMGroups := [[⟨[3, 4, 5], [1, 1, 1]⟩]] }

/-- Positions for `exampleKernelDrag`: the QM atoms at `x = 0, 5, 7` (their
centroid is `(4, 0, 0)`, at the distances 4, 1, 3), the MM atoms at
`x = 10, 11, 12`. -/
def exampleDragPositions : List (Vec3 α) :=
  [(0, 0, 0), (5, 0, 0), (7, 0, 0), (10, 0, 0), (11, 0, 0), (12, 0, 0)]

/-- A system of two boundary groups, each of one QM atom (mass 2) and one MM
atom (mass 1), with the fixed-point sphere around `(2, 0, 0)`, dragged atom
0, `alpha = 1`, threshold `1e-5`, scale `0.5`; the first group has
`maxIt = 10`, the second `maxIt = 0`. -/
def exampleKernelTwoGroups : KernelData α where
  QMGroups := [[⟨[0], [2]⟩], [⟨[2], [2]⟩]]
  MMGroups := [[⟨[1], [1]⟩], [⟨[3], [1]⟩]]
  AssignedAtomIndex := [0, 0]
  Coefficients := [1, 1]
  BoundaryShape := 1
  BoundaryParameters := [[2, 0, 0], [2, 0, 0]]
  EnableTestOutput := 0
  EnableValOutput := 0
  hThre := [1.0e-5, 1.0e-5]
  FlexiBLEMaxIt := [10, 0]
  IterScales := [0.5, 0.5]
  CutoffMethod := 0
  T := 300

/-- Positions for `exampleKernelTwoGroups`: in the first group the QM atom
is at distance 2 and the MM atom at distance 1 from `(2, 0, 0)`, in the
second group the QM atom at distance 1 and the MM atom at distance 2. -/
def exampleTwoGroupPositions : List (Vec3 α) := [(4, 0, 0), (1, 0, 0), (1, 0, 0), (4, 0, 0)]

end ExampleDrag

/-! # Theorems -/

section ListLemmas
variable {α : Type} [AddCommMonoid α]

theorem foldl_add_eq_sum {ι : Type} (f : ι → α) (l : List ι) (a : α) :
    l.foldl (fun acc x => acc + f x) a = a + (l.map f).sum := by
  induction l generalizing a with
  | nil => simp
  | cons x xs ih => simp [ih, add_assoc]

theorem foldl_if_add_eq_sum {ι : Type} (p : ι → Prop) [DecidablePred p] (f : ι → α)
    (l : List ι) (a : α) :
    l.foldl (fun acc x => if p x then acc + f x else acc) a
      = a + (l.map fun x => if p x then f x else 0).sum := by
  induction l generalizing a with
  | nil => simp
  | cons x xs ih =>
    by_cases hp : p x <;> simp [ih, hp, add_assoc]

theorem sum_map_range (f : Nat → α) (n : Nat) :
    ((List.range n).map f).sum = ∑ i in Finset.range n, f i := by
  induction n with
  | zero => simp
  | succ n ih => simp [List.range_succ, Finset.sum_range_succ, ih]

theorem sum_map_range' (f : Nat → α) (s n : Nat) :
    ((List.range' s n).map f).sum = ∑ i in Finset.Ico s (s + n), f i := by
  induction n with
  | zero => simp
  | succ n ih =>
    rw [List.range'_concat, List.map_append, List.sum_append, ih, ← add_assoc,
      Finset.sum_Ico_succ_top (Nat.le_add_right s n)]
    simp

theorem addAt_length (l : List α) (i : Nat) (v : α) : (addAt l i v).length = l.length := by
  simp [addAt]

theorem addAt_getD (l : List α) (i m : Nat) (v : α) (hm : m < l.length) :
    (addAt l i v).getD m 0 = l.getD m 0 + (if i = m then v else 0) := by
  unfold addAt
  by_cases h : i = m
  · subst h
    simp [List.getD_eq_getElem?_getD, List.getElem?_set, hm]
  · simp [List.getD_eq_getElem?_getD, List.getElem?_set, h]

theorem foldl_addAt_length {ι : Type} (idx : ι → Nat) (v : ι → α) (xs : List ι) (DL : List α) :
    (xs.foldl (fun DL i => addAt DL (idx i) (v i)) DL).length = DL.length := by
  induction xs generalizing DL with
  | nil => rfl
  | cons x xs ih => simp [List.foldl_cons, ih, addAt_length]

theorem foldl_addAt_getD {ι : Type} (idx : ι → Nat) (v : ι → α) (xs : List ι) (DL : List α)
    (m : Nat) (hm : m < DL.length) :
    (xs.foldl (fun DL i => addAt DL (idx i) (v i)) DL).getD m 0
      = DL.getD m 0 + (xs.map fun i => if idx i = m then v i else 0).sum := by
  induction xs generalizing DL with
  | nil => simp
  | cons x xs ih =>
    rw [List.foldl_cons, ih _ (by rw [addAt_length]; exact hm), addAt_getD _ _ _ _ hm]
    simp [add_assoc]

end ListLemmas

section PenalLemmas
variable {α : Type} [LinearOrderedField α]

theorem Ico_add_sub (s l : Nat) : Finset.Ico s (s + (l - s)) = Finset.Ico s l := by
  rcases Nat.le_total s l with h | h
  · rw [Nat.add_sub_cancel' h]
  · rw [Nat.sub_eq_zero_of_le h, Nat.add_zero, Finset.Ico_self, Finset.Ico_eq_empty]
    exact fun hlt => absurd (Nat.lt_of_lt_of_le hlt h) (Nat.lt_irrefl _)

/-- The double loop that accumulates `ExpPart` computes the cross-pair sum. -/
theorem expPart_loop_eq (seq : List Nat) (QMSize : Nat) (g : List (List (gInfo α)))
    (rC : List (Nat × α)) :
    (List.range QMSize).foldl (fun acc i =>
      (List.range' QMSize (seq.length - QMSize)).foldl (fun acc j =>
        acc + (gAt g (recFirst rC (seq.getD i 0)) (recFirst rC (seq.getD j 0))).val) acc) 0
      = crossSum seq QMSize g rC := by
  have hin : ∀ (i : Nat) (acc : α),
      (List.range' QMSize (seq.length - QMSize)).foldl (fun acc j =>
        acc + (gAt g (recFirst rC (seq.getD i 0)) (recFirst rC (seq.getD j 0))).val) acc
      = acc + ∑ j in Finset.Ico QMSize seq.length,
          (gAt g (molOf seq rC i) (molOf seq rC j)).val := by
    intro i acc
    rw [foldl_add_eq_sum, sum_map_range', Ico_add_sub]
    rfl
  simp only [hin]
  rw [foldl_add_eq_sum, sum_map_range, zero_add]
  rfl

theorem CalcPenalFunc_fst (expF : α → α) (cm : Int) (seq : List Nat) (QMSize : Nat)
    (g : List (List (gInfo α))) (DerList : List α) (rC : List (Nat × α)) (h : α) (part : Int) :
    (CalcPenalFunc expF cm seq QMSize g DerList rC h part).1
      = expF (-crossSum seq QMSize g rC) := by
  simp only [CalcPenalFunc, expPart_loop_eq]
  split_ifs <;> rfl

theorem CalcPenalFunc_snd_of_not (expF : α → α) (cm : Int) (seq : List Nat) (QMSize : Nat)
    (g : List (List (gInfo α))) (DerList : List α) (rC : List (Nat × α)) (h : α) (part : Int)
    (hc : ¬ (h ≤ expF (-crossSum seq QMSize g rC) ∨
      (expF (-crossSum seq QMSize g rC) < h ∧ cm = 1) ∨ part = 0)) :
    (CalcPenalFunc expF cm seq QMSize g DerList rC h part).2 = DerList := by
  simp only [CalcPenalFunc, expPart_loop_eq]
  rw [if_neg hc]

theorem CalcPenalFunc_length (expF : α → α) (cm : Int) (seq : List Nat) (QMSize : Nat)
    (g : List (List (gInfo α))) (DerList : List α) (rC : List (Nat × α)) (h : α) (part : Int) :
    (CalcPenalFunc expF cm seq QMSize g DerList rC h part).2.length = DerList.length := by
  simp only [CalcPenalFunc]
  split_ifs
  · simp only [foldl_addAt_length]
  · rfl

/-- The two accumulation loops add `penalGradient` to every entry. -/
theorem CalcPenalFunc_snd_of_acc (expF : α → α) (cm : Int) (seq : List Nat) (QMSize : Nat)
    (g : List (List (gInfo α))) (DerList : List α) (rC : List (Nat × α)) (h : α) (part : Int)
    (hc : h ≤ expF (-crossSum seq QMSize g rC) ∨
      (expF (-crossSum seq QMSize g rC) < h ∧ cm = 1) ∨ part = 0)
    (m : Nat) (hm : m < DerList.length) :
    (CalcPenalFunc expF cm seq QMSize g DerList rC h part).2.getD m 0
      = DerList.getD m 0 + penalGradient expF seq QMSize g rC m := by
  simp only [CalcPenalFunc, expPart_loop_eq]
  rw [if_pos hc]
  simp only
  rw [foldl_addAt_getD _ _ _ _ m (by rw [foldl_addAt_length]; exact hm),
    foldl_addAt_getD _ _ _ _ m hm, add_assoc]
  congr 1
  simp only [foldl_if_add_eq_sum, zero_add, sum_map_range, sum_map_range', Ico_add_sub]
  unfold penalGradient
  simp only [molOf]
  rw [Finset.mul_sum]
  simp only [Finset.sum_sub_distrib, Finset.mul_sum, mul_sub]
  rw [sub_eq_add_neg, add_comm]
  congr 1
  · rw [Finset.sum_comm]
    refine Finset.sum_congr rfl fun j hj => ?_
    split_ifs with h1
    · rw [Finset.sum_mul]
      refine Finset.sum_congr rfl fun i hi => ?_
      have hne : i ≠ j := by
        have := Finset.mem_range.mp hi
        have := (Finset.mem_Ico.mp hj).1
        omega
      rw [if_pos hne, mul_comm]
    · simp
  · rw [← Finset.sum_neg_distrib]
    refine Finset.sum_congr rfl fun i hi => ?_
    split_ifs with h1
    · rw [Finset.sum_mul, ← Finset.sum_neg_distrib]
      refine Finset.sum_congr rfl fun j hj => ?_
      have hne : i ≠ j := by
        have := Finset.mem_range.mp hi
        have := (Finset.mem_Ico.mp hj).1
        omega
      rw [if_pos hne]
      ring
    · simp

end PenalLemmas

section KernelTheorems

theorem CalcPairExpPart_of_pos {α : Type} [LinearOrderedField α] (alpha R : α) (hR : 0 < R) :
    CalcPairExpPart alpha R =
      ((alpha * R) ^ 3 / (1 + alpha * R),
        3 * alpha ^ 3 * R ^ 2 / (1 + alpha * R) - alpha ^ 4 * R ^ 3 / (1 + alpha * R) ^ 2) := by
  unfold CalcPairExpPart
  rw [if_pos hR]
  have h4 : alpha * R * (alpha * R) + 2 * (alpha * R) + 1 = (1 + alpha * R) ^ 2 := by ring
  simp only [h4]
  refine Prod.ext ?_ ?_
  · simp only; ring
  · simp only; ring

theorem CalcPairExpPart_of_nonpos {α : Type} [LinearOrderedField α] (alpha R : α)
    (hR : R ≤ 0) : CalcPairExpPart alpha R = (0, 0) := by
  unfold CalcPairExpPart
  rw [if_neg (not_lt.mpr hR)]

/-- C4: `CalcPairExpPart` is the piecewise reference kernel.  For every
`alpha > 0`: at `R ≤ 0` the value and the derivative are `0`; at `R > 0`
the value is `(alpha R)^3 / (1 + alpha R)` and the derivative is
`3 alpha^3 R^2 / (1 + alpha R) - alpha^4 R^3 / (1 + alpha R)^2`. -/
theorem C4_CalcPairExpPart_piecewise {α : Type} [LinearOrderedField α] (alpha : α)
    (_halpha : 0 < alpha) :
    (∀ R : α, R ≤ 0 → (CalcPairExpPart alpha R).1 = 0 ∧ (CalcPairExpPart alpha R).2 = 0) ∧
    (∀ R : α, 0 < R →
      (CalcPairExpPart alpha R).1 = (alpha * R) ^ 3 / (1 + alpha * R) ∧
      (CalcPairExpPart alpha R).2 =
        3 * alpha ^ 3 * R ^ 2 / (1 + alpha * R) - alpha ^ 4 * R ^ 3 / (1 + alpha * R) ^ 2) := by
  refine ⟨fun R hR => ?_, fun R hR => ?_⟩
  · rw [CalcPairExpPart_of_nonpos alpha R hR]; exact ⟨rfl, rfl⟩
  · rw [CalcPairExpPart_of_pos alpha R hR]; exact ⟨rfl, rfl⟩

/-- Witness of C4 at `alpha = 2`, `R = -1` and `R = 1`. -/
theorem C4_CalcPairExpPart_piecewise_witness :
    ((CalcPairExpPart (2 : ℚ) (-1)).1 = 0 ∧ (CalcPairExpPart (2 : ℚ) (-1)).2 = 0) ∧
    ((CalcPairExpPart (2 : ℚ) 1).1 = (2 * 1) ^ 3 / (1 + 2 * 1) ∧
      (CalcPairExpPart (2 : ℚ) 1).2 =
        3 * 2 ^ 3 * 1 ^ 2 / (1 + 2 * 1) - 2 ^ 4 * 1 ^ 3 / (1 + 2 * 1) ^ 2) :=
  ⟨(C4_CalcPairExpPart_piecewise (2 : ℚ) (by norm_num)).1 (-1) (by norm_num),
    (C4_CalcPairExpPart_piecewise (2 : ℚ) (by norm_num)).2 1 (by norm_num)⟩

/-- The closed form of the kernel value has the closed form of the
derivative as its derivative wherever `1 + alpha * R ≠ 0`. -/
theorem hasDerivAt_closedForm (alpha R : ℝ) (h : 1 + alpha * R ≠ 0) :
    HasDerivAt (fun x : ℝ => (alpha * x) ^ 3 / (1 + alpha * x))
      (3 * alpha ^ 3 * R ^ 2 / (1 + alpha * R) - alpha ^ 4 * R ^ 3 / (1 + alpha * R) ^ 2) R := by
  have hlin : HasDerivAt (fun x : ℝ => alpha * x) alpha R := by
    simpa using (hasDerivAt_id R).const_mul alpha
  have hnum : HasDerivAt (fun x : ℝ => (alpha * x) ^ 3) (3 * (alpha * R) ^ 2 * alpha) R := by
    simpa using hlin.pow 3
  have hden : HasDerivAt (fun x : ℝ => 1 + alpha * x) alpha R := by
    simpa using hlin.const_add 1
  have hq := hnum.div hden h
  convert hq using 1
  field_simp
  ring

theorem kernel_val_eq_closedForm (alpha R : ℝ) (hR : 0 ≤ R) :
    (CalcPairExpPart alpha R).1 = (alpha * R) ^ 3 / (1 + alpha * R) := by
  rcases hR.lt_or_eq with h | h
  · rw [CalcPairExpPart_of_pos alpha R h]
  · subst h
    rw [CalcPairExpPart_of_nonpos alpha 0 le_rfl]; simp

/-- The value returned by `CalcPairExpPart` is differentiable in `R` at
every real `R`, with the returned `der` as derivative. -/
theorem kernel_hasDerivAt (alpha R : ℝ) (halpha : 0 < alpha) :
    HasDerivAt (fun x : ℝ => (CalcPairExpPart alpha x).1) (CalcPairExpPart alpha R).2 R := by
  rcases lt_trichotomy R 0 with hneg | hzero | hpos
  · rw [CalcPairExpPart_of_nonpos alpha R hneg.le]
    have hev : (fun x : ℝ => (CalcPairExpPart alpha x).1) =ᶠ[nhds R] fun _ => (0 : ℝ) := by
      filter_upwards [Iio_mem_nhds hneg] with x hx
      rw [CalcPairExpPart_of_nonpos alpha x (le_of_lt hx)]
    exact (hasDerivAt_const R (0 : ℝ)).congr_of_eventuallyEq hev
  · subst hzero
    rw [CalcPairExpPart_of_nonpos alpha 0 le_rfl]
    have hleft : HasDerivWithinAt (fun x : ℝ => (CalcPairExpPart alpha x).1) 0 (Set.Iic 0) 0 := by
      refine (hasDerivWithinAt_const (0 : ℝ) (Set.Iic 0) (0 : ℝ)).congr ?_ ?_
      · intro x hx
        rw [CalcPairExpPart_of_nonpos alpha x hx]
      · rw [CalcPairExpPart_of_nonpos alpha 0 le_rfl]
    have hright : HasDerivWithinAt (fun x : ℝ => (CalcPairExpPart alpha x).1) 0 (Set.Ici 0) 0 := by
      have h0 := (hasDerivAt_closedForm alpha 0 (by simp)).hasDerivWithinAt (s := Set.Ici 0)
      simp only [ne_eq, OfNat.ofNat_ne_zero, not_false_eq_true, zero_pow, mul_zero, add_zero,
        div_one, sub_self, zero_div] at h0
      refine h0.congr ?_ ?_
      · intro x hx
        exact kernel_val_eq_closedForm alpha x hx
      · exact kernel_val_eq_closedForm alpha 0 le_rfl
    have hu := hleft.union hright
    rw [Set.Iic_union_Ici] at hu
    exact hasDerivWithinAt_univ.mp hu
  · rw [CalcPairExpPart_of_pos alpha R hpos]
    have hne : 1 + alpha * R ≠ 0 := by
      have := mul_pos halpha hpos
      linarith
    have hev : (fun x : ℝ => (CalcPairExpPart alpha x).1) =ᶠ[nhds R]
        fun x => (alpha * x) ^ 3 / (1 + alpha * x) := by
      filter_upwards [Ioi_mem_nhds hpos] with x hx
      rw [CalcPairExpPart_of_pos alpha x hx]
    exact (hasDerivAt_closedForm alpha R hne).congr_of_eventuallyEq hev

theorem kernel_der_eq_max (alpha R : ℝ) :
    (CalcPairExpPart alpha R).2 =
      3 * alpha ^ 3 * (max R 0) ^ 2 / (1 + alpha * max R 0)
        - alpha ^ 4 * (max R 0) ^ 3 / (1 + alpha * max R 0) ^ 2 := by
  rcases le_or_lt R 0 with h | h
  · rw [CalcPairExpPart_of_nonpos alpha R h, max_eq_right h]; simp
  · rw [CalcPairExpPart_of_pos alpha R h, max_eq_left h.le]

theorem kernel_der_continuous (alpha : ℝ) (halpha : 0 < alpha) :
    Continuous (fun x : ℝ => (CalcPairExpPart alpha x).2) := by
  have hfun : (fun x : ℝ => (CalcPairExpPart alpha x).2) = fun x =>
      3 * alpha ^ 3 * (max x 0) ^ 2 / (1 + alpha * max x 0)
        - alpha ^ 4 * (max x 0) ^ 3 / (1 + alpha * max x 0) ^ 2 :=
    funext fun x => kernel_der_eq_max alpha x
  rw [hfun]
  have hpos : ∀ x : ℝ, 1 + alpha * max x 0 ≠ 0 := by
    intro x
    have := mul_nonneg halpha.le (le_max_right x 0)
    linarith
  refine Continuous.sub (Continuous.div (by fun_prop) (by fun_prop) hpos)
    (Continuous.div (by fun_prop) (by fun_prop) fun x => pow_ne_zero 2 (hpos x))

/-- C5: for every `alpha > 0` and every real `R` the `der` returned by
`CalcPairExpPart` is the derivative in `R` of the value it returns; at
`R = 0` the value is differentiable with derivative `0`, and `der` is a
continuous function of `R`, so the kernel is continuously differentiable
across the switch at `R = 0`. -/
theorem C5_CalcPairExpPart_der_is_derivative (alpha : ℝ) (halpha : 0 < alpha) :
    (∀ R : ℝ,
      HasDerivAt (fun x : ℝ => (CalcPairExpPart alpha x).1) (CalcPairExpPart alpha R).2 R) ∧
    HasDerivAt (fun x : ℝ => (CalcPairExpPart alpha x).1) 0 0 ∧
    Continuous (fun x : ℝ => (CalcPairExpPart alpha x).2) := by
  refine ⟨fun R => kernel_hasDerivAt alpha R halpha, ?_, kernel_der_continuous alpha halpha⟩
  have h := kernel_hasDerivAt alpha 0 halpha
  rwa [CalcPairExpPart_of_nonpos alpha 0 le_rfl] at h

/-- Witness of C5 at `alpha = 50`. -/
theorem C5_CalcPairExpPart_der_is_derivative_witness :
    (∀ R : ℝ,
      HasDerivAt (fun x : ℝ => (CalcPairExpPart 50 x).1) (CalcPairExpPart 50 R).2 R) ∧
    HasDerivAt (fun x : ℝ => (CalcPairExpPart 50 x).1) 0 0 ∧
    Continuous (fun x : ℝ => (CalcPairExpPart (50 : ℝ) x).2) :=
  C5_CalcPairExpPart_der_is_derivative 50 (by norm_num)

/-- C6: for every `alpha > 0` the kernel value is strictly increasing in
`R` on `R > 0`. -/
theorem C6_CalcPairExpPart_strictMono {α : Type} [LinearOrderedField α] (alpha R1 R2 : α)
    (halpha : 0 < alpha) (h1 : 0 < R1) (h12 : R1 < R2) :
    (CalcPairExpPart alpha R1).1 < (CalcPairExpPart alpha R2).1 := by
  have h2 : 0 < R2 := lt_trans h1 h12
  rw [CalcPairExpPart_of_pos alpha R1 h1, CalcPairExpPart_of_pos alpha R2 h2]
  simp only
  have hx : 0 < alpha * R1 := mul_pos halpha h1
  have hy : 0 < alpha * R2 := mul_pos halpha h2
  have hxy : alpha * R1 < alpha * R2 := mul_lt_mul_of_pos_left h12 halpha
  rw [div_lt_div_iff₀ (by linarith) (by linarith)]
  have h3 : (alpha * R1) ^ 2 < (alpha * R2) ^ 2 := by nlinarith
  have h4 : (alpha * R1) ^ 3 < (alpha * R2) ^ 3 := by nlinarith
  nlinarith [mul_pos hx hy, mul_pos (mul_pos hx hy) (sub_pos.mpr hxy),
    sq_nonneg (alpha * R1), sq_nonneg (alpha * R2)]

/-- Witness of C6 at `alpha = 10`, `R1 = 1/10`, `R2 = 1/5`. -/
theorem C6_CalcPairExpPart_strictMono_witness :
    (CalcPairExpPart (10 : ℚ) (1 / 10)).1 < (CalcPairExpPart (10 : ℚ) (1 / 5)).1 :=
  C6_CalcPairExpPart_strictMono (10 : ℚ) (1 / 10) (1 / 5) (by norm_num) (by norm_num)
    (by norm_num)

end KernelTheorems

section TableTheorems
variable {α : Type} [LinearOrderedField α]

theorem getD_map_range {β : Type} (f : Nat → β) (n j : Nat) (dflt : β) (hj : j < n) :
    ((List.range n).map f).getD j dflt = f j := by
  simp [List.getD_eq_getElem?_getD, hj]

/-- Every entry of the kernel table inside its bounds. -/
theorem gAt_gExpPartTable (AlphaNow : α) (n : Nat) (rC : List (Nat × α)) (j k : Nat)
    (hj : j < n) (hk : k < n) :
    gAt (gExpPartTable AlphaNow n rC) j k =
      if j = k then ⟨0, 0⟩
      else ⟨(CalcPairExpPart AlphaNow (recSecond rC j - recSecond rC k)).1,
        (CalcPairExpPart AlphaNow (recSecond rC j - recSecond rC k)).2⟩ := by
  unfold gAt gExpPartTable
  rw [getD_map_range _ n j [] hj, getD_map_range _ n k _ hk]

theorem recSecond_distRecords (n : Nat) (d : Nat → α) (j : Nat) (hj : j < n) :
    recSecond (distRecords n d) j = d j := by
  unfold recSecond distRecords
  rw [getD_map_range _ n j _ hj]

/-- C7 (as stated) fails: for two molecules at distances `1` and `2` and
`alpha = 1`, the table entry `(0, 1)` built by `execute` is `(0, 0)`,
whereas the kernel at `R = distance(1) - distance(0) = 1` is
`(1/2, 5/4)`. -/
theorem C7_table_entry_counterexample :
    gAt (gExpPartTable (1 : ℚ) 2 [(0, 1), (1, 2)]) 0 1 = ⟨0, 0⟩ ∧
    CalcPairExpPart (1 : ℚ)
      (recSecond [(0, (1 : ℚ)), (1, 2)] 1 - recSecond [(0, (1 : ℚ)), (1, 2)] 0) = (1 / 2, 5 / 4) ∧
    gAt (gExpPartTable (1 : ℚ) 2 [(0, 1), (1, 2)]) 0 1 ≠
      ⟨(CalcPairExpPart (1 : ℚ)
          (recSecond [(0, (1 : ℚ)), (1, 2)] 1 - recSecond [(0, (1 : ℚ)), (1, 2)] 0)).1,
        (CalcPairExpPart (1 : ℚ)
          (recSecond [(0, (1 : ℚ)), (1, 2)] 1 - recSecond [(0, (1 : ℚ)), (1, 2)] 0)).2⟩ := by
  have h1 : gAt (gExpPartTable (1 : ℚ) 2 [(0, 1), (1, 2)]) 0 1 = ⟨0, 0⟩ := by
    norm_num [gAt, gExpPartTable, CalcPairExpPart, recSecond, List.range_succ]
  have h2 : CalcPairExpPart (1 : ℚ)
      (recSecond [(0, (1 : ℚ)), (1, 2)] 1 - recSecond [(0, (1 : ℚ)), (1, 2)] 0)
        = (1 / 2, 5 / 4) := by
    norm_num [CalcPairExpPart, recSecond]
  refine ⟨h1, h2, ?_⟩
  rw [h1, h2]
  intro h
  have := congrArg gInfo.val h
  norm_num at this

/-- C7 (amended): for every pair of distinct molecules `j`, `k` of a group
of `n` molecules, the entry `(j, k)` of the kernel table built by `execute`
holds the value and the derivative of the kernel at
`R = distance(j) - distance(k)`. -/
theorem C7_table_entry (AlphaNow : α) (n : Nat) (rCenter_Atom : List (Nat × α)) (j k : Nat)
    (hj : j < n) (hk : k < n) (hjk : j ≠ k) :
    (gAt (gExpPartTable AlphaNow n rCenter_Atom) j k).val =
      (CalcPairExpPart AlphaNow (recSecond rCenter_Atom j - recSecond rCenter_Atom k)).1 ∧
    (gAt (gExpPartTable AlphaNow n rCenter_Atom) j k).der =
      (CalcPairExpPart AlphaNow (recSecond rCenter_Atom j - recSecond rCenter_Atom k)).2 := by
  rw [gAt_gExpPartTable AlphaNow n rCenter_Atom j k hj hk, if_neg hjk]
  exact ⟨rfl, rfl⟩

/-- Witness of C7 (amended) on two molecules at distances `1` and `2`. -/
theorem C7_table_entry_witness :
    (gAt (gExpPartTable (1 : ℚ) 2 [(0, 1), (1, 2)]) 1 0).val =
      (CalcPairExpPart (1 : ℚ)
        (recSecond [(0, (1 : ℚ)), (1, 2)] 1 - recSecond [(0, (1 : ℚ)), (1, 2)] 0)).1 ∧
    (gAt (gExpPartTable (1 : ℚ) 2 [(0, 1), (1, 2)]) 1 0).der =
      (CalcPairExpPart (1 : ℚ)
        (recSecond [(0, (1 : ℚ)), (1, 2)] 1 - recSecond [(0, (1 : ℚ)), (1, 2)] 0)).2 :=
  C7_table_entry (1 : ℚ) 2 [(0, 1), (1, 2)] 1 0 (by decide) (by decide) (by decide)

/-- C8: `CalcPenalFunc` returns `exp(-S)`, `S` being the sum of
`g[rC[seq[i]].first][rC[seq[j]].first].val` over the cross pairs
`i < QMSize ≤ j < |seq|`, and the returned weight is the same for every
threshold `h`, role flag `part`, cutoff method and incoming `DerList`. -/
theorem C8_CalcPenalFunc_weight (expF : α → α) (CutoffMethod : Int) (seq : List Nat)
    (QMSize : Nat) (g : List (List (gInfo α))) (DerList : List α) (rC : List (Nat × α))
    (h : α) (part : Int) :
    (CalcPenalFunc expF CutoffMethod seq QMSize g DerList rC h part).1 =
      expF (-(∑ i in Finset.range QMSize, ∑ j in Finset.Ico QMSize seq.length,
        (gAt g (recFirst rC (seq.getD i 0)) (recFirst rC (seq.getD j 0))).val)) ∧
    ∀ (CutoffMethod' : Int) (DerList' : List α) (h' : α) (part' : Int),
      (CalcPenalFunc expF CutoffMethod' seq QMSize g DerList' rC h' part').1 =
        (CalcPenalFunc expF CutoffMethod seq QMSize g DerList rC h part).1 := by
  refine ⟨?_, fun cm' DL' h' part' => ?_⟩
  · rw [CalcPenalFunc_fst]; rfl
  · rw [CalcPenalFunc_fst, CalcPenalFunc_fst]

/-- C10: `CalcPenalFunc` adds the gradient of the partition to every entry
of `DerList` when the weight is at least `h`, or the role is the numerator
(`part = 0`), or `CutoffMethod = 1`; in the remaining case (weight below
`h`, `part ≠ 0`, `CutoffMethod ≠ 1`) `DerList` comes back unchanged. -/
theorem C10_CalcPenalFunc_accumulation (expF : α → α) (CutoffMethod : Int) (seq : List Nat)
    (QMSize : Nat) (g : List (List (gInfo α))) (DerList : List α) (rC : List (Nat × α))
    (h : α) (part : Int) :
    (h ≤ (CalcPenalFunc expF CutoffMethod seq QMSize g DerList rC h part).1 ∨ part = 0 ∨
        CutoffMethod = 1 →
      (CalcPenalFunc expF CutoffMethod seq QMSize g DerList rC h part).2.length
          = DerList.length ∧
      ∀ m, m < DerList.length →
        (CalcPenalFunc expF CutoffMethod seq QMSize g DerList rC h part).2.getD m 0 =
          DerList.getD m 0 + penalGradient expF seq QMSize g rC m) ∧
    ((CalcPenalFunc expF CutoffMethod seq QMSize g DerList rC h part).1 < h ∧ part ≠ 0 ∧
        CutoffMethod ≠ 1 →
      (CalcPenalFunc expF CutoffMethod seq QMSize g DerList rC h part).2 = DerList) := by
  rw [CalcPenalFunc_fst]
  constructor
  · intro hc
    refine ⟨CalcPenalFunc_length .., fun m hm => ?_⟩
    apply CalcPenalFunc_snd_of_acc _ _ _ _ _ _ _ _ _ _ m hm
    rcases hc with hc | hc | hc
    · exact Or.inl hc
    · exact Or.inr (Or.inr hc)
    · rcases le_or_lt h (expF (-crossSum seq QMSize g rC)) with hle | hlt
      · exact Or.inl hle
      · exact Or.inr (Or.inl ⟨hlt, hc⟩)
  · rintro ⟨hlt, hp, hcm⟩
    apply CalcPenalFunc_snd_of_not
    rintro (hc | ⟨_, hc⟩ | hc)
    · exact absurd hlt (not_lt.mpr hc)
    · exact hcm hc
    · exact hp hc

end TableTheorems

section PenalWitness

/-- Witness of C10 on two molecules at distances `1` and `2` (`alpha = 1`),
QM slot `0`, MM slot `1`, threshold `2`: with `part = 0` the gradient is
added, with `part = 1` and `CutoffMethod = 0` the list is unchanged. -/
theorem C10_CalcPenalFunc_accumulation_witness :
    (CalcPenalFunc Real.exp 0 [0, 1] 1 (gExpPartTable (1 : ℝ) 2 [(0, 1), (1, 2)]) [5, 7]
        [(0, 1), (1, 2)] 2 0).2.getD 0 0 =
      ([5, 7] : List ℝ).getD 0 0 +
        penalGradient Real.exp [0, 1] 1 (gExpPartTable (1 : ℝ) 2 [(0, 1), (1, 2)])
          [(0, 1), (1, 2)] 0 ∧
    (CalcPenalFunc Real.exp 0 [0, 1] 1 (gExpPartTable (1 : ℝ) 2 [(0, 1), (1, 2)]) [5, 7]
        [(0, 1), (1, 2)] 2 1).2 = [5, 7] := by
  have hw : (CalcPenalFunc Real.exp 0 [0, 1] 1 (gExpPartTable (1 : ℝ) 2 [(0, 1), (1, 2)])
      [5, 7] [(0, 1), (1, 2)] 2 1).1 < 2 := by
    rw [CalcPenalFunc_fst]
    have h0 : crossSum [0, 1] 1 (gExpPartTable (1 : ℝ) 2 [(0, 1), (1, 2)])
        [(0, 1), (1, 2)] = 0 := by
      norm_num [crossSum, molOf, recFirst, gAt, gExpPartTable, CalcPairExpPart, recSecond,
        List.range_succ, Finset.sum_range_succ]
    rw [h0]
    norm_num
  exact ⟨((C10_CalcPenalFunc_accumulation Real.exp 0 [0, 1] 1
      (gExpPartTable (1 : ℝ) 2 [(0, 1), (1, 2)]) [5, 7] [(0, 1), (1, 2)] 2 0).1
        (Or.inr (Or.inl rfl))).2 0 (by decide),
    (C10_CalcPenalFunc_accumulation Real.exp 0 [0, 1] 1
      (gExpPartTable (1 : ℝ) 2 [(0, 1), (1, 2)]) [5, 7] [(0, 1), (1, 2)] 2 1).2
        ⟨hw, by decide, by decide⟩⟩

end PenalWitness

section GradientTheorems

/-- In an accumulating case, `CalcPenalFunc` adds `penalGradient` to each
entry of `DerList`. -/
theorem CalcPenalFunc_increment {α : Type} [LinearOrderedField α] (expF : α → α)
    (CutoffMethod : Int) (seq : List Nat) (QMSize : Nat) (g : List (List (gInfo α)))
    (DerList : List α) (rC : List (Nat × α)) (h : α) (part : Int)
    (hc : h ≤ (CalcPenalFunc expF CutoffMethod seq QMSize g DerList rC h part).1 ∨ part = 0 ∨
      CutoffMethod = 1)
    (m : Nat) (hm : m < DerList.length) :
    (CalcPenalFunc expF CutoffMethod seq QMSize g DerList rC h part).2.getD m 0 =
      DerList.getD m 0 + penalGradient expF seq QMSize g rC m := by
  rw [CalcPenalFunc_fst] at hc
  apply CalcPenalFunc_snd_of_acc _ _ _ _ _ _ _ _ _ _ m hm
  rcases hc with hc | hc | hc
  · exact Or.inl hc
  · exact Or.inr (Or.inr hc)
  · rcases le_or_lt h (expF (-crossSum seq QMSize g rC)) with hle | hlt
    · exact Or.inl hle
    · exact Or.inr (Or.inl ⟨hlt, hc⟩)

theorem hasDerivAt_update (d : Nat → ℝ) (m a : Nat) :
    HasDerivAt (fun x : ℝ => Function.update d m x a) (if a = m then 1 else 0) (d m) := by
  by_cases h : a = m
  · subst h
    simp only [Function.update_same, if_true]
    exact hasDerivAt_id (d a)
  · simp only [Function.update_noteq h, if_neg h]
    exact hasDerivAt_const (d m) (d a)

/-- The derivative, in the distance of molecule `m`, of the kernel value of
one pair of molecules `(a, b)`. -/
theorem hasDerivAt_pair (alpha : ℝ) (halpha : 0 < alpha) (d : Nat → ℝ) (m a b : Nat) :
    HasDerivAt
      (fun x : ℝ => (CalcPairExpPart alpha (Function.update d m x a - Function.update d m x b)).1)
      ((CalcPairExpPart alpha (d a - d b)).2 * ((if a = m then 1 else 0) - (if b = m then 1 else 0)))
      (d m) := by
  have hin := (hasDerivAt_update d m a).sub (hasDerivAt_update d m b)
  have hk := kernel_hasDerivAt alpha
    (Function.update d m (d m) a - Function.update d m (d m) b) halpha
  have hc := HasDerivAt.comp (d m) hk hin
  simp only [Function.update_eq_self] at hc
  exact hc

/-- C9: gradient correctness of the penalty weight.  With the kernel table
built from the distances `d` of `n` molecules, a partition `seq` whose
slots designate distinct molecules, and `CalcPenalFunc` in an accumulating
case, the amount added to `DerList[m]` is the partial derivative in `d m`
of `W(d) = exp(-Σ kernel(alpha, d a - d b).value)` (sum over QM-assigned `a`
and MM-assigned `b`), for every molecule `m`; it is zero for a molecule
outside the partition. -/
theorem C9_CalcPenalFunc_gradient (alpha : ℝ) (halpha : 0 < alpha) (n : Nat) (d : Nat → ℝ)
    (seq : List Nat) (QMSize : Nat) (rC : List (Nat × ℝ)) (DerList : List ℝ) (h : ℝ)
    (part CutoffMethod : Int)
    (hQM : QMSize ≤ seq.length)
    (hdistinct : ∀ i j, i < seq.length → j < seq.length → i ≠ j →
      molOf seq rC i ≠ molOf seq rC j)
    (hrange : ∀ i, i < seq.length → molOf seq rC i < n)
    (hacc : h ≤ (CalcPenalFunc Real.exp CutoffMethod seq QMSize
          (gExpPartTable alpha n (distRecords n d)) DerList rC h part).1 ∨
      part = 0 ∨ CutoffMethod = 1)
    (m : Nat) (hm : m < DerList.length) :
    HasDerivAt
      (fun x : ℝ => Real.exp (-(∑ i in Finset.range QMSize,
        ∑ j in Finset.Ico QMSize seq.length,
          (CalcPairExpPart alpha (Function.update d m x (molOf seq rC i)
            - Function.update d m x (molOf seq rC j))).1)))
      ((CalcPenalFunc Real.exp CutoffMethod seq QMSize
          (gExpPartTable alpha n (distRecords n d)) DerList rC h part).2.getD m 0
        - DerList.getD m 0)
      (d m) ∧
    ((∀ i, i < seq.length → molOf seq rC i ≠ m) →
      (CalcPenalFunc Real.exp CutoffMethod seq QMSize
          (gExpPartTable alpha n (distRecords n d)) DerList rC h part).2.getD m 0
        - DerList.getD m 0 = 0) := by
  have hinc := CalcPenalFunc_increment Real.exp CutoffMethod seq QMSize
    (gExpPartTable alpha n (distRecords n d)) DerList rC h part hacc m hm
  rw [hinc, add_sub_cancel_left]
  -- the table entries met by the cross pairs
  have hentry : ∀ i ∈ Finset.range QMSize, ∀ j ∈ Finset.Ico QMSize seq.length,
      gAt (gExpPartTable alpha n (distRecords n d)) (molOf seq rC i) (molOf seq rC j) =
        ⟨(CalcPairExpPart alpha (d (molOf seq rC i) - d (molOf seq rC j))).1,
          (CalcPairExpPart alpha (d (molOf seq rC i) - d (molOf seq rC j))).2⟩ := by
    intro i hi j hj
    have hi' := Finset.mem_range.mp hi
    have hj' := Finset.mem_Ico.mp hj
    have hil : i < seq.length := lt_of_lt_of_le hi' hQM
    have hne := hdistinct i j hil hj'.2 (by omega)
    rw [gAt_gExpPartTable alpha n _ _ _ (hrange i hil) (hrange j hj'.2), if_neg hne,
      recSecond_distRecords n d _ (hrange i hil), recSecond_distRecords n d _ (hrange j hj'.2)]
  have hcross : crossSum seq QMSize (gExpPartTable alpha n (distRecords n d)) rC =
      ∑ i in Finset.range QMSize, ∑ j in Finset.Ico QMSize seq.length,
        (CalcPairExpPart alpha (d (molOf seq rC i) - d (molOf seq rC j))).1 := by
    unfold crossSum
    refine Finset.sum_congr rfl fun i hi => Finset.sum_congr rfl fun j hj => ?_
    rw [hentry i hi j hj]
  have hgrad : penalGradient Real.exp seq QMSize (gExpPartTable alpha n (distRecords n d)) rC m =
      Real.exp (-(∑ i in Finset.range QMSize, ∑ j in Finset.Ico QMSize seq.length,
        (CalcPairExpPart alpha (d (molOf seq rC i) - d (molOf seq rC j))).1)) *
      -(∑ i in Finset.range QMSize, ∑ j in Finset.Ico QMSize seq.length,
        (CalcPairExpPart alpha (d (molOf seq rC i) - d (molOf seq rC j))).2 *
          ((if molOf seq rC i = m then 1 else 0) - (if molOf seq rC j = m then 1 else 0))) := by
    unfold penalGradient
    rw [hcross]
    congr 1
    rw [← Finset.sum_neg_distrib]
    refine Finset.sum_congr rfl fun i hi => ?_
    rw [← Finset.sum_neg_distrib]
    refine Finset.sum_congr rfl fun j hj => ?_
    rw [hentry i hi j hj]
    split_ifs <;> ring
  constructor
  · rw [hgrad]
    have hS : HasDerivAt
        (fun x : ℝ => ∑ i in Finset.range QMSize, ∑ j in Finset.Ico QMSize seq.length,
          (CalcPairExpPart alpha (Function.update d m x (molOf seq rC i)
            - Function.update d m x (molOf seq rC j))).1)
        (∑ i in Finset.range QMSize, ∑ j in Finset.Ico QMSize seq.length,
          (CalcPairExpPart alpha (d (molOf seq rC i) - d (molOf seq rC j))).2 *
            ((if molOf seq rC i = m then 1 else 0) - (if molOf seq rC j = m then 1 else 0)))
        (d m) :=
      HasDerivAt.sum fun i _ => HasDerivAt.sum fun j _ =>
        hasDerivAt_pair alpha halpha d m (molOf seq rC i) (molOf seq rC j)
    have hE := hS.neg.exp
    simp only [Function.update_eq_self] at hE
    exact hE
  · intro hout
    unfold penalGradient
    have hz : ∀ i ∈ Finset.range QMSize, ∀ j ∈ Finset.Ico QMSize seq.length,
        ((if molOf seq rC j = m then
            (gAt (gExpPartTable alpha n (distRecords n d)) (molOf seq rC i) (molOf seq rC j)).der
          else 0)
        - (if molOf seq rC i = m then
            (gAt (gExpPartTable alpha n (distRecords n d)) (molOf seq rC i) (molOf seq rC j)).der
          else 0)) = 0 := by
      intro i hi j hj
      have hi' := Finset.mem_range.mp hi
      have hj' := Finset.mem_Ico.mp hj
      rw [if_neg (hout j hj'.2), if_neg (hout i (lt_of_lt_of_le hi' hQM)), sub_zero]
    rw [Finset.sum_eq_zero fun i hi => Finset.sum_eq_zero fun j hj => hz i hi j hj, mul_zero]

/-- Witness of C9: two molecules at distances `1` and `2`, `alpha = 1`,
molecule `0` QM-assigned and molecule `1` MM-assigned, numerator role. -/
theorem C9_CalcPenalFunc_gradient_witness :
    HasDerivAt
      (fun x : ℝ => Real.exp (-(∑ i in Finset.range 1,
        ∑ j in Finset.Ico 1 ([0, 1] : List Nat).length,
          (CalcPairExpPart 1
            (Function.update (fun k : Nat => (k : ℝ) + 1) 0 x (molOf [0, 1] [(0, (1 : ℝ)), (1, 2)] i)
            - Function.update (fun k : Nat => (k : ℝ) + 1) 0 x
                (molOf [0, 1] [(0, (1 : ℝ)), (1, 2)] j))).1)))
      ((CalcPenalFunc Real.exp 0 [0, 1] 1
          (gExpPartTable 1 2 (distRecords 2 fun k : Nat => (k : ℝ) + 1)) [0, 0]
          [(0, 1), (1, 2)] 2 0).2.getD 0 0
        - ([0, 0] : List ℝ).getD 0 0)
      ((fun k : Nat => (k : ℝ) + 1) 0) ∧
    ((∀ i, i < ([0, 1] : List Nat).length → molOf [0, 1] [(0, (1 : ℝ)), (1, 2)] i ≠ 0) →
      (CalcPenalFunc Real.exp 0 [0, 1] 1
          (gExpPartTable 1 2 (distRecords 2 fun k : Nat => (k : ℝ) + 1)) [0, 0]
          [(0, 1), (1, 2)] 2 0).2.getD 0 0
        - ([0, 0] : List ℝ).getD 0 0 = 0) :=
  C9_CalcPenalFunc_gradient 1 (by norm_num) 2 (fun k : Nat => (k : ℝ) + 1) [0, 1] 1
    [(0, 1), (1, 2)] [0, 0] 2 0 0 (by decide)
    (by
      intro i j hi hj hij
      have hi2 : i < 2 := hi
      have hj2 : j < 2 := hj
      interval_cases i <;> interval_cases j <;> simp_all [molOf, recFirst])
    (by
      intro i hi
      have hi2 : i < 2 := hi
      interval_cases i <;> simp [molOf, recFirst])
    (Or.inr (Or.inl rfl)) 0 (by decide)

end GradientTheorems

section EnergyTheorems
variable {α : Type} [LinearOrderedField α]

/-- The records of `Calc_r` do not depend on the values the members `COM`
and `SystemTotalMass` had before the call. -/
theorem Calc_r_rCA_indep (K : KernelData α) (sqrtF : α → α) (COM COM' : Vec3 α)
    (STM STM' : α) (P : List (Vec3 α)) (i : Nat) (t : Int) :
    (Calc_r K sqrtF COM STM P i t).rCA = (Calc_r K sqrtF COM' STM' P i t).rCA ∧
    (Calc_r K sqrtF COM STM P i t).rCA_Vec = (Calc_r K sqrtF COM' STM' P i t).rCA_Vec := by
  unfold Calc_r
  by_cases h0 : K.BoundaryShape = 0
  · simp [h0]
  · by_cases h2 : K.BoundaryShape = 2
    · simp [h2]
    · simp [h0, h2]

/-- The numerator and the accepted denominator of a group evaluation. -/
theorem evalGroup_indep (K : KernelData α) (expF sqrtF : α → α) (COM COM' : Vec3 α)
    (STM STM' : α) (P : List (Vec3 α)) (i : Nat) :
    (evalGroup K expF sqrtF COM STM P i).map (fun r => (r.NumeVal, r.DenVal)) =
      (evalGroup K expF sqrtF COM' STM' P i).map (fun r => (r.NumeVal, r.DenVal)) := by
  simp only [evalGroup]
  rw [(Calc_r_rCA_indep K sqrtF COM COM' STM STM' P i _).1,
    (Calc_r_rCA_indep K sqrtF COM COM' STM STM' P i _).2]
  split_ifs
  · rfl
  · split <;> rfl

theorem evalGroup_ok_indep (K : KernelData α) (expF sqrtF : α → α) (COM COM' : Vec3 α)
    (STM STM' : α) (P : List (Vec3 α)) (i : Nat) (r : GroupEval α)
    (hev : evalGroup K expF sqrtF COM STM P i = .ok r) :
    ∃ r', evalGroup K expF sqrtF COM' STM' P i = .ok r' ∧
      (r'.NumeVal, r'.DenVal) = (r.NumeVal, r.DenVal) := by
  have h := evalGroup_indep K expF sqrtF COM COM' STM STM' P i
  rw [hev] at h
  cases h' : evalGroup K expF sqrtF COM' STM' P i with
  | error e => rw [h'] at h; cases h
  | ok r' =>
    rw [h'] at h
    refine ⟨r', rfl, ?_⟩
    have h2 : Except.ok (r.NumeVal, r.DenVal) = (Except.ok (r'.NumeVal, r'.DenVal) :
        Except FlexError (α × α)) := h
    injection h2 with h3
    exact h3.symm

theorem groupNumeDen_of_ok (K : KernelData α) (expF sqrtF : α → α) (COM : Vec3 α) (STM : α)
    (P : List (Vec3 α)) (i : Nat) (r : GroupEval α)
    (hev : evalGroup K expF sqrtF COM STM P i = .ok r) :
    groupNumeDen K expF sqrtF P i = (r.NumeVal, r.DenVal) := by
  obtain ⟨r', h1, h2⟩ := evalGroup_ok_indep K expF sqrtF COM (0, 0, 0) STM 0 P i r hev
  unfold groupNumeDen
  rw [h1]
  exact h2

/-- The energy returned by the group loop: the energy on entry plus one
term per evaluated group. -/
theorem executeLoop_energy (K : KernelData α) (expF sqrtF logF : α → α) (P : List (Vec3 α))
    (l : List Nat) (E0 : α) (F : List (Vec3 α)) (COM : Vec3 α) (STM E : α)
    (hok : (executeLoop K expF sqrtF logF P l E0 F COM STM).outcome = .ok E) :
    (∀ i ∈ l.filter (fun i => decide ((K.qm i).length ≠ 0 ∧ (K.mm i).length ≠ 0)),
      ∀ (COM0 : Vec3 α) (STM0 : α), ∃ r, evalGroup K expF sqrtF COM0 STM0 P i = .ok r ∧
        (r.NumeVal, r.DenVal) = groupNumeDen K expF sqrtF P i) ∧
    E = E0 + ((l.filter (fun i => decide ((K.qm i).length ≠ 0 ∧ (K.mm i).length ≠ 0))).map
      fun i => -Coe K.T * logF ((groupNumeDen K expF sqrtF P i).1
        / (groupNumeDen K expF sqrtF P i).2)).sum := by
  induction l generalizing E0 F COM STM with
  | nil =>
    simp only [executeLoop] at hok
    injection hok with hE
    simp [hE]
  | cons i rest ih =>
    unfold executeLoop at hok
    by_cases hq : (K.qm i).length ≠ 0 ∧ (K.mm i).length ≠ 0
    · rw [if_pos hq] at hok
      cases hev : evalGroup K expF sqrtF COM STM P i with
      | error e =>
        rw [hev] at hok
        cases hok
      | ok r =>
        rw [hev] at hok
        obtain ⟨ih1, ih2⟩ := ih _ _ _ _ hok
        have hnd := groupNumeDen_of_ok K expF sqrtF COM STM P i r hev
        have hfil : (i :: rest).filter
            (fun i => decide ((K.qm i).length ≠ 0 ∧ (K.mm i).length ≠ 0)) =
            i :: rest.filter (fun i => decide ((K.qm i).length ≠ 0 ∧ (K.mm i).length ≠ 0)) :=
          List.filter_cons_of_pos (by simpa using hq)
        rw [hfil]
        constructor
        · intro k hk COM0 STM0
          rcases List.mem_cons.mp hk with hki | hkr
          · subst hki
            obtain ⟨r', h1, h2⟩ := evalGroup_ok_indep K expF sqrtF COM COM0 STM STM0 P k r hev
            exact ⟨r', h1, by rw [h2, hnd]⟩
          · exact ih1 k hkr COM0 STM0
        · rw [ih2, List.map_cons, List.sum_cons, hnd]
          unfold groupEnergy
          ring
    · rw [if_neg hq] at hok
      have hfil : (i :: rest).filter
          (fun i => decide ((K.qm i).length ≠ 0 ∧ (K.mm i).length ≠ 0)) =
          rest.filter (fun i => decide ((K.qm i).length ≠ 0 ∧ (K.mm i).length ≠ 0)) :=
        List.filter_cons_of_neg (by simpa using hq)
      rw [hfil]
      exact ih _ _ _ _ hok

/-- C2: when `execute` succeeds, the energy it returns is the sum, over
exactly the boundary groups with at least one QM and one MM molecule, of
`-Coe * ln(numerator / denominator)` with
`Coe = 1.3807e-23 * T * 6.02214179e23 / 1000`, the numerator weight and the
accepted denominator being those of the evaluation of the group (which
succeeds, whatever the members `COM` and `SystemTotalMass` held before);
the other groups contribute nothing. -/
theorem C2_execute_energy (K : KernelData α) (expF sqrtF logF : α → α)
    (Positions Force : List (Vec3 α)) (includeForces includeEnergy : Bool) (E : α)
    (hok : (execute K expF sqrtF logF Positions Force includeForces includeEnergy).outcome
      = .ok E) :
    (∀ i ∈ qualifyingGroups K, ∀ (COM0 : Vec3 α) (STM0 : α),
      ∃ r, evalGroup K expF sqrtF COM0 STM0 Positions i = .ok r ∧
        (r.NumeVal, r.DenVal) = groupNumeDen K expF sqrtF Positions i) ∧
    E = ((qualifyingGroups K).map fun i =>
      -(1.3807e-23 * K.T * 6.02214179e+23 / 1000) *
        logF ((groupNumeDen K expF sqrtF Positions i).1
          / (groupNumeDen K expF sqrtF Positions i).2)).sum := by
  unfold execute at hok
  obtain ⟨h1, h2⟩ := executeLoop_energy K expF sqrtF logF Positions _ _ _ _ _ E hok
  refine ⟨h1, ?_⟩
  rw [h2, zero_add]
  unfold qualifyingGroups Coe
  norm_num

end EnergyTheorems

section BufferLemmas

/-- A quantity `φ` of the loop state that every iteration increases by a
weight `w x`, under an invariant `I`, increases by the sum of the weights
over the whole loop. -/
theorem foldl_measure {σ ι M : Type} [AddCommMonoid M] (φ : σ → M) (I : σ → Prop)
    (step : σ → ι → σ) (w : ι → M) (xs : List ι)
    (hstep : ∀ s x, x ∈ xs → I s → I (step s x) ∧ φ (step s x) = φ s + w x)
    (s : σ) (hs : I s) :
    I (xs.foldl step s) ∧ φ (xs.foldl step s) = φ s + (xs.map w).sum := by
  induction xs generalizing s with
  | nil => simp [hs]
  | cons x xs ih =>
    obtain ⟨h1, h2⟩ := hstep s x (List.mem_cons_self x xs) hs
    obtain ⟨h3, h4⟩ := ih (fun s y hy => hstep s y (List.mem_cons_of_mem x hy)) (step s x) h1
    refine ⟨h3, ?_⟩
    rw [List.foldl_cons, h4, h2, List.map_cons, List.sum_cons, add_assoc]

theorem map_getD_range {β : Type} (l : List β) (dflt : β) :
    (List.range l.length).map (fun j => l.getD j dflt) = l := by
  apply List.ext_getElem
  · simp
  · intro n h1 h2
    simp [List.getD_eq_getElem?_getD, h2]

end BufferLemmas

section MomentumLemmas
variable {α : Type} [LinearOrderedField α]

/-- The fields of a successful group evaluation that the force step
reads. -/
theorem evalGroup_ok_fields (K : KernelData α) (expF sqrtF : α → α) (COM0 : Vec3 α) (STM0 : α)
    (P : List (Vec3 α)) (i : Nat) (r : GroupEval α)
    (hev : evalGroup K expF sqrtF COM0 STM0 P i = .ok r) :
    r.AtomDragged = chooseAtomDragged K sqrtF P i ∧
    r.SystemTotalMass = (Calc_r K sqrtF COM0 STM0 P i r.AtomDragged).SystemTotalMass ∧
    r.rCenter_Atom_Vec = (Calc_r K sqrtF COM0 STM0 P i r.AtomDragged).rCA_Vec ∧
    r.rCenter_Atom = (floorZero (sortByDistance (Calc_r K sqrtF COM0 STM0 P i r.AtomDragged).rCA)
      (Calc_r K sqrtF COM0 STM0 P i r.AtomDragged).rCA).2 ∧
    r.drCenter_Atom_Vec = Calc_dr K i r.AtomDragged r.rCenter_Atom r.rCenter_Atom_Vec ∧
    r.df_dr = ((List.range ((K.qm i).length + (K.mm i).length)).map fun j =>
      1 / r.NumeVal * r.dNume_dr.getD j 0 - 1 / r.DenVal * r.dDen_dr.getD j 0) ∧
    r.ForceList = buildForceList r.AtomDragged ((K.qm i).length + (K.mm i).length)
      ((K.qm i).getD 0 ⟨[], []⟩).Indices.length r.drCenter_Atom_Vec r.df_dr := by
  simp only [evalGroup] at hev
  split_ifs at hev
  split at hev
  · cases hev
  · injection hev with hr
    subst hr
    exact ⟨rfl, rfl, rfl, rfl, rfl, rfl, rfl⟩

theorem systemCOM_mass (K : KernelData α) (P : List (Vec3 α)) :
    (systemCOM K P).2 = systemMass K := by
  unfold systemCOM systemMass
  simp only
  have hmol : ∀ (mol : InternalInfo α) (acc : α × Vec3 α),
      ((List.range mol.Indices.length).foldl (fun (acc : α × Vec3 α) k =>
        (acc.1 + mol.AtomMasses.getD k 0,
          (acc.2.1 + mol.AtomMasses.getD k 0 * (coordAt P (mol.Indices.getD k 0)).1,
            acc.2.2.1 + mol.AtomMasses.getD k 0 * (coordAt P (mol.Indices.getD k 0)).2.1,
            acc.2.2.2 + mol.AtomMasses.getD k 0 * (coordAt P (mol.Indices.getD k 0)).2.2)))
        acc).1
      = acc.1 + ((List.range mol.Indices.length).map fun k => mol.AtomMasses.getD k 0).sum := by
    intro mol acc
    exact (foldl_measure (fun s : α × Vec3 α => s.1) (fun _ => True) _ _ _
      (fun s x _ _ => ⟨trivial, rfl⟩) acc trivial).2
  have hgrp : ∀ (grp : List (InternalInfo α)) (acc : α × Vec3 α),
      (grp.foldl (fun (acc : α × Vec3 α) (mol : InternalInfo α) =>
        (List.range mol.Indices.length).foldl (fun (acc : α × Vec3 α) k =>
        (acc.1 + mol.AtomMasses.getD k 0,
          (acc.2.1 + mol.AtomMasses.getD k 0 * (coordAt P (mol.Indices.getD k 0)).1,
            acc.2.2.1 + mol.AtomMasses.getD k 0 * (coordAt P (mol.Indices.getD k 0)).2.1,
            acc.2.2.2 + mol.AtomMasses.getD k 0 * (coordAt P (mol.Indices.getD k 0)).2.2)))
        acc) acc).1
      = acc.1 + (grp.map fun mol =>
          ((List.range mol.Indices.length).map fun k => mol.AtomMasses.getD k 0).sum).sum := by
    intro grp acc
    exact (foldl_measure (fun s : α × Vec3 α => s.1) (fun _ => True) _ _ _
      (fun s mol _ _ => ⟨trivial, hmol mol s⟩) acc trivial).2
  have hall : ∀ (gs : List (List (InternalInfo α))) (acc : α × Vec3 α),
      (gs.foldl (fun (acc : α × Vec3 α) grp =>
        grp.foldl (fun (acc : α × Vec3 α) (mol : InternalInfo α) =>
        (List.range mol.Indices.length).foldl (fun (acc : α × Vec3 α) k =>
        (acc.1 + mol.AtomMasses.getD k 0,
          (acc.2.1 + mol.AtomMasses.getD k 0 * (coordAt P (mol.Indices.getD k 0)).1,
            acc.2.2.1 + mol.AtomMasses.getD k 0 * (coordAt P (mol.Indices.getD k 0)).2.1,
            acc.2.2.2 + mol.AtomMasses.getD k 0 * (coordAt P (mol.Indices.getD k 0)).2.2)))
        acc) acc) acc).1
      = acc.1 + (gs.map fun grp => (grp.map fun mol =>
          ((List.range mol.Indices.length).map fun k => mol.AtomMasses.getD k 0).sum).sum).sum := by
    intro gs acc
    exact (foldl_measure (fun s : α × Vec3 α => s.1) (fun _ => True) _ _ _
      (fun s grp _ _ => ⟨trivial, hgrp grp s⟩) acc trivial).2
  rw [hall, hall, List.map_append, List.sum_append, zero_add]

end MomentumLemmas

section MomentumTheorems
variable {α : Type} [LinearOrderedField α]

theorem getD_mem_of_lt {β : Type} (l : List β) (k : Nat) (dflt : β) (hk : k < l.length) :
    l.getD k dflt ∈ l := by
  rw [List.getD_eq_getElem _ _ hk]
  exact List.getElem_mem hk

end MomentumTheorems

section DirectForces
variable {α : Type} [LinearOrderedField α]

end DirectForces

section MomentumConservation
variable {α : Type} [LinearOrderedField α]

theorem Calc_r_SystemTotalMass (K : KernelData α) (sqrtF : α → α) (COM0 : Vec3 α) (STM0 : α)
    (P : List (Vec3 α)) (i : Nat) (t : Int)
    (hshape : K.BoundaryShape = 0 ∨ K.BoundaryShape = 2) :
    (Calc_r K sqrtF COM0 STM0 P i t).SystemTotalMass = systemMass K := by
  unfold Calc_r
  simp only [if_pos hshape]
  exact systemCOM_mass K P

end MomentumConservation

section LayoutLemmas
variable {α : Type} [LinearOrderedField α]

/-- A capsule loop pushes nothing for a segment of length zero. -/
theorem capsuleRecord_none (sqrtF : α → α) (clamp : Bool) (L1 L2 LVec : Vec3 α)
    (pVec : Vec3 α) (first : Nat) :
    capsuleRecord sqrtF clamp L1 L2 LVec 0 pVec first = none := by
  unfold capsuleRecord
  simp only [if_true]

/-- For a segment of non-zero length, in a linear order one of the two
branches of a capsule loop always applies, and the record carries the index
it was given. -/
theorem capsuleRecord_some (sqrtF : α → α) (clamp : Bool) (L1 L2 LVec : Vec3 α) (LMod : α)
    (pVec : Vec3 α) (first : Nat) (hL : LMod ≠ 0) :
    ∃ x, capsuleRecord sqrtF clamp L1 L2 LVec LMod pVec first = some x ∧ x.1.1 = first := by
  unfold capsuleRecord
  simp only
  rw [if_neg hL]
  by_cases h1 : Calc_VecDot (Calc_VecMinus L1 pVec) LVec / LMod < LMod ∧
      0 < Calc_VecDot (Calc_VecMinus L1 pVec) LVec / LMod
  · rw [if_pos h1]
    exact ⟨_, rfl, rfl⟩
  · have h2 : Calc_VecDot (Calc_VecMinus L1 pVec) LVec / LMod ≤ 0 ∨
        LMod ≤ Calc_VecDot (Calc_VecMinus L1 pVec) LVec / LMod := by
      by_contra hc
      rw [not_or, not_le, not_le] at hc
      exact h1 ⟨hc.2, hc.1⟩
    rw [if_neg h1, if_pos h2]
    exact ⟨_, rfl, rfl⟩

theorem capsuleRecord_getD_first (sqrtF : α → α) (clamp : Bool) (L1 L2 LVec : Vec3 α)
    (LMod : α) (pVec : Vec3 α) (first : Nat) (dflt : (Nat × α) × Vec3 α) (hL : LMod ≠ 0) :
    ((capsuleRecord sqrtF clamp L1 L2 LVec LMod pVec first).getD dflt).1.1 = first := by
  obtain ⟨x, hx, hx1⟩ := capsuleRecord_some sqrtF clamp L1 L2 LVec LMod pVec first hL
  rw [hx]
  exact hx1

theorem filterMap_range_of_some {β : Type} (f : Nat → Option β) (n : Nat) (dflt : β)
    (hf : ∀ j, ∃ x, f j = some x) :
    (List.range n).filterMap f = (List.range n).map fun j => (f j).getD dflt := by
  induction n with
  | zero => rfl
  | succ n ih =>
    obtain ⟨x, hx⟩ := hf n
    rw [List.range_succ, List.filterMap_append, List.map_append, ih]
    simp [hx]

/-- The records of two consecutive loops: the first loop gives index `j`
to its `j`-th record, the second gives `j + a`. -/
theorem recFirst_append_range (a b : Nat) (f g : Nat → (Nat × α) × Vec3 α)
    (hf : ∀ j, (f j).1.1 = j) (hg : ∀ j, (g j).1.1 = j + a) :
    (((List.range a).map f ++ (List.range b).map g).map Prod.fst).length = a + b ∧
    ∀ k, k < a + b →
      recFirst ((((List.range a).map f ++ (List.range b).map g)).map Prod.fst) k = k := by
  refine ⟨by simp, fun k hk => ?_⟩
  unfold recFirst
  rw [List.map_append, List.map_map, List.map_map]
  by_cases hka : k < a
  · rw [List.getD_append _ _ _ _ (by simpa using hka), getD_map_range _ a k _ hka]
    exact hf k
  · have hle : a ≤ k := not_lt.mp hka
    rw [List.getD_append_right _ _ _ _ (by simpa using hle)]
    simp only [List.length_map, List.length_range]
    rw [getD_map_range _ b (k - a) _ (by omega)]
    simp only [Function.comp]
    rw [hg (k - a)]
    omega

/-- The segment of a capsule that is not degenerate has a non-zero length. -/
theorem capsuleLMod_ne (K : KernelData α) (sqrtF : α → α) (i : Nat)
    (hcap : ¬ degenerateCapsule K sqrtF i) :
    (K.BoundaryShape = 2 →
      Calc_VecMod sqrtF (K.param i 0, K.param i 1, K.param i 2) ≠ 0) ∧
    (K.BoundaryShape = 3 →
      Calc_VecMod sqrtF (Calc_VecMinus (K.param i 0, K.param i 1, K.param i 2)
        (K.param i 3, K.param i 4, K.param i 5)) ≠ 0) := by
  constructor
  · intro h h0
    apply hcap
    refine ⟨Or.inl h, ?_⟩
    unfold capsuleLMod
    rw [if_pos h]
    exact h0
  · intro h h0
    apply hcap
    refine ⟨Or.inr h, ?_⟩
    unfold capsuleLMod
    rw [if_neg (by rw [h]; decide)]
    exact h0

/-- For the shapes 0 to 3 and a capsule of non-zero length, `Calc_r`
produces one record per molecule of the group, and record `k` carries the
index `k`. -/
theorem Calc_r_layout (K : KernelData α) (sqrtF : α → α) (COM0 : Vec3 α) (STM0 : α)
    (P : List (Vec3 α)) (i : Nat) (t : Int)
    (hshape : K.BoundaryShape = 0 ∨ K.BoundaryShape = 1 ∨ K.BoundaryShape = 2 ∨
      K.BoundaryShape = 3)
    (hcap : ¬ degenerateCapsule K sqrtF i) :
    (Calc_r K sqrtF COM0 STM0 P i t).rCA.length = (K.qm i).length + (K.mm i).length ∧
    ∀ k, k < (K.qm i).length + (K.mm i).length →
      recFirst (Calc_r K sqrtF COM0 STM0 P i t).rCA k = k := by
  obtain ⟨hL2, hL3⟩ := capsuleLMod_ne K sqrtF i hcap
  unfold Calc_r
  simp only
  rcases hshape with h | h | h | h
  · simp only [h, if_true]
    exact recFirst_append_range _ _ _ _ (fun j => rfl) (fun j => rfl)
  · simp only [h, if_true, show ¬ ((1 : Int) = 0) by decide, if_false]
    exact recFirst_append_range _ _ _ _ (fun j => rfl) (fun j => rfl)
  · simp only [h, if_true, show ¬ ((2 : Int) = 0) by decide, show ¬ ((2 : Int) = 1) by decide,
      if_false]
    rw [filterMap_range_of_some _ _ ((0, 0), (0, 0, 0)) (fun j => by
        obtain ⟨x, hx, _⟩ := capsuleRecord_some sqrtF true _ _ _ _ _ j (hL2 h)
        exact ⟨x, hx⟩),
      filterMap_range_of_some _ _ ((0, 0), (0, 0, 0)) (fun j => by
        obtain ⟨x, hx, _⟩ :=
          capsuleRecord_some sqrtF false _ _ _ _ _ (j + (K.qm i).length) (hL2 h)
        exact ⟨x, hx⟩)]
    exact recFirst_append_range _ _ _ _
      (fun j => capsuleRecord_getD_first _ _ _ _ _ _ _ _ _ (hL2 h))
      (fun j => capsuleRecord_getD_first _ _ _ _ _ _ _ _ _ (hL2 h))
  · simp only [h, show ¬ ((3 : Int) = 0) by decide, show ¬ ((3 : Int) = 1) by decide,
      show ¬ ((3 : Int) = 2) by decide, if_false, if_true, or_self]
    rw [filterMap_range_of_some _ _ ((0, 0), (0, 0, 0)) (fun j => by
        obtain ⟨x, hx, _⟩ := capsuleRecord_some sqrtF true _ _ _ _ _ j (hL3 h)
        exact ⟨x, hx⟩),
      filterMap_range_of_some _ _ ((0, 0), (0, 0, 0)) (fun j => by
        obtain ⟨x, hx, _⟩ :=
          capsuleRecord_some sqrtF false _ _ _ _ _ (j + (K.qm i).length) (hL3 h)
        exact ⟨x, hx⟩)]
    exact recFirst_append_range _ _ _ _
      (fun j => capsuleRecord_getD_first _ _ _ _ _ _ _ _ _ (hL3 h))
      (fun j => capsuleRecord_getD_first _ _ _ _ _ _ _ _ _ (hL3 h))

theorem filterMap_range_of_none {β : Type} (f : Nat → Option β) (n : Nat)
    (hf : ∀ j, f j = none) : (List.range n).filterMap f = [] := by
  rw [List.filterMap_eq_nil_iff]
  intro j _
  exact hf j

/-- For a capsule whose segment has length zero, `Calc_r` produces no
record and no displacement. -/
theorem Calc_r_degenerate (K : KernelData α) (sqrtF : α → α) (COM0 : Vec3 α) (STM0 : α)
    (P : List (Vec3 α)) (i : Nat) (t : Int) (hcap : degenerateCapsule K sqrtF i) :
    (Calc_r K sqrtF COM0 STM0 P i t).rCA = [] ∧
    (Calc_r K sqrtF COM0 STM0 P i t).rCA_Vec = [] := by
  obtain ⟨hshape, hL⟩ := hcap
  unfold capsuleLMod at hL
  unfold Calc_r
  simp only
  rcases hshape with h | h
  · rw [if_pos h] at hL
    simp only [h, if_true, show ¬ ((2 : Int) = 0) by decide, show ¬ ((2 : Int) = 1) by decide,
      if_false]
    rw [hL, filterMap_range_of_none _ _ (fun j => capsuleRecord_none sqrtF true _ _ _ _ _),
      filterMap_range_of_none _ _ (fun j => capsuleRecord_none sqrtF false _ _ _ _ _)]
    exact ⟨rfl, rfl⟩
  · rw [if_neg (by rw [h]; decide)] at hL
    simp only [h, show ¬ ((3 : Int) = 0) by decide, show ¬ ((3 : Int) = 1) by decide,
      show ¬ ((3 : Int) = 2) by decide, if_false, if_true, or_self]
    rw [hL, filterMap_range_of_none _ _ (fun j => capsuleRecord_none sqrtF true _ _ _ _ _),
      filterMap_range_of_none _ _ (fun j => capsuleRecord_none sqrtF false _ _ _ _ _)]
    exact ⟨rfl, rfl⟩

/-- Whatever the shape, the records `Calc_r` produces carry their own
position as index. -/
theorem Calc_r_first (K : KernelData α) (sqrtF : α → α) (COM0 : Vec3 α) (STM0 : α)
    (P : List (Vec3 α)) (i : Nat) (t : Int) (k : Nat)
    (hk : k < (Calc_r K sqrtF COM0 STM0 P i t).rCA.length) :
    recFirst (Calc_r K sqrtF COM0 STM0 P i t).rCA k = k := by
  by_cases hshape : K.BoundaryShape = 0 ∨ K.BoundaryShape = 1 ∨ K.BoundaryShape = 2 ∨
      K.BoundaryShape = 3
  · by_cases hcap : degenerateCapsule K sqrtF i
    · rw [(Calc_r_degenerate K sqrtF COM0 STM0 P i t hcap).1] at hk
      exact absurd hk (Nat.not_lt_zero _)
    · obtain ⟨hlen, hfirst⟩ := Calc_r_layout K sqrtF COM0 STM0 P i t hshape hcap
      exact hfirst k (by rw [← hlen]; exact hk)
  · have hnil : (Calc_r K sqrtF COM0 STM0 P i t).rCA = [] := by
      push_neg at hshape
      unfold Calc_r
      simp only [hshape.1, hshape.2.1, hshape.2.2.1, hshape.2.2.2, if_false, List.map_nil]
    rw [hnil] at hk
    exact absurd hk (Nat.not_lt_zero _)

end LayoutLemmas

section FloorLemmas
variable {α : Type} [LinearOrderedField α]

/-- A record of the original-order list that no zero-distance record of
the sorted list points to is left alone by the zero-distance loop. -/
theorem floorLoop_getD_orig (k : Nat) (js : List Nat) (re orig : List (Nat × α))
    (hjs : js.Nodup)
    (H : ∀ j ∈ js, recSecond re j = 0 → recFirst re j ≠ k) :
    (floorLoop js re orig).2.getD k (0, 0) = orig.getD k (0, 0) := by
  induction js generalizing re orig with
  | nil => rfl
  | cons j js ih =>
    have hnd := List.nodup_cons.mp hjs
    unfold floorLoop
    simp only
    split_ifs with h1 h2
    · rfl
    · have hk : recFirst re j ≠ k := H j (List.mem_cons_self j js) h2
      rw [ih _ _ hnd.2]
      · simp only [List.getD_eq_getElem?_getD, List.getElem?_set]
        rw [if_neg hk]
      · intro j' hj' h0
        have hne : j ≠ j' := fun h => hnd.1 (h ▸ hj')
        have hget : ∀ x : Nat × α, (re.set j x).getD j' (0, 0) = re.getD j' (0, 0) := by
          intro x
          simp only [List.getD_eq_getElem?_getD, List.getElem?_set]
          rw [if_neg hne]
        unfold recSecond at h0
        unfold recFirst
        rw [hget] at h0 ⊢
        exact H j' (List.mem_cons_of_mem j hj') h0
    · exact ih _ _ hnd.2 fun j' hj' h0 => H j' (List.mem_cons_of_mem j hj') h0

/-- Every record of the sorted list is the record of its own molecule in
the original-order list, when record `q` of that list carries index `q`. -/
theorem sortByDistance_consistent (rCA : List (Nat × α))
    (hfirst : ∀ q, q < rCA.length → recFirst rCA q = q) (p : Nat)
    (hp : p < (sortByDistance rCA).length) :
    recSecond rCA (recFirst (sortByDistance rCA) p) = recSecond (sortByDistance rCA) p := by
  have hmem : (sortByDistance rCA).getD p (0, 0) ∈ rCA :=
    (List.perm_insertionSort _ rCA).subset (getD_mem_of_lt _ p _ hp)
  obtain ⟨q, hq, hqe⟩ := List.getElem_of_mem hmem
  have hq1 : recFirst rCA q = q := hfirst q hq
  unfold recFirst recSecond at *
  rw [List.getD_eq_getElem _ _ hq, hqe] at hq1
  rw [hq1, List.getD_eq_getElem _ _ hq, hqe]

/-- The zero-distance loop of `execute` leaves every non-zero distance of
the original-order records as `Calc_r` computed it. -/
theorem floorZero_nonzero (rCA : List (Nat × α))
    (hfirst : ∀ q, q < rCA.length → recFirst rCA q = q) (k : Nat)
    (hk : recSecond rCA k ≠ 0) :
    recSecond (floorZero (sortByDistance rCA) rCA).2 k = recSecond rCA k := by
  unfold floorZero
  unfold recSecond
  rw [floorLoop_getD_orig k _ _ _ (List.nodup_range _)]
  intro j hj h0 hjk
  apply hk
  rw [← hjk, sortByDistance_consistent rCA hfirst j (List.mem_range.mp hj)]
  exact h0

end FloorLemmas

section DirectForceTheorems
variable {α : Type} [LinearOrderedField α]

theorem sum_map_ite_single {β : Type} [AddCommMonoid β] (n : Nat) (idx : Nat → Nat)
    (v : Nat → β) (j : Nat) (hj : j < n)
    (hinj : ∀ a b, a < n → b < n → a ≠ b → idx a ≠ idx b) :
    ((List.range n).map fun a => if idx a = idx j then v a else 0).sum = v j := by
  rw [sum_map_range]
  rw [Finset.sum_eq_single j]
  · simp
  · intro b hb hbj
    rw [if_neg (hinj b j (Finset.mem_range.mp hb) hj hbj)]
  · intro h
    exact absurd (Finset.mem_range.mpr hj) h

theorem sum_map_ite_none {β : Type} [AddCommMonoid β] (n : Nat) (idx : Nat → Nat)
    (v : Nat → β) (x : Nat) (hx : ∀ a, a < n → idx a ≠ x) :
    ((List.range n).map fun a => if idx a = x then v a else 0).sum = 0 := by
  rw [sum_map_range]
  exact Finset.sum_eq_zero fun a ha => if_neg (hx a (Finset.mem_range.mp ha))

/-- Entry `j` of `ForceList` for an explicit dragged atom: the unit
displacement `rCenter_Atom_Vec[j] / rCenter_Atom[j].second` times
`df_dr[j]`. -/
theorem getD_buildForceList_nonneg (K : KernelData α) (i : Nat) (AD : Int) (n NAtoms : Nat)
    (rCA : List (Nat × α)) (rCA_Vec : List (Vec3 α)) (df : List α) (j : Nat) (hAD : 0 ≤ AD)
    (hj : j < n) (hlen : rCA_Vec.length = rCA.length) :
    (buildForceList AD n NAtoms (Calc_dr K i AD rCA rCA_Vec) df).getD j (0, 0, 0) =
      (((rCA_Vec.getD j (0, 0, 0)).1 / recSecond rCA j * df.getD j 0,
        (rCA_Vec.getD j (0, 0, 0)).2.1 / recSecond rCA j * df.getD j 0,
        (rCA_Vec.getD j (0, 0, 0)).2.2 / recSecond rCA j * df.getD j 0) : Vec3 α) := by
  unfold buildForceList Calc_dr
  rw [if_pos hAD, if_pos hAD, getD_map_range _ n j _ hj]
  by_cases hjr : j < rCA.length
  · rw [getD_map_range _ _ j _ hjr]
  · rw [List.getD_eq_default _ _ (by simpa using not_lt.mp hjr)]
    rw [List.getD_eq_default rCA_Vec _ (by rw [hlen]; exact not_lt.mp hjr)]
    simp

theorem Calc_r_length_Vec (K : KernelData α) (sqrtF : α → α) (COM0 : Vec3 α) (STM0 : α)
    (P : List (Vec3 α)) (i : Nat) (t : Int) :
    (Calc_r K sqrtF COM0 STM0 P i t).rCA_Vec.length = (Calc_r K sqrtF COM0 STM0 P i t).rCA.length := by
  unfold Calc_r
  simp

theorem floorLoop_length (js : List Nat) (re orig : List (Nat × α)) :
    (floorLoop js re orig).1.length = re.length ∧
    (floorLoop js re orig).2.length = orig.length := by
  induction js generalizing re orig with
  | nil => exact ⟨rfl, rfl⟩
  | cons j js ih =>
    unfold floorLoop
    simp only
    split_ifs
    · exact ⟨rfl, rfl⟩
    · obtain ⟨h1, h2⟩ := ih (re.set j (recFirst re j, 1.0e-8))
        (orig.set (recFirst re j) (recFirst orig (recFirst re j), 1.0e-8))
      exact ⟨by rw [h1, List.length_set], by rw [h2, List.length_set]⟩
    · exact ih re orig

/-- The direct forces of an explicit dragged atom, entry by entry. -/
theorem applyDirect_getD_nonneg (K : KernelData α) (i : Nat) (AD : Int) (FL F : List (Vec3 α))
    (hAD : 0 ≤ AD) (x : Nat) (hx : x < F.length) :
    (applyDirect K i AD FL F).getD x 0 = F.getD x 0 +
      ((List.range ((K.qm i).length + (K.mm i).length)).map fun j =>
        if (groupMolecule K i j).Indices.getD AD.toNat 0 = x then
          ((Coe K.T * (FL.getD j (0, 0, 0)).1, Coe K.T * (FL.getD j (0, 0, 0)).2.1,
            Coe K.T * (FL.getD j (0, 0, 0)).2.2) : Vec3 α)
        else 0).sum := by
  unfold applyDirect
  simp only [if_pos hAD]
  exact foldl_addAt_getD (fun j => (groupMolecule K i j).Indices.getD AD.toNat 0)
    (fun j => ((Coe K.T * (FL.getD j (0, 0, 0)).1, Coe K.T * (FL.getD j (0, 0, 0)).2.1,
            Coe K.T * (FL.getD j (0, 0, 0)).2.2) : Vec3 α)) _ F x hx

theorem applyDirect_length_nonneg (K : KernelData α) (i : Nat) (AD : Int)
    (FL F : List (Vec3 α)) (hAD : 0 ≤ AD) :
    (applyDirect K i AD FL F).length = F.length := by
  unfold applyDirect
  simp only [if_pos hAD]
  exact foldl_addAt_length (fun j => (groupMolecule K i j).Indices.getD AD.toNat 0)
    (fun j => ((Coe K.T * (FL.getD j (0, 0, 0)).1, Coe K.T * (FL.getD j (0, 0, 0)).2.1,
            Coe K.T * (FL.getD j (0, 0, 0)).2.2) : Vec3 α)) _ F

/-- C3: for a fixed-centre boundary (shape 1 or 3), an explicit dragged
atom `a ≥ 0` and molecules whose dragged atoms `Indices[a]` are distinct
atoms of the buffer, a successful evaluation of one group adds to the
force of atom `Indices[a]` of every molecule `j` exactly
`Coe * ((1/numerator) dNumerator/dR_j - (1/denominator) dDenominator/dR_j)
* (v_j / r_j)`, with `v_j = rCenter_Atom_Vec[j]` the displacement of the
molecule from the boundary and `r_j = rCenter_Atom[j].second` the distance
the record of the molecule holds when the derivatives are taken, and adds
nothing to any other atom; that distance is the one `Calc_r` computed
whenever the latter is not zero. -/
theorem C3_direct_force (K : KernelData α) (expF sqrtF : α → α) (COM0 : Vec3 α)
    (STM0 : α) (Positions Force : List (Vec3 α)) (i : Nat) (r : GroupEval α)
    (hev : evalGroup K expF sqrtF COM0 STM0 Positions i = .ok r)
    (hshape : K.BoundaryShape = 1 ∨ K.BoundaryShape = 3)
    (hAD : 0 ≤ r.AtomDragged)
    (hdistinct : ∀ j j', j < (K.qm i).length + (K.mm i).length →
      j' < (K.qm i).length + (K.mm i).length → j ≠ j' →
      (groupMolecule K i j).Indices.getD r.AtomDragged.toNat 0 ≠
        (groupMolecule K i j').Indices.getD r.AtomDragged.toNat 0)
    (hidx : ∀ j, j < (K.qm i).length + (K.mm i).length →
      (groupMolecule K i j).Indices.getD r.AtomDragged.toNat 0 < Force.length) :
    (∀ j, j < (K.qm i).length + (K.mm i).length →
      (applyGroupForces K i r Force).getD
          ((groupMolecule K i j).Indices.getD r.AtomDragged.toNat 0) 0 =
        Force.getD ((groupMolecule K i j).Indices.getD r.AtomDragged.toNat 0) 0 +
          ((Coe K.T * ((1 / r.NumeVal * r.dNume_dr.getD j 0
                - 1 / r.DenVal * r.dDen_dr.getD j 0)
              * ((r.rCenter_Atom_Vec.getD j (0, 0, 0)).1 / recSecond r.rCenter_Atom j)),
            Coe K.T * ((1 / r.NumeVal * r.dNume_dr.getD j 0
                - 1 / r.DenVal * r.dDen_dr.getD j 0)
              * ((r.rCenter_Atom_Vec.getD j (0, 0, 0)).2.1 / recSecond r.rCenter_Atom j)),
            Coe K.T * ((1 / r.NumeVal * r.dNume_dr.getD j 0
                - 1 / r.DenVal * r.dDen_dr.getD j 0)
              * ((r.rCenter_Atom_Vec.getD j (0, 0, 0)).2.2 / recSecond r.rCenter_Atom j)))
            : Vec3 α)) ∧
    (∀ x, (∀ j, j < (K.qm i).length + (K.mm i).length →
        (groupMolecule K i j).Indices.getD r.AtomDragged.toNat 0 ≠ x) →
      (applyGroupForces K i r Force).getD x 0 = Force.getD x 0) ∧
    (∀ j, recSecond (Calc_r K sqrtF COM0 STM0 Positions i r.AtomDragged).rCA j ≠ 0 →
      recSecond r.rCenter_Atom j =
        recSecond (Calc_r K sqrtF COM0 STM0 Positions i r.AtomDragged).rCA j) := by
  obtain ⟨_, _, hvec, hrc, hdr, hdf, hFL⟩ :=
    evalGroup_ok_fields K expF sqrtF COM0 STM0 Positions i r hev
  have hnot : ¬ (K.BoundaryShape = 0 ∨ K.BoundaryShape = 2) := by
    rcases hshape with h | h <;> rw [h] <;> decide
  have happ : applyGroupForces K i r Force = applyDirect K i r.AtomDragged r.ForceList Force := by
    unfold applyGroupForces
    simp only [if_neg hnot]
  have hlen : r.rCenter_Atom_Vec.length = r.rCenter_Atom.length := by
    rw [hrc, hvec, Calc_r_length_Vec]
    exact ((floorLoop_length _ _ _).2).symm
  rw [happ]
  refine ⟨?_, ?_, ?_⟩
  · intro j hj
    rw [applyDirect_getD_nonneg K i _ _ _ hAD _ (hidx j hj),
      sum_map_ite_single _ _ _ j hj hdistinct]
    congr 1
    rw [hFL, hdr, getD_buildForceList_nonneg K i _ _ _ _ _ _ j hAD hj hlen, hdf,
      getD_map_range _ _ j _ hj]
    refine Prod.ext ?_ (Prod.ext ?_ ?_) <;> simp only <;> ring
  · intro x hx
    by_cases hxl : x < Force.length
    · rw [applyDirect_getD_nonneg K i _ _ _ hAD _ hxl, sum_map_ite_none _ _ _ x hx, add_zero]
    · rw [List.getD_eq_default _ _ (by
          rw [applyDirect_length_nonneg K i _ _ _ hAD]; exact not_lt.mp hxl),
        List.getD_eq_default _ _ (not_lt.mp hxl)]
  · intro j hj
    rw [hrc]
    exact floorZero_nonzero _
      (fun q hq => Calc_r_first K sqrtF COM0 STM0 Positions i r.AtomDragged q hq) j hj

end DirectForceTheorems

section ExampleRun

theorem sqrt_four : Real.sqrt 4 = 2 := by
  rw [show (4 : ℝ) = 2 ^ 2 by norm_num]
  exact Real.sqrt_sq (by norm_num)

theorem example_chooseAtomDragged (shape : Int) :
    chooseAtomDragged (exampleKernel shape : KernelData ℝ) Real.sqrt examplePositions 0 = 0 := by
  simp [chooseAtomDragged, exampleKernel]

theorem example_Calc_r_rCA (shape : Int) (hs : shape = 0 ∨ shape = 1) (COM0 : Vec3 ℝ) (STM0 : ℝ) :
    (Calc_r (exampleKernel shape : KernelData ℝ) Real.sqrt COM0 STM0 examplePositions 0 0).rCA
      = [(0, 1), (1, 2)] ∧
    (Calc_r (exampleKernel shape : KernelData ℝ) Real.sqrt COM0 STM0 examplePositions 0 0).rCA_Vec
      = [(-1, 0, 0), (2, 0, 0)] := by
  rcases hs with hs | hs
  · subst hs
    simp [Calc_r, exampleKernel, examplePositions, systemCOM, sphereRecordCOM, moleculePoint,
      KernelData.qm, KernelData.mm, coordAt, List.range_succ]
    norm_num [sqrt_four]
  · subst hs
    simp [Calc_r, exampleKernel, examplePositions, sphereRecord, moleculePoint,
      KernelData.qm, KernelData.mm, KernelData.param, coordAt, List.range_succ]
    norm_num [sqrt_four]

theorem example_sort :
    sortByDistance [(0, (1 : ℝ)), (1, 2)] = [(0, 1), (1, 2)] := by
  simp [sortByDistance, List.insertionSort, List.orderedInsert]

theorem example_floor :
    floorZero [(0, (1 : ℝ)), (1, 2)] [(0, (1 : ℝ)), (1, 2)]
      = ([(0, 1), (1, 2)], [(0, 1), (1, 2)]) := by
  simp [floorZero, floorLoop, recSecond, List.range_succ]

theorem example_table :
    gExpPartTable (1 : ℝ) 2 [(0, 1), (1, 2)]
      = [[⟨0, 0⟩, ⟨0, 0⟩], [⟨1 / 2, 5 / 4⟩, ⟨0, 0⟩]] := by
  norm_num [gExpPartTable, CalcPairExpPart, recSecond, List.range_succ]

theorem example_hList :
    hList Real.exp 1 1 [[⟨0, 0⟩, ⟨0, 0⟩], [⟨1 / 2, 5 / 4⟩, ⟨0, 0⟩]] [(0, (1 : ℝ)), (1, 2)]
      = [Real.exp (-(1 / 2)), Real.exp (-(1 / 2))] := by
  simp [hList, gAt, recFirst, List.range_succ, List.range']

theorem example_nume (h : ℝ) :
    CalcPenalFunc Real.exp 0 [0, 1] 1 [[⟨0, 0⟩, ⟨0, 0⟩], [⟨1 / 2, 5 / 4⟩, ⟨0, 0⟩]] [0, 0]
      [(0, (1 : ℝ)), (1, 2)] h 0 = (1, [0, 0]) := by
  simp [CalcPenalFunc, gAt, recFirst, addAt, List.range_succ, List.range']

theorem example_weight_not_lt : ¬ Real.exp (-(1 / 2)) < (1.0e-5 : ℝ) := by
  have h := Real.add_one_le_exp (-(1 / 2) : ℝ)
  norm_num at h ⊢
  linarith

theorem example_denominatorAt :
    denominatorAt Real.exp 0 1 1 [[⟨0, 0⟩, ⟨0, 0⟩], [⟨1 / 2, 5 / 4⟩, ⟨0, 0⟩]]
      [(0, (1 : ℝ)), (1, 2)] [Real.exp (-(1 / 2)), Real.exp (-(1 / 2))] 1.0e-5
      = (1, [0, 0]) := by
  have hw : ¬ Real.exp (-(2 : ℝ)⁻¹) < 1.0e-5 := by
    rw [show (-(2 : ℝ)⁻¹) = -(1 / 2) by norm_num]
    exact example_weight_not_lt
  have hlb : ImpQMlb [Real.exp (-(1 / 2)), Real.exp (-(1 / 2))] 1 (1.0e-5 : ℝ) = 0 := by
    simp [ImpQMlb, List.range_succ, hw]
  have hub : ImpMMub [Real.exp (-(1 / 2)), Real.exp (-(1 / 2))] 1 1 (1.0e-5 : ℝ) = 0 := by
    simp [ImpMMub, List.range', hw]
  have hper : perfect ((1 : Int) - (0 : Nat)) (0 - ((1 : Int) - 1)) = ['1'] := by
    simp [perfect, List.range_succ]
  have hle : (1.0e-5 : ℝ) ≤ 1 := by norm_num
  simp only [denominatorAt, hlb, hub, Nat.cast_one, hper]
  simp [ProdChild, searchFuel, ProdChildAux, nodeSeq, FindRepeat, mergeDer, CalcPenalFunc,
    gAt, recFirst, addAt, List.range_succ, List.range', hle]

end ExampleRun
section ExampleRun2

theorem example_evalGroup (shape : Int) (hs : shape = 0 ∨ shape = 1) (COM0 : Vec3 ℝ)
    (STM0 : ℝ) :
    ∃ r, evalGroup (exampleKernel shape : KernelData ℝ) Real.exp Real.sqrt COM0 STM0
        examplePositions 0 = .ok r ∧
      r.AtomDragged = 0 ∧ r.NumeVal = 1 ∧ r.DenVal = 1 := by
  have hfields : (exampleKernel shape : KernelData ℝ).FlexiBLEMaxIt.getD 0 0 = 10 ∧
      (exampleKernel shape : KernelData ℝ).IterScales.getD 0 0 = 0.5 ∧
      (exampleKernel shape : KernelData ℝ).hThre.getD 0 0 = 1.0e-5 ∧
      (exampleKernel shape : KernelData ℝ).Coefficients.getD 0 0 = 1 ∧
      ((exampleKernel shape : KernelData ℝ).qm 0).length = 1 ∧
      ((exampleKernel shape : KernelData ℝ).mm 0).length = 1 ∧
      (exampleKernel shape : KernelData ℝ).CutoffMethod = 0 ∧
      (exampleKernel shape : KernelData ℝ).EnableTestOutput = 0 := by
    simp [exampleKernel, KernelData.qm, KernelData.mm]
  obtain ⟨h1, h2, h3, h4, h5, h6, h7, h8⟩ := hfields
  have hden : denLoop Real.exp 0 1 1 [[⟨0, 0⟩, ⟨0, 0⟩], [⟨1 / 2, 5 / 4⟩, ⟨0, 0⟩]]
      [(0, (1 : ℝ)), (1, 2)] [Real.exp (-(1 / 2)), Real.exp (-(1 / 2))] 0.5 1.0e-5
      10 1 1.0e-5 0 = .ok (1, [0, 0]) := by
    simp only [denLoop, example_denominatorAt, if_true]
  have hrange : List.range 2 = [0, 1] := by simp [List.range_succ]
  have h11 : (1 + 1 : Nat) = 2 := rfl
  simp only [evalGroup, example_chooseAtomDragged, (example_Calc_r_rCA shape hs COM0 STM0).1,
    (example_Calc_r_rCA shape hs COM0 STM0).2, example_sort, example_floor, h1, h2, h3, h4, h5,
    h6, h7, h8, h11, example_table, example_hList, hrange, List.replicate, example_nume]
  have hnum : ¬ (|(1 : ℝ)| < 1.0e-14 ∧ True) := by norm_num
  rw [if_neg hnum]
  have h10 : (10 : Int).toNat = 10 := rfl
  rw [convergenceLoop, if_neg (by decide), h10, hden]
  exact ⟨_, rfl, rfl, rfl, rfl⟩

end ExampleRun2

section Witnesses

theorem example_groupMolecule (shape : Int) (j : Nat)
    (hj : j < ((exampleKernel shape : KernelData ℝ).qm 0).length
      + ((exampleKernel shape : KernelData ℝ).mm 0).length) :
    (groupMolecule (exampleKernel shape : KernelData ℝ) 0 j).Indices = [j] := by
  have hj2 : j < 2 := by
    simpa [exampleKernel, KernelData.qm, KernelData.mm] using hj
  interval_cases j <;> simp [groupMolecule, exampleKernel, KernelData.qm, KernelData.mm]

/-- Witness of C3: the two-atom example with the fixed-point sphere
(shape 1) evaluates successfully, and the force added to the dragged atom
of each molecule is the stated product. -/
theorem C3_direct_force_witness :
    ∃ r, evalGroup (exampleKernel 1 : KernelData ℝ) Real.exp Real.sqrt (0, 0, 0) 0
        examplePositions 0 = .ok r ∧
      (applyGroupForces (exampleKernel 1 : KernelData ℝ) 0 r [(1, 2, 3), (4, 5, 6)]).getD
          ((groupMolecule (exampleKernel 1 : KernelData ℝ) 0 1).Indices.getD
            r.AtomDragged.toNat 0) 0 =
        ([(1, 2, 3), (4, 5, 6)] : List (Vec3 ℝ)).getD
            ((groupMolecule (exampleKernel 1 : KernelData ℝ) 0 1).Indices.getD
              r.AtomDragged.toNat 0) 0 +
          ((Coe (exampleKernel 1 : KernelData ℝ).T *
              ((1 / r.NumeVal * r.dNume_dr.getD 1 0 - 1 / r.DenVal * r.dDen_dr.getD 1 0)
                * ((r.rCenter_Atom_Vec.getD 1 (0, 0, 0)).1 / recSecond r.rCenter_Atom 1)),
            Coe (exampleKernel 1 : KernelData ℝ).T *
              ((1 / r.NumeVal * r.dNume_dr.getD 1 0 - 1 / r.DenVal * r.dDen_dr.getD 1 0)
                * ((r.rCenter_Atom_Vec.getD 1 (0, 0, 0)).2.1 / recSecond r.rCenter_Atom 1)),
            Coe (exampleKernel 1 : KernelData ℝ).T *
              ((1 / r.NumeVal * r.dNume_dr.getD 1 0 - 1 / r.DenVal * r.dDen_dr.getD 1 0)
                * ((r.rCenter_Atom_Vec.getD 1 (0, 0, 0)).2.2 / recSecond r.rCenter_Atom 1)))
            : Vec3 ℝ) := by
  obtain ⟨r, hr, hAD, _, _⟩ := example_evalGroup 1 (Or.inr rfl) (0, 0, 0) 0
  refine ⟨r, hr, (C3_direct_force (exampleKernel 1) Real.exp Real.sqrt (0, 0, 0) 0
    examplePositions [(1, 2, 3), (4, 5, 6)] 0 r hr (Or.inl rfl) ?_ ?_ ?_).1 1 ?_⟩
  · rw [hAD]
  · intro j j' hj hj' hne
    rw [hAD, example_groupMolecule 1 j hj, example_groupMolecule 1 j' hj']
    simpa using hne
  · intro j hj
    rw [hAD, example_groupMolecule 1 j hj]
    have hj2 : j < 2 := by
      simpa [exampleKernel, KernelData.qm, KernelData.mm] using hj
    simpa using hj2
  · simp [exampleKernel, KernelData.qm, KernelData.mm]

/-- Witness of C2: `execute` succeeds on the two-atom example with the
fixed-point sphere, and the energy it returns is the stated sum. -/
theorem C2_execute_energy_witness :
    ∃ E, (execute (exampleKernel 1 : KernelData ℝ) Real.exp Real.sqrt Real.log
        examplePositions [(0, 0, 0), (0, 0, 0)] true true).outcome = .ok E ∧
      E = ((qualifyingGroups (exampleKernel 1 : KernelData ℝ)).map fun i =>
        -(1.3807e-23 * (exampleKernel 1 : KernelData ℝ).T * 6.02214179e+23 / 1000) *
          Real.log ((groupNumeDen (exampleKernel 1) Real.exp Real.sqrt examplePositions i).1
            / (groupNumeDen (exampleKernel 1) Real.exp Real.sqrt examplePositions i).2)).sum := by
  obtain ⟨r, hr, _, _, _⟩ := example_evalGroup 1 (Or.inr rfl) (0, 0, 0) 0
  have hout : (execute (exampleKernel 1 : KernelData ℝ) Real.exp Real.sqrt Real.log
      examplePositions [(0, 0, 0), (0, 0, 0)] true true).outcome
        = .ok (0 + groupEnergy (exampleKernel 1) Real.log r) := by
    have hl : List.range (exampleKernel 1 : KernelData ℝ).QMGroups.length = [0] := by
      simp [exampleKernel, List.range_succ]
    have hq : ((exampleKernel 1 : KernelData ℝ).qm 0).length ≠ 0 ∧
        ((exampleKernel 1 : KernelData ℝ).mm 0).length ≠ 0 := by
      simp [exampleKernel, KernelData.qm, KernelData.mm]
    unfold execute
    simp only [hl, executeLoop, if_pos hq, hr]
  exact ⟨_, hout, (C2_execute_energy (exampleKernel 1) Real.exp Real.sqrt Real.log
    examplePositions [(0, 0, 0), (0, 0, 0)] true true _ hout).2⟩

end Witnesses


section SortTheorems
variable {α : Type} [LinearOrderedField α]

theorem sortByDistance_perm (l : List (Nat × α)) : (sortByDistance l).Perm l :=
  List.perm_insertionSort _ l

theorem sortByDistance_sorted (l : List (Nat × α)) :
    List.Sorted (fun a b : Nat × α => a.2 ≤ b.2) (sortByDistance l) := by
  haveI : IsTotal (Nat × α) (fun a b => a.2 ≤ b.2) := ⟨fun a b => le_total a.2 b.2⟩
  haveI : IsTrans (Nat × α) (fun a b => a.2 ≤ b.2) := ⟨fun _ _ _ hab hbc => le_trans hab hbc⟩
  exact List.sorted_insertionSort _ l

/-- The records of one distance appear in the sorted list in the order
they have in the original list. -/
theorem sortByDistance_filter_eq (l : List (Nat × α)) (d : α) :
    (sortByDistance l).filter (fun x => decide (x.2 = d))
      = l.filter (fun x => decide (x.2 = d)) := by
  have hpw : (l.filter (fun x => decide (x.2 = d))).Pairwise (fun a b : Nat × α => a.2 ≤ b.2) := by
    rw [List.pairwise_iff_forall_sublist]
    intro a b hab
    have ha := hab.subset (List.mem_cons_self a [b])
    have hb := hab.subset (List.mem_cons_of_mem a (List.mem_singleton_self b))
    simp only [List.mem_filter, decide_eq_true_eq] at ha hb
    rw [ha.2, hb.2]
  have hsub : List.Sublist (l.filter (fun x => decide (x.2 = d))) (sortByDistance l) :=
    List.sublist_insertionSort hpw (List.filter_sublist l)
  have hsub2 := hsub.filter (fun x => decide (x.2 = d))
  rw [List.filter_filter] at hsub2
  simp only [Bool.and_self] at hsub2
  have hlen := ((sortByDistance_perm l).filter (fun x => decide (x.2 = d))).length_eq
  exact (hsub2.eq_of_length hlen.symm).symm

/-- C11: the distance-sorted record list built by `execute` is a stable
permutation of the original-order records: it is a permutation of them
(same multiset of `(originalIndex, distance)` records), it is
non-decreasing in distance, and records of equal distance keep their
original relative order (the records of any one distance form the same
list, in the same order, before and after sorting). -/
theorem C11_sort_stable_permutation (rCenter_Atom : List (Nat × α)) :
    (sortByDistance rCenter_Atom).Perm rCenter_Atom ∧
    (∀ p q, p < q → q < (sortByDistance rCenter_Atom).length →
      recSecond (sortByDistance rCenter_Atom) p ≤ recSecond (sortByDistance rCenter_Atom) q) ∧
    (∀ d : α, (sortByDistance rCenter_Atom).filter (fun x => decide (x.2 = d))
      = rCenter_Atom.filter (fun x => decide (x.2 = d))) ∧
    (∀ a b : Nat × α, a.2 = b.2 → List.Sublist [a, b] rCenter_Atom →
      List.Sublist [a, b] (sortByDistance rCenter_Atom)) := by
  refine ⟨sortByDistance_perm _, ?_, sortByDistance_filter_eq _, ?_⟩
  · intro p q hpq hq
    have hs := sortByDistance_sorted rCenter_Atom
    have hp : p < (sortByDistance rCenter_Atom).length := lt_trans hpq hq
    unfold recSecond
    rw [List.getD_eq_getElem _ _ hp, List.getD_eq_getElem _ _ hq]
    exact List.pairwise_iff_getElem.mp hs p q hp hq hpq
  · intro a b hab hsub
    exact List.pair_sublist_insertionSort (le_of_eq hab) hsub

end SortTheorems

section FloorTheorems
variable {α : Type} [LinearOrderedField α]

/-- The zero-distance loop only writes the positions of the sorted list it
visits. -/
theorem floorLoop_getD_re (j0 : Nat) (js : List Nat) (re orig : List (Nat × α))
    (hj0 : j0 ∉ js) :
    (floorLoop js re orig).1.getD j0 (0, 0) = re.getD j0 (0, 0) := by
  induction js generalizing re orig with
  | nil => rfl
  | cons j js ih =>
    have hne : j ≠ j0 := fun h => hj0 (h ▸ List.mem_cons_self j js)
    have hnot : j0 ∉ js := fun h => hj0 (List.mem_cons_of_mem j h)
    unfold floorLoop
    simp only
    split_ifs
    · rfl
    · rw [ih _ _ hnot]
      simp only [List.getD_eq_getElem?_getD, List.getElem?_set]
      rw [if_neg hne]
    · exact ih _ _ hnot

/-- A record of the original-order list that holds the floor value keeps
it through the zero-distance loop. -/
theorem floorLoop_orig_floor (k : Nat) (js : List Nat) (re orig : List (Nat × α))
    (hk : recSecond orig k = 1.0e-8) :
    recSecond (floorLoop js re orig).2 k = 1.0e-8 := by
  induction js generalizing re orig with
  | nil => exact hk
  | cons j js ih =>
    unfold floorLoop
    simp only
    split_ifs
    · exact hk
    · apply ih
      unfold recSecond at hk ⊢
      simp only [List.getD_eq_getElem?_getD, List.getElem?_set] at hk ⊢
      split_ifs with h1 h2
      · rfl
      · rw [← h1] at hk
        rw [List.getElem?_eq_none (not_lt.mp h2)] at hk
        exact hk
      · exact hk
    · exact ih _ _ hk

/-- C12 (as stated) fails: for the sorted distances `0` and `1e-9` the
first distance becomes `1e-8`, although one-tenth of the next-smallest
distance, `1e-10`, is smaller. -/
theorem C12_floor_counterexample :
    sortByDistance [(0, (0 : ℚ)), (1, 1 / 10 ^ 9)] = [(0, 0), (1, 1 / 10 ^ 9)] ∧
    recSecond (floorZero (sortByDistance [(0, (0 : ℚ)), (1, 1 / 10 ^ 9)])
      [(0, 0), (1, 1 / 10 ^ 9)]).1 0 = 1 / 10 ^ 8 ∧
    recSecond (sortByDistance [(0, (0 : ℚ)), (1, 1 / 10 ^ 9)]) 1 / 10 < 1 / 10 ^ 8 ∧
    recSecond (floorZero (sortByDistance [(0, (0 : ℚ)), (1, 1 / 10 ^ 9)])
      [(0, 0), (1, 1 / 10 ^ 9)]).1 0 ≠
      recSecond (sortByDistance [(0, (0 : ℚ)), (1, 1 / 10 ^ 9)]) 1 / 10 := by
  have hs : sortByDistance [(0, (0 : ℚ)), (1, 1 / 10 ^ 9)] = [(0, 0), (1, 1 / 10 ^ 9)] := by
    norm_num [sortByDistance, List.insertionSort, List.orderedInsert]
  have hf : recSecond (floorZero [(0, (0 : ℚ)), (1, 1 / 10 ^ 9)]
      [(0, 0), (1, 1 / 10 ^ 9)]).1 0 = 1 / 10 ^ 8 := by
    norm_num [floorZero, floorLoop, recSecond, recFirst, List.range_succ]
  rw [hs, hf]
  refine ⟨rfl, rfl, ?_, ?_⟩ <;> norm_num [recSecond]

/-- C12 (amended): if the smallest sorted distance of a group is exactly
zero, `execute` replaces it by `1e-8`, in the sorted list and in the record
of the same molecule of the original-order list, before the distance
derivatives are computed (`Calc_dr` is given the lists this loop returns);
the index stored in the record is kept. -/
theorem C12_floor_smallest (rCenter_Atom : List (Nat × α))
    (hfirst : ∀ q, q < rCenter_Atom.length → recFirst rCenter_Atom q = q)
    (hne : 0 < rCenter_Atom.length)
    (hzero : recSecond (sortByDistance rCenter_Atom) 0 = 0) :
    recSecond (floorZero (sortByDistance rCenter_Atom) rCenter_Atom).1 0 = 1.0e-8 ∧
    recFirst (floorZero (sortByDistance rCenter_Atom) rCenter_Atom).1 0
      = recFirst (sortByDistance rCenter_Atom) 0 ∧
    recSecond (floorZero (sortByDistance rCenter_Atom) rCenter_Atom).2
      (recFirst (sortByDistance rCenter_Atom) 0) = 1.0e-8 := by
  have hlen : (sortByDistance rCenter_Atom).length = rCenter_Atom.length :=
    (List.perm_insertionSort _ rCenter_Atom).length_eq
  have hrange : List.range (sortByDistance rCenter_Atom).length
      = 0 :: List.range' 1 ((sortByDistance rCenter_Atom).length - 1) := by
    rw [List.range_eq_range']
    have h1 : (sortByDistance rCenter_Atom).length
        = ((sortByDistance rCenter_Atom).length - 1) + 1 := by omega
    conv_lhs => rw [h1]
    rfl
  have hnot : ¬ (0 : α) < recSecond (sortByDistance rCenter_Atom) 0 := by rw [hzero]; simp
  have h0 : (0 : Nat) ∉ List.range' 1 ((sortByDistance rCenter_Atom).length - 1) := by
    intro h
    have := (List.mem_range'_1.mp h).1
    omega
  -- the record of the closest molecule in the original-order list
  have hmem : (sortByDistance rCenter_Atom).getD 0 (0, 0) ∈ rCenter_Atom :=
    (List.perm_insertionSort _ rCenter_Atom).subset
      (getD_mem_of_lt (sortByDistance rCenter_Atom) 0 _ (lt_of_lt_of_eq hne hlen.symm))
  obtain ⟨q, hq, hqe⟩ := List.getElem_of_mem hmem
  have hq1 : recFirst rCenter_Atom q = q := hfirst q hq
  have hk : recFirst (sortByDistance rCenter_Atom) 0 < rCenter_Atom.length := by
    unfold recFirst at hq1 ⊢
    rw [List.getD_eq_getElem _ _ hq, hqe] at hq1
    rw [hq1]
    exact hq
  unfold floorZero
  rw [hrange]
  unfold floorLoop
  simp only [if_neg hnot, if_pos hzero]
  refine ⟨?_, ?_, ?_⟩
  · unfold recSecond
    rw [floorLoop_getD_re 0 _ _ _ h0]
    simp [List.getD_eq_getElem?_getD, List.getElem?_set, hlen, hne]
  · unfold recFirst
    rw [floorLoop_getD_re 0 _ _ _ h0]
    simp [List.getD_eq_getElem?_getD, List.getElem?_set, hlen, hne]
  · apply floorLoop_orig_floor
    unfold recSecond
    simp [List.getD_eq_getElem?_getD, List.getElem?_set, hk]

/-- Witness of C12 (amended) on the sorted distances `0` and `1e-9`. -/
theorem C12_floor_smallest_witness :
    recSecond (floorZero (sortByDistance [(0, (0 : ℚ)), (1, 1 / 10 ^ 9)])
      [(0, 0), (1, 1 / 10 ^ 9)]).1 0 = 1.0e-8 ∧
    recFirst (floorZero (sortByDistance [(0, (0 : ℚ)), (1, 1 / 10 ^ 9)])
      [(0, 0), (1, 1 / 10 ^ 9)]).1 0
      = recFirst (sortByDistance [(0, (0 : ℚ)), (1, 1 / 10 ^ 9)]) 0 ∧
    recSecond (floorZero (sortByDistance [(0, (0 : ℚ)), (1, 1 / 10 ^ 9)])
      [(0, 0), (1, 1 / 10 ^ 9)]).2
      (recFirst (sortByDistance [(0, (0 : ℚ)), (1, 1 / 10 ^ 9)]) 0) = 1.0e-8 :=
  C12_floor_smallest [(0, (0 : ℚ)), (1, 1 / 10 ^ 9)]
    (by
      intro q hq
      have hq2 : q < 2 := hq
      interval_cases q <;> simp [recFirst])
    (by decide)
    (by norm_num [sortByDistance, List.insertionSort, List.orderedInsert, recSecond])

end FloorTheorems

section LayoutTheorems
variable {α : Type} [LinearOrderedField α]

theorem getD_append_range {β : Type} (a b : Nat) (f g : Nat → β) (dflt : β) (k : Nat)
    (hk : k < a + b) :
    ((List.range a).map f ++ (List.range b).map g).getD k dflt
      = if k < a then f k else g (k - a) := by
  by_cases hka : k < a
  · rw [if_pos hka, List.getD_append _ _ _ _ (by simpa using hka), getD_map_range _ a k _ hka]
  · have hle : a ≤ k := not_lt.mp hka
    rw [if_neg hka, List.getD_append_right _ _ _ _ (by simpa using hle)]
    simp only [List.length_map, List.length_range]
    rw [getD_map_range _ b (k - a) _ (by omega)]

/-- Position `k` of the output of `Calc_r` holds the record and the
displacement of molecule `k` of the joint numbering. -/
theorem Calc_r_getD (K : KernelData α) (sqrtF : α → α) (COM0 : Vec3 α) (STM0 : α)
    (P : List (Vec3 α)) (i : Nat) (t : Int)
    (hshape : K.BoundaryShape = 0 ∨ K.BoundaryShape = 1 ∨ K.BoundaryShape = 2 ∨
      K.BoundaryShape = 3)
    (hcap : ¬ degenerateCapsule K sqrtF i)
    (k : Nat) (hk : k < (K.qm i).length + (K.mm i).length) :
    ∃ x, moleculeRecord K sqrtF (Calc_r K sqrtF COM0 STM0 P i t).COM P i t k = some x ∧
      (Calc_r K sqrtF COM0 STM0 P i t).rCA.getD k (0, 0) = x.1 ∧
      (Calc_r K sqrtF COM0 STM0 P i t).rCA_Vec.getD k (0, 0, 0) = x.2 := by
  have hmap : ∀ (l : List ((Nat × α) × Vec3 α)) (x : (Nat × α) × Vec3 α),
      l.getD k ((0, 0), (0, 0, 0)) = x →
      (l.map Prod.fst).getD k (0, 0) = x.1 ∧ (l.map Prod.snd).getD k (0, 0, 0) = x.2 := by
    intro l x hx
    rw [← hx]
    simp only [List.getD_eq_getElem?_getD, List.getElem?_map]
    cases l[k]? <;> exact ⟨rfl, rfl⟩
  obtain ⟨hL2, hL3⟩ := capsuleLMod_ne K sqrtF i hcap
  unfold Calc_r moleculeRecord
  simp only
  rcases hshape with h | h | h | h
  · simp only [h, if_true, true_or]
    refine ⟨_, rfl, hmap _ _ ?_⟩
    rw [getD_append_range _ _ _ _ _ k hk]
    split_ifs with hq
    · rfl
    · have : k - (K.qm i).length + (K.qm i).length = k := by omega
      rw [this]
  · simp only [h, if_true, show ¬ ((1 : Int) = 0) by decide, if_false,
      show ¬ ((1 : Int) = 0 ∨ (1 : Int) = 2) by decide]
    refine ⟨_, rfl, hmap _ _ ?_⟩
    rw [getD_append_range _ _ _ _ _ k hk]
    split_ifs with hq
    · rfl
    · have : k - (K.qm i).length + (K.qm i).length = k := by omega
      rw [this]
  · simp only [h, if_true, show ¬ ((2 : Int) = 0) by decide, show ¬ ((2 : Int) = 1) by decide,
      if_false, or_true]
    rw [filterMap_range_of_some _ _ ((0, 0), (0, 0, 0)) (fun j => by
        obtain ⟨x, hx, _⟩ := capsuleRecord_some sqrtF true _ _ _ _ _ j (hL2 h)
        exact ⟨x, hx⟩),
      filterMap_range_of_some _ _ ((0, 0), (0, 0, 0)) (fun j => by
        obtain ⟨x, hx, _⟩ :=
          capsuleRecord_some sqrtF false _ _ _ _ _ (j + (K.qm i).length) (hL2 h)
        exact ⟨x, hx⟩)]
    by_cases hq : k < (K.qm i).length
    · simp only [hq, if_true, decide_True]
      obtain ⟨x, hx, _⟩ := capsuleRecord_some sqrtF true
        (Calc_VecMinus (K.param i 0 / 2, K.param i 1 / 2, K.param i 2 / 2) (systemCOM K P).1)
        (Calc_VecSum (systemCOM K P).1 (K.param i 0 / 2, K.param i 1 / 2, K.param i 2 / 2))
        (K.param i 0, K.param i 1, K.param i 2)
        (Calc_VecMod sqrtF (K.param i 0, K.param i 1, K.param i 2))
        (moleculePoint K P 1 i k t) k (hL2 h)
      refine ⟨x, hx, hmap _ _ ?_⟩
      rw [getD_append_range _ _ _ _ _ k hk, if_pos hq, hx]
      rfl
    · simp only [hq, if_false, decide_False]
      obtain ⟨x, hx, _⟩ := capsuleRecord_some sqrtF false
        (Calc_VecMinus (K.param i 0 / 2, K.param i 1 / 2, K.param i 2 / 2) (systemCOM K P).1)
        (Calc_VecSum (systemCOM K P).1 (K.param i 0 / 2, K.param i 1 / 2, K.param i 2 / 2))
        (K.param i 0, K.param i 1, K.param i 2)
        (Calc_VecMod sqrtF (K.param i 0, K.param i 1, K.param i 2))
        (moleculePoint K P 0 i (k - (K.qm i).length) t) k (hL2 h)
      refine ⟨x, hx, hmap _ _ ?_⟩
      have hkk : k - (K.qm i).length + (K.qm i).length = k := by omega
      rw [getD_append_range _ _ _ _ _ k hk, if_neg hq, hkk, hx]
      rfl
  · simp only [h, show ¬ ((3 : Int) = 0) by decide, show ¬ ((3 : Int) = 1) by decide,
      show ¬ ((3 : Int) = 2) by decide, if_false, if_true, or_self]
    rw [filterMap_range_of_some _ _ ((0, 0), (0, 0, 0)) (fun j => by
        obtain ⟨x, hx, _⟩ := capsuleRecord_some sqrtF true _ _ _ _ _ j (hL3 h)
        exact ⟨x, hx⟩),
      filterMap_range_of_some _ _ ((0, 0), (0, 0, 0)) (fun j => by
        obtain ⟨x, hx, _⟩ :=
          capsuleRecord_some sqrtF false _ _ _ _ _ (j + (K.qm i).length) (hL3 h)
        exact ⟨x, hx⟩)]
    by_cases hq : k < (K.qm i).length
    · simp only [hq, if_true, decide_True]
      obtain ⟨x, hx, _⟩ := capsuleRecord_some sqrtF true
        (K.param i 0, K.param i 1, K.param i 2) (K.param i 3, K.param i 4, K.param i 5)
        (Calc_VecMinus (K.param i 0, K.param i 1, K.param i 2)
          (K.param i 3, K.param i 4, K.param i 5))
        (Calc_VecMod sqrtF (Calc_VecMinus (K.param i 0, K.param i 1, K.param i 2)
          (K.param i 3, K.param i 4, K.param i 5)))
        (moleculePoint K P 1 i k t) k (hL3 h)
      refine ⟨x, hx, hmap _ _ ?_⟩
      rw [getD_append_range _ _ _ _ _ k hk, if_pos hq, hx]
      rfl
    · simp only [hq, if_false, decide_False]
      obtain ⟨x, hx, _⟩ := capsuleRecord_some sqrtF false
        (K.param i 0, K.param i 1, K.param i 2) (K.param i 3, K.param i 4, K.param i 5)
        (Calc_VecMinus (K.param i 0, K.param i 1, K.param i 2)
          (K.param i 3, K.param i 4, K.param i 5))
        (Calc_VecMod sqrtF (Calc_VecMinus (K.param i 0, K.param i 1, K.param i 2)
          (K.param i 3, K.param i 4, K.param i 5)))
        (moleculePoint K P 0 i (k - (K.qm i).length) t) k (hL3 h)
      refine ⟨x, hx, hmap _ _ ?_⟩
      have hkk : k - (K.qm i).length + (K.qm i).length = k := by omega
      rw [getD_append_range _ _ _ _ _ k hk, if_neg hq, hkk, hx]
      rfl

end LayoutTheorems
section LayoutClaims
variable {α : Type} [LinearOrderedField α]

theorem systemCOM_moment (K : KernelData α) (P : List (Vec3 α)) :
    (systemCOM K P).1 =
      ((systemMoment K P).1 / systemMass K, (systemMoment K P).2.1 / systemMass K,
        (systemMoment K P).2.2 / systemMass K) := by
  have hmass := systemCOM_mass K P
  unfold systemCOM at hmass ⊢
  simp only at hmass ⊢
  rw [hmass]
  have hmol : ∀ (mol : InternalInfo α) (acc : α × Vec3 α),
      ((List.range mol.Indices.length).foldl (fun (acc : α × Vec3 α) k =>
        (acc.1 + mol.AtomMasses.getD k 0,
          (acc.2.1 + mol.AtomMasses.getD k 0 * (coordAt P (mol.Indices.getD k 0)).1,
            acc.2.2.1 + mol.AtomMasses.getD k 0 * (coordAt P (mol.Indices.getD k 0)).2.1,
            acc.2.2.2 + mol.AtomMasses.getD k 0 * (coordAt P (mol.Indices.getD k 0)).2.2)))
        acc).2
      = acc.2 + ((List.range mol.Indices.length).map fun k =>
        ((mol.AtomMasses.getD k 0 * (coordAt P (mol.Indices.getD k 0)).1,
          mol.AtomMasses.getD k 0 * (coordAt P (mol.Indices.getD k 0)).2.1,
          mol.AtomMasses.getD k 0 * (coordAt P (mol.Indices.getD k 0)).2.2) : Vec3 α)).sum := by
    intro mol acc
    exact (foldl_measure (fun s : α × Vec3 α => s.2) (fun _ => True) _ _ _
      (fun s x _ _ => ⟨trivial, rfl⟩) acc trivial).2
  have hgrp : ∀ (grp : List (InternalInfo α)) (acc : α × Vec3 α),
      (grp.foldl (fun (acc : α × Vec3 α) (mol : InternalInfo α) =>
        (List.range mol.Indices.length).foldl (fun (acc : α × Vec3 α) k =>
        (acc.1 + mol.AtomMasses.getD k 0,
          (acc.2.1 + mol.AtomMasses.getD k 0 * (coordAt P (mol.Indices.getD k 0)).1,
            acc.2.2.1 + mol.AtomMasses.getD k 0 * (coordAt P (mol.Indices.getD k 0)).2.1,
            acc.2.2.2 + mol.AtomMasses.getD k 0 * (coordAt P (mol.Indices.getD k 0)).2.2)))
        acc) acc).2
      = acc.2 + (grp.map fun mol => ((List.range mol.Indices.length).map fun k =>
        ((mol.AtomMasses.getD k 0 * (coordAt P (mol.Indices.getD k 0)).1,
          mol.AtomMasses.getD k 0 * (coordAt P (mol.Indices.getD k 0)).2.1,
          mol.AtomMasses.getD k 0 * (coordAt P (mol.Indices.getD k 0)).2.2) : Vec3 α)).sum).sum := by
    intro grp acc
    exact (foldl_measure (fun s : α × Vec3 α => s.2) (fun _ => True) _ _ _
      (fun s mol _ _ => ⟨trivial, hmol mol s⟩) acc trivial).2
  have hall : ∀ (gs : List (List (InternalInfo α))) (acc : α × Vec3 α),
      (gs.foldl (fun (acc : α × Vec3 α) grp =>
        grp.foldl (fun (acc : α × Vec3 α) (mol : InternalInfo α) =>
        (List.range mol.Indices.length).foldl (fun (acc : α × Vec3 α) k =>
        (acc.1 + mol.AtomMasses.getD k 0,
          (acc.2.1 + mol.AtomMasses.getD k 0 * (coordAt P (mol.Indices.getD k 0)).1,
            acc.2.2.1 + mol.AtomMasses.getD k 0 * (coordAt P (mol.Indices.getD k 0)).2.1,
            acc.2.2.2 + mol.AtomMasses.getD k 0 * (coordAt P (mol.Indices.getD k 0)).2.2)))
        acc) acc) acc).2
      = acc.2 + (gs.map fun grp => (grp.map fun mol =>
        ((List.range mol.Indices.length).map fun k =>
        ((mol.AtomMasses.getD k 0 * (coordAt P (mol.Indices.getD k 0)).1,
          mol.AtomMasses.getD k 0 * (coordAt P (mol.Indices.getD k 0)).2.1,
          mol.AtomMasses.getD k 0 * (coordAt P (mol.Indices.getD k 0)).2.2) : Vec3 α)).sum).sum).sum := by
    intro gs acc
    exact (foldl_measure (fun s : α × Vec3 α => s.2) (fun _ => True) _ _ _
      (fun s grp _ _ => ⟨trivial, hgrp grp s⟩) acc trivial).2
  have hvec := hall K.MMGroups (K.QMGroups.foldl (fun (acc : α × Vec3 α) grp =>
        grp.foldl (fun (acc : α × Vec3 α) (mol : InternalInfo α) =>
        (List.range mol.Indices.length).foldl (fun (acc : α × Vec3 α) k =>
        (acc.1 + mol.AtomMasses.getD k 0,
          (acc.2.1 + mol.AtomMasses.getD k 0 * (coordAt P (mol.Indices.getD k 0)).1,
            acc.2.2.1 + mol.AtomMasses.getD k 0 * (coordAt P (mol.Indices.getD k 0)).2.1,
            acc.2.2.2 + mol.AtomMasses.getD k 0 * (coordAt P (mol.Indices.getD k 0)).2.2)))
        acc) acc) (0, (0, 0, 0)))
  rw [hall K.QMGroups] at hvec
  have hmom : (K.MMGroups.foldl (fun (acc : α × Vec3 α) grp =>
        grp.foldl (fun (acc : α × Vec3 α) (mol : InternalInfo α) =>
        (List.range mol.Indices.length).foldl (fun (acc : α × Vec3 α) k =>
        (acc.1 + mol.AtomMasses.getD k 0,
          (acc.2.1 + mol.AtomMasses.getD k 0 * (coordAt P (mol.Indices.getD k 0)).1,
            acc.2.2.1 + mol.AtomMasses.getD k 0 * (coordAt P (mol.Indices.getD k 0)).2.1,
            acc.2.2.2 + mol.AtomMasses.getD k 0 * (coordAt P (mol.Indices.getD k 0)).2.2)))
        acc) acc)
      (K.QMGroups.foldl (fun (acc : α × Vec3 α) grp =>
        grp.foldl (fun (acc : α × Vec3 α) (mol : InternalInfo α) =>
        (List.range mol.Indices.length).foldl (fun (acc : α × Vec3 α) k =>
        (acc.1 + mol.AtomMasses.getD k 0,
          (acc.2.1 + mol.AtomMasses.getD k 0 * (coordAt P (mol.Indices.getD k 0)).1,
            acc.2.2.1 + mol.AtomMasses.getD k 0 * (coordAt P (mol.Indices.getD k 0)).2.1,
            acc.2.2.2 + mol.AtomMasses.getD k 0 * (coordAt P (mol.Indices.getD k 0)).2.2)))
        acc) acc) (0, (0, 0, 0)))).2 = systemMoment K P := by
    rw [hvec]
    unfold systemMoment
    rw [List.map_append, List.sum_append]
    simp
  rw [hmom]

/-- C14: for boundary shape 0 or 2, `Calc_r` sets `COM` to the
mass-weighted centroid of every atom of every molecule of every QM and MM
group of the system (the sum of mass times position divided by the sum of
the masses), whatever group index and selector it is called with, and
stores that sum of masses in `SystemTotalMass`. -/
theorem C14_Calc_r_COM (K : KernelData α) (sqrtF : α → α) (COM0 : Vec3 α) (STM0 : α)
    (Coordinates : List (Vec3 α)) (iGroup : Nat) (TargetAtom : Int)
    (hshape : K.BoundaryShape = 0 ∨ K.BoundaryShape = 2) :
    (Calc_r K sqrtF COM0 STM0 Coordinates iGroup TargetAtom).COM =
      ((systemMoment K Coordinates).1 / systemMass K,
        (systemMoment K Coordinates).2.1 / systemMass K,
        (systemMoment K Coordinates).2.2 / systemMass K) ∧
    (Calc_r K sqrtF COM0 STM0 Coordinates iGroup TargetAtom).SystemTotalMass = systemMass K := by
  refine ⟨?_, Calc_r_SystemTotalMass K sqrtF COM0 STM0 Coordinates iGroup TargetAtom hshape⟩
  unfold Calc_r
  simp only [if_pos hshape]
  exact systemCOM_moment K Coordinates

/-- Witness of C14 on the two-atom example with the centre-of-mass sphere:
the centre of mass is `(2, 0, 0)` and the total mass `3`. -/
theorem C14_Calc_r_COM_witness :
    (Calc_r (exampleKernel 0 : KernelData ℚ) (fun x => x) (0, 0, 0) 0 examplePositions 0 0).COM =
      ((systemMoment (exampleKernel 0 : KernelData ℚ) examplePositions).1
          / systemMass (exampleKernel 0 : KernelData ℚ),
        (systemMoment (exampleKernel 0 : KernelData ℚ) examplePositions).2.1
          / systemMass (exampleKernel 0 : KernelData ℚ),
        (systemMoment (exampleKernel 0 : KernelData ℚ) examplePositions).2.2
          / systemMass (exampleKernel 0 : KernelData ℚ)) ∧
    (Calc_r (exampleKernel 0 : KernelData ℚ) (fun x => x) (0, 0, 0) 0 examplePositions 0
      0).SystemTotalMass = systemMass (exampleKernel 0 : KernelData ℚ) :=
  C14_Calc_r_COM (exampleKernel 0) (fun x => x) (0, 0, 0) 0 examplePositions 0 0 (Or.inl rfl)

end LayoutClaims

section SearchLemmas
variable {α : Type} [LinearOrderedField α]

theorem foldl_invariant {σ ι : Type} (I : σ → Prop) (step : σ → ι → σ) (xs : List ι)
    (hstep : ∀ s x, x ∈ xs → I s → I (step s x)) (s : σ) (hs : I s) :
    I (xs.foldl step s) := by
  induction xs generalizing s with
  | nil => exact hs
  | cons x xs ih =>
    exact ih (fun s y hy => hstep s y (List.mem_cons_of_mem x hy)) _
      (hstep s x (List.mem_cons_self x xs) hs)

theorem FindRepeat_eq_zero (Nodes : List (List Char)) (x : List Char) :
    FindRepeat Nodes x = 0 ↔ x ∉ Nodes := by
  unfold FindRepeat
  split_ifs with h
  · simp [h]
  · simp [h]

/-- Induction over the partition search: a property `Q` of strings kept by
every swap the search performs, and a property `R` of the search state
kept by every insertion of a string with `Q` that is not yet visited, hold
for the string of every call and for the final state. -/
theorem ProdChildAux_induction (expF : α → α) (cm : Int) (h : α) (QMSize LB : Nat)
    (g : List (List (gInfo α))) (rC : List (Nat × α))
    (Q : List Char → Prop) (R : SearchState α → Prop)
    (hQ : ∀ x i, Q x → x.getD i ' ' = '1' → x.getD (i + 1) ' ' = '0' → Q (swapChild x i))
    (hR : ∀ (st : SearchState α) (x : List Char), R st → Q x → x ∉ st.Nodes →
      R ⟨x :: st.Nodes,
        mergeDer st.DerList (CalcPenalFunc expF cm (nodeSeq x QMSize LB) QMSize g
          (List.replicate st.DerList.length 0) rC h 1).2,
        st.sumOfDeno + (CalcPenalFunc expF cm (nodeSeq x QMSize LB) QMSize g
          (List.replicate st.DerList.length 0) rC h 1).1⟩)
    (fuel : Nat) (st : SearchState α) (node : List Char) (hst : R st) (hnode : Q node) :
    R (ProdChildAux expF cm h QMSize LB g rC fuel st node) := by
  induction fuel generalizing st node with
  | zero => exact hst
  | succ fuel ih =>
    unfold ProdChildAux
    simp only
    split_ifs with h1 h2 h3 h4
    · refine foldl_invariant R _ _ (fun s i _ hs => ?_) _
        (hR st node hst hnode ((FindRepeat_eq_zero _ _).mp h2))
      split_ifs with hc
      · exact ih s _ hs (hQ node i hnode hc.1 hc.2)
      · exact hs
    · exact hst
    · exact hR st node hst hnode ((FindRepeat_eq_zero _ _).mp h4)
    · exact hst
    · exact hst

theorem swapChild_perm (x : List Char) (i : Nat) (h1 : x.getD i ' ' = '1')
    (h0 : x.getD (i + 1) ' ' = '0') : (swapChild x i).Perm x := by
  induction x generalizing i with
  | nil => simp [List.getD] at h1
  | cons a t ih =>
    cases i with
    | zero =>
      cases t with
      | nil => simp [List.getD] at h0
      | cons b t' =>
        simp only [List.getD_cons_zero, List.getD_cons_succ, Nat.zero_add] at h1 h0
        subst h1 h0
        simp only [swapChild, List.set_cons_zero, List.set_cons_succ, Nat.zero_add]
        exact List.Perm.swap _ _ _
    | succ i =>
      simp only [List.getD_cons_succ] at h1 h0
      have := ih i h1 h0
      simp only [swapChild, List.set_cons_succ] at this ⊢
      exact List.Perm.cons a this

end SearchLemmas
section SearchTheorems
variable {α : Type} [LinearOrderedField α]

/-- C17: every partition state that `ProdChild` inserts into the visited
set, starting from a seed string `s`, is a rearrangement of `s`: it has
the length of `s` and as many `'1'` and as many `'0'` characters as `s`
(every string of the final visited set was visited before the call or is
such a state). -/
theorem C17_visited_states_counts (expF : α → α) (CutoffMethod : Int) (st : SearchState α)
    (s : List Char) (h : α) (QMSize LB : Nat) (g : List (List (gInfo α)))
    (rC_Atom : List (Nat × α)) :
    ∀ x ∈ (ProdChild expF CutoffMethod st s h QMSize LB g rC_Atom).Nodes,
      x ∈ st.Nodes ∨
        (x.Perm s ∧ x.length = s.length ∧ x.count '1' = s.count '1' ∧
          x.count '0' = s.count '0') := by
  have hperm : ∀ x ∈ (ProdChild expF CutoffMethod st s h QMSize LB g rC_Atom).Nodes,
      x ∈ st.Nodes ∨ x.Perm s := by
    unfold ProdChild
    refine ProdChildAux_induction expF CutoffMethod h QMSize LB g rC_Atom
      (fun x => x.Perm s) (fun st' => ∀ x ∈ st'.Nodes, x ∈ st.Nodes ∨ x.Perm s)
      ?_ ?_ _ st s (fun x hx => Or.inl hx) (List.Perm.refl s)
    · intro x i hx h1 h0
      exact (swapChild_perm x i h1 h0).trans hx
    · intro st' x hst' hx _ y hy
      rcases List.mem_cons.mp hy with hyx | hy'
      · exact Or.inr (hyx ▸ hx)
      · exact hst' y hy'
  intro x hx
  rcases hperm x hx with hl | hp
  · exact Or.inl hl
  · exact Or.inr ⟨hp, hp.length_eq, hp.count_eq '1', hp.count_eq '0'⟩

theorem inversions_swapChild (x : List Char) (i : Nat) (h1 : x.getD i ' ' = '1')
    (h0 : x.getD (i + 1) ' ' = '0') : inversions (swapChild x i) + 1 = inversions x := by
  induction x generalizing i with
  | nil => simp [List.getD] at h1
  | cons a t ih =>
    cases i with
    | zero =>
      cases t with
      | nil => simp [List.getD] at h0
      | cons b t' =>
        simp only [List.getD_cons_zero, List.getD_cons_succ, Nat.zero_add] at h1 h0
        subst h1 h0
        simp only [swapChild, List.set_cons_zero, List.set_cons_succ, Nat.zero_add]
        simp [inversions]
        omega
    | succ i =>
      simp only [List.getD_cons_succ] at h1 h0
      have hi := ih i h1 h0
      have hp := (swapChild_perm t i h1 h0).count_eq '0'
      have hsw : swapChild (a :: t) (i + 1) = a :: swapChild t i := by
        simp only [swapChild, List.set_cons_succ]
      rw [hsw]
      simp only [inversions, hp]
      omega

theorem inversions_le (x : List Char) : inversions x ≤ x.length * x.length := by
  induction x with
  | nil => simp [inversions]
  | cons a t ih =>
    have hc : t.count '0' ≤ t.length := List.count_le_length _ _
    simp only [inversions, List.length_cons]
    split_ifs <;> nlinarith

theorem inversions_lt_searchFuel (x : List Char) : inversions x < searchFuel x :=
  Nat.lt_succ_of_le (inversions_le x)

/-- Any two recursion depths above the number of inversions of the string
give the same run of the search. -/
theorem ProdChildAux_fuel (expF : α → α) (cm : Int) (h : α) (QMSize LB : Nat)
    (g : List (List (gInfo α))) (rC : List (Nat × α)) (f1 f2 : Nat) (st : SearchState α)
    (node : List Char) (h1 : inversions node < f1) (h2 : inversions node < f2) :
    ProdChildAux expF cm h QMSize LB g rC f1 st node
      = ProdChildAux expF cm h QMSize LB g rC f2 st node := by
  induction f1 generalizing f2 st node with
  | zero => omega
  | succ f1 ih =>
    cases f2 with
    | zero => omega
    | succ f2 =>
      unfold ProdChildAux
      simp only
      have hstep : (fun (st : SearchState α) i =>
            if node.getD i ' ' = '1' ∧ node.getD (i + 1) ' ' = '0' then
              ProdChildAux expF cm h QMSize LB g rC f1 st (swapChild node i)
            else st) =
          (fun (st : SearchState α) i =>
            if node.getD i ' ' = '1' ∧ node.getD (i + 1) ' ' = '0' then
              ProdChildAux expF cm h QMSize LB g rC f2 st (swapChild node i)
            else st) := by
        funext st i
        split_ifs with hc
        · have hinv := inversions_swapChild node i hc.1 hc.2
          exact ih f2 st _ (by omega) (by omega)
        · rfl
      rw [hstep]

end SearchTheorems

section SearchTermination
variable {α : Type} [LinearOrderedField α]

/-- C19: `ProdChild` terminates for every input string, threshold, cutoff
method and kernel table.  Every recursive call is made on a child obtained
by one adjacent `'10' -> '01'` swap, a swap lowers the number of inversions
by one, so no infinite chain of children exists (`IsChild` is
well-founded), and the recursion depth granted by `searchFuel` is never
used up: any larger depth gives the same result. -/
theorem C19_ProdChild_terminates (expF : α → α) (CutoffMethod : Int) (st : SearchState α)
    (InputNode : List Char) (h : α) (QMSize LB : Nat) (g : List (List (gInfo α)))
    (rC_Atom : List (Nat × α)) :
    (∀ fuel, searchFuel InputNode ≤ fuel →
      ProdChildAux expF CutoffMethod h QMSize LB g rC_Atom fuel st InputNode
        = ProdChild expF CutoffMethod st InputNode h QMSize LB g rC_Atom) ∧
    (∀ x y : List Char, IsChild y x → inversions y + 1 = inversions x) ∧
    WellFounded IsChild ∧
    inversions InputNode < searchFuel InputNode := by
  have hdec : ∀ x y : List Char, IsChild y x → inversions y + 1 = inversions x := by
    rintro x y ⟨i, h1, h0, rfl⟩
    exact inversions_swapChild x i h1 h0
  refine ⟨fun fuel hf => ?_, hdec, ?_, inversions_lt_searchFuel InputNode⟩
  · unfold ProdChild
    exact ProdChildAux_fuel expF CutoffMethod h QMSize LB g rC_Atom _ _ st InputNode
      (lt_of_lt_of_le (inversions_lt_searchFuel InputNode) hf)
      (inversions_lt_searchFuel InputNode)
  · refine Subrelation.wf (r := InvImage (fun a b : Nat => a < b) inversions) ?_
      (InvImage.wf inversions Nat.lt_wfRel.wf)
    intro y x hyx
    have := hdec x y hyx
    show inversions y < inversions x
    omega

end SearchTermination

section SearchBound
variable {α : Type} [LinearOrderedField α]

theorem swapChild_length (x : List Char) (i : Nat) : (swapChild x i).length = x.length := by
  simp [swapChild]

theorem lt_length_of_getD_ne {x : List Char} {p : Nat} {c : Char} (h : x.getD p ' ' = c)
    (hc : c ≠ ' ') : p < x.length := by
  by_contra hlt
  rw [List.getD_eq_default _ _ (not_lt.mp hlt)] at h
  exact hc h.symm

theorem swapChild_getD (x : List Char) (i p : Nat) (h0 : x.getD (i + 1) ' ' = '0') :
    (swapChild x i).getD p ' ' =
      if p = i + 1 then '1' else if p = i then '0' else x.getD p ' ' := by
  have hlt : i + 1 < x.length := lt_length_of_getD_ne h0 (by decide)
  unfold swapChild
  simp only [List.getD_eq_getElem?_getD, List.getElem?_set, List.length_set]
  by_cases h1 : p = i + 1
  · subst h1
    simp [hlt]
  · by_cases h2 : p = i
    · subst h2
      have : p < x.length := by omega
      simp [this]
    · have h1' : ¬ i + 1 = p := fun h => h1 h.symm
      have h2' : ¬ i = p := fun h => h2 h.symm
      simp [h1, h2, h1', h2']

/-- The positions of the `'1'` characters of a string among the first `n`
positions. -/
theorem card_ones (x : List Char) :
    ((Finset.range x.length).filter (fun p => x.getD p ' ' = '1')).card = x.count '1' := by
  induction x using List.reverseRecOn with
  | nil => simp
  | append_singleton l c ih =>
    have hfil : (Finset.range l.length).filter (fun p => (l ++ [c]).getD p ' ' = '1')
        = (Finset.range l.length).filter (fun p => l.getD p ' ' = '1') := by
      refine Finset.filter_congr fun p hp => ?_
      rw [List.getD_append _ _ _ _ (Finset.mem_range.mp hp)]
    have hlast : (l ++ [c]).getD l.length ' ' = c := by
      rw [List.getD_append_right _ _ _ _ (le_refl _)]
      simp
    rw [List.length_append, List.length_singleton, Finset.range_succ, Finset.filter_insert,
      hlast, List.count_append]
    by_cases hc : c = '1'
    · rw [if_pos hc, Finset.card_insert_of_not_mem (by simp), hfil, ih]
      simp [hc]
    · rw [if_neg hc, hfil, ih]
      simp [List.count_cons, hc]

/-- The bookkeeping of a run from the seed `s`: a state has the length of
`s`, holds a `'0'` or a `'1'` wherever `s` does, and agrees with `s`
elsewhere. -/
theorem swapChild_frame (s x : List Char) (i : Nat)
    (hx : x.length = s.length ∧ ∀ p, p < s.length →
      ((s.getD p ' ' = '1' ∨ s.getD p ' ' = '0') → (x.getD p ' ' = '1' ∨ x.getD p ' ' = '0')) ∧
      (¬ (s.getD p ' ' = '1' ∨ s.getD p ' ' = '0') → x.getD p ' ' = s.getD p ' '))
    (h1 : x.getD i ' ' = '1') (h0 : x.getD (i + 1) ' ' = '0') :
    (swapChild x i).length = s.length ∧ ∀ p, p < s.length →
      ((s.getD p ' ' = '1' ∨ s.getD p ' ' = '0') →
        ((swapChild x i).getD p ' ' = '1' ∨ (swapChild x i).getD p ' ' = '0')) ∧
      (¬ (s.getD p ' ' = '1' ∨ s.getD p ' ' = '0') →
        (swapChild x i).getD p ' ' = s.getD p ' ') := by
  refine ⟨by rw [swapChild_length]; exact hx.1, fun p hp => ?_⟩
  rw [swapChild_getD x i p h0]
  obtain ⟨hb, hnb⟩ := hx.2 p hp
  by_cases hp1 : p = i + 1
  · subst hp1
    rw [if_pos rfl]
    refine ⟨fun _ => Or.inl rfl, fun hn => ?_⟩
    have := hnb hn
    rw [h0] at this
    exact absurd (Or.inr this.symm) hn
  · rw [if_neg hp1]
    by_cases hp2 : p = i
    · subst hp2
      rw [if_pos rfl]
      refine ⟨fun _ => Or.inr rfl, fun hn => ?_⟩
      have := hnb hn
      rw [h1] at this
      exact absurd (Or.inl this.symm) hn
    · rw [if_neg hp2]
      exact ⟨hb, hnb⟩

/-- Two states of a run from the seed `s` with their `'1'` characters at
the same positions are equal. -/
theorem eq_of_ones_eq (s x y : List Char)
    (hx : x.length = s.length ∧ ∀ p, p < s.length →
      ((s.getD p ' ' = '1' ∨ s.getD p ' ' = '0') → (x.getD p ' ' = '1' ∨ x.getD p ' ' = '0')) ∧
      (¬ (s.getD p ' ' = '1' ∨ s.getD p ' ' = '0') → x.getD p ' ' = s.getD p ' '))
    (hy : y.length = s.length ∧ ∀ p, p < s.length →
      ((s.getD p ' ' = '1' ∨ s.getD p ' ' = '0') → (y.getD p ' ' = '1' ∨ y.getD p ' ' = '0')) ∧
      (¬ (s.getD p ' ' = '1' ∨ s.getD p ' ' = '0') → y.getD p ' ' = s.getD p ' '))
    (hones : (Finset.range s.length).filter (fun p => x.getD p ' ' = '1')
      = (Finset.range s.length).filter (fun p => y.getD p ' ' = '1')) : x = y := by
  apply List.ext_getElem (by rw [hx.1, hy.1])
  intro p hpx hpy
  have hp : p < s.length := by rw [← hx.1]; exact hpx
  have hiff : x.getD p ' ' = '1' ↔ y.getD p ' ' = '1' := by
    have h1 : p ∈ (Finset.range s.length).filter (fun p => x.getD p ' ' = '1') ↔
        p ∈ (Finset.range s.length).filter (fun p => y.getD p ' ' = '1') := by rw [hones]
    simpa [hp] using h1
  have hgoal : x.getD p ' ' = y.getD p ' ' := by
    by_cases hx1 : x.getD p ' ' = '1'
    · rw [hx1, hiff.mp hx1]
    · have hy1 : ¬ y.getD p ' ' = '1' := fun h => hx1 (hiff.mpr h)
      by_cases hb : s.getD p ' ' = '1' ∨ s.getD p ' ' = '0'
      · rcases (hx.2 p hp).1 hb with h | h
        · exact absurd h hx1
        · rcases (hy.2 p hp).1 hb with h' | h'
          · exact absurd h' hy1
          · rw [h, h']
      · rw [(hx.2 p hp).2 hb, (hy.2 p hp).2 hb]
  rw [List.getD_eq_getElem _ _ hpx, List.getD_eq_getElem _ _ hpy] at hgoal
  exact hgoal

/-- C18: for every seed of length `n` with `k` ones, every threshold,
cutoff method and kernel table, the visited set left by `ProdChild`
started on an empty visited set holds no string twice and has at most
`C(n, k)` elements. -/
theorem C18_visited_set_bound (expF : α → α) (CutoffMethod : Int) (DerList : List α)
    (sumOfDeno : α) (s : List Char) (h : α) (QMSize LB : Nat) (g : List (List (gInfo α)))
    (rC_Atom : List (Nat × α)) :
    (ProdChild expF CutoffMethod ⟨[], DerList, sumOfDeno⟩ s h QMSize LB g rC_Atom).Nodes.Nodup ∧
    (ProdChild expF CutoffMethod ⟨[], DerList, sumOfDeno⟩ s h QMSize LB g rC_Atom).Nodes.length
      ≤ Nat.choose s.length (s.count '1') := by
  have hrun : (ProdChild expF CutoffMethod ⟨[], DerList, sumOfDeno⟩ s h QMSize LB g
      rC_Atom).Nodes.Nodup ∧
      ∀ x ∈ (ProdChild expF CutoffMethod ⟨[], DerList, sumOfDeno⟩ s h QMSize LB g rC_Atom).Nodes,
        x.Perm s ∧ (x.length = s.length ∧ ∀ p, p < s.length →
          ((s.getD p ' ' = '1' ∨ s.getD p ' ' = '0') →
            (x.getD p ' ' = '1' ∨ x.getD p ' ' = '0')) ∧
          (¬ (s.getD p ' ' = '1' ∨ s.getD p ' ' = '0') → x.getD p ' ' = s.getD p ' ')) := by
    unfold ProdChild
    refine ProdChildAux_induction expF CutoffMethod h QMSize LB g rC_Atom
      (fun x => x.Perm s ∧ (x.length = s.length ∧ ∀ p, p < s.length →
          ((s.getD p ' ' = '1' ∨ s.getD p ' ' = '0') →
            (x.getD p ' ' = '1' ∨ x.getD p ' ' = '0')) ∧
          (¬ (s.getD p ' ' = '1' ∨ s.getD p ' ' = '0') → x.getD p ' ' = s.getD p ' ')))
      (fun st' => st'.Nodes.Nodup ∧ ∀ x ∈ st'.Nodes,
        x.Perm s ∧ (x.length = s.length ∧ ∀ p, p < s.length →
          ((s.getD p ' ' = '1' ∨ s.getD p ' ' = '0') →
            (x.getD p ' ' = '1' ∨ x.getD p ' ' = '0')) ∧
          (¬ (s.getD p ' ' = '1' ∨ s.getD p ' ' = '0') → x.getD p ' ' = s.getD p ' ')))
      ?_ ?_ _ _ s ⟨List.nodup_nil, fun x hx => absurd hx (List.not_mem_nil x)⟩
      ⟨List.Perm.refl s, rfl, fun p _ => ⟨fun hb => hb, fun _ => rfl⟩⟩
    · intro x i hx h1 h0
      exact ⟨(swapChild_perm x i h1 h0).trans hx.1, swapChild_frame s x i hx.2 h1 h0⟩
    · intro st' x hst' hx hnot
      refine ⟨List.nodup_cons.mpr ⟨hnot, hst'.1⟩, fun y hy => ?_⟩
      rcases List.mem_cons.mp hy with hyx | hy'
      · exact hyx ▸ hx
      · exact hst'.2 y hy'
  obtain ⟨hnd, hall⟩ := hrun
  refine ⟨hnd, ?_⟩
  rw [← List.toFinset_card_of_nodup hnd, ← Finset.card_range s.length,
    ← Finset.card_powersetCard]
  refine Finset.card_le_card_of_injOn
    (fun x => (Finset.range s.length).filter (fun p => x.getD p ' ' = '1')) ?_ ?_
  · intro x hx
    have hx' := hall x (List.mem_toFinset.mp hx)
    simp only [Finset.mem_powersetCard]
    refine ⟨Finset.filter_subset _ _, ?_⟩
    rw [← hx'.1.count_eq '1', ← hx'.2.1]
    exact card_ones x
  · intro x hx y hy hxy
    exact eq_of_ones_eq s x y (hall x (List.mem_toFinset.mp hx)).2
      (hall y (List.mem_toFinset.mp hy)).2 hxy

end SearchBound

section ConvergenceTheorems
variable {α : Type} [LinearOrderedField α]

/-- With a non-negative iteration budget the convergence loop runs its
body from iteration 1 with `IterNum` iterations before the throw. -/
theorem convergenceLoop_of_nonneg (expF : α → α) (CutoffMethod : Int) (QMSize MMSize : Nat)
    (g : List (List (gInfo α))) (re : List (Nat × α)) (hList_re : List α)
    (ScaleFactor gamma : α) (IterNum : Int) (h : α) (hn : 0 ≤ IterNum) :
    convergenceLoop expF CutoffMethod QMSize MMSize g re hList_re ScaleFactor gamma IterNum h
      = denLoop expF CutoffMethod QMSize MMSize g re hList_re ScaleFactor gamma
          IterNum.toNat 1 h 0 := by
  rw [convergenceLoop, if_neg (not_lt.mpr hn)]

/-- With a negative iteration budget the convergence loop runs no iteration
and throws nothing: the denominator stays `0` and its gradient all zeros. -/
theorem convergenceLoop_of_neg (expF : α → α) (CutoffMethod : Int) (QMSize MMSize : Nat)
    (g : List (List (gInfo α))) (re : List (Nat × α)) (hList_re : List α)
    (ScaleFactor gamma : α) (IterNum : Int) (h : α) (hn : IterNum < 0) :
    convergenceLoop expF CutoffMethod QMSize MMSize g re hList_re ScaleFactor gamma IterNum h
      = .ok (0, List.replicate (QMSize + MMSize) 0) := by
  rw [convergenceLoop, if_pos hn]

/-- The body of the group loop of `execute`, in terms of the numerator and
the convergence loop of the group. -/
theorem evalGroup_outcome (K : KernelData α) (expF sqrtF : α → α) (COM0 : Vec3 α) (STM0 : α)
    (P : List (Vec3 α)) (i : Nat) :
    (evalGroup K expF sqrtF COM0 STM0 P i).map (fun r => (r.DenVal, r.dDen_dr)) =
      if |(groupNumerator K expF sqrtF COM0 STM0 P i).1| < 1.0e-14 ∧ K.EnableTestOutput = 0 then
        .error .badNumerator
      else
        convergenceLoop expF K.CutoffMethod (K.qm i).length (K.mm i).length
          (groupTable K sqrtF COM0 STM0 P i) (groupRecords K sqrtF COM0 STM0 P i).1
          (hList expF (K.qm i).length (K.mm i).length (groupTable K sqrtF COM0 STM0 P i)
            (groupRecords K sqrtF COM0 STM0 P i).1)
          (K.IterScales.getD i 0) (K.hThre.getD i 0) (K.FlexiBLEMaxIt.getD i 0)
          (K.hThre.getD i 0) := by
  simp only [evalGroup, groupNumerator, groupTable, groupRecords]
  split_ifs
  · rfl
  · split <;> simp_all [Except.map]

/-- The convergence loop from iteration `j` on, with `fuel` iterations
left, throws exactly when none of the iterations `j .. j + fuel - 1` is
accepted. -/
theorem denLoop_error_iff (K : KernelData α) (expF sqrtF : α → α) (COM0 : Vec3 α) (STM0 : α)
    (P : List (Vec3 α)) (i : Nat) (fuel j : Nat) (DenLast : α) (hj : 1 ≤ j)
    (hlast : 2 ≤ j → DenLast = iterDenominator K expF sqrtF COM0 STM0 P i (j - 1)) :
    denLoop expF K.CutoffMethod (K.qm i).length (K.mm i).length
        (groupTable K sqrtF COM0 STM0 P i) (groupRecords K sqrtF COM0 STM0 P i).1
        (hList expF (K.qm i).length (K.mm i).length (groupTable K sqrtF COM0 STM0 P i)
          (groupRecords K sqrtF COM0 STM0 P i).1)
        (K.IterScales.getD i 0) (K.hThre.getD i 0) fuel j
        (K.hThre.getD i 0 * K.IterScales.getD i 0 ^ (j - 1)) DenLast = .error .maxIteration ↔
      ∀ j', j ≤ j' → j' < j + fuel → ¬ iterAccepted K expF sqrtF COM0 STM0 P i j' := by
  induction fuel generalizing j DenLast with
  | zero =>
    unfold denLoop
    exact ⟨fun _ j' h1 h2 => by omega, fun _ => rfl⟩
  | succ fuel ih =>
    have hscale : K.hThre.getD i 0 * K.IterScales.getD i 0 ^ (j - 1) * K.IterScales.getD i 0
        = K.hThre.getD i 0 * K.IterScales.getD i 0 ^ (j + 1 - 1) := by
      have : j + 1 - 1 = (j - 1) + 1 := by omega
      rw [this, pow_succ, mul_assoc]
    have hD : (denominatorAt expF K.CutoffMethod (K.qm i).length (K.mm i).length
        (groupTable K sqrtF COM0 STM0 P i) (groupRecords K sqrtF COM0 STM0 P i).1
        (hList expF (K.qm i).length (K.mm i).length (groupTable K sqrtF COM0 STM0 P i)
          (groupRecords K sqrtF COM0 STM0 P i).1)
        (K.hThre.getD i 0 * K.IterScales.getD i 0 ^ (j - 1))).1
        = iterDenominator K expF sqrtF COM0 STM0 P i j := rfl
    have hsplit : (∀ j', j ≤ j' → j' < j + (fuel + 1) →
          ¬ iterAccepted K expF sqrtF COM0 STM0 P i j') ↔
        (¬ iterAccepted K expF sqrtF COM0 STM0 P i j ∧
          ∀ j', j + 1 ≤ j' → j' < j + 1 + fuel →
            ¬ iterAccepted K expF sqrtF COM0 STM0 P i j') := by
      constructor
      · intro hall
        exact ⟨hall j (le_refl j) (by omega), fun j' h1 h2 => hall j' (by omega) (by omega)⟩
      · rintro ⟨h0, hrest⟩ j' h1 h2
        rcases Nat.eq_or_lt_of_le h1 with he | hlt
        · exact he ▸ h0
        · exact hrest j' hlt (by omega)
    have hnext := fun (D : α) (hDl : 2 ≤ j + 1 → D = iterDenominator K expF sqrtF COM0 STM0 P i
        (j + 1 - 1)) => ih (j + 1) D (by omega) hDl
    rw [hsplit]
    unfold denLoop
    simp only [hD]
    by_cases hj1 : j = 1
    · subst hj1
      simp only [if_true]
      by_cases hacc : iterDenominator K expF sqrtF COM0 STM0 P i 1 = 1
      · rw [if_pos hacc]
        constructor
        · intro h; cases h
        · rintro ⟨hn, _⟩
          exact absurd (by unfold iterAccepted; rw [if_pos rfl]; exact hacc) hn
      · rw [if_neg hacc, hscale, hnext _ (fun _ => rfl)]
        constructor
        · intro h
          exact ⟨by unfold iterAccepted; rw [if_pos rfl]; exact hacc, h⟩
        · exact fun h => h.2
    · rw [if_neg hj1]
      have hl := hlast (by omega)
      have haccj : iterAccepted K expF sqrtF COM0 STM0 P i j ↔
          iterDenominator K expF sqrtF COM0 STM0 P i j - DenLast
            ≤ K.hThre.getD i 0 * DenLast := by
        unfold iterAccepted
        rw [if_neg hj1, hl]
      by_cases hgt : K.hThre.getD i 0 * DenLast
          < iterDenominator K expF sqrtF COM0 STM0 P i j - DenLast
      · rw [if_pos hgt, hscale, hnext _ (fun _ => by rw [Nat.add_sub_cancel])]
        constructor
        · intro h
          exact ⟨fun ha => absurd (haccj.mp ha) (not_le.mpr hgt), h⟩
        · exact fun h => h.2
      · rw [if_neg hgt, if_pos (not_lt.mp hgt)]
        constructor
        · intro h; cases h
        · rintro ⟨hn, _⟩
          exact absurd (haccj.mpr (not_lt.mp hgt)) hn

end ConvergenceTheorems
section ConvergenceClaims
variable {α : Type} [LinearOrderedField α]

theorem groupRecords_indep (K : KernelData α) (sqrtF : α → α) (COM COM' : Vec3 α)
    (STM STM' : α) (P : List (Vec3 α)) (i : Nat) :
    groupRecords K sqrtF COM STM P i = groupRecords K sqrtF COM' STM' P i := by
  unfold groupRecords
  rw [(Calc_r_rCA_indep K sqrtF COM COM' STM STM' P i _).1]

theorem groupNumerator_indep (K : KernelData α) (expF sqrtF : α → α) (COM COM' : Vec3 α)
    (STM STM' : α) (P : List (Vec3 α)) (i : Nat) :
    groupNumerator K expF sqrtF COM STM P i = groupNumerator K expF sqrtF COM' STM' P i := by
  unfold groupNumerator groupTable
  rw [groupRecords_indep K sqrtF COM COM' STM STM' P i]

theorem map_eq_error_iff {β γ : Type} (f : β → γ) (x : Except FlexError β) (e : FlexError) :
    x.map f = .error e ↔ x = .error e := by
  cases x with
  | error e' =>
    constructor
    · intro h
      injection h with h'
      rw [h']
    · intro h
      injection h with h'
      rw [h']
      rfl
  | ok b =>
    constructor
    · intro h; cases h
    · intro h; cases h

/-- The group loop stops with the exception of the first group it
evaluates, and leaves the force buffer as it was. -/
theorem executeLoop_first_error (K : KernelData α) (expF sqrtF logF : α → α)
    (P : List (Vec3 α)) (l : List Nat) (i : Nat) (rest : List Nat)
    (hfil : l.filter (fun i => decide ((K.qm i).length ≠ 0 ∧ (K.mm i).length ≠ 0)) = i :: rest)
    (E : α) (F : List (Vec3 α)) (COM : Vec3 α) (STM : α) (e : FlexError)
    (hev : ∀ (COM0 : Vec3 α) (STM0 : α), evalGroup K expF sqrtF COM0 STM0 P i = .error e) :
    executeLoop K expF sqrtF logF P l E F COM STM = ⟨.error e, F⟩ := by
  induction l generalizing E F COM STM with
  | nil => simp at hfil
  | cons a l ih =>
    unfold executeLoop
    by_cases hq : (K.qm a).length ≠ 0 ∧ (K.mm a).length ≠ 0
    · rw [List.filter_cons_of_pos (by simpa using hq)] at hfil
      injection hfil with ha _
      subst ha
      rw [if_pos hq, hev COM STM]
    · rw [List.filter_cons_of_neg (by simpa using hq)] at hfil
      rw [if_neg hq]
      exact ih hfil E F COM STM

/-- C20 (amended): for a group whose numerator passes the underflow check
and whose iteration budget is not negative (`maxIt ≥ 0`), the evaluation of
the group throws the convergence failure if and only if none of the
iterations `1 .. maxIt` is accepted (iteration 1 is accepted when
its denominator equals 1, iteration `j ≥ 2` when
`D_j - D_(j-1) ≤ gamma * D_(j-1)`), and it throws no other error.  In
particular with `maxIt = 0` it throws, and when the group is the first one
with both QM and MM molecules `execute` ends with the convergence failure,
returns no energy and leaves the force buffer as it was. -/
theorem C20_convergence_failure (K : KernelData α) (expF sqrtF logF : α → α)
    (COM0 : Vec3 α) (STM0 : α) (Positions : List (Vec3 α)) (i : Nat)
    (hpass : ¬ (|(groupNumerator K expF sqrtF COM0 STM0 Positions i).1| < 1.0e-14 ∧
      K.EnableTestOutput = 0))
    (hmax : 0 ≤ K.FlexiBLEMaxIt.getD i 0) :
    (evalGroup K expF sqrtF COM0 STM0 Positions i = .error .maxIteration ↔
      ∀ j : Nat, 1 ≤ j → (j : Int) ≤ K.FlexiBLEMaxIt.getD i 0 →
        ¬ iterAccepted K expF sqrtF COM0 STM0 Positions i j) ∧
    (∀ e, evalGroup K expF sqrtF COM0 STM0 Positions i = .error e → e = .maxIteration) ∧
    (K.FlexiBLEMaxIt.getD i 0 = 0 →
      evalGroup K expF sqrtF COM0 STM0 Positions i = .error .maxIteration) ∧
    (K.FlexiBLEMaxIt.getD i 0 = 0 →
      ∀ (rest : List Nat) (Force : List (Vec3 α)) (includeForces includeEnergy : Bool),
        qualifyingGroups K = i :: rest →
        execute K expF sqrtF logF Positions Force includeForces includeEnergy
          = ⟨.error .maxIteration, Force⟩) := by
  have hiff : ∀ (C : Vec3 α) (S : α),
      (evalGroup K expF sqrtF C S Positions i = .error .maxIteration ↔
        ∀ j : Nat, 1 ≤ j → (j : Int) ≤ K.FlexiBLEMaxIt.getD i 0 →
          ¬ iterAccepted K expF sqrtF C S Positions i j) := by
    intro C S
    have hp : ¬ (|(groupNumerator K expF sqrtF C S Positions i).1| < 1.0e-14 ∧
        K.EnableTestOutput = 0) := by
      rw [groupNumerator_indep K expF sqrtF C COM0 S STM0]
      exact hpass
    rw [← map_eq_error_iff (fun r => (r.DenVal, r.dDen_dr)), evalGroup_outcome, if_neg hp,
      convergenceLoop_of_nonneg _ _ _ _ _ _ _ _ _ _ _ hmax]
    have h := denLoop_error_iff K expF sqrtF C S Positions i
      (K.FlexiBLEMaxIt.getD i 0).toNat 1 0 (le_refl 1) (fun h2 => absurd h2 (by decide))
    simp only [Nat.sub_self, pow_zero, mul_one] at h
    rw [h]
    constructor
    · intro hall j h1 h2
      exact hall j h1 (by omega)
    · intro hall j h1 h2
      exact hall j h1 (by omega)
  have hzero : ∀ (C : Vec3 α) (S : α), K.FlexiBLEMaxIt.getD i 0 = 0 →
      evalGroup K expF sqrtF C S Positions i = .error .maxIteration := by
    intro C S h0
    rw [hiff C S]
    intro j h1 h2
    rw [h0] at h2
    omega
  refine ⟨hiff COM0 STM0, ?_, hzero COM0 STM0, ?_⟩
  · intro e he
    have hm := (map_eq_error_iff (fun r : GroupEval α => (r.DenVal, r.dDen_dr)) _ e).mpr he
    rw [evalGroup_outcome, if_neg hpass,
      convergenceLoop_of_nonneg _ _ _ _ _ _ _ _ _ _ _ hmax] at hm
    by_contra hne
    have hbad : e = .badNumerator := by
      cases e with
      | badNumerator => rfl
      | maxIteration => exact absurd rfl hne
    subst hbad
    have hnever : ∀ (fuel j : Nat) (hcur DenLast : α),
        denLoop expF K.CutoffMethod (K.qm i).length (K.mm i).length
          (groupTable K sqrtF COM0 STM0 Positions i)
          (groupRecords K sqrtF COM0 STM0 Positions i).1
          (hList expF (K.qm i).length (K.mm i).length
            (groupTable K sqrtF COM0 STM0 Positions i)
            (groupRecords K sqrtF COM0 STM0 Positions i).1)
          (K.IterScales.getD i 0) (K.hThre.getD i 0) fuel j hcur DenLast
          ≠ .error .badNumerator := by
      intro fuel
      induction fuel with
      | zero =>
        intro j hcur DenLast h
        unfold denLoop at h
        cases h
      | succ fuel ih =>
        intro j hcur DenLast h
        unfold denLoop at h
        simp only at h
        split_ifs at h
        · exact ih _ _ _ h
        · exact ih _ _ _ h
        · exact ih _ _ _ h
    exact hnever _ _ _ _ hm
  · intro h0 rest Force b1 b2 hq
    unfold execute
    exact executeLoop_first_error K expF sqrtF logF Positions _ i rest hq 0 Force (0, 0, 0) 0
      .maxIteration (fun C S => hzero C S h0)

end ConvergenceClaims

section ConvergenceWitness

theorem exampleNoIter_numerator :
    groupNumerator (exampleKernelNoIter : KernelData ℝ) Real.exp Real.sqrt (0, 0, 0) 0
      examplePositions 0 = (1, [0, 0]) := by
  have hc : chooseAtomDragged (exampleKernelNoIter : KernelData ℝ) Real.sqrt
      examplePositions 0 = 0 := by
    simp [chooseAtomDragged, exampleKernelNoIter, exampleKernel]
  have hr : (Calc_r (exampleKernelNoIter : KernelData ℝ) Real.sqrt (0, 0, 0) 0
      examplePositions 0 0).rCA = [(0, 1), (1, 2)] := by
    simp [Calc_r, exampleKernelNoIter, exampleKernel, examplePositions, sphereRecord,
      moleculePoint, KernelData.qm, KernelData.mm, KernelData.param, coordAt, List.range_succ]
    norm_num [sqrt_four]
  have hf : (exampleKernelNoIter : KernelData ℝ).Coefficients.getD 0 0 = 1 ∧
      ((exampleKernelNoIter : KernelData ℝ).qm 0).length = 1 ∧
      ((exampleKernelNoIter : KernelData ℝ).mm 0).length = 1 ∧
      (exampleKernelNoIter : KernelData ℝ).CutoffMethod = 0 := by
    simp [exampleKernelNoIter, exampleKernel, KernelData.qm, KernelData.mm]
  obtain ⟨h1, h2, h3, h4⟩ := hf
  have h11 : (1 + 1 : Nat) = 2 := rfl
  have hrange : List.range 2 = [0, 1] := by simp [List.range_succ]
  have hrep : List.replicate 2 (0 : ℝ) = [0, 0] := rfl
  simp only [groupNumerator, groupTable, groupRecords, hc, hr, example_sort, example_floor,
    h1, h2, h3, h4, h11, example_table, hrange, hrep, example_nume]

/-- Witness of C20 (amended): in the two-atom example with an iteration budget of
zero the numerator is 1, and `execute` ends with the convergence failure
and the force buffer untouched. -/
theorem C20_convergence_failure_witness :
    ¬ (|(groupNumerator (exampleKernelNoIter : KernelData ℝ) Real.exp Real.sqrt (0, 0, 0) 0
        examplePositions 0).1| < 1.0e-14 ∧
      (exampleKernelNoIter : KernelData ℝ).EnableTestOutput = 0) ∧
    evalGroup (exampleKernelNoIter : KernelData ℝ) Real.exp Real.sqrt (0, 0, 0) 0
      examplePositions 0 = .error .maxIteration ∧
    execute (exampleKernelNoIter : KernelData ℝ) Real.exp Real.sqrt Real.log examplePositions
      [(1, 2, 3), (4, 5, 6)] true true = ⟨.error .maxIteration, [(1, 2, 3), (4, 5, 6)]⟩ := by
  have hp : ¬ (|(groupNumerator (exampleKernelNoIter : KernelData ℝ) Real.exp Real.sqrt
      (0, 0, 0) 0 examplePositions 0).1| < 1.0e-14 ∧
      (exampleKernelNoIter : KernelData ℝ).EnableTestOutput = 0) := by
    rw [exampleNoIter_numerator]
    norm_num
  have h0 : (exampleKernelNoIter : KernelData ℝ).FlexiBLEMaxIt.getD 0 0 = 0 := by
    simp [exampleKernelNoIter]
  have hq : qualifyingGroups (exampleKernelNoIter : KernelData ℝ) = 0 :: [] := by
    simp [qualifyingGroups, exampleKernelNoIter, exampleKernel, KernelData.qm, KernelData.mm,
      List.range_succ]
  have h := C20_convergence_failure (exampleKernelNoIter : KernelData ℝ) Real.exp Real.sqrt
    Real.log (0, 0, 0) 0 examplePositions 0 hp (by rw [h0])
  exact ⟨hp, h.2.2.1 h0, h.2.2.2 h0 [] [(1, 2, 3), (4, 5, 6)] true true hq⟩

end ConvergenceWitness

section CapsuleLemmas
variable {α : Type} [LinearOrderedField α]

theorem sqrtF_mono (sqrtF : α → α) (hs0 : ∀ x, 0 ≤ x → 0 ≤ sqrtF x)
    (hs : ∀ x, 0 ≤ x → sqrtF x * sqrtF x = x) (x y : α) (hx : 0 ≤ x) (hxy : x ≤ y) :
    sqrtF x ≤ sqrtF y := by
  by_contra h
  have h' : sqrtF y < sqrtF x := lt_of_not_le h
  have hy : 0 ≤ y := le_trans hx hxy
  have := mul_self_lt_mul_self (hs0 y hy) h'
  rw [hs y hy, hs x hx] at this
  exact absurd hxy (not_le.mpr this)

theorem sqrtF_zero (sqrtF : α → α) (hs : ∀ x, 0 ≤ x → sqrtF x * sqrtF x = x) :
    sqrtF 0 = 0 :=
  mul_self_eq_zero.mp (hs 0 (le_refl 0))

theorem sqrtF_pos (sqrtF : α → α) (hs0 : ∀ x, 0 ≤ x → 0 ≤ sqrtF x)
    (hs : ∀ x, 0 ≤ x → sqrtF x * sqrtF x = x) (x : α) (hx : 0 < x) : 0 < sqrtF x := by
  rcases lt_or_eq_of_le (hs0 x (le_of_lt hx)) with h | h
  · exact h
  · have h2 := hs x (le_of_lt hx)
    rw [← h, zero_mul] at h2
    exact absurd h2 (ne_of_lt hx)

/-- Comparisons of the scalar projection `d / |L|` with `0` and `|L|` in
terms of the dot product `d` and `LL = |L|^2`. -/
theorem proj_compare (sqrtF : α → α) (hs0 : ∀ x, 0 ≤ x → 0 ≤ sqrtF x)
    (hs : ∀ x, 0 ≤ x → sqrtF x * sqrtF x = x) (d LL : α) (hLL : 0 < LL) :
    (d / sqrtF LL < sqrtF LL ↔ d < LL) ∧ (sqrtF LL ≤ d / sqrtF LL ↔ LL ≤ d) ∧
    (0 < d / sqrtF LL ↔ 0 < d) ∧ (d / sqrtF LL ≤ 0 ↔ d ≤ 0) ∧
    d / sqrtF LL * (d / sqrtF LL) = d * d / LL := by
  have hp := sqrtF_pos sqrtF hs0 hs LL hLL
  have hsq := hs LL (le_of_lt hLL)
  refine ⟨?_, ?_, ?_, ?_, ?_⟩
  · rw [div_lt_iff₀ hp, hsq]
  · rw [le_div_iff₀ hp, hsq]
  · rw [lt_div_iff₀ hp, zero_mul]
  · rw [div_le_iff₀ hp, zero_mul]
  · rw [div_mul_div_comm, hsq]

theorem quad_CS (RR d LL : α) (hLL : 0 < LL)
    (hfnn : ∀ t : α, 0 ≤ RR - 2 * t * d + t * t * LL) : 0 ≤ RR - d * d / LL := by
  have := hfnn (d / LL)
  have e : RR - 2 * (d / LL) * d + d / LL * (d / LL) * LL = RR - d * d / LL := by
    field_simp
    ring
  rw [e] at this
  exact this

theorem quad_interior (RR d LL t : α) (hLL : 0 < LL) :
    RR - d * d / LL ≤ RR - 2 * t * d + t * t * LL := by
  have e : RR - 2 * t * d + t * t * LL - (RR - d * d / LL)
      = LL * ((t - d / LL) * (t - d / LL)) := by
    field_simp
    ring
  have := mul_nonneg (le_of_lt hLL) (mul_self_nonneg (t - d / LL))
  linarith

theorem quad_at_proj (RR d LL : α) (hLL : 0 < LL) :
    RR - 2 * (d / LL) * d + d / LL * (d / LL) * LL = RR - d * d / LL := by
  field_simp
  ring

theorem quad_left (RR d LL t : α) (hLL : 0 < LL) (hd : d ≤ 0) (ht : 0 ≤ t) :
    RR ≤ RR - 2 * t * d + t * t * LL := by
  have h1 := mul_nonneg ht (neg_nonneg.mpr hd)
  have h2 := mul_nonneg (mul_self_nonneg t) (le_of_lt hLL)
  linarith

theorem quad_right (RR d LL t : α) (hLL : 0 < LL) (hd : LL ≤ d) (ht : t ≤ 1) :
    RR - 2 * d + LL ≤ RR - 2 * t * d + t * t * LL := by
  have e : RR - 2 * t * d + t * t * LL - (RR - 2 * d + LL)
      = (1 - t) * (2 * (d - LL) + (1 - t) * LL) := by ring
  have h1 : 0 ≤ 1 - t := by linarith
  have h2 : 0 ≤ 2 * (d - LL) + (1 - t) * LL := by
    have := mul_nonneg h1 (le_of_lt hLL)
    linarith
  have := mul_nonneg h1 h2
  linarith

theorem sq_dist_pos (x1 y1 z1 x2 y2 z2 : α) (hL : ((x1, y1, z1) : Vec3 α) ≠ (x2, y2, z2)) :
    0 < (x2 - x1) * (x2 - x1) + (y2 - y1) * (y2 - y1) + (z2 - z1) * (z2 - z1) := by
  by_contra hn
  have hx := mul_self_nonneg (x2 - x1)
  have hy := mul_self_nonneg (y2 - y1)
  have hz := mul_self_nonneg (z2 - z1)
  have ex : (x2 - x1) * (x2 - x1) = 0 := by linarith
  have ey : (y2 - y1) * (y2 - y1) = 0 := by linarith
  have ez : (z2 - z1) * (z2 - z1) = 0 := by linarith
  have e1 : x1 = x2 := by have := mul_self_eq_zero.mp ex; linarith
  have e2 : y1 = y2 := by have := mul_self_eq_zero.mp ey; linarith
  have e3 : z1 = z2 := by have := mul_self_eq_zero.mp ez; linarith
  exact hL (by rw [e1, e2, e3])

theorem sq_dist_line (px py pz x1 y1 z1 x2 y2 z2 t : α) :
    (px - (x1 + t * (x2 - x1))) ^ 2 + (py - (y1 + t * (y2 - y1))) ^ 2
      + (pz - (z1 + t * (z2 - z1))) ^ 2 =
    ((px - x1) * (px - x1) + (py - y1) * (py - y1) + (pz - z1) * (pz - z1))
      - 2 * t * ((px - x1) * (x2 - x1) + (py - y1) * (y2 - y1) + (pz - z1) * (z2 - z1))
      + t * t * ((x2 - x1) * (x2 - x1) + (y2 - y1) * (y2 - y1) + (z2 - z1) * (z2 - z1)) := by
  ring

end CapsuleLemmas

section CapsuleSegment
variable {α : Type} [LinearOrderedField α]

/-- With an exact square root and two distinct endpoints, one pass of the
capsule loop with the segment data of shape 3 produces a record, and its
distance is the distance from the point to the closed segment. -/
theorem capsuleRecord_segment (sqrtF : α → α) (hs0 : ∀ x, 0 ≤ x → 0 ≤ sqrtF x)
    (hs : ∀ x, 0 ≤ x → sqrtF x * sqrtF x = x) (clamp : Bool) (L1 L2 p : Vec3 α)
    (first : Nat) (hL : L1 ≠ L2) :
    ∃ x, capsuleRecord sqrtF clamp L1 L2 (Calc_VecMinus L1 L2)
        (Calc_VecMod sqrtF (Calc_VecMinus L1 L2)) p first = some x ∧
      (∃ t0, 0 ≤ t0 ∧ t0 ≤ 1 ∧ x.1.2 = euclidDist sqrtF p (segmentPoint L1 L2 t0)) ∧
      (∀ t, 0 ≤ t → t ≤ 1 → x.1.2 ≤ euclidDist sqrtF p (segmentPoint L1 L2 t)) ∧
      (Calc_VecDot (Calc_VecMinus L1 p) (Calc_VecMinus L1 L2) ≤ 0 →
        x.1.2 = euclidDist sqrtF p L1) ∧
      (Calc_VecDot (Calc_VecMinus L1 L2) (Calc_VecMinus L1 L2)
          ≤ Calc_VecDot (Calc_VecMinus L1 p) (Calc_VecMinus L1 L2) →
        x.1.2 = euclidDist sqrtF p L2) := by
  obtain ⟨x1, y1, z1⟩ := L1
  obtain ⟨x2, y2, z2⟩ := L2
  obtain ⟨px, py, pz⟩ := p
  have hLL := sq_dist_pos x1 y1 z1 x2 y2 z2 hL
  have hRR : 0 ≤ (px - x1) * (px - x1) + (py - y1) * (py - y1) + (pz - z1) * (pz - z1) :=
    add_nonneg (add_nonneg (mul_self_nonneg _) (mul_self_nonneg _)) (mul_self_nonneg _)
  have hfnn : ∀ t : α, 0 ≤
      ((px - x1) * (px - x1) + (py - y1) * (py - y1) + (pz - z1) * (pz - z1))
      - 2 * t * ((px - x1) * (x2 - x1) + (py - y1) * (y2 - y1) + (pz - z1) * (z2 - z1))
      + t * t * ((x2 - x1) * (x2 - x1) + (y2 - y1) * (y2 - y1) + (z2 - z1) * (z2 - z1)) := by
    intro t
    rw [← sq_dist_line]
    exact add_nonneg (add_nonneg (sq_nonneg _) (sq_nonneg _)) (sq_nonneg _)
  have hne : (sqrtF ((x2 - x1) * (x2 - x1) + (y2 - y1) * (y2 - y1) + (z2 - z1) * (z2 - z1)) = 0)
      = False := eq_false (ne_of_gt (sqrtF_pos sqrtF hs0 hs _ hLL))
  obtain ⟨hlt, hle, hpos, hnonpos, hlsq⟩ := proj_compare sqrtF hs0 hs
    ((px - x1) * (x2 - x1) + (py - y1) * (y2 - y1) + (pz - z1) * (z2 - z1)) _ hLL
  have hCS := quad_CS _ _ _ hLL hfnn
  have hRMsq := hs _ hRR
  have hdist : ∀ t : α, euclidDist sqrtF (px, py, pz)
      (segmentPoint (x1, y1, z1) (x2, y2, z2) t) = sqrtF
      (((px - x1) * (px - x1) + (py - y1) * (py - y1) + (pz - z1) * (pz - z1))
      - 2 * t * ((px - x1) * (x2 - x1) + (py - y1) * (y2 - y1) + (pz - z1) * (z2 - z1))
      + t * t * ((x2 - x1) * (x2 - x1) + (y2 - y1) * (y2 - y1) + (z2 - z1) * (z2 - z1))) := by
    intro t
    simp only [euclidDist, segmentPoint]
    rw [sq_dist_line]
  have hdist1 : euclidDist sqrtF (px, py, pz) (x1, y1, z1) = sqrtF
      ((px - x1) * (px - x1) + (py - y1) * (py - y1) + (pz - z1) * (pz - z1)) := by
    simp only [euclidDist]
    congr 1
    ring
  have hdist2 : euclidDist sqrtF (px, py, pz) (x2, y2, z2) = sqrtF
      ((px - x2) * (px - x2) + (py - y2) * (py - y2) + (pz - z2) * (pz - z2)) := by
    simp only [euclidDist]
    congr 1
    ring
  have hend2 : (px - x2) * (px - x2) + (py - y2) * (py - y2) + (pz - z2) * (pz - z2)
      = ((px - x1) * (px - x1) + (py - y1) * (py - y1) + (pz - z1) * (pz - z1))
      - 2 * ((px - x1) * (x2 - x1) + (py - y1) * (y2 - y1) + (pz - z1) * (z2 - z1))
      + ((x2 - x1) * (x2 - x1) + (y2 - y1) * (y2 - y1) + (z2 - z1) * (z2 - z1)) := by
    ring
  unfold capsuleRecord
  simp only [Calc_VecDot, Calc_VecMinus, Calc_VecMod, zero_add, hne, if_false, hlt, hle, hpos,
    hnonpos, hdist, hdist1, hdist2]
  by_cases hin : (px - x1) * (x2 - x1) + (py - y1) * (y2 - y1) + (pz - z1) * (z2 - z1) <
      (x2 - x1) * (x2 - x1) + (y2 - y1) * (y2 - y1) + (z2 - z1) * (z2 - z1) ∧
      0 < (px - x1) * (x2 - x1) + (py - y1) * (y2 - y1) + (pz - z1) * (z2 - z1)
  · rw [if_pos hin]
    refine ⟨_, rfl, ?_⟩
    simp only [hRMsq, hlsq, max_eq_left hCS, ite_self]
    refine ⟨⟨_ / _, le_of_lt (div_pos hin.2 hLL), le_of_lt ((div_lt_one hLL).mpr hin.1), ?_⟩,
      ?_, ?_, ?_⟩
    · rw [quad_at_proj _ _ _ hLL]
    · intro t _ _
      exact sqrtF_mono sqrtF hs0 hs _ _ hCS (quad_interior _ _ _ t hLL)
    · intro h
      exact absurd hin.2 (not_lt.mpr h)
    · intro h
      exact absurd hin.1 (not_lt.mpr h)
  · rw [if_neg hin]
    have hout : (px - x1) * (x2 - x1) + (py - y1) * (y2 - y1) + (pz - z1) * (z2 - z1) ≤ 0 ∨
        (x2 - x1) * (x2 - x1) + (y2 - y1) * (y2 - y1) + (z2 - z1) * (z2 - z1) ≤
          (px - x1) * (x2 - x1) + (py - y1) * (y2 - y1) + (pz - z1) * (z2 - z1) := by
      by_contra hn
      push_neg at hn
      exact hin ⟨hn.2, hn.1⟩
    rw [if_pos hout]
    refine ⟨_, rfl, ?_⟩
    by_cases h0 : (px - x1) * (x2 - x1) + (py - y1) * (y2 - y1) + (pz - z1) * (z2 - z1) ≤ 0
    · simp only [if_pos h0]
      refine ⟨⟨0, le_refl 0, zero_le_one, ?_⟩, ?_, ?_, ?_⟩
      · congr 1
        ring
      · intro t ht0 _
        exact sqrtF_mono sqrtF hs0 hs _ _ hRR (quad_left _ _ _ t hLL h0 ht0)
      · intro _
        trivial
      · intro h
        exact absurd hLL (not_lt.mpr (le_trans h h0))
    · simp only [if_neg h0]
      have hd := hout.resolve_left h0
      have hnn : 0 ≤ (px - x2) * (px - x2) + (py - y2) * (py - y2) + (pz - z2) * (pz - z2) :=
        add_nonneg (add_nonneg (mul_self_nonneg _) (mul_self_nonneg _)) (mul_self_nonneg _)
      refine ⟨⟨1, zero_le_one, le_refl 1, ?_⟩, ?_, ?_, ?_⟩
      · congr 1
        ring
      · intro t _ ht1
        apply sqrtF_mono sqrtF hs0 hs _ _ hnn
        rw [hend2]
        exact quad_right _ _ _ t hLL hd ht1
      · intro h
        exact absurd h h0
      · intro _
        trivial

end CapsuleSegment

section CapsuleClaims
variable {α : Type} [LinearOrderedField α]

/-- A fixed capsule with two distinct endpoints is not degenerate, for a
square root that is exact on non-negative numbers. -/
theorem capsule_not_degenerate (K : KernelData α) (sqrtF : α → α)
    (hs0 : ∀ x, 0 ≤ x → 0 ≤ sqrtF x) (hs : ∀ x, 0 ≤ x → sqrtF x * sqrtF x = x)
    (iGroup : Nat) (hshape : K.BoundaryShape = 3)
    (hL : capsuleL1 K iGroup ≠ capsuleL2 K iGroup) : ¬ degenerateCapsule K sqrtF iGroup := by
  intro hd
  have h0 := hd.2
  unfold capsuleLMod at h0
  rw [if_neg (by rw [hshape]; decide)] at h0
  have hLL := sq_dist_pos _ _ _ _ _ _ hL
  have hp := sqrtF_pos sqrtF hs0 hs _ hLL
  simp only [Calc_VecMod, Calc_VecMinus, zero_add] at h0
  rw [h0] at hp
  exact lt_irrefl _ hp

/-- The capsule distance in exact arithmetic: for the capsule with two
fixed, distinct endpoints `L1` and `L2` (shape 3) and a square root that is
exact on non-negative numbers, the distance that `Calc_r` stores for
molecule `k` (QM or MM) with representative point `p` is the Euclidean
distance from `p` to the closed segment `[L1, L2]`: it is attained at some
`t0` in `[0, 1]` and is a lower bound of `|p - (L1 + t * (L2 - L1))|` over
`t` in `[0, 1]`.  It is `0` for a point of the segment interior, `|p - L1|`
when the projection `(p - L1) . (L2 - L1)` is at most `0`, and `|p - L2|`
when that projection is at least `|L2 - L1|^2`.  The exactness of the
square root is what makes the unclamped radicand `RMod^2 - lMod^2` of the
MM loop non-negative. -/
theorem capsule_distance_exact (K : KernelData α) (sqrtF : α → α)
    (hs0 : ∀ x, 0 ≤ x → 0 ≤ sqrtF x) (hs : ∀ x, 0 ≤ x → sqrtF x * sqrtF x = x)
    (COM0 : Vec3 α) (STM0 : α) (Coordinates : List (Vec3 α)) (iGroup : Nat)
    (TargetAtom : Int) (k : Nat) (hshape : K.BoundaryShape = 3)
    (hL : capsuleL1 K iGroup ≠ capsuleL2 K iGroup)
    (hk : k < (K.qm iGroup).length + (K.mm iGroup).length) :
    (∃ t0, 0 ≤ t0 ∧ t0 ≤ 1 ∧
      recSecond (Calc_r K sqrtF COM0 STM0 Coordinates iGroup TargetAtom).rCA k
        = euclidDist sqrtF (jointPoint K Coordinates iGroup TargetAtom k)
            (segmentPoint (capsuleL1 K iGroup) (capsuleL2 K iGroup) t0)) ∧
    (∀ t, 0 ≤ t → t ≤ 1 →
      recSecond (Calc_r K sqrtF COM0 STM0 Coordinates iGroup TargetAtom).rCA k
        ≤ euclidDist sqrtF (jointPoint K Coordinates iGroup TargetAtom k)
            (segmentPoint (capsuleL1 K iGroup) (capsuleL2 K iGroup) t)) ∧
    (∀ t, 0 < t → t < 1 →
      jointPoint K Coordinates iGroup TargetAtom k
        = segmentPoint (capsuleL1 K iGroup) (capsuleL2 K iGroup) t →
      recSecond (Calc_r K sqrtF COM0 STM0 Coordinates iGroup TargetAtom).rCA k = 0) ∧
    (Calc_VecDot (Calc_VecMinus (capsuleL1 K iGroup) (jointPoint K Coordinates iGroup TargetAtom k))
        (Calc_VecMinus (capsuleL1 K iGroup) (capsuleL2 K iGroup)) ≤ 0 →
      recSecond (Calc_r K sqrtF COM0 STM0 Coordinates iGroup TargetAtom).rCA k
        = euclidDist sqrtF (jointPoint K Coordinates iGroup TargetAtom k) (capsuleL1 K iGroup)) ∧
    (Calc_VecDot (Calc_VecMinus (capsuleL1 K iGroup) (capsuleL2 K iGroup))
        (Calc_VecMinus (capsuleL1 K iGroup) (capsuleL2 K iGroup))
      ≤ Calc_VecDot
        (Calc_VecMinus (capsuleL1 K iGroup) (jointPoint K Coordinates iGroup TargetAtom k))
        (Calc_VecMinus (capsuleL1 K iGroup) (capsuleL2 K iGroup)) →
      recSecond (Calc_r K sqrtF COM0 STM0 Coordinates iGroup TargetAtom).rCA k
        = euclidDist sqrtF (jointPoint K Coordinates iGroup TargetAtom k) (capsuleL2 K iGroup)) := by
  obtain ⟨x, hx, hrec, _⟩ := Calc_r_getD K sqrtF COM0 STM0 Coordinates iGroup TargetAtom
    (Or.inr (Or.inr (Or.inr hshape)))
    (capsule_not_degenerate K sqrtF hs0 hs iGroup hshape hL) k hk
  obtain ⟨y, hy, hmin, hlow, hleft, hright⟩ := capsuleRecord_segment sqrtF hs0 hs
    (decide (k < (K.qm iGroup).length)) (capsuleL1 K iGroup) (capsuleL2 K iGroup)
    (jointPoint K Coordinates iGroup TargetAtom k) k hL
  have hxy : x = y := by
    have h3 : ¬ ((3 : Int) = 0) ∧ ¬ ((3 : Int) = 1) ∧ ¬ ((3 : Int) = 2) := by decide
    unfold moleculeRecord at hx
    simp only [hshape, h3.1, h3.2.1, h3.2.2, if_false, if_true] at hx
    unfold capsuleL1 capsuleL2 jointPoint at hy
    rw [hy] at hx
    exact (Option.some.inj hx).symm
  have hR : recSecond (Calc_r K sqrtF COM0 STM0 Coordinates iGroup TargetAtom).rCA k
      = y.1.2 := by
    unfold recSecond
    rw [hrec, hxy]
  rw [hR]
  refine ⟨hmin, hlow, ?_, hleft, hright⟩
  intro t ht0 ht1 hp
  obtain ⟨t0, _, _, ht0eq⟩ := hmin
  have hnn : 0 ≤ y.1.2 := by
    rw [ht0eq]
    exact hs0 _ (add_nonneg (add_nonneg (sq_nonneg _) (sq_nonneg _)) (sq_nonneg _))
  have hle := hlow t (le_of_lt ht0) (le_of_lt ht1)
  rw [← hp] at hle
  have hz : euclidDist sqrtF (jointPoint K Coordinates iGroup TargetAtom k)
      (jointPoint K Coordinates iGroup TargetAtom k) = 0 := by
    simp only [euclidDist, sub_self, ne_eq, OfNat.ofNat_ne_zero, not_false_eq_true, zero_pow,
      add_zero]
    exact sqrtF_zero sqrtF hs
  rw [hz] at hle
  exact le_antisymm hle hnn

end CapsuleClaims
section CapsuleWitness

/-- The capsule distance on the two-atom example with the fixed capsule from
`(0, 0, 0)` to `(2, 0, 0)`, for the MM molecule and the real square root. -/
theorem capsule_distance_exact_example :
    (exampleKernelCapsule : KernelData ℝ).BoundaryShape = 3 ∧
    capsuleL1 (exampleKernelCapsule : KernelData ℝ) 0
      ≠ capsuleL2 (exampleKernelCapsule : KernelData ℝ) 0 ∧
    1 < ((exampleKernelCapsule : KernelData ℝ).qm 0).length
      + ((exampleKernelCapsule : KernelData ℝ).mm 0).length ∧
    ∀ t : ℝ, 0 ≤ t → t ≤ 1 →
      recSecond (Calc_r (exampleKernelCapsule : KernelData ℝ) Real.sqrt (0, 0, 0) 0
        examplePositions 0 0).rCA 1
        ≤ euclidDist Real.sqrt (jointPoint (exampleKernelCapsule : KernelData ℝ)
            examplePositions 0 0 1)
          (segmentPoint (capsuleL1 (exampleKernelCapsule : KernelData ℝ) 0)
            (capsuleL2 (exampleKernelCapsule : KernelData ℝ) 0) t) := by
  have hL : capsuleL1 (exampleKernelCapsule : KernelData ℝ) 0
      ≠ capsuleL2 (exampleKernelCapsule : KernelData ℝ) 0 := by
    intro h
    have h1 := congrArg Prod.fst h
    simp [capsuleL1, capsuleL2, exampleKernelCapsule, KernelData.param] at h1
  have hk : 1 < ((exampleKernelCapsule : KernelData ℝ).qm 0).length
      + ((exampleKernelCapsule : KernelData ℝ).mm 0).length := by
    simp [exampleKernelCapsule, exampleKernel, KernelData.qm, KernelData.mm]
  exact ⟨rfl, hL, hk,
    (capsule_distance_exact (exampleKernelCapsule : KernelData ℝ) Real.sqrt
      (fun x _ => Real.sqrt_nonneg x) (fun x hx => Real.mul_self_sqrt hx) (0, 0, 0) 0
      examplePositions 0 0 1 rfl hL hk).2.1⟩

theorem sqrtTenth_three : sqrtTenth 3 = 17 / 10 := by
  unfold sqrtTenth
  rw [show (100 * 3 : ℚ) = ((300 : ℤ) : ℚ) by norm_num, Int.floor_intCast]
  have h : Nat.sqrt (300 : ℤ).toNat = 17 := by
    show Nat.sqrt 300 = 17
    exact (Nat.eq_sqrt.mpr ⟨by norm_num, by norm_num⟩).symm
  rw [h]
  norm_num

theorem sqrtTenth_three_quarters : sqrtTenth (3 / 4) = 4 / 5 := by
  unfold sqrtTenth
  rw [show (100 * (3 / 4) : ℚ) = ((75 : ℤ) : ℚ) by norm_num, Int.floor_intCast]
  have h : Nat.sqrt (75 : ℤ).toNat = 8 := by
    show Nat.sqrt 75 = 8
    exact (Nat.eq_sqrt.mpr ⟨by norm_num, by norm_num⟩).symm
  rw [h]
  norm_num

/-- One pass of the capsule loop for the segment from `(0, 0, 0)` to
`(1, 1, 1)` and the midpoint of the segment, with the square root rounded
down to one decimal place: `LMod = 1.7`, `RMod = 0.8`, `lMod = 15/17`, and
the radicand `RMod^2 - lMod^2` is `-1001/7225`. -/
theorem diagonal_record (clamp : Bool) (first : Nat) :
    ∃ v, capsuleRecord sqrtTenth clamp (0, 0, 0) (1, 1, 1) (1, 1, 1) (sqrtTenth 3)
        (1 / 2, 1 / 2, 1 / 2) first
      = some ((first, if clamp then sqrtTenth (max (-(1001 / 7225)) 0)
          else sqrtTenth (-(1001 / 7225))), v) := by
  have hR : Calc_VecMod sqrtTenth (Calc_VecMinus ((0 : ℚ), (0 : ℚ), (0 : ℚ)) (1 / 2, 1 / 2, 1 / 2))
      = 4 / 5 := by
    unfold Calc_VecMod Calc_VecMinus
    norm_num
    exact sqrtTenth_three_quarters
  have hd : Calc_VecDot (Calc_VecMinus ((0 : ℚ), (0 : ℚ), (0 : ℚ)) (1 / 2, 1 / 2, 1 / 2))
      ((1 : ℚ), (1 : ℚ), (1 : ℚ)) = 3 / 2 := by
    unfold Calc_VecDot Calc_VecMinus
    norm_num
  unfold capsuleRecord
  simp only [hR, hd, sqrtTenth_three]
  rw [if_neg (by norm_num), if_pos (by norm_num)]
  have hrad : (4 / 5 : ℚ) * (4 / 5) - 3 / 2 / (17 / 10) * (3 / 2 / (17 / 10))
      = -(1001 / 7225) := by norm_num
  rw [hrad]
  exact ⟨_, rfl⟩

/-- C15 at its failing input, with a square root that is not exact (rounded
down to one decimal place): for the fixed capsule from `(0, 0, 0)` to
`(1, 1, 1)` and a QM and an MM molecule both at the midpoint
`(1/2, 1/2, 1/2)` of the segment, the QM loop stores the square root of
`max(-1001/7225, 0)` and the MM loop the square root of the negative number
`-1001/7225`: the MM loop lacks the `max(., 0.0)` of the QM loop. -/
theorem C15_capsule_clamp_failing_input :
    (Calc_r (exampleKernelDiagonal : KernelData ℚ) sqrtTenth (0, 0, 0) 0 exampleOnAxis 0 0).rCA
      = [(0, sqrtTenth (max (-(1001 / 7225)) 0)), (1, sqrtTenth (-(1001 / 7225)))] ∧
    (-(1001 / 7225) : ℚ) < 0 := by
  refine ⟨?_, by norm_num⟩
  have hq : ((exampleKernelDiagonal : KernelData ℚ).qm 0).length = 1 := by
    simp [exampleKernelDiagonal, exampleKernel, KernelData.qm]
  have hm : ((exampleKernelDiagonal : KernelData ℚ).mm 0).length = 1 := by
    simp [exampleKernelDiagonal, exampleKernel, KernelData.mm]
  have hpq : moleculePoint (exampleKernelDiagonal : KernelData ℚ) exampleOnAxis 1 0 0 0
      = (1 / 2, 1 / 2, 1 / 2) := by
    simp [moleculePoint, exampleKernelDiagonal, exampleKernel, exampleOnAxis, KernelData.qm,
      coordAt]
  have hpm : moleculePoint (exampleKernelDiagonal : KernelData ℚ) exampleOnAxis 0 0 0 0
      = (1 / 2, 1 / 2, 1 / 2) := by
    simp [moleculePoint, exampleKernelDiagonal, exampleKernel, exampleOnAxis, KernelData.mm,
      coordAt]
  have hL : Calc_VecMinus
      ((exampleKernelDiagonal : KernelData ℚ).param 0 0,
        (exampleKernelDiagonal : KernelData ℚ).param 0 1,
        (exampleKernelDiagonal : KernelData ℚ).param 0 2)
      ((exampleKernelDiagonal : KernelData ℚ).param 0 3,
        (exampleKernelDiagonal : KernelData ℚ).param 0 4,
        (exampleKernelDiagonal : KernelData ℚ).param 0 5) = ((1 : ℚ), (1 : ℚ), (1 : ℚ)) ∧
      ((exampleKernelDiagonal : KernelData ℚ).param 0 0,
        (exampleKernelDiagonal : KernelData ℚ).param 0 1,
        (exampleKernelDiagonal : KernelData ℚ).param 0 2) = ((0 : ℚ), (0 : ℚ), (0 : ℚ)) ∧
      ((exampleKernelDiagonal : KernelData ℚ).param 0 3,
        (exampleKernelDiagonal : KernelData ℚ).param 0 4,
        (exampleKernelDiagonal : KernelData ℚ).param 0 5) = ((1 : ℚ), (1 : ℚ), (1 : ℚ)) := by
    simp [Calc_VecMinus, exampleKernelDiagonal, exampleKernel, KernelData.param]
  have hmod : Calc_VecMod sqrtTenth ((1 : ℚ), (1 : ℚ), (1 : ℚ)) = sqrtTenth 3 := by
    unfold Calc_VecMod
    norm_num
  have hLV : Calc_VecMinus ((0 : ℚ), (0 : ℚ), (0 : ℚ)) ((1 : ℚ), (1 : ℚ), (1 : ℚ))
      = (1, 1, 1) := by
    simp [Calc_VecMinus]
  obtain ⟨v0, h0⟩ := diagonal_record true 0
  obtain ⟨v1, h1⟩ := diagonal_record false 1
  simp only [eq_self_iff_true, Bool.false_eq_true, if_true, if_false] at h0 h1
  have hshape : (exampleKernelDiagonal : KernelData ℚ).BoundaryShape = 3 := rfl
  unfold Calc_r
  simp only [hshape, show ¬ ((3 : Int) = 0) by decide, show ¬ ((3 : Int) = 1) by decide,
    show ¬ ((3 : Int) = 2) by decide, if_false, if_true, or_self, hq, hm, hpq, hpm,
    hL.2.1, hL.2.2, hLV, hmod]
  have hr1 : List.range 1 = [0] := rfl
  rw [hr1]
  simp only [List.filterMap_cons, List.filterMap_nil, hpq, hpm, h0, h1, zero_add,
    List.singleton_append, List.map_cons, List.map_nil]

end CapsuleWitness

section SearchCongruence
variable {α : Type} [LinearOrderedField α]

theorem foldl_rel {σ τ ι : Type} (R : σ → τ → Prop) (f : σ → ι → σ) (f' : τ → ι → τ)
    (xs : List ι) (hstep : ∀ s s' x, x ∈ xs → R s s' → R (f s x) (f' s' x))
    (s : σ) (s' : τ) (hs : R s s') : R (xs.foldl f s) (xs.foldl f' s') := by
  induction xs generalizing s s' with
  | nil => exact hs
  | cons x xs ih =>
    simp only [List.foldl_cons]
    exact ih (fun s s' y hy => hstep s s' y (List.mem_cons_of_mem x hy)) _ _
      (hstep s s' x (List.mem_cons_self x xs) hs)

/-- Every slot of the vector `Node` holds a position below `n` when the
window `LB .. LB + |InputNode|` lies inside `0 .. n`. -/
theorem nodeSeq_getD_lt (node : List Char) (QMSize LB n : Nat) (hn : 0 < n)
    (hlen : LB + node.length ≤ n) (i : Nat) : (nodeSeq node QMSize LB).getD i 0 < n := by
  have hall : ∀ x ∈ nodeSeq node QMSize LB, x < n := by
    unfold nodeSeq
    refine foldl_invariant (fun (st : List Nat × Nat × Nat) => ∀ x ∈ st.1, x < n) _ _ ?_ _ ?_
    · intro st k hk hI
      have hk' : k + LB < n := by
        have := List.mem_range.mp hk
        omega
      split_ifs
      · intro x hx
        rcases List.mem_or_eq_of_mem_set hx with h | h
        · exact hI x h
        · rw [h]; exact hk'
      · intro x hx
        rcases List.mem_or_eq_of_mem_set hx with h | h
        · exact hI x h
        · rw [h]; exact hk'
    · intro x hx
      rw [List.eq_of_mem_replicate hx]
      exact hn
  by_cases hi : i < (nodeSeq node QMSize LB).length
  · exact hall _ (getD_mem_of_lt _ i 0 hi)
  · rw [List.getD_eq_default _ _ (not_lt.mp hi)]
    exact hn

theorem crossSum_congr (seq : List Nat) (QMSize n : Nat) (g g' : List (List (gInfo α)))
    (re re' : List (Nat × α))
    (hG : ∀ a b, a < n → b < n →
      (gAt g (recFirst re a) (recFirst re b)).val = (gAt g' (recFirst re' a) (recFirst re' b)).val)
    (hseq : ∀ i, seq.getD i 0 < n) :
    crossSum seq QMSize g re = crossSum seq QMSize g' re' := by
  unfold crossSum molOf
  refine Finset.sum_congr rfl fun i _ => Finset.sum_congr rfl fun j _ => ?_
  exact hG _ _ (hseq i) (hseq j)

/-- The visited set and the running sum of the partition search depend on
the table and the sorted records only through the kernel values at the
pairs of sorted positions of the window. -/
theorem ProdChildAux_congr (expF : α → α) (cm : Int) (h : α) (QMSize LB n : Nat)
    (g g' : List (List (gInfo α))) (re re' : List (Nat × α)) (hn : 0 < n)
    (hG : ∀ a b, a < n → b < n →
      (gAt g (recFirst re a) (recFirst re b)).val = (gAt g' (recFirst re' a) (recFirst re' b)).val)
    (fuel : Nat) (st st' : SearchState α) (node : List Char) (hlen : LB + node.length ≤ n)
    (hN : st.Nodes = st'.Nodes) (hS : st.sumOfDeno = st'.sumOfDeno) :
    (ProdChildAux expF cm h QMSize LB g re fuel st node).Nodes
      = (ProdChildAux expF cm h QMSize LB g' re' fuel st' node).Nodes ∧
    (ProdChildAux expF cm h QMSize LB g re fuel st node).sumOfDeno
      = (ProdChildAux expF cm h QMSize LB g' re' fuel st' node).sumOfDeno := by
  induction fuel generalizing st st' node with
  | zero =>
    unfold ProdChildAux
    exact ⟨hN, hS⟩
  | succ fuel ih =>
    have hv : (CalcPenalFunc expF cm (nodeSeq node QMSize LB) QMSize g
        (List.replicate st.DerList.length 0) re h 1).1
        = (CalcPenalFunc expF cm (nodeSeq node QMSize LB) QMSize g'
        (List.replicate st'.DerList.length 0) re' h 1).1 := by
      rw [CalcPenalFunc_fst, CalcPenalFunc_fst,
        crossSum_congr _ QMSize n g g' re re' hG (nodeSeq_getD_lt node QMSize LB n hn hlen)]
    unfold ProdChildAux
    simp only
    rw [hv, hN]
    by_cases h1 : h ≤ (CalcPenalFunc expF cm (nodeSeq node QMSize LB) QMSize g'
        (List.replicate st'.DerList.length 0) re' h 1).1
    · rw [if_pos h1, if_pos h1]
      by_cases h2 : FindRepeat st'.Nodes node = 0
      · rw [if_pos h2, if_pos h2]
        refine foldl_rel (fun (s s' : SearchState α) =>
          s.Nodes = s'.Nodes ∧ s.sumOfDeno = s'.sumOfDeno) _ _ _ ?_ _ _ ⟨?_, ?_⟩
        · intro s s' i _ hR
          by_cases hc : node.getD i ' ' = '1' ∧ node.getD (i + 1) ' ' = '0'
          · rw [if_pos hc, if_pos hc]
            exact ih s s' (swapChild node i) (by rw [swapChild_length]; exact hlen) hR.1 hR.2
          · rw [if_neg hc, if_neg hc]
            exact hR
        · rfl
        · show st.sumOfDeno + _ = st'.sumOfDeno + _
          rw [hS]
      · rw [if_neg h2, if_neg h2]
        exact ⟨hN, hS⟩
    · rw [if_neg h1, if_neg h1]
      by_cases h3 : (CalcPenalFunc expF cm (nodeSeq node QMSize LB) QMSize g'
          (List.replicate st'.DerList.length 0) re' h 1).1 < h ∧ cm = 1
      · rw [if_pos h3, if_pos h3]
        by_cases h2 : FindRepeat st'.Nodes node = 0
        · rw [if_pos h2, if_pos h2]
          refine ⟨rfl, ?_⟩
          show st.sumOfDeno + _ = st'.sumOfDeno + _
          rw [hS]
        · rw [if_neg h2, if_neg h2]
          exact ⟨hN, hS⟩
      · rw [if_neg h3, if_neg h3]
        exact ⟨hN, hS⟩

end SearchCongruence
section DenominatorCongruence
variable {α : Type} [LinearOrderedField α]

theorem ImpQMlb_le (hl : List α) (QMSize : Nat) (h : α) : ImpQMlb hl QMSize h ≤ QMSize := by
  unfold ImpQMlb
  cases hf : (List.range QMSize).reverse.find? fun p => decide (hl.getD p 0 < h) with
  | none => exact Nat.zero_le _
  | some p =>
    have hp := List.mem_of_find?_eq_some hf
    rw [List.mem_reverse, List.mem_range] at hp
    exact hp

theorem ImpMMub_cases (hl : List α) (QMSize MMSize : Nat) (h : α) :
    ImpMMub hl QMSize MMSize h = 0 ∨
      ∃ q : Nat, QMSize ≤ q ∧ q < QMSize + MMSize ∧ ImpMMub hl QMSize MMSize h = (q : Int) - 1 := by
  unfold ImpMMub
  cases hf : (List.range' QMSize MMSize).find? fun q => decide (hl.getD q 0 < h) with
  | none => exact Or.inl rfl
  | some q =>
    have hq := List.mem_of_find?_eq_some hf
    rw [List.mem_range'_1] at hq
    exact Or.inr ⟨q, hq.1, hq.2, rfl⟩

/-- The window of sorted positions that one pass of the convergence loop
hands to the partition search lies inside `0 .. QMSize + MMSize`. -/
theorem window_le (hl : List α) (QMSize MMSize : Nat) (h : α) (hn : 0 < QMSize + MMSize) :
    ImpQMlb hl QMSize h
        + (perfect ((QMSize : Int) - ImpQMlb hl QMSize h)
            (ImpMMub hl QMSize MMSize h - ((QMSize : Int) - 1))).length
      ≤ QMSize + MMSize := by
  have h1 := ImpQMlb_le hl QMSize h
  have hlen : ∀ a b : Int, (perfect a b).length = (a + b).toNat := by
    intro a b
    simp [perfect, Function.comp_def]
  rw [hlen]
  rcases ImpMMub_cases hl QMSize MMSize h with h2 | ⟨q, hq1, hq2, h2⟩
  · rw [h2]
    omega
  · rw [h2]
    omega

theorem denominatorAt_congr (expF : α → α) (cm : Int) (QMSize MMSize : Nat)
    (g g' : List (List (gInfo α))) (re re' : List (Nat × α)) (hl : List α) (h : α)
    (hn : 0 < QMSize + MMSize)
    (hG : ∀ a b, a < QMSize + MMSize → b < QMSize + MMSize →
      (gAt g (recFirst re a) (recFirst re b)).val = (gAt g' (recFirst re' a) (recFirst re' b)).val) :
    (denominatorAt expF cm QMSize MMSize g re hl h).1
      = (denominatorAt expF cm QMSize MMSize g' re' hl h).1 := by
  unfold denominatorAt ProdChild
  exact (ProdChildAux_congr expF cm h _ _ (QMSize + MMSize) g g' re re' hn hG _ _ _ _
    (window_le hl QMSize MMSize h hn) rfl rfl).2

theorem denLoop_congr (expF : α → α) (cm : Int) (QMSize MMSize : Nat)
    (g g' : List (List (gInfo α))) (re re' : List (Nat × α)) (hl : List α)
    (ScaleFactor gamma : α) (hn : 0 < QMSize + MMSize)
    (hG : ∀ a b, a < QMSize + MMSize → b < QMSize + MMSize →
      (gAt g (recFirst re a) (recFirst re b)).val = (gAt g' (recFirst re' a) (recFirst re' b)).val)
    (fuel j : Nat) (h DenLast : α) :
    (denLoop expF cm QMSize MMSize g re hl ScaleFactor gamma fuel j h DenLast).map Prod.fst
      = (denLoop expF cm QMSize MMSize g' re' hl ScaleFactor gamma fuel j h DenLast).map
          Prod.fst := by
  induction fuel generalizing j h DenLast with
  | zero =>
    unfold denLoop
    rfl
  | succ fuel ih =>
    have hd := denominatorAt_congr expF cm QMSize MMSize g g' re re' hl h hn hG
    unfold denLoop
    simp only
    rw [hd]
    split_ifs
    · show Except.ok _ = Except.ok _
      rw [hd]
    · exact ih _ _ _
    · exact ih _ _ _
    · show Except.ok _ = Except.ok _
      rw [hd]
    · exact ih _ _ _

theorem convergenceLoop_congr (expF : α → α) (cm : Int) (QMSize MMSize : Nat)
    (g g' : List (List (gInfo α))) (re re' : List (Nat × α)) (hl : List α)
    (ScaleFactor gamma : α) (hn : 0 < QMSize + MMSize)
    (hG : ∀ a b, a < QMSize + MMSize → b < QMSize + MMSize →
      (gAt g (recFirst re a) (recFirst re b)).val = (gAt g' (recFirst re' a) (recFirst re' b)).val)
    (IterNum : Int) (h : α) :
    (convergenceLoop expF cm QMSize MMSize g re hl ScaleFactor gamma IterNum h).map Prod.fst
      = (convergenceLoop expF cm QMSize MMSize g' re' hl ScaleFactor gamma IterNum h).map
          Prod.fst := by
  unfold convergenceLoop
  split_ifs
  · rfl
  · exact denLoop_congr expF cm QMSize MMSize g g' re re' hl ScaleFactor gamma hn hG _ _ _ _

theorem hList_congr (expF : α → α) (QMSize MMSize : Nat)
    (g g' : List (List (gInfo α))) (re re' : List (Nat × α)) (hM : 0 < MMSize)
    (hG : ∀ a b, a < QMSize + MMSize → b < QMSize + MMSize →
      (gAt g (recFirst re a) (recFirst re b)).val = (gAt g' (recFirst re' a) (recFirst re' b)).val) :
    hList expF QMSize MMSize g re = hList expF QMSize MMSize g' re' := by
  unfold hList
  congr 1
  · apply List.map_congr_left
    intro p hp
    rw [List.mem_range] at hp
    congr 2
    apply List.foldl_ext
    intro e j hj
    rw [List.mem_range'_1] at hj
    rw [hG j p (by omega) (by omega)]
  · apply List.map_congr_left
    intro q hq
    rw [List.mem_range'_1] at hq
    congr 2
    apply List.foldl_ext
    intro e j hj
    rw [List.mem_range'_1] at hj
    rw [hG q j (by omega) (by omega)]

end DenominatorCongruence

section FloorCharacterisation
variable {α : Type} [LinearOrderedField α]

theorem recFirst_set_same (l : List (Nat × α)) (j a : Nat) (v : α) :
    recFirst (l.set j (recFirst l j, v)) a = recFirst l a := by
  unfold recFirst
  simp only [List.getD_eq_getElem?_getD, List.getElem?_set]
  split_ifs with h1 h2
  · rw [h1]
    rfl
  · rw [← h1, List.getElem?_eq_none (not_lt.mp h2)]
  · rfl

theorem recSecond_set_ne (l : List (Nat × α)) (j a : Nat) (x : Nat × α) (h : j ≠ a) :
    recSecond (l.set j x) a = recSecond l a := by
  unfold recSecond
  simp only [List.getD_eq_getElem?_getD, List.getElem?_set, if_neg h]

theorem recSecond_set_self (l : List (Nat × α)) (j : Nat) (x : Nat × α) (h : j < l.length) :
    recSecond (l.set j x) j = x.2 := by
  unfold recSecond
  simp [List.getD_eq_getElem?_getD, List.getElem?_set, h]

/-- The zero-distance loop keeps the molecule index of every record, in
the sorted and in the original-order list. -/
theorem floorLoop_recFirst (js : List Nat) (re orig : List (Nat × α)) (a : Nat) :
    recFirst (floorLoop js re orig).1 a = recFirst re a ∧
    recFirst (floorLoop js re orig).2 a = recFirst orig a := by
  induction js generalizing re orig with
  | nil => exact ⟨rfl, rfl⟩
  | cons j js ih =>
    unfold floorLoop
    simp only
    split_ifs
    · exact ⟨rfl, rfl⟩
    · obtain ⟨h1, h2⟩ := ih (re.set j (recFirst re j, 1.0e-8))
        (orig.set (recFirst re j) (recFirst orig (recFirst re j), 1.0e-8))
      rw [h1, h2, recFirst_set_same, recFirst_set_same]
      exact ⟨rfl, rfl⟩
    · exact ih re orig

/-- A zero distance that the loop reaches without meeting a positive one
is replaced by `1.0e-8` in the original-order record of its molecule. -/
theorem floorLoop_zero (js : List Nat) (re orig : List (Nat × α)) (p k : Nat)
    (hjs : js.Pairwise (fun a b => a < b)) (hp : p ∈ js)
    (hbefore : ∀ q ∈ js, q < p → ¬ 0 < recSecond re q)
    (hz : recSecond re p = 0) (hf : recFirst re p = k) (hk : k < orig.length) :
    recSecond (floorLoop js re orig).2 k = 1.0e-8 := by
  induction js generalizing re orig with
  | nil => simp at hp
  | cons j js ih =>
    rw [List.pairwise_cons] at hjs
    unfold floorLoop
    simp only
    rcases List.mem_cons.mp hp with hpj | hpj
    · subst hpj
      rw [if_neg (by rw [hz]; exact lt_irrefl 0), if_pos hz]
      apply floorLoop_orig_floor
      rw [hf, recSecond_set_self _ _ _ hk]
    · have hjp : j < p := hjs.1 p hpj
      have hnot : ¬ 0 < recSecond re j := hbefore j (List.mem_cons_self j js) hjp
      rw [if_neg hnot]
      split_ifs with h0
      · apply ih _ _ hjs.2 hpj
        · intro q hq hqp
          rw [recSecond_set_ne _ _ _ _ (ne_of_lt (hjs.1 q hq))]
          exact hbefore q (List.mem_cons_of_mem j hq) hqp
        · rw [recSecond_set_ne _ _ _ _ (ne_of_lt hjp)]
          exact hz
        · unfold recFirst at hf ⊢
          simp only [List.getD_eq_getElem?_getD, List.getElem?_set, if_neg (ne_of_lt hjp)]
          simpa [List.getD_eq_getElem?_getD] using hf
        · rw [List.length_set]
          exact hk
      · exact ih _ _ hjs.2 hpj
          (fun q hq hqp => hbefore q (List.mem_cons_of_mem j hq) hqp) hz hf hk

/-- After the zero-distance loop of `execute`, the original-order record
of every molecule holds `floorValue` of the distance `Calc_r` computed. -/
theorem floorZero_value (rCA : List (Nat × α))
    (hfirst : ∀ q, q < rCA.length → recFirst rCA q = q) (k : Nat) (hk : k < rCA.length) :
    recSecond (floorZero (sortByDistance rCA) rCA).2 k = floorValue (recSecond rCA k) := by
  unfold floorValue
  by_cases h0 : recSecond rCA k = 0
  · rw [if_pos h0]
    have hmem : rCA.getD k (0, 0) ∈ sortByDistance rCA :=
      (sortByDistance_perm rCA).symm.subset (getD_mem_of_lt rCA k _ hk)
    obtain ⟨p, hp, hpe⟩ := List.getElem_of_mem hmem
    have hpz : recSecond (sortByDistance rCA) p = 0 := by
      unfold recSecond at h0 ⊢
      rw [List.getD_eq_getElem _ _ hp, hpe]
      exact h0
    have hpf : recFirst (sortByDistance rCA) p = k := by
      have := hfirst k hk
      unfold recFirst at this ⊢
      rw [List.getD_eq_getElem _ _ hp, hpe]
      exact this
    unfold floorZero
    apply floorLoop_zero _ _ _ p k (List.pairwise_lt_range _) (List.mem_range.mpr hp) _ hpz hpf hk
    intro q _ hqp
    have hsorted := sortByDistance_sorted rCA
    have hq : q < (sortByDistance rCA).length := lt_trans hqp hp
    have hle := List.pairwise_iff_getElem.mp hsorted q p hq hp hqp
    unfold recSecond at hpz ⊢
    rw [List.getD_eq_getElem _ _ hp] at hpz
    rw [List.getD_eq_getElem _ _ hq]
    rw [hpz] at hle
    exact not_lt.mpr hle
  · rw [if_neg h0]
    exact floorZero_nonzero rCA hfirst k h0

end FloorCharacterisation

section SortedDistances
variable {α : Type} [LinearOrderedField α]

theorem floorZero_recFirst (re orig : List (Nat × α)) (a : Nat) :
    recFirst (floorZero re orig).1 a = recFirst re a ∧
    recFirst (floorZero re orig).2 a = recFirst orig a :=
  floorLoop_recFirst _ re orig a

theorem recSecond_eq_map (l : List (Nat × α)) (a : Nat) :
    recSecond l a = (l.map Prod.snd).getD a 0 := by
  unfold recSecond
  simp only [List.getD_eq_getElem?_getD, List.getElem?_map]
  cases l[a]? <;> rfl

theorem sortByDistance_length (l : List (Nat × α)) : (sortByDistance l).length = l.length :=
  (sortByDistance_perm l).length_eq

/-- The sorted records of a list with the layout of `Calc_r` hold molecule
indices inside the list. -/
theorem sortByDistance_first_lt (rCA : List (Nat × α))
    (hfirst : ∀ q, q < rCA.length → recFirst rCA q = q) (a : Nat) (ha : a < rCA.length) :
    recFirst (sortByDistance rCA) a < rCA.length := by
  have ha' : a < (sortByDistance rCA).length := by rw [sortByDistance_length]; exact ha
  have hmem : (sortByDistance rCA).getD a (0, 0) ∈ rCA :=
    (sortByDistance_perm rCA).subset (getD_mem_of_lt _ a _ ha')
  obtain ⟨q, hq, hqe⟩ := List.getElem_of_mem hmem
  have hq1 := hfirst q hq
  unfold recFirst at hq1 ⊢
  rw [List.getD_eq_getElem _ _ hq, hqe] at hq1
  rw [hq1]
  exact hq

/-- The sorted distances are determined by the distances up to their
order. -/
theorem sortByDistance_snd_eq (l l' : List (Nat × α))
    (hperm : (l'.map Prod.snd).Perm (l.map Prod.snd)) :
    (sortByDistance l').map Prod.snd = (sortByDistance l).map Prod.snd := by
  have hs : ∀ m : List (Nat × α),
      List.Sorted (fun a b : α => a ≤ b) ((sortByDistance m).map Prod.snd) := by
    intro m
    exact List.pairwise_map.mpr (sortByDistance_sorted m)
  have hp : ((sortByDistance l').map Prod.snd).Perm ((sortByDistance l).map Prod.snd) :=
    ((sortByDistance_perm l').map _).trans (hperm.trans ((sortByDistance_perm l).map _).symm)
  exact List.eq_of_perm_of_sorted hp (hs l') (hs l)

theorem CalcPairExpPart_zero (alpha : α) : CalcPairExpPart alpha 0 = (0, 0) := by
  unfold CalcPairExpPart
  rw [if_neg (lt_irrefl 0)]

/-- The kernel value that the table built after the zero-distance loop
holds for two sorted positions is the kernel of the difference of their
floored sorted distances. -/
theorem floor_table_entry (AlphaNow : α) (n : Nat) (rCA : List (Nat × α))
    (hlen : rCA.length = n) (hfirst : ∀ q, q < rCA.length → recFirst rCA q = q)
    (a b : Nat) (ha : a < n) (hb : b < n) :
    (gAt (gExpPartTable AlphaNow n (floorZero (sortByDistance rCA) rCA).2)
        (recFirst (floorZero (sortByDistance rCA) rCA).1 a)
        (recFirst (floorZero (sortByDistance rCA) rCA).1 b)).val
      = (CalcPairExpPart AlphaNow (floorValue (recSecond (sortByDistance rCA) a)
          - floorValue (recSecond (sortByDistance rCA) b))).1 := by
  rw [(floorZero_recFirst _ _ a).1, (floorZero_recFirst _ _ b).1]
  have hxa : recFirst (sortByDistance rCA) a < rCA.length :=
    sortByDistance_first_lt rCA hfirst a (by rw [hlen]; exact ha)
  have hxb : recFirst (sortByDistance rCA) b < rCA.length :=
    sortByDistance_first_lt rCA hfirst b (by rw [hlen]; exact hb)
  have hca := sortByDistance_consistent rCA hfirst a
    (by rw [sortByDistance_length, hlen]; exact ha)
  have hcb := sortByDistance_consistent rCA hfirst b
    (by rw [sortByDistance_length, hlen]; exact hb)
  rw [gAt_gExpPartTable AlphaNow n _ _ _ (by rw [← hlen]; exact hxa) (by rw [← hlen]; exact hxb),
    floorZero_value rCA hfirst _ hxa, floorZero_value rCA hfirst _ hxb, hca, hcb]
  split_ifs with he
  · rw [← hca, ← hcb, he, sub_self, CalcPairExpPart_zero]
  · rfl

end SortedDistances

section NumeratorLemmas
variable {α : Type} [LinearOrderedField α]

theorem pairSum_perm (AlphaNow : α) (dQ dQ' dM dM' : List α) (hQ : dQ'.Perm dQ)
    (hM : dM'.Perm dM) : pairSum AlphaNow dQ' dM' = pairSum AlphaNow dQ dM := by
  unfold pairSum
  have inner : ∀ x : α,
      (dM'.map fun y => (CalcPairExpPart AlphaNow (floorValue x - floorValue y)).1).sum
        = (dM.map fun y => (CalcPairExpPart AlphaNow (floorValue x - floorValue y)).1).sum :=
    fun x => (hM.map _).sum_eq
  simp only [inner]
  exact (hQ.map _).sum_eq

theorem pairSum_range (AlphaNow : α) (nQM nMM : Nat) (d : Nat → α) :
    pairSum AlphaNow ((List.range nQM).map d) ((List.range' nQM nMM).map d)
      = ∑ i in Finset.range nQM, ∑ j in Finset.Ico nQM (nQM + nMM),
          (CalcPairExpPart AlphaNow (floorValue (d i) - floorValue (d j))).1 := by
  unfold pairSum
  rw [List.map_map, sum_map_range]
  refine Finset.sum_congr rfl fun i _ => ?_
  simp only [Function.comp]
  rw [List.map_map, sum_map_range']
  rfl

/-- The numerator weight of a group is `exp` of minus the sum of the
kernel values over the pairs of a QM distance and an MM distance. -/
theorem numerator_pairSum (expF : α → α) (cm : Int) (AlphaNow : α) (nQM nMM : Nat)
    (rCA : List (Nat × α)) (DerList : List α) (h : α) (part : Int)
    (hlen : rCA.length = nQM + nMM) (hfirst : ∀ q, q < rCA.length → recFirst rCA q = q) :
    (CalcPenalFunc expF cm (List.range (nQM + nMM)) nQM
        (gExpPartTable AlphaNow (nQM + nMM) (floorZero (sortByDistance rCA) rCA).2) DerList
        (floorZero (sortByDistance rCA) rCA).2 h part).1
      = expF (-pairSum AlphaNow ((List.range nQM).map (recSecond rCA))
          ((List.range' nQM nMM).map (recSecond rCA))) := by
  rw [CalcPenalFunc_fst, pairSum_range]
  congr 2
  unfold crossSum
  rw [List.length_range]
  refine Finset.sum_congr rfl fun i hi => Finset.sum_congr rfl fun j hj => ?_
  rw [Finset.mem_range] at hi
  rw [Finset.mem_Ico] at hj
  have hi' : i < nQM + nMM := by omega
  have hmol : ∀ k, k < nQM + nMM →
      molOf (List.range (nQM + nMM)) (floorZero (sortByDistance rCA) rCA).2 k = k := by
    intro k hk
    unfold molOf
    rw [List.getD_eq_getElem _ _ (by rw [List.length_range]; exact hk), List.getElem_range,
      (floorZero_recFirst _ _ k).2]
    exact hfirst k (by rw [hlen]; exact hk)
  rw [hmol i hi', hmol j hj.2, gAt_gExpPartTable AlphaNow _ _ i j hi' hj.2,
    if_neg (by omega), floorZero_value rCA hfirst i (by rw [hlen]; exact hi'),
    floorZero_value rCA hfirst j (by rw [hlen]; exact hj.2)]

end NumeratorLemmas

section RelabelPerm

theorem forall2_perm_map_sum {β γ : Type} [AddCommMonoid γ] (f : β → γ) (l' l : List (List β))
    (h : List.Forall₂ List.Perm l' l) :
    l'.map (fun grp => (grp.map f).sum) = l.map (fun grp => (grp.map f).sum) := by
  induction h with
  | nil => rfl
  | cons hp _ ih =>
    simp only [List.map_cons]
    rw [ih, (hp.map f).sum_eq]

theorem forall2_perm_getD {β : Type} (l' l : List (List β)) (h : List.Forall₂ List.Perm l' l)
    (i : Nat) : (l'.getD i []).Perm (l.getD i []) := by
  induction h generalizing i with
  | nil => simp
  | cons hp _ ih =>
    cases i with
    | zero => simpa using hp
    | succ i => simpa using ih i

theorem Relabelled.qm_perm {α : Type} {K' K : KernelData α} (h : Relabelled K' K) (i : Nat) :
    (K'.qm i).Perm (K.qm i) :=
  forall2_perm_getD _ _ h.qmPerm i

theorem Relabelled.mm_perm {α : Type} {K' K : KernelData α} (h : Relabelled K' K) (i : Nat) :
    (K'.mm i).Perm (K.mm i) :=
  forall2_perm_getD _ _ h.mmPerm i

end RelabelPerm

section RelabelDistances
variable {α : Type} [LinearOrderedField α]

theorem Relabelled.systemMass_eq {K' K : KernelData α} (h : Relabelled K' K) :
    systemMass K' = systemMass K := by
  unfold systemMass
  rw [List.map_append, List.map_append, forall2_perm_map_sum _ _ _ h.qmPerm,
    forall2_perm_map_sum _ _ _ h.mmPerm]

theorem Relabelled.systemMoment_eq {K' K : KernelData α} (h : Relabelled K' K)
    (P : List (Vec3 α)) : systemMoment K' P = systemMoment K P := by
  unfold systemMoment
  rw [List.map_append, List.map_append, forall2_perm_map_sum _ _ _ h.qmPerm,
    forall2_perm_map_sum _ _ _ h.mmPerm]

/-- The centre of mass and the total mass of the system do not depend on
the order of the molecules inside the groups. -/
theorem Relabelled.systemCOM_eq {K' K : KernelData α} (h : Relabelled K' K)
    (P : List (Vec3 α)) : systemCOM K' P = systemCOM K P := by
  apply Prod.ext
  · rw [systemCOM_moment, systemCOM_moment, h.systemMass_eq, h.systemMoment_eq]
  · rw [systemCOM_mass, systemCOM_mass, h.systemMass_eq]

theorem Relabelled.Calc_r_COM_eq {K' K : KernelData α} (h : Relabelled K' K)
    (sqrtF : α → α) (COM0 : Vec3 α) (STM0 : α) (P : List (Vec3 α)) (i : Nat) (t : Int) :
    (Calc_r K' sqrtF COM0 STM0 P i t).COM = (Calc_r K sqrtF COM0 STM0 P i t).COM := by
  unfold Calc_r
  simp only [h.sameShape, h.systemCOM_eq]

theorem Relabelled.molDistance_eq {K' K : KernelData α} (h : Relabelled K' K)
    (sqrtF : α → α) (COM : Vec3 α) (P : List (Vec3 α)) (i : Nat) (t : Int) (clamp : Bool)
    (mol : InternalInfo α) :
    molDistance K' sqrtF COM P i t clamp mol = molDistance K sqrtF COM P i t clamp mol := by
  unfold molDistance KernelData.param
  rw [h.sameShape, h.sameParameters]

theorem moleculePoint_qm (K : KernelData α) (P : List (Vec3 α)) (i k : Nat) (t : Int) :
    moleculePoint K P 1 i k t = pointOfMolecule P t ((K.qm i).getD k ⟨[], []⟩) := by
  unfold moleculePoint pointOfMolecule Calc_COM
  simp

theorem moleculePoint_mm (K : KernelData α) (P : List (Vec3 α)) (i k : Nat) (t : Int) :
    moleculePoint K P 0 i k t = pointOfMolecule P t ((K.mm i).getD k ⟨[], []⟩) := by
  unfold moleculePoint pointOfMolecule Calc_COM
  simp

theorem capsuleRecord_first (sqrtF : α → α) (clamp : Bool) (L1 L2 LVec : Vec3 α) (LMod : α)
    (pVec : Vec3 α) (first : Nat) :
    (capsuleRecord sqrtF clamp L1 L2 LVec LMod pVec first).map (fun x => x.1.2)
      = (capsuleRecord sqrtF clamp L1 L2 LVec LMod pVec 0).map (fun x => x.1.2) := by
  unfold capsuleRecord
  simp only
  split_ifs <;> rfl

/-- The distance of the record of molecule `k` is a function of the
molecule. -/
theorem moleculeRecord_distance (K : KernelData α) (sqrtF : α → α) (COM : Vec3 α)
    (P : List (Vec3 α)) (i : Nat) (t : Int) (k : Nat) (x : (Nat × α) × Vec3 α)
    (hx : moleculeRecord K sqrtF COM P i t k = some x) :
    x.1.2 = molDistance K sqrtF COM P i t (decide (k < (K.qm i).length))
      (groupMolecule K i k) := by
  have hp : (if k < (K.qm i).length then moleculePoint K P 1 i k t
      else moleculePoint K P 0 i (k - (K.qm i).length) t)
      = pointOfMolecule P t (groupMolecule K i k) := by
    unfold groupMolecule
    split_ifs
    · exact moleculePoint_qm K P i k t
    · exact moleculePoint_mm K P i _ t
  unfold moleculeRecord at hx
  simp only [hp] at hx
  unfold molDistance
  simp only
  split_ifs at hx ⊢ with h0 h1 h2 h3
  · rw [← Option.some.inj hx]
    rfl
  · rw [← Option.some.inj hx]
    rfl
  · rw [← capsuleRecord_first _ _ _ _ _ _ _ k, hx]
    rfl
  · rw [← capsuleRecord_first _ _ _ _ _ _ _ k, hx]
    rfl

end RelabelDistances

section RelabelRecords
variable {α : Type} [LinearOrderedField α]

theorem map_snd_split (rCA : List (Nat × α)) (nQM nMM : Nat) (hlen : rCA.length = nQM + nMM) :
    rCA.map Prod.snd = (List.range nQM).map (recSecond rCA)
      ++ (List.range' nQM nMM).map (recSecond rCA) := by
  have h1 : rCA.map Prod.snd = (List.range (nQM + nMM)).map (recSecond rCA) := by
    conv_lhs => rw [← map_getD_range (rCA.map Prod.snd) 0]
    rw [List.length_map, hlen]
    apply List.map_congr_left
    intro k _
    exact (recSecond_eq_map rCA k).symm
  rw [h1, List.range_add, List.map_append, List.range'_eq_map_range]

/-- The distances `Calc_r` stores for the QM molecules and for the MM
molecules of a group are the images of the two molecule lists under a
function of the molecule. -/
theorem Calc_r_distances (K : KernelData α) (sqrtF : α → α) (COM0 : Vec3 α) (STM0 : α)
    (P : List (Vec3 α)) (i : Nat) (t : Int)
    (hshape : K.BoundaryShape = 0 ∨ K.BoundaryShape = 1 ∨ K.BoundaryShape = 2 ∨
      K.BoundaryShape = 3)
    (hcap : ¬ degenerateCapsule K sqrtF i) :
    (List.range (K.qm i).length).map (recSecond (Calc_r K sqrtF COM0 STM0 P i t).rCA)
      = (K.qm i).map (molDistance K sqrtF (Calc_r K sqrtF COM0 STM0 P i t).COM P i t true) ∧
    (List.range' (K.qm i).length (K.mm i).length).map
        (recSecond (Calc_r K sqrtF COM0 STM0 P i t).rCA)
      = (K.mm i).map (molDistance K sqrtF (Calc_r K sqrtF COM0 STM0 P i t).COM P i t false) := by
  have hrec : ∀ k, k < (K.qm i).length + (K.mm i).length →
      recSecond (Calc_r K sqrtF COM0 STM0 P i t).rCA k
        = molDistance K sqrtF (Calc_r K sqrtF COM0 STM0 P i t).COM P i t
            (decide (k < (K.qm i).length)) (groupMolecule K i k) := by
    intro k hk
    obtain ⟨x, hx, hg, _⟩ := Calc_r_getD K sqrtF COM0 STM0 P i t hshape hcap k hk
    unfold recSecond
    rw [hg]
    exact moleculeRecord_distance K sqrtF _ P i t k x hx
  constructor
  · conv_rhs => rw [← map_getD_range (K.qm i) ⟨[], []⟩, List.map_map]
    apply List.map_congr_left
    intro k hk
    rw [List.mem_range] at hk
    rw [hrec k (by omega)]
    simp only [Function.comp, hk, decide_True, groupMolecule, if_true]
  · conv_rhs => rw [← map_getD_range (K.mm i) ⟨[], []⟩, List.map_map]
    rw [List.range'_eq_map_range, List.map_map]
    apply List.map_congr_left
    intro k hk
    rw [List.mem_range] at hk
    simp only [Function.comp]
    rw [hrec _ (by omega)]
    have hnot : ¬ ((K.qm i).length + k < (K.qm i).length) := by omega
    simp only [hnot, decide_False, groupMolecule, if_false, Nat.add_sub_cancel_left]

end RelabelRecords

section RelabelGroup
variable {α : Type} [LinearOrderedField α]

theorem evalGroup_NumeDen (K : KernelData α) (expF sqrtF : α → α) (COM0 : Vec3 α) (STM0 : α)
    (P : List (Vec3 α)) (i : Nat) :
    (evalGroup K expF sqrtF COM0 STM0 P i).map (fun r => (r.NumeVal, r.DenVal)) =
      if |(groupNumerator K expF sqrtF COM0 STM0 P i).1| < 1.0e-14 ∧ K.EnableTestOutput = 0 then
        .error .badNumerator
      else
        ((convergenceLoop expF K.CutoffMethod (K.qm i).length (K.mm i).length
          (groupTable K sqrtF COM0 STM0 P i) (groupRecords K sqrtF COM0 STM0 P i).1
          (hList expF (K.qm i).length (K.mm i).length (groupTable K sqrtF COM0 STM0 P i)
            (groupRecords K sqrtF COM0 STM0 P i).1)
          (K.IterScales.getD i 0) (K.hThre.getD i 0) (K.FlexiBLEMaxIt.getD i 0)
          (K.hThre.getD i 0)).map Prod.fst).map
            (fun d => ((groupNumerator K expF sqrtF COM0 STM0 P i).1, d)) := by
  simp only [evalGroup, groupNumerator, groupTable, groupRecords]
  split_ifs
  · rfl
  · split <;> simp_all [Except.map]

/-- The numerator weight and the kernel values at the pairs of sorted
positions are the same for two record lists whose QM distances and whose MM
distances agree up to their order. -/
theorem records_congr (expF : α → α) (cm : Int) (AlphaNow : α) (nQM nMM : Nat)
    (rCA' rCA : List (Nat × α)) (DL' DL : List α) (h : α) (part : Int)
    (hrel : rCA' = rCA ∨
      (rCA'.length = nQM + nMM ∧ rCA.length = nQM + nMM ∧
        (∀ q, q < rCA'.length → recFirst rCA' q = q) ∧
        (∀ q, q < rCA.length → recFirst rCA q = q) ∧
        ((List.range nQM).map (recSecond rCA')).Perm ((List.range nQM).map (recSecond rCA)) ∧
        ((List.range' nQM nMM).map (recSecond rCA')).Perm
          ((List.range' nQM nMM).map (recSecond rCA)))) :
    (CalcPenalFunc expF cm (List.range (nQM + nMM)) nQM
        (gExpPartTable AlphaNow (nQM + nMM) (floorZero (sortByDistance rCA') rCA').2) DL'
        (floorZero (sortByDistance rCA') rCA').2 h part).1
      = (CalcPenalFunc expF cm (List.range (nQM + nMM)) nQM
        (gExpPartTable AlphaNow (nQM + nMM) (floorZero (sortByDistance rCA) rCA).2) DL
        (floorZero (sortByDistance rCA) rCA).2 h part).1 ∧
    ∀ a b, a < nQM + nMM → b < nQM + nMM →
      (gAt (gExpPartTable AlphaNow (nQM + nMM) (floorZero (sortByDistance rCA') rCA').2)
          (recFirst (floorZero (sortByDistance rCA') rCA').1 a)
          (recFirst (floorZero (sortByDistance rCA') rCA').1 b)).val
        = (gAt (gExpPartTable AlphaNow (nQM + nMM) (floorZero (sortByDistance rCA) rCA).2)
          (recFirst (floorZero (sortByDistance rCA) rCA).1 a)
          (recFirst (floorZero (sortByDistance rCA) rCA).1 b)).val := by
  rcases hrel with heq | ⟨hlen', hlen, hfirst', hfirst, hQ, hM⟩
  · subst heq
    refine ⟨?_, fun a b _ _ => rfl⟩
    rw [CalcPenalFunc_fst, CalcPenalFunc_fst]
  · constructor
    · rw [numerator_pairSum expF cm AlphaNow nQM nMM rCA' DL' h part hlen' hfirst',
        numerator_pairSum expF cm AlphaNow nQM nMM rCA DL h part hlen hfirst,
        pairSum_perm AlphaNow _ _ _ _ hQ hM]
    · intro a b ha hb
      have hperm : (rCA'.map Prod.snd).Perm (rCA.map Prod.snd) := by
        rw [map_snd_split rCA' nQM nMM hlen', map_snd_split rCA nQM nMM hlen]
        exact hQ.append hM
      have hs := sortByDistance_snd_eq rCA rCA' hperm
      have hsec : ∀ c, recSecond (sortByDistance rCA') c = recSecond (sortByDistance rCA) c := by
        intro c
        rw [recSecond_eq_map, recSecond_eq_map, hs]
      rw [floor_table_entry AlphaNow _ rCA' hlen' hfirst' a b ha hb,
        floor_table_entry AlphaNow _ rCA hlen hfirst a b ha hb, hsec a, hsec b]

theorem Calc_r_rCA_other (K : KernelData α) (sqrtF : α → α) (COM0 : Vec3 α) (STM0 : α)
    (P : List (Vec3 α)) (i : Nat) (t : Int)
    (hshape : ¬ (K.BoundaryShape = 0 ∨ K.BoundaryShape = 1 ∨ K.BoundaryShape = 2 ∨
      K.BoundaryShape = 3)) :
    (Calc_r K sqrtF COM0 STM0 P i t).rCA = [] := by
  push_neg at hshape
  unfold Calc_r
  simp only [hshape.1, hshape.2.1, hshape.2.2.1, hshape.2.2.2, if_false, List.map_nil]

end RelabelGroup

section RelabelEvaluate
variable {α : Type} [LinearOrderedField α]

theorem Relabelled.chooseAtomDragged_eq {K' K : KernelData α} (h : Relabelled K' K)
    (sqrtF : α → α) (P : List (Vec3 α)) (i : Nat) (hsel : 0 < K.AssignedAtomIndex.length) :
    chooseAtomDragged K' sqrtF P i = chooseAtomDragged K sqrtF P i := by
  unfold chooseAtomDragged
  rw [h.sameAssigned, if_pos hsel, if_pos hsel]

/-- The records `Calc_r` produces for a group before and after a
re-labelling are equal, or have the layout of `Calc_r` and the same QM
distances and the same MM distances up to their order. -/
theorem Relabelled.records {K' K : KernelData α} (h : Relabelled K' K) (sqrtF : α → α)
    (COM0 : Vec3 α) (STM0 : α) (P : List (Vec3 α)) (i : Nat) (t : Int) :
    (Calc_r K' sqrtF COM0 STM0 P i t).rCA = (Calc_r K sqrtF COM0 STM0 P i t).rCA ∨
    ((Calc_r K' sqrtF COM0 STM0 P i t).rCA.length = (K.qm i).length + (K.mm i).length ∧
      (Calc_r K sqrtF COM0 STM0 P i t).rCA.length = (K.qm i).length + (K.mm i).length ∧
      (∀ q, q < (Calc_r K' sqrtF COM0 STM0 P i t).rCA.length →
        recFirst (Calc_r K' sqrtF COM0 STM0 P i t).rCA q = q) ∧
      (∀ q, q < (Calc_r K sqrtF COM0 STM0 P i t).rCA.length →
        recFirst (Calc_r K sqrtF COM0 STM0 P i t).rCA q = q) ∧
      ((List.range (K.qm i).length).map
          (recSecond (Calc_r K' sqrtF COM0 STM0 P i t).rCA)).Perm
        ((List.range (K.qm i).length).map (recSecond (Calc_r K sqrtF COM0 STM0 P i t).rCA)) ∧
      ((List.range' (K.qm i).length (K.mm i).length).map
          (recSecond (Calc_r K' sqrtF COM0 STM0 P i t).rCA)).Perm
        ((List.range' (K.qm i).length (K.mm i).length).map
          (recSecond (Calc_r K sqrtF COM0 STM0 P i t).rCA))) := by
  have hlq : (K'.qm i).length = (K.qm i).length := (h.qm_perm i).length_eq
  have hlm : (K'.mm i).length = (K.mm i).length := (h.mm_perm i).length_eq
  have hdeg : degenerateCapsule K' sqrtF i ↔ degenerateCapsule K sqrtF i := by
    unfold degenerateCapsule capsuleLMod KernelData.param
    rw [h.sameShape, h.sameParameters]
  by_cases hcap : degenerateCapsule K sqrtF i
  · left
    rw [(Calc_r_degenerate K' sqrtF COM0 STM0 P i t (hdeg.mpr hcap)).1,
      (Calc_r_degenerate K sqrtF COM0 STM0 P i t hcap).1]
  by_cases hshape : K.BoundaryShape = 0 ∨ K.BoundaryShape = 1 ∨ K.BoundaryShape = 2 ∨
      K.BoundaryShape = 3
  · right
    have hshape' : K'.BoundaryShape = 0 ∨ K'.BoundaryShape = 1 ∨ K'.BoundaryShape = 2 ∨
        K'.BoundaryShape = 3 := by rw [h.sameShape]; exact hshape
    have hcap' : ¬ degenerateCapsule K' sqrtF i := fun hd => hcap (hdeg.mp hd)
    obtain ⟨hlen', hfirst'⟩ := Calc_r_layout K' sqrtF COM0 STM0 P i t hshape' hcap'
    obtain ⟨hlen, hfirst⟩ := Calc_r_layout K sqrtF COM0 STM0 P i t hshape hcap
    rw [hlq, hlm] at hlen' hfirst'
    obtain ⟨hdq', hdm'⟩ := Calc_r_distances K' sqrtF COM0 STM0 P i t hshape' hcap'
    obtain ⟨hdq, hdm⟩ := Calc_r_distances K sqrtF COM0 STM0 P i t hshape hcap
    rw [hlq] at hdq' hdm'
    rw [hlm] at hdm'
    have hfun : ∀ clamp : Bool,
        molDistance K' sqrtF (Calc_r K' sqrtF COM0 STM0 P i t).COM P i t clamp
          = molDistance K sqrtF (Calc_r K sqrtF COM0 STM0 P i t).COM P i t clamp := by
      intro clamp
      funext mol
      rw [h.Calc_r_COM_eq, h.molDistance_eq]
    refine ⟨hlen', hlen, ?_, ?_, ?_, ?_⟩
    · intro q hq
      exact hfirst' q (by rw [← hlen']; exact hq)
    · intro q hq
      exact hfirst q (by rw [← hlen]; exact hq)
    · rw [hdq', hdq, hfun]
      exact (h.qm_perm i).map _
    · rw [hdm', hdm, hfun]
      exact (h.mm_perm i).map _
  · left
    have hshape' : ¬ (K'.BoundaryShape = 0 ∨ K'.BoundaryShape = 1 ∨ K'.BoundaryShape = 2 ∨
        K'.BoundaryShape = 3) := by rw [h.sameShape]; exact hshape
    rw [Calc_r_rCA_other K' sqrtF COM0 STM0 P i t hshape',
      Calc_r_rCA_other K sqrtF COM0 STM0 P i t hshape]

theorem except_map_congr {β γ : Type} (x y : Except FlexError β) (f : β → γ) (hxy : x = y) :
    x.map f = y.map f := by rw [hxy]

/-- The numerator weight and the accepted denominator of a group with QM
and MM molecules, or the exception its evaluation throws, do not depend on
the order of the molecules inside the groups, for a configured dragged-atom
selector. -/
theorem Relabelled.evalGroup_eq {K' K : KernelData α} (h : Relabelled K' K)
    (expF sqrtF : α → α) (hsel : 0 < K.AssignedAtomIndex.length)
    (COM0' COM0 : Vec3 α) (STM0' STM0 : α) (P : List (Vec3 α)) (i : Nat)
    (hm : (K.mm i).length ≠ 0) :
    (evalGroup K' expF sqrtF COM0' STM0' P i).map (fun r => (r.NumeVal, r.DenVal))
      = (evalGroup K expF sqrtF COM0 STM0 P i).map (fun r => (r.NumeVal, r.DenVal)) := by
  rw [evalGroup_indep K' expF sqrtF COM0' COM0 STM0' STM0 P i]
  have hlq : (K'.qm i).length = (K.qm i).length := (h.qm_perm i).length_eq
  have hlm : (K'.mm i).length = (K.mm i).length := (h.mm_perm i).length_eq
  have ht := h.chooseAtomDragged_eq sqrtF P i hsel
  obtain ⟨hN, hG⟩ := records_congr expF K.CutoffMethod (K.Coefficients.getD i 0)
    (K.qm i).length (K.mm i).length _ _
    (List.replicate ((K.qm i).length + (K.mm i).length) 0)
    (List.replicate ((K.qm i).length + (K.mm i).length) 0) (K.hThre.getD i 0) 0
    (h.records sqrtF COM0 STM0 P i (chooseAtomDragged K sqrtF P i))
  have hnum : (groupNumerator K' expF sqrtF COM0 STM0 P i).1
      = (groupNumerator K expF sqrtF COM0 STM0 P i).1 := by
    unfold groupNumerator groupTable groupRecords
    rw [ht, hlq, hlm, h.sameCutoff, h.sameCoefficients, h.sameThre]
    exact hN
  have hG' : ∀ a b, a < (K.qm i).length + (K.mm i).length →
      b < (K.qm i).length + (K.mm i).length →
      (gAt (groupTable K' sqrtF COM0 STM0 P i)
          (recFirst (groupRecords K' sqrtF COM0 STM0 P i).1 a)
          (recFirst (groupRecords K' sqrtF COM0 STM0 P i).1 b)).val
        = (gAt (groupTable K sqrtF COM0 STM0 P i)
          (recFirst (groupRecords K sqrtF COM0 STM0 P i).1 a)
          (recFirst (groupRecords K sqrtF COM0 STM0 P i).1 b)).val := by
    unfold groupTable groupRecords
    rw [ht, hlq, hlm, h.sameCoefficients]
    exact hG
  have hpos : 0 < (K.mm i).length := Nat.pos_of_ne_zero hm
  rw [evalGroup_NumeDen, evalGroup_NumeDen, hnum, h.sameTestOutput, h.sameCutoff, hlq, hlm,
    h.sameScales, h.sameThre, h.sameMaxIt,
    hList_congr expF _ _ _ _ _ _ hpos hG',
    convergenceLoop_congr expF K.CutoffMethod _ _ _ _ _ _ _ _ _ (by omega) hG']

end RelabelEvaluate

section RelabelSet

theorem forall2_perm_set {β : Type} (l : List (List β)) (i : Nat) (x : List β)
    (hx : x.Perm (l.getD i [])) : List.Forall₂ List.Perm (l.set i x) l := by
  induction l generalizing i with
  | nil => exact List.Forall₂.nil
  | cons a l ih =>
    have hrefl : ∀ m : List (List β), List.Forall₂ List.Perm m m := by
      intro m
      induction m with
      | nil => exact List.Forall₂.nil
      | cons b m ihm => exact List.Forall₂.cons (List.Perm.refl b) ihm
    cases i with
    | zero =>
      rw [List.set_cons_zero]
      exact List.Forall₂.cons (by simpa using hx) (hrefl l)
    | succ i =>
      rw [List.set_cons_succ]
      exact List.Forall₂.cons (List.Perm.refl a) (ih i (by simpa using hx))

theorem relabel_Relabelled {α : Type} (K : KernelData α) (i : Nat) (qm mm : List (InternalInfo α))
    (hqm : qm.Perm (K.qm i)) (hmm : mm.Perm (K.mm i)) : Relabelled (relabel K i qm mm) K where
  qmPerm := forall2_perm_set K.QMGroups i qm hqm
  mmPerm := forall2_perm_set K.MMGroups i mm hmm
  sameAssigned := rfl
  sameCoefficients := rfl
  sameShape := rfl
  sameParameters := rfl
  sameTestOutput := rfl
  sameThre := rfl
  sameMaxIt := rfl
  sameScales := rfl
  sameCutoff := rfl
  sameT := rfl

end RelabelSet

section RelabelExecute
variable {α : Type} [LinearOrderedField α]

/-- The outcome of the group loop of `execute` (the energy or the
exception) does not depend on the order of the molecules inside the
groups. -/
theorem Relabelled.executeLoop_outcome {K' K : KernelData α} (h : Relabelled K' K)
    (expF sqrtF logF : α → α) (hsel : 0 < K.AssignedAtomIndex.length) (P : List (Vec3 α))
    (l : List Nat) (E : α) (F' F : List (Vec3 α)) (COM' COM : Vec3 α) (STM' STM : α) :
    (executeLoop K' expF sqrtF logF P l E F' COM' STM').outcome
      = (executeLoop K expF sqrtF logF P l E F COM STM).outcome := by
  induction l generalizing E F' F COM' COM STM' STM with
  | nil =>
    unfold executeLoop
    rfl
  | cons i rest ih =>
    have hlq : (K'.qm i).length = (K.qm i).length := (h.qm_perm i).length_eq
    have hlm : (K'.mm i).length = (K.mm i).length := (h.mm_perm i).length_eq
    unfold executeLoop
    rw [hlq, hlm]
    by_cases hc : (K.qm i).length ≠ 0 ∧ (K.mm i).length ≠ 0
    · rw [if_pos hc, if_pos hc]
      have hev := h.evalGroup_eq expF sqrtF hsel COM' COM STM' STM P i hc.2
      cases hK : evalGroup K expF sqrtF COM STM P i with
      | error e =>
        cases hK' : evalGroup K' expF sqrtF COM' STM' P i with
        | error e' =>
          rw [hK, hK'] at hev
          simp only [Except.map] at hev
          simp only
          injection hev with hev
          rw [hev]
        | ok r' =>
          rw [hK, hK'] at hev
          simp only [Except.map] at hev
          cases hev
      | ok r =>
        cases hK' : evalGroup K' expF sqrtF COM' STM' P i with
        | error e' =>
          rw [hK, hK'] at hev
          simp only [Except.map] at hev
          cases hev
        | ok r' =>
          rw [hK, hK'] at hev
          simp only [Except.map] at hev
          injection hev with hev
          have h1 : r'.NumeVal = r.NumeVal := congrArg Prod.fst hev
          have h2 : r'.DenVal = r.DenVal := congrArg Prod.snd hev
          have hE : groupEnergy K' logF r' = groupEnergy K logF r := by
            unfold groupEnergy
            rw [h.sameT, h1, h2]
          simp only
          rw [hE]
          exact ih _ _ _ _ _ _ _
    · rw [if_neg hc, if_neg hc]
      exact ih _ _ _ _ _ _ _

theorem Relabelled.execute_outcome {K' K : KernelData α} (h : Relabelled K' K)
    (expF sqrtF logF : α → α) (hsel : 0 < K.AssignedAtomIndex.length)
    (P F' F : List (Vec3 α)) (b1' b2' b1 b2 : Bool) :
    (execute K' expF sqrtF logF P F' b1' b2').outcome
      = (execute K expF sqrtF logF P F b1 b2).outcome := by
  unfold execute
  simp only
  rw [h.qmPerm.length_eq]
  exact h.executeLoop_outcome expF sqrtF logF hsel P _ 0 F' F _ _ _ _

/-- C16: for a configured dragged-atom selector (`AssignedAtomIndex` not
empty), listing the QM molecules of a boundary group, or its MM molecules,
in another order leaves the outcome of `execute` unchanged: the same
energy is returned, or the same exception is thrown.  Nothing is assumed
about the distances, so molecules at equal distances are included. -/
theorem C16_energy_relabelling (K : KernelData α) (expF sqrtF logF : α → α)
    (Positions Force : List (Vec3 α)) (includeForces includeEnergy : Bool) (i : Nat)
    (qm mm : List (InternalInfo α)) (hsel : 0 < K.AssignedAtomIndex.length)
    (hqm : qm.Perm (K.qm i)) (hmm : mm.Perm (K.mm i)) :
    (execute (relabel K i qm mm) expF sqrtF logF Positions Force includeForces
        includeEnergy).outcome
      = (execute K expF sqrtF logF Positions Force includeForces includeEnergy).outcome :=
  (relabel_Relabelled K i qm mm hqm hmm).execute_outcome expF sqrtF logF hsel Positions
    Force Force includeForces includeEnergy includeForces includeEnergy

/-- Witness of C16: the two QM molecules of the example are swapped, with
both at the same distance from the centre. -/
theorem C16_energy_relabelling_witness :
    0 < (exampleKernelPair : KernelData ℝ).AssignedAtomIndex.length ∧
    List.Perm [(⟨[1], [2]⟩ : InternalInfo ℝ), ⟨[0], [2]⟩]
      ((exampleKernelPair : KernelData ℝ).qm 0) ∧
    List.Perm [(⟨[2], [1]⟩ : InternalInfo ℝ)] ((exampleKernelPair : KernelData ℝ).mm 0) ∧
    (execute (relabel (exampleKernelPair : KernelData ℝ) 0 [⟨[1], [2]⟩, ⟨[0], [2]⟩]
        [⟨[2], [1]⟩]) Real.exp Real.sqrt Real.log [(1, 0, 0), (3, 0, 0), (5, 0, 0)]
        [(0, 0, 0), (0, 0, 0), (0, 0, 0)] true true).outcome
      = (execute (exampleKernelPair : KernelData ℝ) Real.exp Real.sqrt Real.log
        [(1, 0, 0), (3, 0, 0), (5, 0, 0)] [(0, 0, 0), (0, 0, 0), (0, 0, 0)] true
        true).outcome :=
  ⟨by decide, List.Perm.swap _ _ _, List.Perm.refl _,
    C16_energy_relabelling (exampleKernelPair : KernelData ℝ) Real.exp Real.sqrt Real.log
      [(1, 0, 0), (3, 0, 0), (5, 0, 0)] [(0, 0, 0), (0, 0, 0), (0, 0, 0)] true true 0
      [⟨[1], [2]⟩, ⟨[0], [2]⟩] [⟨[2], [1]⟩] (by decide) (List.Perm.swap _ _ _)
      (List.Perm.refl _)⟩

end RelabelExecute

section SearchWitness

/-- Witness of C17: the search started on the seed `"1"` of the two-atom
example inserts that seed. -/
theorem C17_visited_states_counts_witness :
    ['1'] ∈ (ProdChild Real.exp 0 ⟨[], [0, 0], 0⟩ ['1'] (1.0e-5 : ℝ) 1 0
      [[⟨0, 0⟩, ⟨0, 0⟩], [⟨1 / 2, 5 / 4⟩, ⟨0, 0⟩]] [(0, 1), (1, 2)]).Nodes ∧
    (['1'] ∈ (⟨[], [0, 0], 0⟩ : SearchState ℝ).Nodes ∨
      (List.Perm ['1'] ['1'] ∧ ['1'].length = ['1'].length ∧
        ['1'].count '1' = ['1'].count '1' ∧ ['1'].count '0' = ['1'].count '0')) := by
  have hle : (1.0e-5 : ℝ) ≤ 1 := by norm_num
  have hmem : ['1'] ∈ (ProdChild Real.exp 0 ⟨[], [0, 0], 0⟩ ['1'] (1.0e-5 : ℝ) 1 0
      [[⟨0, 0⟩, ⟨0, 0⟩], [⟨1 / 2, 5 / 4⟩, ⟨0, 0⟩]] [(0, 1), (1, 2)]).Nodes := by
    simp [ProdChild, searchFuel, ProdChildAux, nodeSeq, FindRepeat, mergeDer, CalcPenalFunc,
      gAt, recFirst, addAt, List.range_succ, List.range', hle]
  exact ⟨hmem, C17_visited_states_counts Real.exp 0 ⟨[], [0, 0], 0⟩ ['1'] (1.0e-5 : ℝ) 1 0
    [[⟨0, 0⟩, ⟨0, 0⟩], [⟨1 / 2, 5 / 4⟩, ⟨0, 0⟩]] [(0, 1), (1, 2)] ['1'] hmem⟩

end SearchWitness

section SearchBranches
variable {α : Type} [LinearOrderedField α]

theorem searchFuel_succ (x : List Char) : searchFuel x = x.length * x.length + 1 := rfl

/-- The branch `nodeVal < h && CutoffMethod == 1` of `ProdChild` on a state
that is not in the visited set: the state is inserted, its weight added and
its gradient merged, and the call returns. -/
theorem ProdChildAux_boundary (expF : α → α) (cm : Int) (h : α) (QMSize LB : Nat)
    (g : List (List (gInfo α))) (rC : List (Nat × α)) (fuel : Nat) (st : SearchState α)
    (node : List Char)
    (hlow : (CalcPenalFunc expF cm (nodeSeq node QMSize LB) QMSize g
      (List.replicate st.DerList.length 0) rC h 1).1 < h)
    (hcm : cm = 1) (hnew : node ∉ st.Nodes) :
    ProdChildAux expF cm h QMSize LB g rC (fuel + 1) st node =
      ⟨node :: st.Nodes,
        mergeDer st.DerList (CalcPenalFunc expF cm (nodeSeq node QMSize LB) QMSize g
          (List.replicate st.DerList.length 0) rC h 1).2,
        st.sumOfDeno + (CalcPenalFunc expF cm (nodeSeq node QMSize LB) QMSize g
          (List.replicate st.DerList.length 0) rC h 1).1⟩ := by
  unfold ProdChildAux
  simp only
  rw [if_neg (not_le.mpr hlow), if_pos ⟨hlow, hcm⟩,
    if_pos ((FindRepeat_eq_zero st.Nodes node).mpr hnew)]

/-- The case of `ProdChild` in which neither branch applies: the state is
returned as it was. -/
theorem ProdChildAux_dead_end (expF : α → α) (cm : Int) (h : α) (QMSize LB : Nat)
    (g : List (List (gInfo α))) (rC : List (Nat × α)) (fuel : Nat) (st : SearchState α)
    (node : List Char)
    (hlow : (CalcPenalFunc expF cm (nodeSeq node QMSize LB) QMSize g
      (List.replicate st.DerList.length 0) rC h 1).1 < h)
    (hcm : cm ≠ 1) :
    ProdChildAux expF cm h QMSize LB g rC fuel st node = st := by
  cases fuel with
  | zero => rfl
  | succ fuel =>
    unfold ProdChildAux
    simp only
    rw [if_neg (not_le.mpr hlow), if_neg (fun hc => hcm hc.2)]

end SearchBranches

section SearchBranchClaims

theorem exp_neg_le_inv (x : ℝ) (hx : 0 ≤ x) : Real.exp (-x) ≤ 1 / (1 + x) := by
  rw [Real.exp_neg, one_div]
  have h1 : 1 + x ≤ Real.exp x := by
    have := Real.add_one_le_exp x
    linarith
  exact inv_anti₀ (by linarith) h1

theorem example3_weight_101 :
    crossSum (nodeSeq ['1', '0', '1'] 2 0) 2 (gExpPartTable (1 : ℝ) 3 [(0, 1), (1, 2), (2, 3)])
      [(0, 1), (1, 2), (2, 3)] = 1 / 2 := by
  simp [crossSum, molOf, nodeSeq, gAt, gExpPartTable, recFirst, recSecond, CalcPairExpPart,
    List.range_succ, Finset.sum_range_succ, Finset.sum_Ico_eq_sum_range]
  norm_num

theorem example3_weight_011 :
    crossSum (nodeSeq ['0', '1', '1'] 2 0) 2 (gExpPartTable (1 : ℝ) 3 [(0, 1), (1, 2), (2, 3)])
      [(0, 1), (1, 2), (2, 3)] = 19 / 6 := by
  simp [crossSum, molOf, nodeSeq, gAt, gExpPartTable, recFirst, recSecond, CalcPairExpPart,
    List.range_succ, Finset.sum_range_succ, Finset.sum_Ico_eq_sum_range]
  norm_num

theorem example3_below (x : ℝ) (hx : 1 / 2 ≤ x) : Real.exp (-x) < 7 / 10 := by
  have h1 := exp_neg_le_inv x (by linarith)
  have h2 : 1 / (1 + x) ≤ 1 / (1 + 1 / 2) :=
    one_div_le_one_div_of_le (by norm_num) (by linarith)
  have h3 : (1 : ℝ) / (1 + 1 / 2) < 7 / 10 := by norm_num
  linarith

/-- C25 (as stated) fails: with `CutoffMethod = 1` and threshold `0.7`, the
state `"101"` of three molecules at distances 1, 2, 3 is not yet visited, has a
weight below the threshold and has the `'10' -> '01'` child `"011"`; the call
marks `"101"` as visited and returns without exploring the child, although a
call on the child would have inserted it. -/
theorem C25_boundary_state_counterexample :
    (['1', '0', '1'] : List Char) ∉ [['1', '1', '0']] ∧
    (CalcPenalFunc Real.exp 1 (nodeSeq ['1', '0', '1'] 2 0) 2
      (gExpPartTable (1 : ℝ) 3 [(0, 1), (1, 2), (2, 3)]) [0, 0, 0]
      [(0, 1), (1, 2), (2, 3)] (7 / 10) 1).1 < 7 / 10 ∧
    (['1', '0', '1'] : List Char).getD 0 ' ' = '1' ∧
    (['1', '0', '1'] : List Char).getD 1 ' ' = '0' ∧
    swapChild ['1', '0', '1'] 0 = ['0', '1', '1'] ∧
    (ProdChild Real.exp 1 ⟨[['1', '1', '0']], [0, 0, 0], 1⟩ ['1', '0', '1'] (7 / 10) 2 0
      (gExpPartTable (1 : ℝ) 3 [(0, 1), (1, 2), (2, 3)]) [(0, 1), (1, 2), (2, 3)]).Nodes
      = [['1', '0', '1'], ['1', '1', '0']] ∧
    ['0', '1', '1'] ∈ (ProdChild Real.exp 1
      (ProdChild Real.exp 1 ⟨[['1', '1', '0']], [0, 0, 0], 1⟩ ['1', '0', '1'] (7 / 10) 2 0
        (gExpPartTable (1 : ℝ) 3 [(0, 1), (1, 2), (2, 3)]) [(0, 1), (1, 2), (2, 3)])
      ['0', '1', '1'] (7 / 10) 2 0
      (gExpPartTable (1 : ℝ) 3 [(0, 1), (1, 2), (2, 3)]) [(0, 1), (1, 2), (2, 3)]).Nodes := by
  have hw1 : ∀ DL : List ℝ, (CalcPenalFunc Real.exp 1 (nodeSeq ['1', '0', '1'] 2 0) 2
      (gExpPartTable (1 : ℝ) 3 [(0, 1), (1, 2), (2, 3)]) DL
      [(0, 1), (1, 2), (2, 3)] (7 / 10) 1).1 < 7 / 10 := by
    intro DL
    rw [CalcPenalFunc_fst, example3_weight_101]
    exact example3_below _ (le_refl _)
  have hw2 : ∀ DL : List ℝ, (CalcPenalFunc Real.exp 1 (nodeSeq ['0', '1', '1'] 2 0) 2
      (gExpPartTable (1 : ℝ) 3 [(0, 1), (1, 2), (2, 3)]) DL
      [(0, 1), (1, 2), (2, 3)] (7 / 10) 1).1 < 7 / 10 := by
    intro DL
    rw [CalcPenalFunc_fst, example3_weight_011]
    exact example3_below _ (by norm_num)
  have hnew : (['1', '0', '1'] : List Char) ∉ [['1', '1', '0']] := by decide
  have hnew2 : (['0', '1', '1'] : List Char) ∉ [['1', '0', '1'], ['1', '1', '0']] := by decide
  have hb := ProdChildAux_boundary Real.exp 1 (7 / 10) 2 0
    (gExpPartTable (1 : ℝ) 3 [(0, 1), (1, 2), (2, 3)]) [(0, 1), (1, 2), (2, 3)] (3 * 3)
    ⟨[['1', '1', '0']], [0, 0, 0], 1⟩ ['1', '0', '1'] (hw1 _) rfl hnew
  have hrun : ∃ (DL : List ℝ) (S : ℝ),
      ProdChild Real.exp 1 ⟨[['1', '1', '0']], [0, 0, 0], 1⟩ ['1', '0', '1'] (7 / 10) 2 0
        (gExpPartTable (1 : ℝ) 3 [(0, 1), (1, 2), (2, 3)]) [(0, 1), (1, 2), (2, 3)]
      = ⟨[['1', '0', '1'], ['1', '1', '0']], DL, S⟩ := ⟨_, _, hb⟩
  obtain ⟨DL, S, hrun⟩ := hrun
  refine ⟨hnew, hw1 _, rfl, rfl, rfl, ?_, ?_⟩
  · rw [hrun]
  · rw [hrun]
    unfold ProdChild
    rw [searchFuel_succ, ProdChildAux_boundary Real.exp 1 (7 / 10) 2 0 _ _ _ _ _ (hw2 _) rfl
      hnew2]
    exact List.mem_cons_self _ _

end SearchBranchClaims

section SearchBranchTheorems
variable {α : Type} [LinearOrderedField α]

/-- C25 (amended): in `ProdChild`, for a state not yet visited whose weight
is below the threshold while `CutoffMethod = 1`, the state is marked
visited, its weight is added to the denominator sum and its gradient is
merged into the accumulator, and the call returns there: the visited set
gains this state only, no child is explored. -/
theorem C25_boundary_state (expF : α → α) (CutoffMethod : Int) (st : SearchState α)
    (InputNode : List Char) (h : α) (QMSize LB : Nat) (g : List (List (gInfo α)))
    (rC_Atom : List (Nat × α))
    (hlow : (CalcPenalFunc expF CutoffMethod (nodeSeq InputNode QMSize LB) QMSize g
      (List.replicate st.DerList.length 0) rC_Atom h 1).1 < h)
    (hcm : CutoffMethod = 1) (hnew : InputNode ∉ st.Nodes) :
    ProdChild expF CutoffMethod st InputNode h QMSize LB g rC_Atom =
      ⟨InputNode :: st.Nodes,
        mergeDer st.DerList (CalcPenalFunc expF CutoffMethod (nodeSeq InputNode QMSize LB)
          QMSize g (List.replicate st.DerList.length 0) rC_Atom h 1).2,
        st.sumOfDeno + (CalcPenalFunc expF CutoffMethod (nodeSeq InputNode QMSize LB) QMSize g
          (List.replicate st.DerList.length 0) rC_Atom h 1).1⟩ ∧
    (ProdChild expF CutoffMethod st InputNode h QMSize LB g rC_Atom).Nodes
      = InputNode :: st.Nodes := by
  have hrun : ProdChild expF CutoffMethod st InputNode h QMSize LB g rC_Atom =
      ⟨InputNode :: st.Nodes,
        mergeDer st.DerList (CalcPenalFunc expF CutoffMethod (nodeSeq InputNode QMSize LB)
          QMSize g (List.replicate st.DerList.length 0) rC_Atom h 1).2,
        st.sumOfDeno + (CalcPenalFunc expF CutoffMethod (nodeSeq InputNode QMSize LB) QMSize g
          (List.replicate st.DerList.length 0) rC_Atom h 1).1⟩ := by
    unfold ProdChild
    rw [searchFuel_succ]
    exact ProdChildAux_boundary expF CutoffMethod h QMSize LB g rC_Atom _ st InputNode hlow hcm
      hnew
  exact ⟨hrun, by rw [hrun]⟩

/-- C26: in `ProdChild`, a state whose weight is below the threshold while
`CutoffMethod` is not 1 is a dead end: the call returns the visited set,
the denominator sum and the derivative accumulator as they were (at every
recursion depth of the model). -/
theorem C26_dead_end (expF : α → α) (CutoffMethod : Int) (st : SearchState α)
    (InputNode : List Char) (h : α) (QMSize LB : Nat) (g : List (List (gInfo α)))
    (rC_Atom : List (Nat × α))
    (hlow : (CalcPenalFunc expF CutoffMethod (nodeSeq InputNode QMSize LB) QMSize g
      (List.replicate st.DerList.length 0) rC_Atom h 1).1 < h)
    (hcm : CutoffMethod ≠ 1) :
    ProdChild expF CutoffMethod st InputNode h QMSize LB g rC_Atom = st ∧
    ∀ fuel, ProdChildAux expF CutoffMethod h QMSize LB g rC_Atom fuel st InputNode = st :=
  ⟨ProdChildAux_dead_end expF CutoffMethod h QMSize LB g rC_Atom _ st InputNode hlow hcm,
    fun fuel =>
      ProdChildAux_dead_end expF CutoffMethod h QMSize LB g rC_Atom fuel st InputNode hlow hcm⟩

end SearchBranchTheorems

section SearchBranchWitnesses

theorem example3_hlow (cm : Int) (DL : List ℝ) :
    (CalcPenalFunc Real.exp cm (nodeSeq ['1', '0', '1'] 2 0) 2
      (gExpPartTable (1 : ℝ) 3 [(0, 1), (1, 2), (2, 3)]) DL
      [(0, 1), (1, 2), (2, 3)] (7 / 10) 1).1 < 7 / 10 := by
  rw [CalcPenalFunc_fst, example3_weight_101]
  exact example3_below _ (le_refl _)

/-- Witness of C25 (amended) on the state `"101"` of the three-molecule
example. -/
theorem C25_boundary_state_witness :
    (ProdChild Real.exp 1 ⟨[['1', '1', '0']], [0, 0, 0], 1⟩ ['1', '0', '1'] (7 / 10) 2 0
      (gExpPartTable (1 : ℝ) 3 [(0, 1), (1, 2), (2, 3)]) [(0, 1), (1, 2), (2, 3)]).Nodes
      = [['1', '0', '1'], ['1', '1', '0']] :=
  (C25_boundary_state Real.exp 1 ⟨[['1', '1', '0']], [0, 0, 0], 1⟩ ['1', '0', '1'] (7 / 10) 2 0
    (gExpPartTable (1 : ℝ) 3 [(0, 1), (1, 2), (2, 3)]) [(0, 1), (1, 2), (2, 3)]
    (example3_hlow 1 _) rfl (by decide)).2

/-- Witness of C26 on the state `"101"` of the three-molecule example with
`CutoffMethod = 0`. -/
theorem C26_dead_end_witness :
    ProdChild Real.exp 0 ⟨[['1', '1', '0']], [0, 0, 0], 1⟩ ['1', '0', '1'] (7 / 10) 2 0
      (gExpPartTable (1 : ℝ) 3 [(0, 1), (1, 2), (2, 3)]) [(0, 1), (1, 2), (2, 3)]
      = ⟨[['1', '1', '0']], [0, 0, 0], 1⟩ :=
  (C26_dead_end Real.exp 0 ⟨[['1', '1', '0']], [0, 0, 0], 1⟩ ['1', '0', '1'] (7 / 10) 2 0
    (gExpPartTable (1 : ℝ) 3 [(0, 1), (1, 2), (2, 3)]) [(0, 1), (1, 2), (2, 3)]
    (example3_hlow 0 _) (by decide)).1

end SearchBranchWitnesses

section SeedLemmas
variable {α : Type} [LinearOrderedField α]

theorem flatMap_cast (l : List Nat) :
    (l.flatMap fun a : Nat => [(a : Int)]) = l.map fun a : Nat => (a : Int) := by
  induction l with
  | nil => rfl
  | cons x xs ih =>
    rw [List.flatMap_cons, ih]
    rfl

theorem perfect_eq_map (a b : Int) :
    perfect a b = (List.range (a + b).toNat).map fun k : Nat => if (k : Int) < a then '1' else '0' := by
  unfold perfect
  simp only [bind, pure]
  show List.map _ ((List.range (a + b).toNat).flatMap fun a : Nat => [(a : Int)]) = _
  rw [flatMap_cast, List.map_map]
  rfl

/-- The seed string of `execute` for non-negative counts: `a` ones followed
by `b` zeros. -/
theorem perfect_replicate (a b : Nat) :
    perfect (a : Int) (b : Int) = List.replicate a '1' ++ List.replicate b '0' := by
  rw [perfect_eq_map]
  have h : ((a : Int) + (b : Int)).toNat = a + b := by omega
  rw [h, List.range_add, List.map_append, List.map_map]
  congr 1
  · rw [List.eq_replicate_iff]
    refine ⟨by simp, ?_⟩
    intro c hc
    rw [List.mem_map] at hc
    obtain ⟨k, hk, rfl⟩ := hc
    rw [List.mem_range] at hk
    rw [if_pos (by exact_mod_cast hk)]
  · rw [List.eq_replicate_iff]
    refine ⟨by simp, ?_⟩
    intro c hc
    rw [List.mem_map] at hc
    obtain ⟨k, _, rfl⟩ := hc
    simp only [Function.comp]
    rw [if_neg (by push_cast; omega)]

end SeedLemmas
section SeedPositions

theorem nodeSeq_state (node : List Char) (a LB : Nat)
    (hnode : ∀ i, i < node.length → (node.getD i ' ' = '1' ↔ i < a)) (k : Nat)
    (hk : k ≤ node.length) :
    (List.range k).foldl (fun (st : List Nat × Nat × Nat) i =>
      if node.getD i ' ' = '1' then (st.1.set st.2.1 (i + LB), st.2.1 + 1, st.2.2)
      else (st.1.set st.2.2 (i + LB), st.2.1, st.2.2 + 1))
      (List.replicate node.length 0, 0, a)
    = ((List.range k).map (fun i => i + LB) ++ List.replicate (node.length - k) 0,
        min k a, a + (k - a)) := by
  induction k with
  | zero => simp
  | succ k ih =>
    have hk' : k < node.length := hk
    rw [List.range_succ, List.foldl_append, ih (le_of_lt hk')]
    simp only [List.foldl_cons, List.foldl_nil]
    have hrep : List.replicate (node.length - k) (0 : Nat)
        = 0 :: List.replicate (node.length - (k + 1)) 0 := by
      have : node.length - k = (node.length - (k + 1)) + 1 := by omega
      rw [this, List.replicate_succ]
    have hset : ((List.range k).map (fun i => i + LB) ++ List.replicate (node.length - k) 0).set k
        (k + LB)
        = (List.range k ++ [k]).map (fun i => i + LB)
          ++ List.replicate (node.length - (k + 1)) 0 := by
      rw [List.set_append, if_neg (by simp), hrep]
      simp
    by_cases h1 : node.getD k ' ' = '1'
    · have hka : k < a := (hnode k hk').mp h1
      rw [if_pos h1]
      have hmin : min k a = k := min_eq_left (le_of_lt hka)
      simp only [hmin, hset]
      refine Prod.ext rfl (Prod.ext ?_ ?_)
      · show k + 1 = min (k + 1) a
        rw [min_eq_left hka]
      · show a + (k - a) = a + (k + 1 - a)
        omega
    · have hka : ¬ k < a := fun h => h1 ((hnode k hk').mpr h)
      rw [if_neg h1]
      have hmm : a + (k - a) = k := by omega
      simp only [hmm, hset]
      refine Prod.ext rfl (Prod.ext ?_ ?_)
      · show min k a = min (k + 1) a
        rw [min_eq_right (by omega), min_eq_right (by omega)]
      · show k + 1 = a + (k + 1 - a)
        omega

/-- The vector `Node` of a string of `a` ones followed by zeros, read with
`QMSize = a`: slot `i` holds the position `LB + i`. -/
theorem nodeSeq_ordered (node : List Char) (a LB : Nat)
    (hnode : ∀ i, i < node.length → (node.getD i ' ' = '1' ↔ i < a)) :
    nodeSeq node a LB = List.range' LB node.length := by
  unfold nodeSeq
  rw [nodeSeq_state node a LB hnode node.length (le_refl _)]
  simp only [Nat.sub_self, List.replicate_zero, List.append_nil]
  rw [List.range'_eq_map_range]
  apply List.map_congr_left
  intro i _
  exact Nat.add_comm i LB

theorem seed_getD (a b i : Nat) (hi : i < (List.replicate a '1' ++ List.replicate b '0').length) :
    (List.replicate a '1' ++ List.replicate b '0').getD i ' ' = '1' ↔ i < a := by
  rw [List.length_append, List.length_replicate, List.length_replicate] at hi
  rw [List.getD_eq_getElem?_getD]
  by_cases h : i < a
  · rw [List.getElem?_append_left (by simpa using h)]
    simp [h]
  · rw [List.getElem?_append_right (by simpa using h)]
    have : i - a < b := by omega
    simp [h, this]

theorem nodeSeq_seed (a b LB : Nat) :
    nodeSeq (List.replicate a '1' ++ List.replicate b '0') a LB = List.range' LB (a + b) := by
  rw [nodeSeq_ordered _ a LB (seed_getD a b)]
  simp

end SeedPositions

section SeedWindow
variable {α : Type} [LinearOrderedField α]

theorem ImpQMlb_succ (hl : List α) (n : Nat) (h : α) :
    ImpQMlb hl (n + 1) h = if hl.getD n 0 < h then n + 1 else ImpQMlb hl n h := by
  unfold ImpQMlb
  rw [List.range_succ, List.reverse_append, List.reverse_singleton, List.singleton_append,
    List.find?_cons]
  by_cases hc : hl.getD n 0 < h
  · rw [if_pos hc, decide_eq_true hc]
  · rw [if_neg hc, decide_eq_false hc]

/-- `ImpQMlb` is one past the last QM slot whose weight is below `h`. -/
theorem ImpQMlb_spec (hl : List α) (n : Nat) (h : α) :
    ImpQMlb hl n h ≤ n ∧ (0 < ImpQMlb hl n h → hl.getD (ImpQMlb hl n h - 1) 0 < h) ∧
    ∀ p, ImpQMlb hl n h ≤ p → p < n → ¬ hl.getD p 0 < h := by
  induction n with
  | zero =>
    refine ⟨?_, ?_, ?_⟩
    · simp [ImpQMlb]
    · simp [ImpQMlb]
    · intro p _ hp
      exact absurd hp (Nat.not_lt_zero p)
  | succ n ih =>
    rw [ImpQMlb_succ]
    by_cases hc : hl.getD n 0 < h
    · rw [if_pos hc]
      refine ⟨le_refl _, fun _ => by simpa using hc, ?_⟩
      intro p hp1 hp2
      omega
    · rw [if_neg hc]
      obtain ⟨h1, h2, h3⟩ := ih
      refine ⟨Nat.le_succ_of_le h1, h2, ?_⟩
      intro p hp1 hp2
      by_cases hpn : p = n
      · rw [hpn]; exact hc
      · exact h3 p hp1 (by omega)

theorem find_range' (p : Nat → Bool) (s m : Nat) :
    ((List.range' s m).find? p = none ∧ ∀ q, s ≤ q → q < s + m → p q = false) ∨
    ∃ q, (List.range' s m).find? p = some q ∧ s ≤ q ∧ q < s + m ∧ p q = true ∧
      ∀ q', s ≤ q' → q' < q → p q' = false := by
  induction m generalizing s with
  | zero =>
    left
    refine ⟨rfl, ?_⟩
    intro q h1 h2
    omega
  | succ m ih =>
    rw [List.range'_succ, List.find?_cons]
    cases hs : p s with
    | true =>
      right
      exact ⟨s, rfl, le_refl s, by omega, hs, fun q' h1 h2 => by omega⟩
    | false =>
      rcases ih (s + 1) with ⟨hn, hall⟩ | ⟨q, hq, h1, h2, h3, h4⟩
      · left
        refine ⟨hn, ?_⟩
        intro q h1 h2
        by_cases hqs : q = s
        · rw [hqs]; exact hs
        · exact hall q (by omega) (by omega)
      · right
        refine ⟨q, hq, by omega, by omega, h3, ?_⟩
        intro q' h1' h2'
        by_cases hqs : q' = s
        · rw [hqs]; exact hs
        · exact h4 q' (by omega) h2'

/-- When some MM weight is below `h`, `ImpMMub` is one before the first MM
slot whose weight is below `h`. -/
theorem ImpMMub_spec (hl : List α) (QMSize MMSize : Nat) (h : α)
    (hfound : ∃ q, QMSize ≤ q ∧ q < QMSize + MMSize ∧ hl.getD q 0 < h) :
    ∃ q0 : Nat, ImpMMub hl QMSize MMSize h = (q0 : Int) - 1 ∧ QMSize ≤ q0 ∧
      q0 < QMSize + MMSize ∧ hl.getD q0 0 < h ∧
      ∀ q, QMSize ≤ q → q < q0 → ¬ hl.getD q 0 < h := by
  unfold ImpMMub
  rcases find_range' (fun q => decide (hl.getD q 0 < h)) QMSize MMSize with
    ⟨_, hall⟩ | ⟨q0, hq, h1, h2, h3, h4⟩
  · obtain ⟨q, hq1, hq2, hq3⟩ := hfound
    have := hall q hq1 hq2
    simp only [decide_eq_false_iff_not] at this
    exact absurd hq3 this
  · rw [hq]
    refine ⟨q0, rfl, h1, h2, by simpa using h3, ?_⟩
    intro q hq1 hq2
    simpa using h4 q hq1 hq2

/-- The seed and the positions it covers, when some MM weight is below
`h`: `QMSize - ImpQMlb` ones and `ImpMMub + 1 - QMSize` zeros, on the
positions `ImpQMlb .. ImpMMub`. -/
theorem seed_window (hl : List α) (QMSize MMSize : Nat) (h : α) (q0 : Nat)
    (hub : ImpMMub hl QMSize MMSize h = (q0 : Int) - 1) (hq0 : QMSize ≤ q0) :
    seedOf hl QMSize MMSize h
      = List.replicate (QMSize - ImpQMlb hl QMSize h) '1' ++ List.replicate (q0 - QMSize) '0' ∧
    seedPositions hl QMSize MMSize h
      = List.range' (ImpQMlb hl QMSize h) (q0 - ImpQMlb hl QMSize h) := by
  have hlb := (ImpQMlb_spec hl QMSize h).1
  have h1 : (QMSize : Int) - ImpQMlb hl QMSize h = ((QMSize - ImpQMlb hl QMSize h : Nat) : Int) := by
    omega
  have h2 : (q0 : Int) - 1 - ((QMSize : Int) - 1) = ((q0 - QMSize : Nat) : Int) := by omega
  have hseed : seedOf hl QMSize MMSize h
      = List.replicate (QMSize - ImpQMlb hl QMSize h) '1' ++ List.replicate (q0 - QMSize) '0' := by
    unfold seedOf
    rw [hub, h1, h2, perfect_replicate]
  refine ⟨hseed, ?_⟩
  unfold seedPositions
  rw [hseed, h1, Int.toNat_ofNat, nodeSeq_seed]
  congr 1
  omega

end SeedWindow
section SeedClaims
variable {α : Type} [LinearOrderedField α]

/-- C27 (amended): in each pass of the convergence loop, when some MM
weight is below the threshold `h`, the seed handed to `ProdChild` covers
exactly the sorted positions after the last QM molecule whose weight is
below `h` and before the first MM molecule whose weight is below `h`
(position `q0`): it is `QMSize - ImpQMlb` ones followed by `q0 - QMSize`
zeros on the positions `ImpQMlb .. q0 - 1`.  No covered molecule has a weight
below `h`; the molecule before the window, when there is one, and the one
after it have. -/
theorem C27_seed_window (expF : α → α) (CutoffMethod : Int) (QMSize MMSize : Nat)
    (g : List (List (gInfo α))) (re : List (Nat × α)) (hList_re : List α) (h : α)
    (hfound : ∃ q, QMSize ≤ q ∧ q < QMSize + MMSize ∧ hList_re.getD q 0 < h) :
    denominatorAt expF CutoffMethod QMSize MMSize g re hList_re h
      = ((ProdChild expF CutoffMethod ⟨[], List.replicate (QMSize + MMSize) 0, 0⟩
            (seedOf hList_re QMSize MMSize h) h
            ((QMSize : Int) - ImpQMlb hList_re QMSize h).toNat
            (ImpQMlb hList_re QMSize h) g re).sumOfDeno,
          (ProdChild expF CutoffMethod ⟨[], List.replicate (QMSize + MMSize) 0, 0⟩
            (seedOf hList_re QMSize MMSize h) h
            ((QMSize : Int) - ImpQMlb hList_re QMSize h).toNat
            (ImpQMlb hList_re QMSize h) g re).DerList) ∧
    ∃ q0 : Nat, ImpMMub hList_re QMSize MMSize h = (q0 : Int) - 1 ∧ QMSize ≤ q0 ∧
      q0 < QMSize + MMSize ∧ hList_re.getD q0 0 < h ∧
      seedOf hList_re QMSize MMSize h
        = List.replicate (QMSize - ImpQMlb hList_re QMSize h) '1'
          ++ List.replicate (q0 - QMSize) '0' ∧
      seedPositions hList_re QMSize MMSize h
        = List.range' (ImpQMlb hList_re QMSize h) (q0 - ImpQMlb hList_re QMSize h) ∧
      (∀ p ∈ seedPositions hList_re QMSize MMSize h, ¬ hList_re.getD p 0 < h) ∧
      (0 < ImpQMlb hList_re QMSize h →
        hList_re.getD (ImpQMlb hList_re QMSize h - 1) 0 < h) := by
  refine ⟨rfl, ?_⟩
  obtain ⟨q0, hub, hq1, hq2, hq3, hq4⟩ := ImpMMub_spec hList_re QMSize MMSize h hfound
  obtain ⟨hl1, hl2, hl3⟩ := ImpQMlb_spec hList_re QMSize h
  obtain ⟨hseed, hpos⟩ := seed_window hList_re QMSize MMSize h q0 hub hq1
  refine ⟨q0, hub, hq1, hq2, hq3, hseed, hpos, ?_, hl2⟩
  intro p hp
  rw [hpos, List.mem_range'_1] at hp
  by_cases hpq : p < QMSize
  · exact hl3 p hp.1 hpq
  · exact hq4 p (by omega) (by omega)

end SeedClaims

section SeedExamples

theorem example4_lb : ImpQMlb [(1 / 10 : ℚ), 1, 1, 1 / 10] 2 (1 / 2) = 1 := by
  rw [ImpQMlb_succ, ImpQMlb_succ]
  norm_num [ImpQMlb]

theorem example4_ub : ImpMMub [(1 / 10 : ℚ), 1, 1, 1 / 10] 2 2 (1 / 2) = ((3 : Nat) : Int) - 1 := by
  norm_num [ImpMMub, List.range', List.find?]

/-- C27 (as stated) fails: for the weights `0.1, 1, 1, 0.1` of two QM and
two MM molecules and the threshold `0.5`, the seed covers the positions 1
and 2, whose weights are not below the threshold, and leaves out the
positions 0 and 3, whose weights are. -/
theorem C27_seed_window_counterexample :
    seedPositions [(1 / 10 : ℚ), 1, 1, 1 / 10] 2 2 (1 / 2) = [1, 2] ∧
    ¬ ∀ p, p < 4 → (p ∈ seedPositions [(1 / 10 : ℚ), 1, 1, 1 / 10] 2 2 (1 / 2) ↔
      [(1 / 10 : ℚ), 1, 1, 1 / 10].getD p 0 < 1 / 2) := by
  have hpos : seedPositions [(1 / 10 : ℚ), 1, 1, 1 / 10] 2 2 (1 / 2) = [1, 2] := by
    rw [(seed_window [(1 / 10 : ℚ), 1, 1, 1 / 10] 2 2 (1 / 2) 3 example4_ub (by decide)).2,
      example4_lb]
    rfl
  refine ⟨hpos, ?_⟩
  intro hall
  have h1 := (hall 1 (by decide)).mp (by rw [hpos]; decide)
  norm_num at h1

/-- Witness of C27 (amended) on the weights `0.1, 1, 1, 0.1`. -/
theorem C27_seed_window_witness :
    (∃ q, 2 ≤ q ∧ q < 2 + 2 ∧ [(1 / 10 : ℚ), 1, 1, 1 / 10].getD q 0 < 1 / 2) ∧
    ∃ q0 : Nat, ImpMMub [(1 / 10 : ℚ), 1, 1, 1 / 10] 2 2 (1 / 2) = (q0 : Int) - 1 ∧ 2 ≤ q0 ∧
      q0 < 2 + 2 ∧ [(1 / 10 : ℚ), 1, 1, 1 / 10].getD q0 0 < 1 / 2 ∧
      seedOf [(1 / 10 : ℚ), 1, 1, 1 / 10] 2 2 (1 / 2)
        = List.replicate (2 - ImpQMlb [(1 / 10 : ℚ), 1, 1, 1 / 10] 2 (1 / 2)) '1'
          ++ List.replicate (q0 - 2) '0' ∧
      seedPositions [(1 / 10 : ℚ), 1, 1, 1 / 10] 2 2 (1 / 2)
        = List.range' (ImpQMlb [(1 / 10 : ℚ), 1, 1, 1 / 10] 2 (1 / 2))
          (q0 - ImpQMlb [(1 / 10 : ℚ), 1, 1, 1 / 10] 2 (1 / 2)) ∧
      (∀ p ∈ seedPositions [(1 / 10 : ℚ), 1, 1, 1 / 10] 2 2 (1 / 2),
        ¬ [(1 / 10 : ℚ), 1, 1, 1 / 10].getD p 0 < 1 / 2) ∧
      (0 < ImpQMlb [(1 / 10 : ℚ), 1, 1, 1 / 10] 2 (1 / 2) →
        [(1 / 10 : ℚ), 1, 1, 1 / 10].getD (ImpQMlb [(1 / 10 : ℚ), 1, 1, 1 / 10] 2 (1 / 2) - 1) 0
          < 1 / 2) := by
  have hfound : ∃ q, 2 ≤ q ∧ q < 2 + 2 ∧ [(1 / 10 : ℚ), 1, 1, 1 / 10].getD q 0 < 1 / 2 :=
    ⟨3, by decide, by decide, by norm_num⟩
  exact ⟨hfound, (C27_seed_window (fun x => x) 0 2 2 [] [] [(1 / 10 : ℚ), 1, 1, 1 / 10] (1 / 2)
    hfound).2⟩

end SeedExamples

section ConvergenceAccept
variable {α : Type} [LinearOrderedField α]

/-- One pass of the convergence loop at an iteration `j ≥ 2`: either the
threshold is scaled and the loop goes on with the fresh denominator as the
previous one, or the denominator and gradient of this pass are accepted. -/
theorem denLoop_step (expF : α → α) (cm : Int) (QMSize MMSize : Nat)
    (g : List (List (gInfo α))) (re : List (Nat × α)) (hl : List α) (ScaleFactor gamma : α)
    (fuel j : Nat) (h DenLast : α) (hj : 2 ≤ j) :
    denLoop expF cm QMSize MMSize g re hl ScaleFactor gamma (fuel + 1) j h DenLast =
      if gamma * DenLast < (denominatorAt expF cm QMSize MMSize g re hl h).1 - DenLast then
        denLoop expF cm QMSize MMSize g re hl ScaleFactor gamma fuel (j + 1) (h * ScaleFactor)
          (denominatorAt expF cm QMSize MMSize g re hl h).1
      else .ok (denominatorAt expF cm QMSize MMSize g re hl h) := by
  have hj1 : j ≠ 1 := by omega
  rw [denLoop]
  simp only [if_neg hj1]
  by_cases hgt : gamma * DenLast < (denominatorAt expF cm QMSize MMSize g re hl h).1 - DenLast
  · rw [if_pos hgt, if_pos hgt]
  · rw [if_neg hgt, if_neg hgt, if_pos (not_lt.mp hgt)]

/-- When the convergence loop leaves through `break`, it does so at the
first accepted iteration and returns the denominator and gradient of that
iteration. -/
theorem denLoop_ok (K : KernelData α) (expF sqrtF : α → α) (COM0 : Vec3 α) (STM0 : α)
    (P : List (Vec3 α)) (i : Nat) (fuel j : Nat) (DenLast : α) (hj : 1 ≤ j)
    (hlast : 2 ≤ j → DenLast = iterDenominator K expF sqrtF COM0 STM0 P i (j - 1))
    (d : α × List α)
    (hd : denLoop expF K.CutoffMethod (K.qm i).length (K.mm i).length
        (groupTable K sqrtF COM0 STM0 P i) (groupRecords K sqrtF COM0 STM0 P i).1
        (hList expF (K.qm i).length (K.mm i).length (groupTable K sqrtF COM0 STM0 P i)
          (groupRecords K sqrtF COM0 STM0 P i).1)
        (K.IterScales.getD i 0) (K.hThre.getD i 0) fuel j
        (K.hThre.getD i 0 * K.IterScales.getD i 0 ^ (j - 1)) DenLast = .ok d) :
    ∃ j', j ≤ j' ∧ j' < j + fuel ∧ iterAccepted K expF sqrtF COM0 STM0 P i j' ∧
      (∀ j'', j ≤ j'' → j'' < j' → ¬ iterAccepted K expF sqrtF COM0 STM0 P i j'') ∧
      d = groupDenominator K expF sqrtF COM0 STM0 P i
        (K.hThre.getD i 0 * K.IterScales.getD i 0 ^ (j' - 1)) := by
  induction fuel generalizing j DenLast with
  | zero =>
    unfold denLoop at hd
    cases hd
  | succ fuel ih =>
    have hscale : K.hThre.getD i 0 * K.IterScales.getD i 0 ^ (j - 1) * K.IterScales.getD i 0
        = K.hThre.getD i 0 * K.IterScales.getD i 0 ^ (j + 1 - 1) := by
      have : j + 1 - 1 = (j - 1) + 1 := by omega
      rw [this, pow_succ, mul_assoc]
    have hD : (denominatorAt expF K.CutoffMethod (K.qm i).length (K.mm i).length
        (groupTable K sqrtF COM0 STM0 P i) (groupRecords K sqrtF COM0 STM0 P i).1
        (hList expF (K.qm i).length (K.mm i).length (groupTable K sqrtF COM0 STM0 P i)
          (groupRecords K sqrtF COM0 STM0 P i).1)
        (K.hThre.getD i 0 * K.IterScales.getD i 0 ^ (j - 1))).1
        = iterDenominator K expF sqrtF COM0 STM0 P i j := rfl
    have hfull : denominatorAt expF K.CutoffMethod (K.qm i).length (K.mm i).length
        (groupTable K sqrtF COM0 STM0 P i) (groupRecords K sqrtF COM0 STM0 P i).1
        (hList expF (K.qm i).length (K.mm i).length (groupTable K sqrtF COM0 STM0 P i)
          (groupRecords K sqrtF COM0 STM0 P i).1)
        (K.hThre.getD i 0 * K.IterScales.getD i 0 ^ (j - 1))
        = groupDenominator K expF sqrtF COM0 STM0 P i
          (K.hThre.getD i 0 * K.IterScales.getD i 0 ^ (j - 1)) := rfl
    have hhere : iterAccepted K expF sqrtF COM0 STM0 P i j →
        ∃ j', j ≤ j' ∧ j' < j + (fuel + 1) ∧ iterAccepted K expF sqrtF COM0 STM0 P i j' ∧
          (∀ j'', j ≤ j'' → j'' < j' → ¬ iterAccepted K expF sqrtF COM0 STM0 P i j'') ∧
          groupDenominator K expF sqrtF COM0 STM0 P i
            (K.hThre.getD i 0 * K.IterScales.getD i 0 ^ (j - 1))
          = groupDenominator K expF sqrtF COM0 STM0 P i
            (K.hThre.getD i 0 * K.IterScales.getD i 0 ^ (j' - 1)) :=
      fun ha => ⟨j, le_refl j, by omega, ha, fun j'' h1 h2 => by omega, rfl⟩
    have hlater : ¬ iterAccepted K expF sqrtF COM0 STM0 P i j →
        (∃ j', j + 1 ≤ j' ∧ j' < j + 1 + fuel ∧ iterAccepted K expF sqrtF COM0 STM0 P i j' ∧
          (∀ j'', j + 1 ≤ j'' → j'' < j' → ¬ iterAccepted K expF sqrtF COM0 STM0 P i j'') ∧
          d = groupDenominator K expF sqrtF COM0 STM0 P i
            (K.hThre.getD i 0 * K.IterScales.getD i 0 ^ (j' - 1))) →
        ∃ j', j ≤ j' ∧ j' < j + (fuel + 1) ∧ iterAccepted K expF sqrtF COM0 STM0 P i j' ∧
          (∀ j'', j ≤ j'' → j'' < j' → ¬ iterAccepted K expF sqrtF COM0 STM0 P i j'') ∧
          d = groupDenominator K expF sqrtF COM0 STM0 P i
            (K.hThre.getD i 0 * K.IterScales.getD i 0 ^ (j' - 1)) := by
      rintro hn ⟨j', h1, h2, h3, h4, h5⟩
      refine ⟨j', by omega, by omega, h3, ?_, h5⟩
      intro j'' h1' h2'
      rcases Nat.eq_or_lt_of_le h1' with he | hlt
      · exact he ▸ hn
      · exact h4 j'' hlt h2'
    unfold denLoop at hd
    simp only [hD] at hd
    by_cases hj1 : j = 1
    · subst hj1
      simp only [if_true] at hd
      by_cases hacc : iterDenominator K expF sqrtF COM0 STM0 P i 1 = 1
      · rw [if_pos hacc] at hd
        have hacc' : iterAccepted K expF sqrtF COM0 STM0 P i 1 := by
          unfold iterAccepted; rw [if_pos rfl]; exact hacc
        obtain ⟨j', h1, h2, h3, h4, h5⟩ := hhere hacc'
        refine ⟨j', h1, h2, h3, h4, ?_⟩
        rw [← h5, ← hfull]
        exact (Except.ok.inj hd).symm
      · rw [if_neg hacc, hscale] at hd
        have hacc' : ¬ iterAccepted K expF sqrtF COM0 STM0 P i 1 := by
          unfold iterAccepted; rw [if_pos rfl]; exact hacc
        exact hlater hacc' (ih (1 + 1) _ (by omega) (fun _ => rfl) hd)
    · rw [if_neg hj1] at hd
      have hl := hlast (by omega)
      have haccj : iterAccepted K expF sqrtF COM0 STM0 P i j ↔
          iterDenominator K expF sqrtF COM0 STM0 P i j - DenLast
            ≤ K.hThre.getD i 0 * DenLast := by
        unfold iterAccepted
        rw [if_neg hj1, hl]
      by_cases hgt : K.hThre.getD i 0 * DenLast
          < iterDenominator K expF sqrtF COM0 STM0 P i j - DenLast
      · rw [if_pos hgt, hscale] at hd
        exact hlater (fun ha => absurd (haccj.mp ha) (not_le.mpr hgt))
          (ih (j + 1) _ (by omega) (fun _ => by rw [Nat.add_sub_cancel]) hd)
      · rw [if_neg hgt, if_pos (not_lt.mp hgt)] at hd
        obtain ⟨j', h1, h2, h3, h4, h5⟩ := hhere (haccj.mpr (not_lt.mp hgt))
        refine ⟨j', h1, h2, h3, h4, ?_⟩
        rw [← h5, ← hfull]
        exact (Except.ok.inj hd).symm

end ConvergenceAccept
section ConvergenceStepClaim
variable {α : Type} [LinearOrderedField α]

/-- With a negative iteration budget the convergence loop of a group runs no
iteration: an evaluation that passes the numerator check succeeds with the
denominator `0` and a denominator gradient of zeros. -/
theorem evalGroup_no_iteration (K : KernelData α) (expF sqrtF : α → α) (COM0 : Vec3 α)
    (STM0 : α) (P : List (Vec3 α)) (i : Nat) (hneg : K.FlexiBLEMaxIt.getD i 0 < 0)
    (r : GroupEval α) (hev : evalGroup K expF sqrtF COM0 STM0 P i = .ok r) :
    r.DenVal = 0 ∧ r.dDen_dr = List.replicate ((K.qm i).length + (K.mm i).length) 0 := by
  have hm := evalGroup_outcome K expF sqrtF COM0 STM0 P i
  rw [hev, convergenceLoop_of_neg _ _ _ _ _ _ _ _ _ _ _ hneg] at hm
  simp only [Except.map] at hm
  split_ifs at hm
  · injection hm with hm
    exact ⟨congrArg Prod.fst hm, congrArg Prod.snd hm⟩

/-- The accepted denominator and gradient of a group whose evaluation
succeeds with a non-negative iteration budget are those of the first
accepted iteration `j`, computed at the threshold
`hThre[i] * scale^(j-1)`. -/
theorem evalGroup_accepted (K : KernelData α) (expF sqrtF : α → α) (COM0 : Vec3 α) (STM0 : α)
    (P : List (Vec3 α)) (i : Nat) (hmax : 0 ≤ K.FlexiBLEMaxIt.getD i 0) (r : GroupEval α)
    (hev : evalGroup K expF sqrtF COM0 STM0 P i = .ok r) :
    ∃ j : Nat, 1 ≤ j ∧ (j : Int) ≤ K.FlexiBLEMaxIt.getD i 0 ∧
      iterAccepted K expF sqrtF COM0 STM0 P i j ∧
      (∀ j', 1 ≤ j' → j' < j → ¬ iterAccepted K expF sqrtF COM0 STM0 P i j') ∧
      (r.DenVal, r.dDen_dr) = groupDenominator K expF sqrtF COM0 STM0 P i
        (K.hThre.getD i 0 * K.IterScales.getD i 0 ^ (j - 1)) := by
  have hm := evalGroup_outcome K expF sqrtF COM0 STM0 P i
  rw [hev, convergenceLoop_of_nonneg _ _ _ _ _ _ _ _ _ _ _ hmax] at hm
  simp only [Except.map] at hm
  split_ifs at hm
  · have h0 : K.hThre.getD i 0 = K.hThre.getD i 0 * K.IterScales.getD i 0 ^ (1 - 1) := by simp
    have hm' : denLoop expF K.CutoffMethod (K.qm i).length (K.mm i).length
        (groupTable K sqrtF COM0 STM0 P i) (groupRecords K sqrtF COM0 STM0 P i).1
        (hList expF (K.qm i).length (K.mm i).length (groupTable K sqrtF COM0 STM0 P i)
          (groupRecords K sqrtF COM0 STM0 P i).1)
        (K.IterScales.getD i 0) (K.hThre.getD i 0) (K.FlexiBLEMaxIt.getD i 0).toNat 1
        (K.hThre.getD i 0 * K.IterScales.getD i 0 ^ (1 - 1)) 0
        = .ok (r.DenVal, r.dDen_dr) := by
      rw [← h0]
      exact hm.symm
    obtain ⟨j, h1, h2, h3, h4, h5⟩ := denLoop_ok K expF sqrtF COM0 STM0 P i _ 1 0 (le_refl 1)
      (fun h2 => absurd h2 (by decide)) _ hm'
    exact ⟨j, h1, by omega, h3, h4, h5⟩

/-- C28: the step rule of the convergence loop.  At an iteration `j ≥ 2`
with fresh denominator `D_j` (computed at the current threshold `h`) and
previous denominator `D_(j-1)`: if `D_j - D_(j-1) > gamma * D_(j-1)`, with
`gamma = hThre[i]`, the loop goes on with the threshold `h * scale` and
`D_j` as the previous denominator; otherwise it stops with the denominator
and the gradient of iteration `j`.  When the evaluation of the group
succeeds, either the iteration budget is negative, no iteration has run and
the denominator and its gradient are the initial `0` and zeros, or the
accepted pair is the one of the first accepted iteration `j`, with
`1 ≤ j ≤ maxIt`, computed at the threshold `hThre[i] * scale^(j-1)`. -/
theorem C28_convergence_step (K : KernelData α) (expF sqrtF : α → α) (COM0 : Vec3 α)
    (STM0 : α) (Positions : List (Vec3 α)) (i : Nat) :
    (∀ (fuel j : Nat) (h DenLast : α), 2 ≤ j →
      denLoop expF K.CutoffMethod (K.qm i).length (K.mm i).length
          (groupTable K sqrtF COM0 STM0 Positions i)
          (groupRecords K sqrtF COM0 STM0 Positions i).1
          (hList expF (K.qm i).length (K.mm i).length
            (groupTable K sqrtF COM0 STM0 Positions i)
            (groupRecords K sqrtF COM0 STM0 Positions i).1)
          (K.IterScales.getD i 0) (K.hThre.getD i 0) (fuel + 1) j h DenLast =
        if K.hThre.getD i 0 * DenLast
            < (groupDenominator K expF sqrtF COM0 STM0 Positions i h).1 - DenLast then
          denLoop expF K.CutoffMethod (K.qm i).length (K.mm i).length
            (groupTable K sqrtF COM0 STM0 Positions i)
            (groupRecords K sqrtF COM0 STM0 Positions i).1
            (hList expF (K.qm i).length (K.mm i).length
              (groupTable K sqrtF COM0 STM0 Positions i)
              (groupRecords K sqrtF COM0 STM0 Positions i).1)
            (K.IterScales.getD i 0) (K.hThre.getD i 0) fuel (j + 1)
            (h * K.IterScales.getD i 0)
            (groupDenominator K expF sqrtF COM0 STM0 Positions i h).1
        else .ok (groupDenominator K expF sqrtF COM0 STM0 Positions i h)) ∧
    (∀ r, evalGroup K expF sqrtF COM0 STM0 Positions i = .ok r →
      (K.FlexiBLEMaxIt.getD i 0 < 0 ∧ r.DenVal = 0 ∧
        r.dDen_dr = List.replicate ((K.qm i).length + (K.mm i).length) 0) ∨
      ∃ j : Nat, 1 ≤ j ∧ (j : Int) ≤ K.FlexiBLEMaxIt.getD i 0 ∧
        iterAccepted K expF sqrtF COM0 STM0 Positions i j ∧
        (∀ j', 1 ≤ j' → j' < j → ¬ iterAccepted K expF sqrtF COM0 STM0 Positions i j') ∧
        (r.DenVal, r.dDen_dr) = groupDenominator K expF sqrtF COM0 STM0 Positions i
          (K.hThre.getD i 0 * K.IterScales.getD i 0 ^ (j - 1))) := by
  refine ⟨?_, fun r hev => ?_⟩
  · intro fuel j h DenLast hj
    exact denLoop_step expF K.CutoffMethod _ _ _ _ _ _ _ fuel j h DenLast hj
  · rcases lt_or_le (K.FlexiBLEMaxIt.getD i 0) 0 with hneg | hmax
    · exact Or.inl ⟨hneg,
        evalGroup_no_iteration K expF sqrtF COM0 STM0 Positions i hneg r hev⟩
    · exact Or.inr (evalGroup_accepted K expF sqrtF COM0 STM0 Positions i hmax r hev)

end ConvergenceStepClaim

section PairGroup
variable {α : Type} [LinearOrderedField α]

theorem nodeSeq_length (node : List Char) (QMSize LB : Nat) :
    (nodeSeq node QMSize LB).length = node.length := by
  unfold nodeSeq
  refine foldl_invariant (fun (st : List Nat × Nat × Nat) => st.1.length = node.length) _ _ ?_ _
    (by simp)
  intro st k _ hI
  split_ifs
  · simpa using hI
  · simpa using hI

theorem crossSum_short (seq : List Nat) (QMSize : Nat) (g : List (List (gInfo α)))
    (rC : List (Nat × α)) (hlen : seq.length ≤ QMSize) : crossSum seq QMSize g rC = 0 := by
  unfold crossSum
  rw [Finset.Ico_eq_empty (by omega)]
  simp

/-- A state without a `'10'` pair to swap (at most one character) whose
weight is at least the threshold and which is not in the visited set is
inserted, and the call returns. -/
theorem ProdChildAux_leaf (expF : α → α) (cm : Int) (h : α) (QMSize LB : Nat)
    (g : List (List (gInfo α))) (rC : List (Nat × α)) (fuel : Nat) (st : SearchState α)
    (node : List Char) (hlen : node.length ≤ 1)
    (hhigh : h ≤ (CalcPenalFunc expF cm (nodeSeq node QMSize LB) QMSize g
      (List.replicate st.DerList.length 0) rC h 1).1)
    (hnew : node ∉ st.Nodes) :
    ProdChildAux expF cm h QMSize LB g rC (fuel + 1) st node =
      ⟨node :: st.Nodes,
        mergeDer st.DerList (CalcPenalFunc expF cm (nodeSeq node QMSize LB) QMSize g
          (List.replicate st.DerList.length 0) rC h 1).2,
        st.sumOfDeno + (CalcPenalFunc expF cm (nodeSeq node QMSize LB) QMSize g
          (List.replicate st.DerList.length 0) rC h 1).1⟩ := by
  unfold ProdChildAux
  simp only
  have h0 : node.length - 1 = 0 := by omega
  rw [if_pos hhigh, if_pos ((FindRepeat_eq_zero st.Nodes node).mpr hnew), h0]
  rfl

/-- For a group of one QM and one MM molecule every pass of the
convergence loop returns the denominator 1, whatever the weights are: the
seed is `"1"` or empty and has no cross pair. -/
theorem denominatorAt_pair (expF : α → α) (cm : Int) (g : List (List (gInfo α)))
    (re : List (Nat × α)) (hl : List α) (h : α) (hexp : expF 0 = 1) (hh : h ≤ 1) :
    (denominatorAt expF cm 1 1 g re hl h).1 = 1 := by
  have hub : ImpMMub hl 1 1 h = 0 := by
    unfold ImpMMub
    by_cases hc : hl.getD 1 0 < h
    · have : (List.range' 1 1).find? (fun q => decide (hl.getD q 0 < h)) = some 1 := by
        show List.find? _ [1] = _
        rw [List.find?_cons, decide_eq_true hc]
      rw [this]
      rfl
    · have : (List.range' 1 1).find? (fun q => decide (hl.getD q 0 < h)) = none := by
        show List.find? _ [1] = _
        rw [List.find?_cons, decide_eq_false hc]
        rfl
      rw [this]
  have hweight : ∀ (node : List Char) (Q LB : Nat) (DL : List α), node.length ≤ Q →
      (CalcPenalFunc expF cm (nodeSeq node Q LB) Q g DL re h 1).1 = 1 := by
    intro node Q LB DL hlen
    rw [CalcPenalFunc_fst, crossSum_short _ _ _ _ (by rw [nodeSeq_length]; exact hlen), neg_zero,
      hexp]
  have hrun : ∀ (node : List Char) (Q LB : Nat), node.length ≤ Q → node.length ≤ 1 →
      (ProdChild expF cm ⟨[], List.replicate (1 + 1) 0, 0⟩ node h Q LB g re).sumOfDeno = 1 := by
    intro node Q LB hQ h1
    unfold ProdChild
    rw [searchFuel_succ, ProdChildAux_leaf expF cm h Q LB g re _ _ node h1
      (by rw [hweight node Q LB _ hQ]; exact hh) (by simp)]
    show (0 : α) + _ = 1
    rw [hweight node Q LB _ hQ, zero_add]
  unfold denominatorAt
  simp only [hub]
  have hlb := (ImpQMlb_spec hl 1 h).1
  have hcases : ImpQMlb hl 1 h = 0 ∨ ImpQMlb hl 1 h = 1 := by omega
  rcases hcases with h0 | h1
  · rw [h0]
    have hp : perfect (((1 : Nat) : Int) - ((0 : Nat) : Int)) (0 - (((1 : Nat) : Int) - 1))
        = ['1'] := by
      have := perfect_replicate 1 0
      simpa using this
    rw [hp]
    exact hrun ['1'] _ 0 (by simp) (by simp)
  · rw [h1]
    have hp : perfect (((1 : Nat) : Int) - ((1 : Nat) : Int)) (0 - (((1 : Nat) : Int) - 1))
        = [] := by
      have := perfect_replicate 0 0
      simpa using this
    rw [hp]
    exact hrun [] _ 1 (by simp) (by simp)

end PairGroup

section SaturatedGroup
variable {α : Type} [LinearOrderedField α]

theorem evalGroup_ok_NumeVal (K : KernelData α) (expF sqrtF : α → α) (COM0 : Vec3 α) (STM0 : α)
    (P : List (Vec3 α)) (i : Nat) (r : GroupEval α)
    (hev : evalGroup K expF sqrtF COM0 STM0 P i = .ok r) :
    r.NumeVal = (groupNumerator K expF sqrtF COM0 STM0 P i).1 ∧
    r.dNume_dr = (groupNumerator K expF sqrtF COM0 STM0 P i).2 ∧
    ¬ (|(groupNumerator K expF sqrtF COM0 STM0 P i).1| < 1.0e-14 ∧ K.EnableTestOutput = 0) := by
  simp only [evalGroup] at hev
  split_ifs at hev with hbad
  split at hev
  · cases hev
  · injection hev with hr
    subst hr
    exact ⟨rfl, rfl, hbad⟩

/-- A group whose numerator passes the underflow check, with an iteration
budget of at least one and a first denominator equal to 1, is accepted at
the first iteration. -/
theorem evalGroup_saturated (K : KernelData α) (expF sqrtF : α → α) (COM0 : Vec3 α) (STM0 : α)
    (P : List (Vec3 α)) (i : Nat)
    (hpass : ¬ (|(groupNumerator K expF sqrtF COM0 STM0 P i).1| < 1.0e-14 ∧
      K.EnableTestOutput = 0))
    (hIt : 1 ≤ K.FlexiBLEMaxIt.getD i 0)
    (hone : (groupDenominator K expF sqrtF COM0 STM0 P i (K.hThre.getD i 0)).1 = 1) :
    ∃ r, evalGroup K expF sqrtF COM0 STM0 P i = .ok r ∧
      (r.DenVal, r.dDen_dr) = groupDenominator K expF sqrtF COM0 STM0 P i (K.hThre.getD i 0) ∧
      r.DenVal = 1 ∧ r.NumeVal = (groupNumerator K expF sqrtF COM0 STM0 P i).1 := by
  have hm := evalGroup_outcome K expF sqrtF COM0 STM0 P i
  obtain ⟨f, hf⟩ : ∃ f, (K.FlexiBLEMaxIt.getD i 0).toNat = f + 1 :=
    ⟨(K.FlexiBLEMaxIt.getD i 0).toNat - 1, by omega⟩
  rw [if_neg hpass, convergenceLoop_of_nonneg _ _ _ _ _ _ _ _ _ _ _ (by omega), hf,
    denLoop] at hm
  simp only [if_true] at hm
  have hone' : (denominatorAt expF K.CutoffMethod (K.qm i).length (K.mm i).length
      (groupTable K sqrtF COM0 STM0 P i) (groupRecords K sqrtF COM0 STM0 P i).1
      (hList expF (K.qm i).length (K.mm i).length (groupTable K sqrtF COM0 STM0 P i)
        (groupRecords K sqrtF COM0 STM0 P i).1) (K.hThre.getD i 0)).1 = 1 := hone
  rw [if_pos hone'] at hm
  cases hev : evalGroup K expF sqrtF COM0 STM0 P i with
  | error e =>
    rw [hev] at hm
    cases hm
  | ok r =>
    rw [hev] at hm
    simp only [Except.map] at hm
    injection hm with hm
    refine ⟨r, rfl, hm, ?_, (evalGroup_ok_NumeVal K expF sqrtF COM0 STM0 P i r hev).1⟩
    have := congrArg Prod.fst hm
    simp only at this
    rw [this]
    exact hone'

/-- The evaluation of a group of one QM and one MM molecule succeeds at the
first iteration with denominator 1 whenever its numerator passes the
underflow check, the threshold is at most 1 and the budget at least 1. -/
theorem evalGroup_pair (K : KernelData α) (expF sqrtF : α → α) (COM0 : Vec3 α) (STM0 : α)
    (P : List (Vec3 α)) (i : Nat) (hq : (K.qm i).length = 1) (hm : (K.mm i).length = 1)
    (hexp : expF 0 = 1) (hh : K.hThre.getD i 0 ≤ 1) (hIt : 1 ≤ K.FlexiBLEMaxIt.getD i 0)
    (hpass : ¬ (|(groupNumerator K expF sqrtF COM0 STM0 P i).1| < 1.0e-14 ∧
      K.EnableTestOutput = 0)) :
    ∃ r, evalGroup K expF sqrtF COM0 STM0 P i = .ok r ∧ r.DenVal = 1 ∧
      r.NumeVal = (groupNumerator K expF sqrtF COM0 STM0 P i).1 := by
  have hone : (groupDenominator K expF sqrtF COM0 STM0 P i (K.hThre.getD i 0)).1 = 1 := by
    unfold groupDenominator
    rw [hq, hm]
    exact denominatorAt_pair expF K.CutoffMethod _ _ _ _ hexp hh
  obtain ⟨r, hr, _, hd, hn⟩ := evalGroup_saturated K expF sqrtF COM0 STM0 P i hpass hIt hone
  exact ⟨r, hr, hd, hn⟩

/-- C29: if the iteration budget is at least one, the numerator passes the
underflow check and the denominator of the first iteration (computed at the
threshold `hThre[i]`) equals exactly 1, the evaluation of the group succeeds
with the accepted denominator 1 and the gradient of that first iteration,
and the energy of the group is `-Coe * ln(numerator)`. -/
theorem C29_saturated_at_one (K : KernelData α) (expF sqrtF logF : α → α) (COM0 : Vec3 α)
    (STM0 : α) (Positions : List (Vec3 α)) (i : Nat)
    (hpass : ¬ (|(groupNumerator K expF sqrtF COM0 STM0 Positions i).1| < 1.0e-14 ∧
      K.EnableTestOutput = 0))
    (hIt : 1 ≤ K.FlexiBLEMaxIt.getD i 0)
    (hone : (groupDenominator K expF sqrtF COM0 STM0 Positions i (K.hThre.getD i 0)).1 = 1) :
    ∃ r, evalGroup K expF sqrtF COM0 STM0 Positions i = .ok r ∧ r.DenVal = 1 ∧
      r.dDen_dr = (groupDenominator K expF sqrtF COM0 STM0 Positions i (K.hThre.getD i 0)).2 ∧
      iterAccepted K expF sqrtF COM0 STM0 Positions i 1 ∧
      groupEnergy K logF r
        = -Coe K.T * logF (groupNumerator K expF sqrtF COM0 STM0 Positions i).1 := by
  obtain ⟨r, hr, hpair, hd, hn⟩ :=
    evalGroup_saturated K expF sqrtF COM0 STM0 Positions i hpass hIt hone
  refine ⟨r, hr, hd, (congrArg Prod.snd hpair), ?_, ?_⟩
  · unfold iterAccepted iterDenominator
    rw [if_pos rfl]
    simpa using hone
  · unfold groupEnergy
    rw [hd, hn, div_one]

end SaturatedGroup

section NumeratorOfGroup
variable {α : Type} [LinearOrderedField α]

/-- Without records the kernel table holds only zeros. -/
theorem gAt_table_nil (AlphaNow : α) (n a b : Nat) :
    gAt (gExpPartTable AlphaNow n []) a b = ⟨0, 0⟩ := by
  by_cases ha : a < n
  · by_cases hb : b < n
    · rw [gAt_gExpPartTable AlphaNow n [] a b ha hb]
      split_ifs
      · rfl
      · have h0 : recSecond ([] : List (Nat × α)) a - recSecond ([] : List (Nat × α)) b = 0 :=
          sub_self _
        rw [h0, CalcPairExpPart_of_nonpos AlphaNow 0 (le_refl 0)]
    · unfold gAt gExpPartTable
      rw [getD_map_range _ n a [] ha, List.getD_eq_default _ _ (by
        rw [List.length_map, List.length_range]; exact not_lt.mp hb)]
  · have hrow : (gExpPartTable AlphaNow n ([] : List (Nat × α))).getD a [] = [] := by
      unfold gExpPartTable
      exact List.getD_eq_default _ _ (by
        rw [List.length_map, List.length_range]; exact not_lt.mp ha)
    unfold gAt
    rw [hrow]
    rfl

/-- The records of a group whose capsule has a segment of length zero: there
are none. -/
theorem groupRecords_degenerate (K : KernelData α) (sqrtF : α → α) (COM0 : Vec3 α) (STM0 : α)
    (P : List (Vec3 α)) (i : Nat) (hcap : degenerateCapsule K sqrtF i) :
    groupRecords K sqrtF COM0 STM0 P i = ([], []) := by
  unfold groupRecords
  rw [(Calc_r_degenerate K sqrtF COM0 STM0 P i _ hcap).1]
  rfl

/-- The numerator weight of a group in terms of the distances `Calc_r`
computed for its QM and its MM molecules. -/
theorem groupNumerator_pairSum (K : KernelData α) (expF sqrtF : α → α) (COM0 : Vec3 α)
    (STM0 : α) (P : List (Vec3 α)) (i : Nat)
    (hshape : K.BoundaryShape = 0 ∨ K.BoundaryShape = 1 ∨ K.BoundaryShape = 2 ∨
      K.BoundaryShape = 3) :
    (groupNumerator K expF sqrtF COM0 STM0 P i).1
      = expF (-pairSum (K.Coefficients.getD i 0)
          ((List.range (K.qm i).length).map
            (recSecond (Calc_r K sqrtF COM0 STM0 P i (chooseAtomDragged K sqrtF P i)).rCA))
          ((List.range' (K.qm i).length (K.mm i).length).map
            (recSecond (Calc_r K sqrtF COM0 STM0 P i (chooseAtomDragged K sqrtF P i)).rCA))) := by
  by_cases hcap : degenerateCapsule K sqrtF i
  · unfold groupNumerator groupTable
    rw [CalcPenalFunc_fst, groupRecords_degenerate K sqrtF COM0 STM0 P i hcap,
      (Calc_r_degenerate K sqrtF COM0 STM0 P i _ hcap).1, pairSum_range]
    congr 2
    unfold crossSum
    rw [List.length_range]
    refine Finset.sum_congr rfl fun a _ => Finset.sum_congr rfl fun b _ => ?_
    have h0 : floorValue (recSecond ([] : List (Nat × α)) a)
        - floorValue (recSecond ([] : List (Nat × α)) b) = 0 := sub_self _
    rw [gAt_table_nil, h0, CalcPairExpPart_of_nonpos _ 0 (le_refl 0)]
  obtain ⟨hlen, hfirst⟩ := Calc_r_layout K sqrtF COM0 STM0 P i (chooseAtomDragged K sqrtF P i)
    hshape hcap
  unfold groupNumerator groupTable groupRecords
  exact numerator_pairSum expF K.CutoffMethod _ _ _ _ _ _ _ hlen
    (fun q hq => hfirst q (by rw [← hlen]; exact hq))

end NumeratorOfGroup

section SaturatedWitness

theorem example_groupNumerator :
    (groupNumerator (exampleKernel 1 : KernelData ℝ) Real.exp Real.sqrt (0, 0, 0) 0
      examplePositions 0).1 = 1 := by
  rw [groupNumerator_pairSum _ _ _ _ _ _ _ (Or.inr (Or.inl rfl)), example_chooseAtomDragged,
    (example_Calc_r_rCA 1 (Or.inr rfl) (0, 0, 0) 0).1]
  have hq : ((exampleKernel 1 : KernelData ℝ).qm 0).length = 1 := by
    simp [exampleKernel, KernelData.qm]
  have hm : ((exampleKernel 1 : KernelData ℝ).mm 0).length = 1 := by
    simp [exampleKernel, KernelData.mm]
  rw [hq, hm]
  norm_num [pairSum, floorValue, recSecond, CalcPairExpPart, List.range_succ, List.range',
    exampleKernel]

theorem example_pass :
    ¬ (|(groupNumerator (exampleKernel 1 : KernelData ℝ) Real.exp Real.sqrt (0, 0, 0) 0
        examplePositions 0).1| < 1.0e-14 ∧
      (exampleKernel 1 : KernelData ℝ).EnableTestOutput = 0) := by
  rw [example_groupNumerator]
  norm_num

theorem example_first_denominator :
    (groupDenominator (exampleKernel 1 : KernelData ℝ) Real.exp Real.sqrt (0, 0, 0) 0
      examplePositions 0 ((exampleKernel 1 : KernelData ℝ).hThre.getD 0 0)).1 = 1 := by
  unfold groupDenominator
  have hq : ((exampleKernel 1 : KernelData ℝ).qm 0).length = 1 := by
    simp [exampleKernel, KernelData.qm]
  have hm : ((exampleKernel 1 : KernelData ℝ).mm 0).length = 1 := by
    simp [exampleKernel, KernelData.mm]
  rw [hq, hm]
  exact denominatorAt_pair Real.exp _ _ _ _ _ Real.exp_zero (by norm_num [exampleKernel])

/-- Witness of C29 on the two-atom example with the fixed-point sphere. -/
theorem C29_saturated_at_one_witness :
    ∃ r, evalGroup (exampleKernel 1 : KernelData ℝ) Real.exp Real.sqrt (0, 0, 0) 0
        examplePositions 0 = .ok r ∧ r.DenVal = 1 ∧
      r.dDen_dr = (groupDenominator (exampleKernel 1 : KernelData ℝ) Real.exp Real.sqrt (0, 0, 0)
        0 examplePositions 0 ((exampleKernel 1 : KernelData ℝ).hThre.getD 0 0)).2 ∧
      iterAccepted (exampleKernel 1 : KernelData ℝ) Real.exp Real.sqrt (0, 0, 0) 0
        examplePositions 0 1 ∧
      groupEnergy (exampleKernel 1 : KernelData ℝ) Real.log r
        = -Coe (exampleKernel 1 : KernelData ℝ).T *
          Real.log (groupNumerator (exampleKernel 1 : KernelData ℝ) Real.exp Real.sqrt
            (0, 0, 0) 0 examplePositions 0).1 :=
  C29_saturated_at_one (exampleKernel 1 : KernelData ℝ) Real.exp Real.sqrt Real.log (0, 0, 0) 0
    examplePositions 0 example_pass (by simp [exampleKernel]) example_first_denominator

end SaturatedWitness

section FloorSorted
variable {α : Type} [LinearOrderedField α]

/-- The zero-distance loop leaves every non-zero distance of the sorted
list as it was. -/
theorem floorLoop_re_nonzero (js : List Nat) (re orig : List (Nat × α)) (p : Nat)
    (hp : recSecond re p ≠ 0) :
    recSecond (floorLoop js re orig).1 p = recSecond re p := by
  induction js generalizing re orig with
  | nil => rfl
  | cons j js ih =>
    unfold floorLoop
    simp only
    split_ifs with h1 h2
    · rfl
    · have hjp : j ≠ p := by
        intro he
        rw [he] at h2
        exact hp h2
      rw [ih _ _ (by rw [recSecond_set_ne _ _ _ _ hjp]; exact hp), recSecond_set_ne _ _ _ _ hjp]
    · exact ih _ _ hp

/-- A zero distance of the sorted list that the loop reaches without
meeting a positive one is replaced by `1.0e-8`. -/
theorem floorLoop_re_zero (js : List Nat) (re orig : List (Nat × α)) (p : Nat)
    (hjs : js.Pairwise (fun a b => a < b)) (hp : p ∈ js)
    (hbefore : ∀ q ∈ js, q < p → ¬ 0 < recSecond re q)
    (hz : recSecond re p = 0) (hlen : p < re.length) :
    recSecond (floorLoop js re orig).1 p = 1.0e-8 := by
  induction js generalizing re orig with
  | nil => simp at hp
  | cons j js ih =>
    rw [List.pairwise_cons] at hjs
    unfold floorLoop
    simp only
    rcases List.mem_cons.mp hp with hpj | hpj
    · subst hpj
      rw [if_neg (by rw [hz]; exact lt_irrefl 0), if_pos hz]
      have hnot : p ∉ js := fun hmem => lt_irrefl p (hjs.1 p hmem)
      unfold recSecond
      rw [floorLoop_getD_re p js _ _ hnot]
      exact recSecond_set_self _ _ _ hlen
    · have hjp : j < p := hjs.1 p hpj
      have hnot : ¬ 0 < recSecond re j := hbefore j (List.mem_cons_self j js) hjp
      rw [if_neg hnot]
      split_ifs with h0
      · apply ih _ _ hjs.2 hpj
        · intro q hq hqp
          rw [recSecond_set_ne _ _ _ _ (ne_of_lt (hjs.1 q hq))]
          exact hbefore q (List.mem_cons_of_mem j hq) hqp
        · rw [recSecond_set_ne _ _ _ _ (ne_of_lt hjp)]
          exact hz
        · rw [List.length_set]
          exact hlen
      · exact ih _ _ hjs.2 hpj
          (fun q hq hqp => hbefore q (List.mem_cons_of_mem j hq) hqp) hz hlen

/-- After the zero-distance loop of `execute`, every record of the sorted
list holds `floorValue` of its distance. -/
theorem floorZero_sorted_value (rCA : List (Nat × α)) (a : Nat)
    (ha : a < (sortByDistance rCA).length) :
    recSecond (floorZero (sortByDistance rCA) rCA).1 a
      = floorValue (recSecond (sortByDistance rCA) a) := by
  unfold floorValue
  by_cases h0 : recSecond (sortByDistance rCA) a = 0
  · rw [if_pos h0]
    unfold floorZero
    apply floorLoop_re_zero _ _ _ a (List.pairwise_lt_range _) (List.mem_range.mpr ha) _ h0 ha
    intro q _ hqa
    have hsorted := sortByDistance_sorted rCA
    have hq : q < (sortByDistance rCA).length := lt_trans hqa ha
    have hle := List.pairwise_iff_getElem.mp hsorted q a hq ha hqa
    unfold recSecond at h0 ⊢
    rw [List.getD_eq_getElem _ _ ha] at h0
    rw [List.getD_eq_getElem _ _ hq]
    rw [h0] at hle
    exact not_lt.mpr hle
  · rw [if_neg h0]
    exact floorLoop_re_nonzero _ _ _ a h0

end FloorSorted
section FloorClaim
variable {α : Type} [LinearOrderedField α]

end FloorClaim

section FloorWitness

end FloorWitness

section BufferAdditive

theorem addAt_getD_all {β : Type} [AddCommGroup β] (l : List β) (i a : Nat) (v : β) :
    (addAt l i v).getD a 0 = l.getD a 0 + (if i = a ∧ a < l.length then v else 0) := by
  by_cases ha : a < l.length
  · rw [addAt_getD l i a v ha]
    by_cases hi : i = a
    · rw [if_pos hi, if_pos ⟨hi, ha⟩]
    · rw [if_neg hi, if_neg (fun h => hi h.1)]
  · rw [if_neg (fun h => ha h.2), add_zero,
      List.getD_eq_default _ _ (by rw [addAt_length]; exact not_lt.mp ha),
      List.getD_eq_default _ _ (not_lt.mp ha)]

theorem SameAdded.refl {β : Type} [AddCommGroup β] (F F' : List β) (h : F.length = F'.length) :
    SameAdded F F' F F' :=
  ⟨h, fun a => by rw [sub_self, sub_self]⟩

theorem SameAdded.addAt {β : Type} [AddCommGroup β] {F F' G G' : List β}
    (h : SameAdded F F' G G') (i : Nat) (v : β) :
    SameAdded F F' (addAt G i v) (addAt G' i v) := by
  refine ⟨by rw [addAt_length, addAt_length]; exact h.1, ?_⟩
  intro a
  rw [addAt_getD_all, addAt_getD_all, h.1, add_sub_right_comm, add_sub_right_comm, h.2 a]

end BufferAdditive

section ForceAdditive
variable {α : Type} [LinearOrderedField α]

theorem applyDirect_sameAdded (K : KernelData α) (i : Nat) (AtomDragged : Int)
    (ForceList : List (Vec3 α)) (F F' G G' : List (Vec3 α)) (h : SameAdded F F' G G') :
    SameAdded F F' (applyDirect K i AtomDragged ForceList G)
      (applyDirect K i AtomDragged ForceList G') := by
  unfold applyDirect
  simp only
  refine foldl_rel (SameAdded F F') _ _ _ ?_ _ _ h
  intro s s' j _ hs
  split_ifs
  · exact hs.addAt _ _
  · refine foldl_rel (SameAdded F F') _ _ _ ?_ _ _ hs
    intro t t' a _ ht
    exact ht.addAt _ _
  · exact hs

theorem applyRecoil_sameAdded (K : KernelData α) (fC : Vec3 α) (STM : α)
    (F F' G G' : List (Vec3 α)) (h : SameAdded F F' G G') :
    SameAdded F F' (applyRecoil K fC STM G) (applyRecoil K fC STM G') := by
  unfold applyRecoil
  simp only
  have hmol : ∀ (mol : InternalInfo α) (s s' : List (Vec3 α)), SameAdded F F' s s' →
      SameAdded F F'
        ((List.range mol.Indices.length).foldl (fun Force a =>
          addAt Force (mol.Indices.getD a 0)
            (fC.1 * mol.AtomMasses.getD a 0 / STM, fC.2.1 * mol.AtomMasses.getD a 0 / STM,
              fC.2.2 * mol.AtomMasses.getD a 0 / STM)) s)
        ((List.range mol.Indices.length).foldl (fun Force a =>
          addAt Force (mol.Indices.getD a 0)
            (fC.1 * mol.AtomMasses.getD a 0 / STM, fC.2.1 * mol.AtomMasses.getD a 0 / STM,
              fC.2.2 * mol.AtomMasses.getD a 0 / STM)) s') := by
    intro mol s s' hs
    refine foldl_rel (SameAdded F F') _ _ _ ?_ _ _ hs
    intro t t' a _ ht
    exact ht.addAt _ _
  have hgrps : ∀ (grps : List (List (InternalInfo α))) (s s' : List (Vec3 α)),
      SameAdded F F' s s' →
      SameAdded F F'
        (grps.foldl (fun Force grp => grp.foldl (fun (Force : List (Vec3 α))
          (mol : InternalInfo α) =>
            (List.range mol.Indices.length).foldl (fun Force a =>
              addAt Force (mol.Indices.getD a 0)
                (fC.1 * mol.AtomMasses.getD a 0 / STM, fC.2.1 * mol.AtomMasses.getD a 0 / STM,
                  fC.2.2 * mol.AtomMasses.getD a 0 / STM)) Force) Force) s)
        (grps.foldl (fun Force grp => grp.foldl (fun (Force : List (Vec3 α))
          (mol : InternalInfo α) =>
            (List.range mol.Indices.length).foldl (fun Force a =>
              addAt Force (mol.Indices.getD a 0)
                (fC.1 * mol.AtomMasses.getD a 0 / STM, fC.2.1 * mol.AtomMasses.getD a 0 / STM,
                  fC.2.2 * mol.AtomMasses.getD a 0 / STM)) Force) Force) s') := by
    intro grps s s' hs
    refine foldl_rel (SameAdded F F') _ _ _ ?_ _ _ hs
    intro t t' grp _ ht
    refine foldl_rel (SameAdded F F') _ _ _ ?_ _ _ ht
    intro u u' mol _ hu
    exact hmol mol u u' hu
  exact hgrps K.MMGroups _ _ (hgrps K.QMGroups _ _ h)

theorem applyGroupForces_sameAdded (K : KernelData α) (i : Nat) (r : GroupEval α)
    (F F' G G' : List (Vec3 α)) (h : SameAdded F F' G G') :
    SameAdded F F' (applyGroupForces K i r G) (applyGroupForces K i r G') := by
  unfold applyGroupForces
  simp only
  split_ifs
  · exact applyRecoil_sameAdded K _ _ F F' _ _ (applyDirect_sameAdded K i _ _ F F' G G' h)
  · exact applyDirect_sameAdded K i _ _ F F' G G' h

/-- The group loop of `execute` on two force buffers: the same outcome, and
the same contribution added to every atom. -/
theorem executeLoop_sameAdded (K : KernelData α) (expF sqrtF logF : α → α)
    (P : List (Vec3 α)) (F F' : List (Vec3 α)) (l : List Nat) (E : α) (G G' : List (Vec3 α))
    (COM : Vec3 α) (STM : α) (h : SameAdded F F' G G') :
    (executeLoop K expF sqrtF logF P l E G COM STM).outcome
      = (executeLoop K expF sqrtF logF P l E G' COM STM).outcome ∧
    SameAdded F F' (executeLoop K expF sqrtF logF P l E G COM STM).Force
      (executeLoop K expF sqrtF logF P l E G' COM STM).Force := by
  induction l generalizing E G G' COM STM with
  | nil =>
    unfold executeLoop
    exact ⟨rfl, h⟩
  | cons i rest ih =>
    unfold executeLoop
    by_cases hc : (K.qm i).length ≠ 0 ∧ (K.mm i).length ≠ 0
    · rw [if_pos hc, if_pos hc]
      cases hev : evalGroup K expF sqrtF COM STM P i with
      | error e => exact ⟨rfl, h⟩
      | ok r => exact ih _ _ _ _ _ (applyGroupForces_sameAdded K i r F F' G G' h)
    · rw [if_neg hc, if_neg hc]
      exact ih _ _ _ _ _ h

/-- C24: `execute` only adds to the force buffer.  For the same
configuration and positions and two initial force buffers `F` and `F'` of
the same length (one entry per atom), the two evaluations have the same
outcome (the same energy, or the same exception) and their final buffers
differ from `F` and `F'` by the same contribution on every atom. -/
theorem C24_force_buffer_additive (K : KernelData α) (expF sqrtF logF : α → α)
    (Positions F F' : List (Vec3 α)) (includeForces includeEnergy : Bool)
    (hlen : F.length = F'.length) :
    (execute K expF sqrtF logF Positions F includeForces includeEnergy).outcome
      = (execute K expF sqrtF logF Positions F' includeForces includeEnergy).outcome ∧
    (execute K expF sqrtF logF Positions F includeForces includeEnergy).Force.length
      = (execute K expF sqrtF logF Positions F' includeForces includeEnergy).Force.length ∧
    ∀ a, (execute K expF sqrtF logF Positions F includeForces includeEnergy).Force.getD a 0
          - F.getD a 0
      = (execute K expF sqrtF logF Positions F' includeForces includeEnergy).Force.getD a 0
          - F'.getD a 0 := by
  unfold execute
  simp only
  obtain ⟨h1, h2, h3⟩ := executeLoop_sameAdded K expF sqrtF logF Positions F F'
    (List.range K.QMGroups.length) 0 F F' (0, 0, 0) 0 (SameAdded.refl F F' hlen)
  exact ⟨h1, h2, h3⟩

end ForceAdditive

section ForceAdditiveWitness

/-- Witness of C24 on the two-atom example with an empty and a non-empty
initial buffer of two atoms. -/
theorem C24_force_buffer_additive_witness :
    (execute (exampleKernel 0 : KernelData ℝ) Real.exp Real.sqrt Real.log examplePositions
        [(0, 0, 0), (0, 0, 0)] true true).outcome
      = (execute (exampleKernel 0 : KernelData ℝ) Real.exp Real.sqrt Real.log examplePositions
        [(1, 2, 3), (4, 5, 6)] true true).outcome ∧
    ∀ a, (execute (exampleKernel 0 : KernelData ℝ) Real.exp Real.sqrt Real.log examplePositions
          [(0, 0, 0), (0, 0, 0)] true true).Force.getD a 0
          - ([(0, 0, 0), (0, 0, 0)] : List (Vec3 ℝ)).getD a 0
      = (execute (exampleKernel 0 : KernelData ℝ) Real.exp Real.sqrt Real.log examplePositions
          [(1, 2, 3), (4, 5, 6)] true true).Force.getD a 0
          - ([(1, 2, 3), (4, 5, 6)] : List (Vec3 ℝ)).getD a 0 :=
  ⟨(C24_force_buffer_additive (exampleKernel 0 : KernelData ℝ) Real.exp Real.sqrt Real.log
      examplePositions [(0, 0, 0), (0, 0, 0)] [(1, 2, 3), (4, 5, 6)] true true rfl).1,
    (C24_force_buffer_additive (exampleKernel 0 : KernelData ℝ) Real.exp Real.sqrt Real.log
      examplePositions [(0, 0, 0), (0, 0, 0)] [(1, 2, 3), (4, 5, 6)] true true rfl).2.2⟩

end ForceAdditiveWitness

section GroupForceSum
variable {α : Type} [LinearOrderedField α]

/-- `execute` on a system with a single boundary group that holds QM and MM
molecules: the energy and the buffer after a successful evaluation of the
group. -/
theorem execute_single_ok (K : KernelData α) (expF sqrtF logF : α → α)
    (P F : List (Vec3 α)) (b1 b2 : Bool) (r : GroupEval α) (hlen : K.QMGroups.length = 1)
    (hq : (K.qm 0).length ≠ 0) (hm : (K.mm 0).length ≠ 0)
    (hev : evalGroup K expF sqrtF (0, 0, 0) 0 P 0 = .ok r) :
    execute K expF sqrtF logF P F b1 b2
      = ⟨.ok (0 + groupEnergy K logF r), applyGroupForces K 0 r F⟩ := by
  unfold execute
  simp only
  rw [hlen]
  show executeLoop K expF sqrtF logF P [0] 0 F (0, 0, 0) 0 = _
  rw [executeLoop, if_pos ⟨hq, hm⟩, hev]
  simp only
  rw [executeLoop]

/-- A numerator below the floor with test output disabled makes the
evaluation of the group throw the degenerate-numerator error. -/
theorem evalGroup_bad (K : KernelData α) (expF sqrtF : α → α) (COM0 : Vec3 α) (STM0 : α)
    (P : List (Vec3 α)) (i : Nat)
    (hbad : |(groupNumerator K expF sqrtF COM0 STM0 P i).1| < 1.0e-14)
    (htest : K.EnableTestOutput = 0) :
    evalGroup K expF sqrtF COM0 STM0 P i = .error .badNumerator := by
  have hm := evalGroup_outcome K expF sqrtF COM0 STM0 P i
  rw [if_pos ⟨hbad, htest⟩] at hm
  exact (map_eq_error_iff _ _ _).mp hm

end GroupForceSum

section PairNumerator
variable {α : Type} [LinearOrderedField α]

/-- The numerator weight of a group of one QM and one MM molecule. -/
theorem pair_numerator (K : KernelData α) (expF sqrtF : α → α) (COM0 : Vec3 α) (STM0 : α)
    (P : List (Vec3 α)) (i : Nat)
    (hshape : K.BoundaryShape = 0 ∨ K.BoundaryShape = 1 ∨ K.BoundaryShape = 2 ∨
      K.BoundaryShape = 3)
    (hq : (K.qm i).length = 1) (hm : (K.mm i).length = 1) :
    (groupNumerator K expF sqrtF COM0 STM0 P i).1
      = expF (-(CalcPairExpPart (K.Coefficients.getD i 0)
          (floorValue (recSecond
              (Calc_r K sqrtF COM0 STM0 P i (chooseAtomDragged K sqrtF P i)).rCA 0)
            - floorValue (recSecond
              (Calc_r K sqrtF COM0 STM0 P i (chooseAtomDragged K sqrtF P i)).rCA 1))).1) := by
  rw [groupNumerator_pairSum K expF sqrtF COM0 STM0 P i hshape, hq, hm]
  simp [pairSum, List.range_succ, List.range']

end PairNumerator

section SteepExample

theorem exp_neg_steep : Real.exp (-(125000 / 51)) < (1.0e-14 : ℝ) := by
  have h2 : (2 : ℝ) ≤ Real.exp 1 := by
    have := Real.add_one_le_exp (1 : ℝ)
    linarith
  have h47 : (2 : ℝ) ^ 47 ≤ Real.exp 47 := by
    have he : Real.exp 47 = Real.exp 1 ^ 47 := by
      rw [← Real.exp_nat_mul]
      norm_num
    rw [he]
    exact pow_le_pow_left₀ (by norm_num) h2 47
  have hmono : Real.exp 47 ≤ Real.exp (125000 / 51) := Real.exp_le_exp.mpr (by norm_num)
  rw [Real.exp_neg]
  have hbig : (2 : ℝ) ^ 47 ≤ Real.exp (125000 / 51) := le_trans h47 hmono
  have hinv : (Real.exp (125000 / 51))⁻¹ ≤ ((2 : ℝ) ^ 47)⁻¹ := inv_anti₀ (by norm_num) hbig
  have : (((2 : ℝ) ^ 47)⁻¹) < 1.0e-14 := by norm_num
  linarith

theorem steep_Calc_r (K : KernelData ℝ)
    (hK : K = exampleKernelSteep ∨ K = exampleKernelTestOutput) :
    chooseAtomDragged K Real.sqrt exampleSwapped 0 = 0 ∧
    (Calc_r K Real.sqrt (0, 0, 0) 0 exampleSwapped 0 0).rCA = [(0, 2), (1, 1)] := by
  rcases hK with hK | hK
  · subst hK
    constructor
    · simp [chooseAtomDragged, exampleKernelSteep, exampleKernel]
    · simp [Calc_r, exampleKernelSteep, exampleKernel, exampleSwapped, sphereRecord,
        moleculePoint, KernelData.qm, KernelData.mm, KernelData.param, coordAt, List.range_succ]
      norm_num [sqrt_four]
  · subst hK
    constructor
    · simp [chooseAtomDragged, exampleKernelTestOutput, exampleKernel]
    · simp [Calc_r, exampleKernelTestOutput, exampleKernel, exampleSwapped, sphereRecord,
        moleculePoint, KernelData.qm, KernelData.mm, KernelData.param, coordAt, List.range_succ]
      norm_num [sqrt_four]

theorem steep_numerator (K : KernelData ℝ)
    (hK : K = exampleKernelSteep ∨ K = exampleKernelTestOutput) :
    (groupNumerator K Real.exp Real.sqrt (0, 0, 0) 0 exampleSwapped 0).1
      = Real.exp (-(125000 / 51)) := by
  have hfields : (K.BoundaryShape = 0 ∨ K.BoundaryShape = 1 ∨ K.BoundaryShape = 2 ∨
      K.BoundaryShape = 3) ∧ (K.qm 0).length = 1 ∧ (K.mm 0).length = 1 ∧
      K.Coefficients.getD 0 0 = 50 := by
    rcases hK with hK | hK <;> subst hK <;>
      simp [exampleKernelSteep, exampleKernelTestOutput, exampleKernel, KernelData.qm,
        KernelData.mm]
  obtain ⟨hs, hq, hm, hc⟩ := hfields
  obtain ⟨ht, hr⟩ := steep_Calc_r K hK
  rw [pair_numerator K Real.exp Real.sqrt (0, 0, 0) 0 exampleSwapped 0 hs hq hm, ht, hr, hc]
  congr 2
  norm_num [recSecond, floorValue, CalcPairExpPart]

end SteepExample
section DegenerateNumerator
variable {α : Type} [LinearOrderedField α]

/-- C21 (amended): whenever the numerator weight of a group is below the
floor `1e-14` in absolute value and test output is disabled
(`EnableTestOutput = 0`), the evaluation of the group throws the
degenerate-numerator error, whatever the other configuration values are;
`execute` then returns no energy when the group has both QM and MM
molecules, and when it is the first such group `execute` ends with that
error and the force buffer as it was. -/
theorem C21_degenerate_numerator (K : KernelData α) (expF sqrtF logF : α → α)
    (Positions Force : List (Vec3 α)) (includeForces includeEnergy : Bool) (i : Nat)
    (hbad : |(groupNumerator K expF sqrtF (0, 0, 0) 0 Positions i).1| < 1.0e-14)
    (htest : K.EnableTestOutput = 0) :
    (∀ (COM0 : Vec3 α) (STM0 : α),
      evalGroup K expF sqrtF COM0 STM0 Positions i = .error .badNumerator) ∧
    (i ∈ qualifyingGroups K →
      ∀ E, (execute K expF sqrtF logF Positions Force includeForces includeEnergy).outcome
        ≠ .ok E) ∧
    (∀ rest, qualifyingGroups K = i :: rest →
      execute K expF sqrtF logF Positions Force includeForces includeEnergy
        = ⟨.error .badNumerator, Force⟩) := by
  have hev : ∀ (COM0 : Vec3 α) (STM0 : α),
      evalGroup K expF sqrtF COM0 STM0 Positions i = .error .badNumerator := by
    intro COM0 STM0
    apply evalGroup_bad K expF sqrtF COM0 STM0 Positions i _ htest
    rw [groupNumerator_indep K expF sqrtF COM0 (0, 0, 0) STM0 0]
    exact hbad
  refine ⟨hev, ?_, ?_⟩
  · intro hi E hok
    unfold execute at hok
    obtain ⟨hall, _⟩ := executeLoop_energy K expF sqrtF logF Positions
      (List.range K.QMGroups.length) 0 Force (0, 0, 0) 0 E hok
    obtain ⟨r, hr, _⟩ := hall i hi (0, 0, 0) 0
    rw [hev] at hr
    cases hr
  · intro rest hq
    unfold execute
    exact executeLoop_first_error K expF sqrtF logF Positions (List.range K.QMGroups.length)
      i rest hq 0 Force (0, 0, 0) 0 .badNumerator hev

end DegenerateNumerator

section DegenerateNumeratorExamples

/-- Counterexample to C21 as stated: with test output enabled, the pair
with the QM atom at distance 2 and the MM atom at distance 1 and
`alpha = 50` has the numerator `exp (-125000/51) < 1e-14`, yet the
evaluation of the group does not throw and `execute` returns an energy. -/
theorem C21_degenerate_numerator_counterexample :
    |(groupNumerator (exampleKernelTestOutput : KernelData ℝ) Real.exp Real.sqrt (0, 0, 0) 0
        exampleSwapped 0).1| < 1.0e-14 ∧
    evalGroup (exampleKernelTestOutput : KernelData ℝ) Real.exp Real.sqrt (0, 0, 0) 0
        exampleSwapped 0 ≠ .error .badNumerator ∧
    ∃ E, (execute (exampleKernelTestOutput : KernelData ℝ) Real.exp Real.sqrt Real.log
        exampleSwapped [(0, 0, 0), (0, 0, 0)] true true).outcome = .ok E := by
  have hnum := steep_numerator (exampleKernelTestOutput : KernelData ℝ) (Or.inr rfl)
  have hbad : |(groupNumerator (exampleKernelTestOutput : KernelData ℝ) Real.exp Real.sqrt
      (0, 0, 0) 0 exampleSwapped 0).1| < 1.0e-14 := by
    rw [hnum, abs_of_pos (Real.exp_pos _)]
    exact exp_neg_steep
  have hq : ((exampleKernelTestOutput : KernelData ℝ).qm 0).length = 1 := by
    simp [exampleKernelTestOutput, exampleKernel, KernelData.qm]
  have hm : ((exampleKernelTestOutput : KernelData ℝ).mm 0).length = 1 := by
    simp [exampleKernelTestOutput, exampleKernel, KernelData.mm]
  obtain ⟨r, hr, _, _⟩ := evalGroup_pair (exampleKernelTestOutput : KernelData ℝ) Real.exp
    Real.sqrt (0, 0, 0) 0 exampleSwapped 0 hq hm Real.exp_zero
    (by norm_num [exampleKernelTestOutput, exampleKernel])
    (by simp [exampleKernelTestOutput, exampleKernel])
    (by
      intro h
      have h2 := h.2
      simp [exampleKernelTestOutput] at h2)
  refine ⟨hbad, ?_, ?_⟩
  · rw [hr]
    intro h
    cases h
  · rw [execute_single_ok (exampleKernelTestOutput : KernelData ℝ) Real.exp Real.sqrt Real.log
      exampleSwapped [(0, 0, 0), (0, 0, 0)] true true r
      (by simp [exampleKernelTestOutput, exampleKernel]) (by rw [hq]; decide)
      (by rw [hm]; decide) hr]
    exact ⟨_, rfl⟩

/-- Witness of C21: with test output disabled, the pair with the QM atom at
distance 2 and the MM atom at distance 1 and `alpha = 50` has a numerator
below the floor, and `execute` ends with the degenerate-numerator error and
the force buffer untouched. -/
theorem C21_degenerate_numerator_witness :
    |(groupNumerator (exampleKernelSteep : KernelData ℝ) Real.exp Real.sqrt (0, 0, 0) 0
        exampleSwapped 0).1| < 1.0e-14 ∧
    (exampleKernelSteep : KernelData ℝ).EnableTestOutput = 0 ∧
    evalGroup (exampleKernelSteep : KernelData ℝ) Real.exp Real.sqrt (0, 0, 0) 0
        exampleSwapped 0 = .error .badNumerator ∧
    execute (exampleKernelSteep : KernelData ℝ) Real.exp Real.sqrt Real.log exampleSwapped
      [(1, 2, 3), (4, 5, 6)] true true = ⟨.error .badNumerator, [(1, 2, 3), (4, 5, 6)]⟩ := by
  have hbad : |(groupNumerator (exampleKernelSteep : KernelData ℝ) Real.exp Real.sqrt
      (0, 0, 0) 0 exampleSwapped 0).1| < 1.0e-14 := by
    rw [steep_numerator (exampleKernelSteep : KernelData ℝ) (Or.inl rfl),
      abs_of_pos (Real.exp_pos _)]
    exact exp_neg_steep
  have htest : (exampleKernelSteep : KernelData ℝ).EnableTestOutput = 0 := rfl
  have hq : qualifyingGroups (exampleKernelSteep : KernelData ℝ) = 0 :: [] := by
    simp [qualifyingGroups, exampleKernelSteep, exampleKernel, KernelData.qm, KernelData.mm,
      List.range_succ]
  have h := C21_degenerate_numerator (exampleKernelSteep : KernelData ℝ) Real.exp Real.sqrt
    Real.log exampleSwapped [(1, 2, 3), (4, 5, 6)] true true 0 hbad htest
  exact ⟨hbad, htest, h.1 (0, 0, 0) 0, h.2.2 [] hq⟩

end DegenerateNumeratorExamples

section CoincidentPair
variable {α : Type} [LinearOrderedField α]

end CoincidentPair

section CoincidentPairExamples

end CoincidentPairExamples

section TwoMolecule
variable {α : Type} [LinearOrderedField α]

end TwoMolecule

section TwoMoleculeExample

end TwoMoleculeExample

section ZeroMass
variable {α : Type} [LinearOrderedField α]

/-- The accumulation loop of `Calc_COM`: the total mass and the
mass-weighted coordinate sums. -/
theorem Calc_COM_fold (m : Nat → α) (c : Nat → Vec3 α) (l : List Nat) (a : α × Vec3 α) :
    l.foldl (fun (acc : α × Vec3 α) i =>
        (acc.1 + m i, (acc.2.1 + m i * (c i).1, acc.2.2.1 + m i * (c i).2.1,
          acc.2.2.2 + m i * (c i).2.2))) a
      = (a.1 + (l.map m).sum,
          (a.2.1 + (l.map fun i => m i * (c i).1).sum,
           a.2.2.1 + (l.map fun i => m i * (c i).2.1).sum,
           a.2.2.2 + (l.map fun i => m i * (c i).2.2).sum)) := by
  induction l generalizing a with
  | nil => simp
  | cons x xs ih =>
    rw [List.foldl_cons, ih]
    simp only [List.map_cons, List.sum_cons, add_assoc]

/-- `Calc_COM` on a molecule, by its total mass and its mass-weighted
coordinate sums. -/
theorem Calc_COM_of_eq (Coordinates : List (Vec3 α)) (mol : InternalInfo α) :
    Calc_COM_of Coordinates mol
      = (((List.range mol.Indices.length).map fun k =>
            mol.AtomMasses.getD k 0 * (coordAt Coordinates (mol.Indices.getD k 0)).1).sum
          / (if ((List.range mol.Indices.length).map fun k => mol.AtomMasses.getD k 0).sum = 0
              then 1 else ((List.range mol.Indices.length).map fun k =>
                mol.AtomMasses.getD k 0).sum),
        ((List.range mol.Indices.length).map fun k =>
            mol.AtomMasses.getD k 0 * (coordAt Coordinates (mol.Indices.getD k 0)).2.1).sum
          / (if ((List.range mol.Indices.length).map fun k => mol.AtomMasses.getD k 0).sum = 0
              then 1 else ((List.range mol.Indices.length).map fun k =>
                mol.AtomMasses.getD k 0).sum),
        ((List.range mol.Indices.length).map fun k =>
            mol.AtomMasses.getD k 0 * (coordAt Coordinates (mol.Indices.getD k 0)).2.2).sum
          / (if ((List.range mol.Indices.length).map fun k => mol.AtomMasses.getD k 0).sum = 0
              then 1 else ((List.range mol.Indices.length).map fun k =>
                mol.AtomMasses.getD k 0).sum)) := by
  unfold Calc_COM_of
  have h := Calc_COM_fold (fun k => mol.AtomMasses.getD k 0)
    (fun k => coordAt Coordinates (mol.Indices.getD k 0)) (List.range mol.Indices.length)
    (0, (0, 0, 0))
  simp only [zero_add] at h
  simp only [h]

/-- C31: zero total mass is recovered locally.  `Calc_COM` is a total
function (it reports no error); on the molecule it selects, when the atom
masses sum to exactly zero it divides the mass-weighted coordinate sums by
1, not by zero, and when every atom mass is zero it returns the origin
`(0, 0, 0)` whatever the atom coordinates are. -/
theorem C31_Calc_COM_zero_mass (K : KernelData α) (Coordinates : List (Vec3 α))
    (group index : Nat) (mol : InternalInfo α) :
    Calc_COM K Coordinates 1 group index
      = Calc_COM_of Coordinates ((K.qm group).getD index ⟨[], []⟩) ∧
    Calc_COM K Coordinates 0 group index
      = Calc_COM_of Coordinates ((K.mm group).getD index ⟨[], []⟩) ∧
    (((List.range mol.Indices.length).map fun k => mol.AtomMasses.getD k 0).sum = 0 →
      Calc_COM_of Coordinates mol
        = (((List.range mol.Indices.length).map fun k =>
              mol.AtomMasses.getD k 0 * (coordAt Coordinates (mol.Indices.getD k 0)).1).sum / 1,
          ((List.range mol.Indices.length).map fun k =>
              mol.AtomMasses.getD k 0 * (coordAt Coordinates (mol.Indices.getD k 0)).2.1).sum / 1,
          ((List.range mol.Indices.length).map fun k =>
              mol.AtomMasses.getD k 0 * (coordAt Coordinates (mol.Indices.getD k 0)).2.2).sum
            / 1)) ∧
    ((∀ k, k < mol.Indices.length → mol.AtomMasses.getD k 0 = 0) →
      Calc_COM_of Coordinates mol = (0, 0, 0)) := by
  refine ⟨?_, ?_, ?_, ?_⟩
  · unfold Calc_COM
    simp
  · unfold Calc_COM
    simp
  · intro h0
    rw [Calc_COM_of_eq, if_pos h0]
  · intro hall
    have hz : ∀ f : Nat → α, ((List.range mol.Indices.length).map fun k =>
        mol.AtomMasses.getD k 0 * f k).sum = 0 := by
      intro f
      apply List.sum_eq_zero
      intro x hx
      obtain ⟨k, hk, rfl⟩ := List.mem_map.mp hx
      rw [hall k (List.mem_range.mp hk), zero_mul]
    rw [Calc_COM_of_eq, hz, hz, hz]
    simp

/-- An instance of C31: a molecule of two atoms of mass zero at `(1, 2, 3)`
and `(4, 5, 6)` has its centre of mass at the origin. -/
theorem Calc_COM_zero_example :
    Calc_COM_of ([(1, 2, 3), (4, 5, 6)] : List (Vec3 ℚ)) ⟨[0, 1], [0, 0]⟩ = (0, 0, 0) := by
  simp [Calc_COM_of, coordAt, List.range_succ]

end ZeroMass

section VisitedSum
variable {α : Type} [LinearOrderedField α]

theorem mergeDer_length (DL temp : List α) : (mergeDer DL temp).length = DL.length := by
  unfold mergeDer
  exact foldl_addAt_length (fun i => i) (fun i => temp.getD i 0) _ DL

theorem mergeDer_getD (DL temp : List α) (m : Nat) (hm : m < DL.length) :
    (mergeDer DL temp).getD m 0 = DL.getD m 0 + temp.getD m 0 := by
  unfold mergeDer
  rw [foldl_addAt_getD (fun i => i) (fun i => temp.getD i 0) _ DL m hm]
  congr 1
  rw [sum_map_range]
  by_cases hmt : m < temp.length
  · rw [Finset.sum_eq_single m]
    · simp
    · intro b _ hb
      rw [if_neg hb]
    · intro hnot
      exact absurd (Finset.mem_range.mpr hmt) hnot
  · rw [List.getD_eq_default _ _ (not_lt.mp hmt)]
    apply Finset.sum_eq_zero
    intro b hb
    rw [if_neg]
    intro hbm
    subst hbm
    exact hmt (Finset.mem_range.mp hb)

/-- Induction over the partition search that also records why a string is
inserted: its weight is at least the threshold, or it is below the
threshold and `CutoffMethod = 1`. -/
theorem ProdChildAux_induction_acc (expF : α → α) (cm : Int) (h : α) (QMSize LB : Nat)
    (g : List (List (gInfo α))) (rC : List (Nat × α)) (R : SearchState α → Prop)
    (hR : ∀ (st : SearchState α) (x : List Char), R st → x ∉ st.Nodes →
      (h ≤ (CalcPenalFunc expF cm (nodeSeq x QMSize LB) QMSize g
          (List.replicate st.DerList.length 0) rC h 1).1 ∨
        ((CalcPenalFunc expF cm (nodeSeq x QMSize LB) QMSize g
          (List.replicate st.DerList.length 0) rC h 1).1 < h ∧ cm = 1)) →
      R ⟨x :: st.Nodes,
        mergeDer st.DerList (CalcPenalFunc expF cm (nodeSeq x QMSize LB) QMSize g
          (List.replicate st.DerList.length 0) rC h 1).2,
        st.sumOfDeno + (CalcPenalFunc expF cm (nodeSeq x QMSize LB) QMSize g
          (List.replicate st.DerList.length 0) rC h 1).1⟩)
    (fuel : Nat) (st : SearchState α) (node : List Char) (hst : R st) :
    R (ProdChildAux expF cm h QMSize LB g rC fuel st node) := by
  induction fuel generalizing st node with
  | zero => exact hst
  | succ fuel ih =>
    unfold ProdChildAux
    simp only
    split_ifs with h1 h2 h3 h4
    · refine foldl_invariant R _ _ (fun s i _ hs => ?_) _
        (hR st node hst ((FindRepeat_eq_zero _ _).mp h2) (Or.inl h1))
      split_ifs with hc
      · exact ih s _ hs
      · exact hs
    · exact hst
    · exact hR st node hst ((FindRepeat_eq_zero _ _).mp h4) (Or.inr h3)
    · exact hst
    · exact hst

/-- A call of `ProdChild` on a string of the visited set returns the state
it was given. -/
theorem ProdChildAux_visited (expF : α → α) (cm : Int) (h : α) (QMSize LB : Nat)
    (g : List (List (gInfo α))) (rC : List (Nat × α)) (fuel : Nat) (st : SearchState α)
    (x : List Char) (hx : x ∈ st.Nodes) :
    ProdChildAux expF cm h QMSize LB g rC fuel st x = st := by
  cases fuel with
  | zero => rfl
  | succ fuel =>
    have hrep : ¬ FindRepeat st.Nodes x = 0 := fun h0 => (FindRepeat_eq_zero _ _).mp h0 hx
    unfold ProdChildAux
    simp only
    split_ifs <;> rfl

/-- C34: the denominator is the sum over the visited set, each state
counted once.  After `ProdChild` is started on an empty visited set, a zero
sum and a zero accumulator of `n` entries, the visited set holds no state
twice, the denominator sum is the sum of the penalty weights
`exp(-S)` of the states of the final visited set, and entry `m < n` of the
derivative accumulator is the sum of their gradients; a call of `ProdChild`
on a state that is already in the visited set changes nothing. -/
theorem C34_denominator_is_visited_sum (expF : α → α) (CutoffMethod : Int) (n : Nat)
    (s : List Char) (h : α) (QMSize LB : Nat) (g : List (List (gInfo α)))
    (rC_Atom : List (Nat × α)) :
    (ProdChild expF CutoffMethod ⟨[], List.replicate n 0, 0⟩ s h QMSize LB g rC_Atom).Nodes.Nodup ∧
    (ProdChild expF CutoffMethod ⟨[], List.replicate n 0, 0⟩ s h QMSize LB g rC_Atom).sumOfDeno
      = ((ProdChild expF CutoffMethod ⟨[], List.replicate n 0, 0⟩ s h QMSize LB g
          rC_Atom).Nodes.map fun x =>
            (CalcPenalFunc expF CutoffMethod (nodeSeq x QMSize LB) QMSize g
              (List.replicate n 0) rC_Atom h 1).1).sum ∧
    (∀ x, (CalcPenalFunc expF CutoffMethod (nodeSeq x QMSize LB) QMSize g
        (List.replicate n 0) rC_Atom h 1).1
      = expF (-crossSum (nodeSeq x QMSize LB) QMSize g rC_Atom)) ∧
    (ProdChild expF CutoffMethod ⟨[], List.replicate n 0, 0⟩ s h QMSize LB g
      rC_Atom).DerList.length = n ∧
    (∀ m, m < n →
      (ProdChild expF CutoffMethod ⟨[], List.replicate n 0, 0⟩ s h QMSize LB g
          rC_Atom).DerList.getD m 0
        = ((ProdChild expF CutoffMethod ⟨[], List.replicate n 0, 0⟩ s h QMSize LB g
            rC_Atom).Nodes.map fun x =>
              penalGradient expF (nodeSeq x QMSize LB) QMSize g rC_Atom m).sum) ∧
    (∀ (st : SearchState α) (x : List Char), x ∈ st.Nodes →
      ProdChild expF CutoffMethod st x h QMSize LB g rC_Atom = st) := by
  have hinv := ProdChildAux_induction_acc expF CutoffMethod h QMSize LB g rC_Atom
    (fun st => st.Nodes.Nodup ∧ st.DerList.length = n ∧
      st.sumOfDeno = (st.Nodes.map fun x =>
        (CalcPenalFunc expF CutoffMethod (nodeSeq x QMSize LB) QMSize g
          (List.replicate n 0) rC_Atom h 1).1).sum ∧
      ∀ m, m < n → st.DerList.getD m 0 = (st.Nodes.map fun x =>
        penalGradient expF (nodeSeq x QMSize LB) QMSize g rC_Atom m).sum)
    (by
      intro st x hst hx hacc
      obtain ⟨hnd, hlen, hsum, hder⟩ := hst
      rw [hlen] at hacc ⊢
      refine ⟨List.nodup_cons.mpr ⟨hx, hnd⟩, ?_, ?_, ?_⟩
      · show (mergeDer _ _).length = n
        rw [mergeDer_length, hlen]
      · show st.sumOfDeno + _ = _
        rw [List.map_cons, List.sum_cons, hsum, add_comm]
      · intro m hm
        show (mergeDer _ _).getD m 0 = _
        rw [mergeDer_getD _ _ m (by rw [hlen]; exact hm), hder m hm, List.map_cons,
          List.sum_cons, add_comm]
        congr 1
        rw [CalcPenalFunc_fst] at hacc
        have hc : h ≤ expF (-crossSum (nodeSeq x QMSize LB) QMSize g rC_Atom) ∨
            (expF (-crossSum (nodeSeq x QMSize LB) QMSize g rC_Atom) < h ∧ CutoffMethod = 1) ∨
            (1 : Int) = 0 := by
          rcases hacc with h1 | h1
          · exact Or.inl h1
          · exact Or.inr (Or.inl h1)
        rw [CalcPenalFunc_snd_of_acc expF CutoffMethod _ QMSize g _ rC_Atom h 1 hc m
          (by rw [List.length_replicate]; exact hm)]
        simp [List.getD_eq_getElem?_getD, hm])
    (searchFuel s) ⟨[], List.replicate n 0, 0⟩ s
    (by
      refine ⟨List.nodup_nil, List.length_replicate _ _, by simp, ?_⟩
      intro m hm
      simp [List.getD_eq_getElem?_getD, hm])
  obtain ⟨hnd, hlen, hsum, hder⟩ := hinv
  refine ⟨hnd, hsum, fun x => CalcPenalFunc_fst _ _ _ _ _ _ _ _ _, hlen, hder, ?_⟩
  intro st x hx
  exact ProdChildAux_visited expF CutoffMethod h QMSize LB g rC_Atom _ st x hx

end VisitedSum

section SeedWeight
variable {α : Type} [LinearOrderedField α]

/-- The kernel value the table holds for two sorted positions of which the
first is no farther from the boundary than the second is zero. -/
theorem table_val_sorted (alpha : α) (n : Nat) (orig re : List (Nat × α))
    (hcons : ∀ s, s < n → recFirst re s < n ∧
      recSecond orig (recFirst re s) = recSecond re s)
    (s t : Nat) (hs : s < n) (ht : t < n) (hst : recSecond re s ≤ recSecond re t) :
    (gAt (gExpPartTable alpha n orig) (recFirst re s) (recFirst re t)).val = 0 := by
  rw [gAt_gExpPartTable alpha n orig _ _ (hcons s hs).1 (hcons t ht).1]
  split_ifs
  · rfl
  · show (CalcPairExpPart alpha _).1 = 0
    rw [(hcons s hs).2, (hcons t ht).2, CalcPairExpPart_of_nonpos alpha _ (by linarith)]

/-- The cross pairs of the seed of `a` ones and `b` zeros on the sorted
positions `LB .. LB + a + b - 1` carry no kernel value. -/
theorem crossSum_seed (alpha : α) (n : Nat) (orig re : List (Nat × α)) (a b LB : Nat)
    (hwin : LB + a + b ≤ n)
    (hsorted : ∀ s t, s ≤ t → t < n → recSecond re s ≤ recSecond re t)
    (hcons : ∀ s, s < n → recFirst re s < n ∧
      recSecond orig (recFirst re s) = recSecond re s) :
    crossSum (nodeSeq (List.replicate a '1' ++ List.replicate b '0') a LB) a
      (gExpPartTable alpha n orig) re = 0 := by
  rw [nodeSeq_seed]
  unfold crossSum
  apply Finset.sum_eq_zero
  intro i hi
  apply Finset.sum_eq_zero
  intro j hj
  have hi' : i < a := Finset.mem_range.mp hi
  rw [List.length_range'] at hj
  obtain ⟨hj1, hj2⟩ := Finset.mem_Ico.mp hj
  have hgi : (List.range' LB (a + b)).getD i 0 = LB + i := by
    simp [List.getD_eq_getElem?_getD, List.getElem?_range', show i < a + b by omega]
  have hgj : (List.range' LB (a + b)).getD j 0 = LB + j := by
    simp [List.getD_eq_getElem?_getD, List.getElem?_range', hj2]
  unfold molOf
  rw [hgi, hgj]
  exact table_val_sorted alpha n orig re hcons _ _ (by omega) (by omega)
    (hsorted _ _ (by omega) (by omega))

/-- C33: the seed weight is exactly 1.  For records `re` sorted
non-decreasingly by distance, the kernel table built (for any `alpha`) from
the original-order records holding those same distances, and a window
`LB .. LB + a + b - 1` of sorted positions inside the table, the seed of
`a` ones followed by `b` zeros has penalty weight `exp 0 = 1` in
`CalcPenalFunc` as `ProdChild` calls it: every cross pair has its QM slot
no farther from the boundary than its MM slot, so its kernel value is 0. -/
theorem C33_seed_weight_one (expF : α → α) (CutoffMethod : Int) (alpha : α) (n : Nat)
    (orig re : List (Nat × α)) (a b LB : Nat) (h : α) (DerList : List α) (part : Int)
    (hexp : expF 0 = 1)
    (hwin : LB + a + b ≤ n)
    (hsorted : ∀ s t, s ≤ t → t < n → recSecond re s ≤ recSecond re t)
    (hcons : ∀ s, s < n → recFirst re s < n ∧
      recSecond orig (recFirst re s) = recSecond re s) :
    perfect (a : Int) (b : Int) = List.replicate a '1' ++ List.replicate b '0' ∧
    crossSum (nodeSeq (perfect (a : Int) (b : Int)) a LB) a (gExpPartTable alpha n orig) re = 0 ∧
    (CalcPenalFunc expF CutoffMethod (nodeSeq (perfect (a : Int) (b : Int)) a LB) a
      (gExpPartTable alpha n orig) DerList re h part).1 = 1 := by
  have hc := crossSum_seed alpha n orig re a b LB hwin hsorted hcons
  refine ⟨perfect_replicate a b, ?_, ?_⟩
  · rw [perfect_replicate]
    exact hc
  · rw [CalcPenalFunc_fst, perfect_replicate, hc, neg_zero, hexp]

end SeedWeight

section SeedWeightExample

/-- Witness of C33: three molecules at the distances 3, 1, 2 (sorted order:
molecules 1, 2, 0), `alpha = 1`; the seed `"10"` on the sorted positions
1 and 2 has weight 1. -/
theorem C33_seed_weight_one_witness :
    (CalcPenalFunc Real.exp 0
      (nodeSeq (perfect ((1 : Nat) : Int) ((1 : Nat) : Int)) 1 1) 1
      (gExpPartTable (1 : ℝ) 3 [(0, 3), (1, 1), (2, 2)]) [0, 0, 0]
      [(1, 1), (2, 2), (0, 3)] 1.0e-5 1).1 = 1 := by
  have hsorted : ∀ s t, s ≤ t → t < 3 →
      recSecond ([(1, 1), (2, 2), (0, 3)] : List (Nat × ℝ)) s
        ≤ recSecond ([(1, 1), (2, 2), (0, 3)] : List (Nat × ℝ)) t := by
    intro s t hst ht
    interval_cases t <;> interval_cases s <;> norm_num [recSecond]
  have hcons : ∀ s, s < 3 →
      recFirst ([(1, 1), (2, 2), (0, 3)] : List (Nat × ℝ)) s < 3 ∧
      recSecond ([(0, 3), (1, 1), (2, 2)] : List (Nat × ℝ))
          (recFirst ([(1, 1), (2, 2), (0, 3)] : List (Nat × ℝ)) s)
        = recSecond ([(1, 1), (2, 2), (0, 3)] : List (Nat × ℝ)) s := by
    intro s hs
    interval_cases s <;> exact ⟨by simp [recFirst], rfl⟩
  exact (C33_seed_weight_one Real.exp 0 1 3 [(0, 3), (1, 1), (2, 2)] [(1, 1), (2, 2), (0, 3)]
    1 1 1 1.0e-5 [0, 0, 0] 1 Real.exp_zero (by decide) hsorted hcons).2.2

end SeedWeightExample

section GradientSum
variable {α : Type} [LinearOrderedField α]

end GradientSum

section KernelOrder
variable {α : Type} [LinearOrderedField α]

theorem kernel_val_nonneg (alpha R : α) (halpha : 0 ≤ alpha) :
    0 ≤ (CalcPairExpPart alpha R).1 := by
  by_cases hR : 0 < R
  · rw [CalcPairExpPart_of_pos alpha R hR]
    have hx : 0 ≤ alpha * R := mul_nonneg halpha (le_of_lt hR)
    exact div_nonneg (pow_nonneg hx 3) (by linarith)
  · rw [CalcPairExpPart_of_nonpos alpha R (not_lt.mp hR)]

theorem kernel_val_mono (alpha R1 R2 : α) (halpha : 0 ≤ alpha) (h12 : R1 ≤ R2) :
    (CalcPairExpPart alpha R1).1 ≤ (CalcPairExpPart alpha R2).1 := by
  by_cases h1 : 0 < R1
  · have h2 : 0 < R2 := lt_of_lt_of_le h1 h12
    rw [CalcPairExpPart_of_pos alpha R1 h1, CalcPairExpPart_of_pos alpha R2 h2]
    simp only
    have hx : 0 ≤ alpha * R1 := mul_nonneg halpha (le_of_lt h1)
    have hy : 0 ≤ alpha * R2 := mul_nonneg halpha (le_of_lt h2)
    have hxy : alpha * R1 ≤ alpha * R2 := mul_le_mul_of_nonneg_left h12 halpha
    rw [div_le_div_iff₀ (by linarith) (by linarith)]
    have h3 : (alpha * R1) ^ 2 ≤ (alpha * R2) ^ 2 := pow_le_pow_left₀ hx hxy 2
    have h4 : (alpha * R1) ^ 3 ≤ (alpha * R2) ^ 3 := pow_le_pow_left₀ hx hxy 3
    nlinarith [mul_nonneg hx hy, mul_nonneg (mul_nonneg hx hy) (sub_nonneg.mpr hxy),
      mul_nonneg (mul_nonneg hx hy) (sub_nonneg.mpr h3), sq_nonneg (alpha * R1),
      sq_nonneg (alpha * R2)]
  · rw [CalcPairExpPart_of_nonpos alpha R1 (not_lt.mp h1)]
    exact kernel_val_nonneg alpha R2 halpha

/-- The kernel value the table holds for two sorted positions is the kernel
of the difference of their distances. -/
theorem table_val_re (alpha : α) (n : Nat) (orig re : List (Nat × α))
    (hcons : ∀ s, s < n → recFirst re s < n ∧
      recSecond orig (recFirst re s) = recSecond re s)
    (s t : Nat) (hs : s < n) (ht : t < n) :
    (gAt (gExpPartTable alpha n orig) (recFirst re s) (recFirst re t)).val
      = (CalcPairExpPart alpha (recSecond re s - recSecond re t)).1 := by
  rw [gAt_gExpPartTable alpha n orig _ _ (hcons s hs).1 (hcons t ht).1]
  split_ifs with heq
  · have : recSecond re s = recSecond re t := by
      rw [← (hcons s hs).2, ← (hcons t ht).2, heq]
    rw [this, sub_self, CalcPairExpPart_zero]
  · show (CalcPairExpPart alpha _).1 = _
    rw [(hcons s hs).2, (hcons t ht).2]

/-- The weight of the QM slot `p`. -/
theorem hList_qm (expF : α → α) (QMSize MMSize : Nat) (g : List (List (gInfo α)))
    (re : List (Nat × α)) (p : Nat) (hp : p < QMSize) :
    (hList expF QMSize MMSize g re).getD p 0
      = expF (-(∑ j in Finset.Ico (p + 1) (QMSize + 1),
          (gAt g (recFirst re j) (recFirst re p)).val)) := by
  unfold hList
  rw [List.getD_append _ _ _ _ (by simp [hp]), getD_map_range _ _ _ _ hp, foldl_add_eq_sum,
    zero_add, sum_map_range', show p + 1 + (QMSize - p) = QMSize + 1 by omega]

/-- The weight of the MM slot `q`. -/
theorem hList_mm (expF : α → α) (QMSize MMSize : Nat) (g : List (List (gInfo α)))
    (re : List (Nat × α)) (q : Nat) (hq1 : QMSize ≤ q) (hq2 : q < QMSize + MMSize) :
    (hList expF QMSize MMSize g re).getD q 0
      = expF (-(∑ j in Finset.Ico (QMSize - 1) q,
          (gAt g (recFirst re q) (recFirst re j)).val)) := by
  unfold hList
  rw [List.getD_append_right _ _ _ _ (by simp [hq1])]
  simp only [List.length_map, List.length_range]
  have hget : ∀ f : Nat → α, ((List.range' QMSize MMSize).map f).getD (q - QMSize) 0 = f q := by
    intro f
    simp [List.getD_eq_getElem?_getD, List.getElem?_range', show q - QMSize < MMSize by omega,
      show QMSize + (q - QMSize) = q by omega]
  rw [hget, foldl_add_eq_sum, zero_add, sum_map_range',
    show QMSize - 1 + (q - (QMSize - 1)) = q by omega]

end KernelOrder

section MonotoneWeights

/-- C38: monotone importance weights.  For `alpha > 0`, at least one QM and
one MM molecule, records `re` sorted non-decreasingly by distance and the
kernel table built from the original-order records holding those same
distances, the single-molecule weights `hList_re` are non-decreasing over
the QM slots `0 .. QMSize - 1`, non-increasing over the MM slots
`QMSize .. QMSize + MMSize - 1`, all lie in `(0, 1]`, and the two slots
adjacent to the boundary have equal weight.  Hence the QM slots with a
weight below `h` are exactly those before `ImpQMlb`, and the MM slots with
a weight below `h` are exactly those from the first such slot on, the one
the scan for `ImpMMub` finds. -/
theorem C38_monotone_weights (alpha : ℝ) (halpha : 0 < alpha) (QMSize MMSize : Nat)
    (hQ : 0 < QMSize) (hM : 0 < MMSize) (orig re : List (Nat × ℝ)) (hl : List ℝ)
    (hhl : hl = hList Real.exp QMSize MMSize
      (gExpPartTable alpha (QMSize + MMSize) orig) re)
    (hsorted : ∀ s t, s ≤ t → t < QMSize + MMSize → recSecond re s ≤ recSecond re t)
    (hcons : ∀ s, s < QMSize + MMSize → recFirst re s < QMSize + MMSize ∧
      recSecond orig (recFirst re s) = recSecond re s) :
    (∀ p q, p ≤ q → q < QMSize → hl.getD p 0 ≤ hl.getD q 0) ∧
    (∀ p q, QMSize ≤ p → p ≤ q → q < QMSize + MMSize → hl.getD q 0 ≤ hl.getD p 0) ∧
    (∀ p, p < QMSize + MMSize → 0 < hl.getD p 0 ∧ hl.getD p 0 ≤ 1) ∧
    hl.getD (QMSize - 1) 0 = hl.getD QMSize 0 ∧
    (∀ h : ℝ,
      (∀ p, p < QMSize → (hl.getD p 0 < h ↔ p < ImpQMlb hl QMSize h)) ∧
      ((∃ q, QMSize ≤ q ∧ q < QMSize + MMSize ∧ hl.getD q 0 < h) →
        ∃ q0 : Nat, ImpMMub hl QMSize MMSize h = (q0 : Int) - 1 ∧ QMSize ≤ q0 ∧
          q0 < QMSize + MMSize ∧
          ∀ q, QMSize ≤ q → q < QMSize + MMSize → (hl.getD q 0 < h ↔ q0 ≤ q))) := by
  have ha : (0 : ℝ) ≤ alpha := le_of_lt halpha
  have hqm : ∀ p, p < QMSize → hl.getD p 0
      = Real.exp (-(∑ j in Finset.Ico (p + 1) (QMSize + 1),
          (CalcPairExpPart alpha (recSecond re j - recSecond re p)).1)) := by
    intro p hp
    rw [hhl, hList_qm _ _ _ _ _ p hp]
    congr 2
    apply Finset.sum_congr rfl
    intro j hj
    obtain ⟨_, hj2⟩ := Finset.mem_Ico.mp hj
    exact table_val_re alpha _ orig re hcons j p (by omega) (by omega)
  have hmm : ∀ q, QMSize ≤ q → q < QMSize + MMSize → hl.getD q 0
      = Real.exp (-(∑ j in Finset.Ico (QMSize - 1) q,
          (CalcPairExpPart alpha (recSecond re q - recSecond re j)).1)) := by
    intro q hq1 hq2
    rw [hhl, hList_mm _ _ _ _ _ q hq1 hq2]
    congr 2
    apply Finset.sum_congr rfl
    intro j hj
    obtain ⟨_, hj2⟩ := Finset.mem_Ico.mp hj
    exact table_val_re alpha _ orig re hcons q j (by omega) (by omega)
  have hmonoQ : ∀ p q, p ≤ q → q < QMSize → hl.getD p 0 ≤ hl.getD q 0 := by
    intro p q hpq hq
    rw [hqm p (by omega), hqm q hq]
    apply Real.exp_le_exp.mpr
    apply neg_le_neg
    calc ∑ j in Finset.Ico (q + 1) (QMSize + 1),
          (CalcPairExpPart alpha (recSecond re j - recSecond re q)).1
        ≤ ∑ j in Finset.Ico (q + 1) (QMSize + 1),
          (CalcPairExpPart alpha (recSecond re j - recSecond re p)).1 := by
          apply Finset.sum_le_sum
          intro j hj
          apply kernel_val_mono alpha _ _ ha
          have := hsorted p q hpq (by omega)
          linarith
      _ ≤ ∑ j in Finset.Ico (p + 1) (QMSize + 1),
          (CalcPairExpPart alpha (recSecond re j - recSecond re p)).1 := by
          apply Finset.sum_le_sum_of_subset_of_nonneg
          · intro j hj
            rw [Finset.mem_Ico] at hj ⊢
            omega
          · intro j _ _
            exact kernel_val_nonneg alpha _ ha
  have hmonoM : ∀ p q, QMSize ≤ p → p ≤ q → q < QMSize + MMSize →
      hl.getD q 0 ≤ hl.getD p 0 := by
    intro p q hp hpq hq
    rw [hmm p hp (by omega), hmm q (by omega) hq]
    apply Real.exp_le_exp.mpr
    apply neg_le_neg
    calc ∑ j in Finset.Ico (QMSize - 1) p,
          (CalcPairExpPart alpha (recSecond re p - recSecond re j)).1
        ≤ ∑ j in Finset.Ico (QMSize - 1) p,
          (CalcPairExpPart alpha (recSecond re q - recSecond re j)).1 := by
          apply Finset.sum_le_sum
          intro j hj
          apply kernel_val_mono alpha _ _ ha
          have := hsorted p q hpq hq
          linarith
      _ ≤ ∑ j in Finset.Ico (QMSize - 1) q,
          (CalcPairExpPart alpha (recSecond re q - recSecond re j)).1 := by
          apply Finset.sum_le_sum_of_subset_of_nonneg
          · intro j hj
            rw [Finset.mem_Ico] at hj ⊢
            omega
          · intro j _ _
            exact kernel_val_nonneg alpha _ ha
  refine ⟨hmonoQ, hmonoM, ?_, ?_, ?_⟩
  · intro p hp
    by_cases hpq : p < QMSize
    · rw [hqm p hpq]
      refine ⟨Real.exp_pos _, ?_⟩
      rw [← Real.exp_zero]
      apply Real.exp_le_exp.mpr
      exact neg_nonpos.mpr (Finset.sum_nonneg fun j _ => kernel_val_nonneg alpha _ ha)
    · rw [hmm p (by omega) hp]
      refine ⟨Real.exp_pos _, ?_⟩
      rw [← Real.exp_zero]
      apply Real.exp_le_exp.mpr
      exact neg_nonpos.mpr (Finset.sum_nonneg fun j _ => kernel_val_nonneg alpha _ ha)
  · rw [hqm (QMSize - 1) (by omega), hmm QMSize (le_refl _) (by omega),
      show QMSize - 1 + 1 = QMSize by omega]
    have h1 : Finset.Ico QMSize (QMSize + 1) = {QMSize} := by
      ext x
      simp only [Finset.mem_Ico, Finset.mem_singleton]
      omega
    have h2 : Finset.Ico (QMSize - 1) QMSize = {QMSize - 1} := by
      ext x
      simp only [Finset.mem_Ico, Finset.mem_singleton]
      omega
    rw [h1, h2, Finset.sum_singleton, Finset.sum_singleton]
  · intro h
    constructor
    · intro p hp
      obtain ⟨hle, hbelow, habove⟩ := ImpQMlb_spec hl QMSize h
      constructor
      · intro hlt
        by_contra hnot
        exact habove p (not_lt.mp hnot) hp hlt
      · intro hlt
        have h0 : 0 < ImpQMlb hl QMSize h := by omega
        exact lt_of_le_of_lt (hmonoQ p (ImpQMlb hl QMSize h - 1) (by omega) (by omega))
          (hbelow h0)
    · intro hfound
      obtain ⟨q0, hub, h1, h2, h3, h4⟩ := ImpMMub_spec hl QMSize MMSize h hfound
      refine ⟨q0, hub, h1, h2, ?_⟩
      intro q hq1 hq2
      constructor
      · intro hlt
        by_contra hnot
        exact h4 q hq1 (not_le.mp hnot) hlt
      · intro hle
        exact lt_of_le_of_lt (hmonoM q0 q h1 hle hq2) h3

/-- Witness of C38: three molecules at the distances 3, 1, 2 (sorted order:
molecules 1, 2, 0), two QM slots and one MM slot, `alpha = 1`. -/
theorem C38_monotone_weights_witness :
    (hList Real.exp 2 1 (gExpPartTable (1 : ℝ) (2 + 1) [(0, 3), (1, 1), (2, 2)])
        [(1, 1), (2, 2), (0, 3)]).getD 0 0
      ≤ (hList Real.exp 2 1 (gExpPartTable (1 : ℝ) (2 + 1) [(0, 3), (1, 1), (2, 2)])
        [(1, 1), (2, 2), (0, 3)]).getD 1 0 ∧
    (hList Real.exp 2 1 (gExpPartTable (1 : ℝ) (2 + 1) [(0, 3), (1, 1), (2, 2)])
        [(1, 1), (2, 2), (0, 3)]).getD (2 - 1) 0
      = (hList Real.exp 2 1 (gExpPartTable (1 : ℝ) (2 + 1) [(0, 3), (1, 1), (2, 2)])
        [(1, 1), (2, 2), (0, 3)]).getD 2 0 := by
  have hsorted : ∀ s t, s ≤ t → t < 2 + 1 →
      recSecond ([(1, 1), (2, 2), (0, 3)] : List (Nat × ℝ)) s
        ≤ recSecond ([(1, 1), (2, 2), (0, 3)] : List (Nat × ℝ)) t := by
    intro s t hst ht
    interval_cases t <;> interval_cases s <;> norm_num [recSecond]
  have hcons : ∀ s, s < 2 + 1 →
      recFirst ([(1, 1), (2, 2), (0, 3)] : List (Nat × ℝ)) s < 2 + 1 ∧
      recSecond ([(0, 3), (1, 1), (2, 2)] : List (Nat × ℝ))
          (recFirst ([(1, 1), (2, 2), (0, 3)] : List (Nat × ℝ)) s)
        = recSecond ([(1, 1), (2, 2), (0, 3)] : List (Nat × ℝ)) s := by
    intro s hs
    interval_cases s <;> exact ⟨by simp [recFirst], rfl⟩
  have h := C38_monotone_weights 1 (by norm_num) 2 1 (by decide) (by decide)
    [(0, 3), (1, 1), (2, 2)] [(1, 1), (2, 2), (0, 3)] _ rfl hsorted hcons
  exact ⟨h.1 0 1 (by decide) (by decide), h.2.2.2.1⟩

end MonotoneWeights

section DenominatorBound
variable {α : Type} [LinearOrderedField α]

/-- The partition search never lowers the denominator sum, the weights
being non-negative. -/
theorem ProdChildAux_sum_ge (expF : α → α) (hnonneg : ∀ x, 0 ≤ expF x) (cm : Int) (h : α)
    (QMSize LB : Nat) (g : List (List (gInfo α))) (rC : List (Nat × α)) (c : α)
    (fuel : Nat) (st : SearchState α) (node : List Char) (hst : c ≤ st.sumOfDeno) :
    c ≤ (ProdChildAux expF cm h QMSize LB g rC fuel st node).sumOfDeno := by
  refine ProdChildAux_induction expF cm h QMSize LB g rC (fun _ => True)
    (fun st => c ≤ st.sumOfDeno) (fun _ _ _ _ _ => trivial) ?_ fuel st node hst trivial
  intro st x hR _ _
  show c ≤ st.sumOfDeno + _
  rw [CalcPenalFunc_fst]
  linarith [hnonneg (-crossSum (nodeSeq x QMSize LB) QMSize g rC)]

/-- A seed without kernel value on its cross pairs has weight 1; started on
an empty visited set with a threshold of at most 1 it is inserted, and the
denominator sum is at least 1. -/
theorem ProdChild_seed_ge_one (expF : α → α) (hnonneg : ∀ x, 0 ≤ expF x) (hexp : expF 0 = 1)
    (cm : Int) (h : α) (hh : h ≤ 1) (QMSize LB : Nat) (g : List (List (gInfo α)))
    (rC : List (Nat × α)) (DL : List α) (seed : List Char)
    (hzero : crossSum (nodeSeq seed QMSize LB) QMSize g rC = 0) :
    1 ≤ (ProdChild expF cm ⟨[], DL, 0⟩ seed h QMSize LB g rC).sumOfDeno := by
  have hw : (CalcPenalFunc expF cm (nodeSeq seed QMSize LB) QMSize g
      (List.replicate DL.length 0) rC h 1).1 = 1 := by
    rw [CalcPenalFunc_fst, hzero, neg_zero, hexp]
  unfold ProdChild
  rw [searchFuel_succ]
  unfold ProdChildAux
  simp only
  rw [if_pos (by rw [hw]; exact hh), if_pos ((FindRepeat_eq_zero _ _).mpr (by simp))]
  refine foldl_invariant (fun st : SearchState α => 1 ≤ st.sumOfDeno) _ _ (fun s i _ hs => ?_) _ ?_
  · split_ifs
    · exact ProdChildAux_sum_ge expF hnonneg cm h QMSize LB g rC 1 _ s _ hs
    · exact hs
  · show (1 : α) ≤ 0 + _
    rw [hw, zero_add]

theorem ImpMMub_none (hl : List α) (QMSize MMSize : Nat) (h : α)
    (hnone : ¬ ∃ q, QMSize ≤ q ∧ q < QMSize + MMSize ∧ hl.getD q 0 < h) :
    ImpMMub hl QMSize MMSize h = 0 := by
  unfold ImpMMub
  have : (List.range' QMSize MMSize).find? (fun q => decide (hl.getD q 0 < h)) = none := by
    rw [List.find?_eq_none]
    intro q hq hlt
    rw [List.mem_range'_1] at hq
    exact hnone ⟨q, hq.1, hq.2, by simpa using hlt⟩
  rw [this]

/-- The seed of every pass of the convergence loop carries no kernel value
on its cross pairs, when the table holds none for two sorted positions in
order. -/
theorem seed_crossSum_zero (QMSize MMSize : Nat) (g : List (List (gInfo α)))
    (re : List (Nat × α)) (hl : List α) (h : α)
    (hval : ∀ s t, s ≤ t → t < QMSize + MMSize →
      (gAt g (recFirst re s) (recFirst re t)).val = 0) :
    crossSum (nodeSeq (perfect ((QMSize : Int) - ImpQMlb hl QMSize h)
        (ImpMMub hl QMSize MMSize h - ((QMSize : Int) - 1)))
        ((QMSize : Int) - ImpQMlb hl QMSize h).toNat (ImpQMlb hl QMSize h))
      ((QMSize : Int) - ImpQMlb hl QMSize h).toNat g re = 0 := by
  have hlb := ImpQMlb_le hl QMSize h
  by_cases hfound : ∃ q, QMSize ≤ q ∧ q < QMSize + MMSize ∧ hl.getD q 0 < h
  · obtain ⟨q0, hub, hq1, hq2, _, _⟩ := ImpMMub_spec hl QMSize MMSize h hfound
    have hw := (seed_window hl QMSize MMSize h q0 hub hq1).2
    unfold seedPositions seedOf at hw
    rw [hw]
    have hQ : ((QMSize : Int) - ImpQMlb hl QMSize h).toNat = QMSize - ImpQMlb hl QMSize h := by
      omega
    rw [hQ]
    unfold crossSum
    apply Finset.sum_eq_zero
    intro i hi
    apply Finset.sum_eq_zero
    intro j hj
    have hi' := Finset.mem_range.mp hi
    rw [List.length_range'] at hj
    obtain ⟨hj1, hj2⟩ := Finset.mem_Ico.mp hj
    have hgi : (List.range' (ImpQMlb hl QMSize h) (q0 - ImpQMlb hl QMSize h)).getD i 0
        = ImpQMlb hl QMSize h + i := by
      simp [List.getD_eq_getElem?_getD, List.getElem?_range',
        show i < q0 - ImpQMlb hl QMSize h by omega]
    have hgj : (List.range' (ImpQMlb hl QMSize h) (q0 - ImpQMlb hl QMSize h)).getD j 0
        = ImpQMlb hl QMSize h + j := by
      simp [List.getD_eq_getElem?_getD, List.getElem?_range', hj2]
    unfold molOf
    rw [hgi, hgj]
    exact hval _ _ (by omega) (by omega)
  · rw [ImpMMub_none hl QMSize MMSize h hfound]
    have hlen : ∀ a b : Int, (perfect a b).length = (a + b).toNat := by
      intro a b
      simp [perfect, Function.comp_def]
    by_cases hQ0 : ((QMSize : Int) - ImpQMlb hl QMSize h).toNat = 0
    · rw [hQ0]
      unfold crossSum
      simp
    · apply crossSum_short
      rw [nodeSeq_length, hlen]
      omega

end DenominatorBound

section EnergySign

/-- C36 (amended): the group energy is never negative.  For the boundary
shapes 0 to 3, `T ≥ 0`, `alpha ≥ 0`, an initial threshold of at most 1, a
scale factor in `(0, 1]`, an iteration budget `maxIt ≥ 0` and distances
whose sorted order is the one the kernel table was built from (the sorted
records are still non-decreasing after the zero-distance loop), whenever
the evaluation of a group succeeds its numerator is in `(0, 1]` and its
accepted denominator is at least 1, so its energy contribution
`-Coe * ln(numerator / denominator)` is non-negative. -/
theorem C36_energy_nonneg (K : KernelData ℝ) (sqrtF : ℝ → ℝ) (COM0 : Vec3 ℝ) (STM0 : ℝ)
    (Positions : List (Vec3 ℝ)) (i : Nat) (r : GroupEval ℝ)
    (hshape : K.BoundaryShape = 0 ∨ K.BoundaryShape = 1 ∨ K.BoundaryShape = 2 ∨
      K.BoundaryShape = 3)
    (hT : 0 ≤ K.T) (halpha : 0 ≤ K.Coefficients.getD i 0) (hthre : K.hThre.getD i 0 ≤ 1)
    (hscale : 0 < K.IterScales.getD i 0 ∧ K.IterScales.getD i 0 ≤ 1)
    (hmax : 0 ≤ K.FlexiBLEMaxIt.getD i 0)
    (hsorted : ∀ s t, s ≤ t → t < (K.qm i).length + (K.mm i).length →
      recSecond (groupRecords K sqrtF COM0 STM0 Positions i).1 s
        ≤ recSecond (groupRecords K sqrtF COM0 STM0 Positions i).1 t)
    (hev : evalGroup K Real.exp sqrtF COM0 STM0 Positions i = .ok r) :
    0 < r.NumeVal ∧ r.NumeVal ≤ 1 ∧ 1 ≤ r.DenVal ∧ 0 ≤ groupEnergy K Real.log r := by
  have hN : r.NumeVal = Real.exp (-pairSum (K.Coefficients.getD i 0)
      ((List.range (K.qm i).length).map
        (recSecond (Calc_r K sqrtF COM0 STM0 Positions i
          (chooseAtomDragged K sqrtF Positions i)).rCA))
      ((List.range' (K.qm i).length (K.mm i).length).map
        (recSecond (Calc_r K sqrtF COM0 STM0 Positions i
          (chooseAtomDragged K sqrtF Positions i)).rCA))) := by
    rw [(evalGroup_ok_NumeVal K Real.exp sqrtF COM0 STM0 Positions i r hev).1,
      groupNumerator_pairSum K Real.exp sqrtF COM0 STM0 Positions i hshape]
  have hpair : ∀ dQ dM : List ℝ, 0 ≤ pairSum (K.Coefficients.getD i 0) dQ dM := by
    intro dQ dM
    unfold pairSum
    apply List.sum_nonneg
    intro x hx
    obtain ⟨a, _, rfl⟩ := List.mem_map.mp hx
    apply List.sum_nonneg
    intro y hy
    obtain ⟨b, _, rfl⟩ := List.mem_map.mp hy
    exact kernel_val_nonneg _ _ halpha
  have hN0 : 0 < r.NumeVal := by
    rw [hN]
    exact Real.exp_pos _
  have hN1 : r.NumeVal ≤ 1 := by
    rw [hN, ← Real.exp_zero]
    exact Real.exp_le_exp.mpr (neg_nonpos.mpr (hpair _ _))
  obtain ⟨j, hj1, _, _, _, hden⟩ := evalGroup_accepted K Real.exp sqrtF COM0 STM0 Positions i
    hmax r hev
  have hh : K.hThre.getD i 0 * K.IterScales.getD i 0 ^ (j - 1) ≤ 1 := by
    have hp0 : 0 ≤ K.IterScales.getD i 0 ^ (j - 1) := pow_nonneg (le_of_lt hscale.1) _
    have hp1 : K.IterScales.getD i 0 ^ (j - 1) ≤ 1 := pow_le_one₀ (le_of_lt hscale.1) hscale.2
    by_cases h0 : 0 ≤ K.hThre.getD i 0
    · calc K.hThre.getD i 0 * K.IterScales.getD i 0 ^ (j - 1)
          ≤ 1 * 1 := mul_le_mul hthre hp1 hp0 (by norm_num)
        _ = 1 := by norm_num
    · have : K.hThre.getD i 0 * K.IterScales.getD i 0 ^ (j - 1) ≤ 0 :=
        mul_nonpos_of_nonpos_of_nonneg (le_of_lt (not_le.mp h0)) hp0
      linarith
  have hval : ∀ s t, s ≤ t → t < (K.qm i).length + (K.mm i).length →
      (gAt (groupTable K sqrtF COM0 STM0 Positions i)
        (recFirst (groupRecords K sqrtF COM0 STM0 Positions i).1 s)
        (recFirst (groupRecords K sqrtF COM0 STM0 Positions i).1 t)).val = 0 := by
    intro s t hst ht
    by_cases hcap : degenerateCapsule K sqrtF i
    · unfold groupTable
      rw [groupRecords_degenerate K sqrtF COM0 STM0 Positions i hcap, gAt_table_nil]
    obtain ⟨hlen, hfirst⟩ := Calc_r_layout K sqrtF COM0 STM0 Positions i
      (chooseAtomDragged K sqrtF Positions i) hshape hcap
    have hs' := hsorted s t hst ht
    unfold groupRecords at hs'
    rw [floorZero_sorted_value _ s (by rw [sortByDistance_length, hlen]; omega),
      floorZero_sorted_value _ t (by rw [sortByDistance_length, hlen]; omega)] at hs'
    unfold groupTable groupRecords
    rw [floor_table_entry _ _ _ hlen (fun q hq => hfirst q (by rw [← hlen]; exact hq)) s t
      (by omega) ht, CalcPairExpPart_of_nonpos _ _ (by linarith)]
  have hD : 1 ≤ r.DenVal := by
    have h1 : r.DenVal = (groupDenominator K Real.exp sqrtF COM0 STM0 Positions i
        (K.hThre.getD i 0 * K.IterScales.getD i 0 ^ (j - 1))).1 := by
      rw [← hden]
    rw [h1]
    unfold groupDenominator denominatorAt
    simp only
    exact ProdChild_seed_ge_one Real.exp (fun x => le_of_lt (Real.exp_pos x)) Real.exp_zero _ _
      hh _ _ _ _ _ _ (seed_crossSum_zero _ _ _ _ _ _ hval)
  refine ⟨hN0, hN1, hD, ?_⟩
  unfold groupEnergy
  have hCoe : 0 ≤ Coe K.T := by
    unfold Coe
    positivity
  have hratio : r.NumeVal / r.DenVal ≤ 1 := by
    rw [div_le_one (by linarith)]
    linarith
  have hlog : Real.log (r.NumeVal / r.DenVal) ≤ 0 :=
    Real.log_nonpos (le_of_lt (div_pos hN0 (by linarith))) hratio
  nlinarith

end EnergySign

section NoLoopExample

theorem map_eq_ok {β γ : Type} (f : β → γ) (x : Except FlexError β) (y : γ)
    (h : x.map f = .ok y) : ∃ r, x = .ok r ∧ f r = y := by
  cases x with
  | error e => cases h
  | ok r =>
    refine ⟨r, rfl, ?_⟩
    injection h

theorem exampleNoLoop_records :
    (groupRecords (exampleKernelNoLoop : KernelData ℝ) Real.sqrt (0, 0, 0) 0 examplePositions
      0) = ([(0, 1), (1, 2)], [(0, 1), (1, 2)]) := by
  have hc : chooseAtomDragged (exampleKernelNoLoop : KernelData ℝ) Real.sqrt
      examplePositions 0 = 0 := by
    simp [chooseAtomDragged, exampleKernelNoLoop, exampleKernel]
  have hr : (Calc_r (exampleKernelNoLoop : KernelData ℝ) Real.sqrt (0, 0, 0) 0
      examplePositions 0 0).rCA = [(0, 1), (1, 2)] := by
    simp [Calc_r, exampleKernelNoLoop, exampleKernel, examplePositions, sphereRecord,
      moleculePoint, KernelData.qm, KernelData.mm, KernelData.param, coordAt, List.range_succ]
    norm_num [sqrt_four]
  unfold groupRecords
  rw [hc, hr, example_sort, example_floor]

theorem exampleNoLoop_numerator :
    groupNumerator (exampleKernelNoLoop : KernelData ℝ) Real.exp Real.sqrt (0, 0, 0) 0
      examplePositions 0 = (1, [0, 0]) := by
  have hf : (exampleKernelNoLoop : KernelData ℝ).Coefficients.getD 0 0 = 1 ∧
      ((exampleKernelNoLoop : KernelData ℝ).qm 0).length = 1 ∧
      ((exampleKernelNoLoop : KernelData ℝ).mm 0).length = 1 ∧
      (exampleKernelNoLoop : KernelData ℝ).CutoffMethod = 0 := by
    simp [exampleKernelNoLoop, exampleKernel, KernelData.qm, KernelData.mm]
  obtain ⟨h1, h2, h3, h4⟩ := hf
  have h11 : (1 + 1 : Nat) = 2 := rfl
  have hrange : List.range 2 = [0, 1] := by simp [List.range_succ]
  have hrep : List.replicate 2 (0 : ℝ) = [0, 0] := rfl
  simp only [groupNumerator, groupTable, exampleNoLoop_records,
    h1, h2, h3, h4, h11, example_table, hrange, hrep, example_nume]

/-- The two-atom example with an iteration budget of `-1`: the numerator is
1 and passes the underflow check, the convergence loop runs no iteration,
and the evaluation of the group succeeds with the denominator `0`. -/
theorem exampleNoLoop_evalGroup :
    ¬ (|(groupNumerator (exampleKernelNoLoop : KernelData ℝ) Real.exp Real.sqrt (0, 0, 0) 0
        examplePositions 0).1| < 1.0e-14 ∧
      (exampleKernelNoLoop : KernelData ℝ).EnableTestOutput = 0) ∧
    ∃ r, evalGroup (exampleKernelNoLoop : KernelData ℝ) Real.exp Real.sqrt (0, 0, 0) 0
        examplePositions 0 = .ok r ∧ r.DenVal = 0 := by
  have hp : ¬ (|(groupNumerator (exampleKernelNoLoop : KernelData ℝ) Real.exp Real.sqrt
      (0, 0, 0) 0 examplePositions 0).1| < 1.0e-14 ∧
      (exampleKernelNoLoop : KernelData ℝ).EnableTestOutput = 0) := by
    rw [exampleNoLoop_numerator]
    norm_num
  refine ⟨hp, ?_⟩
  have hm := evalGroup_outcome (exampleKernelNoLoop : KernelData ℝ) Real.exp Real.sqrt
    (0, 0, 0) 0 examplePositions 0
  rw [if_neg hp, convergenceLoop_of_neg _ _ _ _ _ _ _ _ _ _ _
    (by simp [exampleKernelNoLoop])] at hm
  obtain ⟨r, hr, hf⟩ := map_eq_ok _ _ _ hm
  exact ⟨r, hr, congrArg Prod.fst hf⟩

/-- Counterexample to C20 as stated: in the two-atom example with the
iteration budget `maxIt = -1` the numerator is 1 and passes the underflow
check, and none of the iterations `1 .. maxIt` is accepted (there is none);
yet the evaluation of the group does not throw the convergence failure, and
`execute` returns an energy. -/
theorem C20_convergence_failure_counterexample :
    ¬ (|(groupNumerator (exampleKernelNoLoop : KernelData ℝ) Real.exp Real.sqrt (0, 0, 0) 0
        examplePositions 0).1| < 1.0e-14 ∧
      (exampleKernelNoLoop : KernelData ℝ).EnableTestOutput = 0) ∧
    (∀ j : Nat, 1 ≤ j → (j : Int) ≤ (exampleKernelNoLoop : KernelData ℝ).FlexiBLEMaxIt.getD 0 0 →
      ¬ iterAccepted (exampleKernelNoLoop : KernelData ℝ) Real.exp Real.sqrt (0, 0, 0) 0
        examplePositions 0 j) ∧
    evalGroup (exampleKernelNoLoop : KernelData ℝ) Real.exp Real.sqrt (0, 0, 0) 0
      examplePositions 0 ≠ .error .maxIteration ∧
    ∃ E, (execute (exampleKernelNoLoop : KernelData ℝ) Real.exp Real.sqrt Real.log
      examplePositions [(0, 0, 0), (0, 0, 0)] true true).outcome = .ok E := by
  obtain ⟨hp, r, hr, _⟩ := exampleNoLoop_evalGroup
  refine ⟨hp, ?_, ?_, ?_⟩
  · intro j h1 h2
    have h0 : (exampleKernelNoLoop : KernelData ℝ).FlexiBLEMaxIt.getD 0 0 = -1 := by
      simp [exampleKernelNoLoop]
    rw [h0] at h2
    omega
  · rw [hr]
    intro h
    cases h
  · rw [execute_single_ok (exampleKernelNoLoop : KernelData ℝ) Real.exp Real.sqrt Real.log
      examplePositions [(0, 0, 0), (0, 0, 0)] true true r
      (by simp [exampleKernelNoLoop, exampleKernel])
      (by simp [exampleKernelNoLoop, exampleKernel, KernelData.qm])
      (by simp [exampleKernelNoLoop, exampleKernel, KernelData.mm]) hr]
    exact ⟨_, rfl⟩

end NoLoopExample

section EnergySignExamples

theorem negative_records :
    chooseAtomDragged (exampleKernelNegative : KernelData ℝ) Real.sqrt exampleSwapped 0 = 0 ∧
    (Calc_r (exampleKernelNegative : KernelData ℝ) Real.sqrt (0, 0, 0) 0 exampleSwapped
      0 0).rCA = [(0, 2), (1, 1)] ∧
    (groupRecords (exampleKernelNegative : KernelData ℝ) Real.sqrt (0, 0, 0) 0 exampleSwapped
      0).1 = [(1, 1), (0, 2)] := by
  have ht : chooseAtomDragged (exampleKernelNegative : KernelData ℝ) Real.sqrt exampleSwapped 0
      = 0 := by
    simp [chooseAtomDragged, exampleKernelNegative, exampleKernel]
  have hr : (Calc_r (exampleKernelNegative : KernelData ℝ) Real.sqrt (0, 0, 0) 0 exampleSwapped
      0 0).rCA = [(0, 2), (1, 1)] := by
    simp [Calc_r, exampleKernelNegative, exampleKernel, exampleSwapped, sphereRecord,
      moleculePoint, KernelData.qm, KernelData.mm, KernelData.param, coordAt, List.range_succ]
    norm_num [sqrt_four]
  refine ⟨ht, hr, ?_⟩
  unfold groupRecords
  rw [ht, hr]
  have hs : sortByDistance [(0, (2 : ℝ)), (1, 1)] = [(1, 1), (0, 2)] := by
    simp [sortByDistance, List.insertionSort, List.orderedInsert]
  rw [hs]
  simp [floorZero, floorLoop, recSecond, List.range_succ]

/-- Counterexample to C36 as stated, in two parts.  First, with `T = 300`,
threshold `1e-5`, scale `0.5`, the QM atom at distance 2 and the MM atom at
distance 1 from the sphere centre (sorted records `1, 2`) and
`alpha = -1/2`, the evaluation of the group succeeds with the numerator
`exp(1/4) > 1` and the energy contribution is negative.  Second, with
`alpha = 1`, the QM atom at distance 1 and the MM atom at distance 2, and
the iteration budget `maxIt = -1`, the evaluation of the group succeeds
without an accepted iteration: its denominator is `0`, not at least 1. -/
theorem C36_energy_nonneg_counterexample :
    ((0 : ℝ) ≤ (exampleKernelNegative : KernelData ℝ).T ∧
      (exampleKernelNegative : KernelData ℝ).hThre.getD 0 0 ≤ 1 ∧
      (0 < (exampleKernelNegative : KernelData ℝ).IterScales.getD 0 0 ∧
        (exampleKernelNegative : KernelData ℝ).IterScales.getD 0 0 ≤ 1) ∧
      (∀ s t, s ≤ t → t < 2 →
        recSecond (groupRecords (exampleKernelNegative : KernelData ℝ) Real.sqrt (0, 0, 0) 0
            exampleSwapped 0).1 s
          ≤ recSecond (groupRecords (exampleKernelNegative : KernelData ℝ) Real.sqrt (0, 0, 0) 0
            exampleSwapped 0).1 t) ∧
      ∃ r, evalGroup (exampleKernelNegative : KernelData ℝ) Real.exp Real.sqrt (0, 0, 0) 0
          exampleSwapped 0 = .ok r ∧
        1 < r.NumeVal ∧ groupEnergy (exampleKernelNegative : KernelData ℝ) Real.log r < 0) ∧
    ((0 : ℝ) ≤ (exampleKernelNoLoop : KernelData ℝ).T ∧
      (0 : ℝ) ≤ (exampleKernelNoLoop : KernelData ℝ).Coefficients.getD 0 0 ∧
      (exampleKernelNoLoop : KernelData ℝ).hThre.getD 0 0 ≤ 1 ∧
      (0 < (exampleKernelNoLoop : KernelData ℝ).IterScales.getD 0 0 ∧
        (exampleKernelNoLoop : KernelData ℝ).IterScales.getD 0 0 ≤ 1) ∧
      (∀ s t, s ≤ t → t < 2 →
        recSecond (groupRecords (exampleKernelNoLoop : KernelData ℝ) Real.sqrt (0, 0, 0) 0
            examplePositions 0).1 s
          ≤ recSecond (groupRecords (exampleKernelNoLoop : KernelData ℝ) Real.sqrt (0, 0, 0) 0
            examplePositions 0).1 t) ∧
      ∃ r, evalGroup (exampleKernelNoLoop : KernelData ℝ) Real.exp Real.sqrt (0, 0, 0) 0
          examplePositions 0 = .ok r ∧ r.DenVal = 0 ∧ ¬ (1 ≤ r.DenVal)) := by
  constructor
  · obtain ⟨ht, hr, hrec⟩ := negative_records
    have hq : ((exampleKernelNegative : KernelData ℝ).qm 0).length = 1 := by
      simp [exampleKernelNegative, exampleKernel, KernelData.qm]
    have hm : ((exampleKernelNegative : KernelData ℝ).mm 0).length = 1 := by
      simp [exampleKernelNegative, exampleKernel, KernelData.mm]
    have hnum : (groupNumerator (exampleKernelNegative : KernelData ℝ) Real.exp Real.sqrt
        (0, 0, 0) 0 exampleSwapped 0).1 = Real.exp (1 / 4) := by
      rw [pair_numerator (exampleKernelNegative : KernelData ℝ) Real.exp Real.sqrt (0, 0, 0) 0
        exampleSwapped 0 (Or.inr (Or.inl rfl)) hq hm, ht, hr]
      congr 1
      norm_num [recSecond, floorValue, CalcPairExpPart, exampleKernelNegative, exampleKernel]
    have hbig : (1 : ℝ) < Real.exp (1 / 4) := by
      have := Real.add_one_lt_exp (show (1 / 4 : ℝ) ≠ 0 by norm_num)
      linarith
    obtain ⟨r, hev, hd, hn⟩ := evalGroup_pair (exampleKernelNegative : KernelData ℝ) Real.exp
      Real.sqrt (0, 0, 0) 0 exampleSwapped 0 hq hm Real.exp_zero
      (by norm_num [exampleKernelNegative, exampleKernel])
      (by simp [exampleKernelNegative, exampleKernel])
      (by
        rw [hnum, abs_of_pos (Real.exp_pos _)]
        intro h
        have := h.1
        norm_num at this
        linarith)
    refine ⟨by norm_num [exampleKernelNegative, exampleKernel],
      by norm_num [exampleKernelNegative, exampleKernel],
      by norm_num [exampleKernelNegative, exampleKernel], ?_, r, hev, ?_, ?_⟩
    · intro s t hst ht2
      rw [hrec]
      interval_cases t <;> interval_cases s <;> norm_num [recSecond]
    · rw [hn, hnum]
      exact hbig
    · unfold groupEnergy
      rw [hn, hnum, hd, div_one, Real.log_exp]
      have hC : 0 < Coe (exampleKernelNegative : KernelData ℝ).T := by
        norm_num [Coe, exampleKernelNegative, exampleKernel]
      nlinarith
  · obtain ⟨_, r, hr, hd⟩ := exampleNoLoop_evalGroup
    refine ⟨by norm_num [exampleKernelNoLoop, exampleKernel],
      by norm_num [exampleKernelNoLoop, exampleKernel],
      by norm_num [exampleKernelNoLoop, exampleKernel],
      by norm_num [exampleKernelNoLoop, exampleKernel], ?_, r, hr, hd, ?_⟩
    · intro s t hst ht2
      rw [exampleNoLoop_records]
      interval_cases t <;> interval_cases s <;> norm_num [recSecond]
    · rw [hd]
      norm_num

theorem example_records :
    (groupRecords (exampleKernel 1 : KernelData ℝ) Real.sqrt (0, 0, 0) 0 examplePositions 0).1
      = [(0, 1), (1, 2)] := by
  unfold groupRecords
  rw [example_chooseAtomDragged, (example_Calc_r_rCA 1 (Or.inr rfl) (0, 0, 0) 0).1,
    example_sort, example_floor]

/-- Witness of C36: the two-atom example with `alpha = 1`, the QM atom at
distance 1 and the MM atom at distance 2; the evaluation succeeds and its
energy contribution is non-negative. -/
theorem C36_energy_nonneg_witness :
    ∃ r, evalGroup (exampleKernel 1 : KernelData ℝ) Real.exp Real.sqrt (0, 0, 0) 0
        examplePositions 0 = .ok r ∧
      0 < r.NumeVal ∧ r.NumeVal ≤ 1 ∧ 1 ≤ r.DenVal ∧
      0 ≤ groupEnergy (exampleKernel 1 : KernelData ℝ) Real.log r := by
  obtain ⟨r, hev, _, _⟩ := evalGroup_pair (exampleKernel 1 : KernelData ℝ) Real.exp
    Real.sqrt (0, 0, 0) 0 examplePositions 0 (by simp [exampleKernel, KernelData.qm])
    (by simp [exampleKernel, KernelData.mm]) Real.exp_zero
    (by norm_num [exampleKernel]) (by simp [exampleKernel]) example_pass
  refine ⟨r, hev, C36_energy_nonneg (exampleKernel 1 : KernelData ℝ) Real.sqrt (0, 0, 0) 0
    examplePositions 0 r (Or.inr (Or.inl rfl)) (by norm_num [exampleKernel])
    (by norm_num [exampleKernel]) (by norm_num [exampleKernel])
    (by norm_num [exampleKernel]) (by simp [exampleKernel]) ?_ hev⟩
  intro s t hst ht
  rw [example_records]
  have ht2 : t < 2 := by simpa [exampleKernel, KernelData.qm, KernelData.mm] using ht
  interval_cases t <;> interval_cases s <;> norm_num [recSecond]

end EnergySignExamples

section SeedCountsFailure

/-- C35 at its failing input: two QM and one MM molecule at the same
distance 1 (`alpha = 1`) have the weights `hList_re = [1, 1, 1]`; at the
threshold `1e-5` no weight is below the threshold, `ImpQMlb = 0` and
`ImpMMub` keeps its initial value 0, so `nImpQM = 2` and
`nImpMM = 0 - (2 - 1) = -1 < 0`, and the seed handed to `ProdChild` is the
single character `"1"`, not `nImpQM = 2` ones. -/
theorem C35_seed_counts_failing_input :
    hList Real.exp 2 1 (gExpPartTable (1 : ℝ) 3 [(0, 1), (1, 1), (2, 1)])
      [(0, 1), (1, 1), (2, 1)] = [1, 1, 1] ∧
    ImpQMlb ([1, 1, 1] : List ℝ) 2 1.0e-5 = 0 ∧
    ImpMMub ([1, 1, 1] : List ℝ) 2 1 1.0e-5 = 0 ∧
    ((2 : Nat) : Int) - ImpQMlb ([1, 1, 1] : List ℝ) 2 1.0e-5 = 2 ∧
    ImpMMub ([1, 1, 1] : List ℝ) 2 1 1.0e-5 - (((2 : Nat) : Int) - 1) = -1 ∧
    seedOf ([1, 1, 1] : List ℝ) 2 1 1.0e-5 = ['1'] := by
  have hlb : ImpQMlb ([1, 1, 1] : List ℝ) 2 1.0e-5 = 0 := by
    have h := ImpQMlb_spec ([1, 1, 1] : List ℝ) 2 1.0e-5
    by_contra hne
    have hpos : 0 < ImpQMlb ([1, 1, 1] : List ℝ) 2 1.0e-5 := Nat.pos_of_ne_zero hne
    have hlt := h.2.1 hpos
    have hle := h.1
    have hcase : ImpQMlb ([1, 1, 1] : List ℝ) 2 1.0e-5 - 1 = 0 ∨
        ImpQMlb ([1, 1, 1] : List ℝ) 2 1.0e-5 - 1 = 1 := by omega
    rcases hcase with hc | hc <;> rw [hc] at hlt <;> norm_num at hlt
  have hub : ImpMMub ([1, 1, 1] : List ℝ) 2 1 1.0e-5 = 0 := by
    apply ImpMMub_none
    rintro ⟨q, hq1, hq2, hlt⟩
    have : q = 2 := by omega
    subst this
    norm_num at hlt
  refine ⟨?_, hlb, hub, ?_, ?_, ?_⟩
  · simp [hList, gAt, gExpPartTable, recFirst, recSecond, CalcPairExpPart, List.range_succ,
      List.range']
    exact ⟨rfl, rfl⟩
  · rw [hlb]
    rfl
  · rw [hub]
    rfl
  · unfold seedOf
    rw [hlb, hub]
    rw [perfect_eq_map]
    rfl

end SeedCountsFailure

section AutoDragFailure

theorem sqrt_sixteen : Real.sqrt 16 = 4 := by
  rw [show (16 : ℝ) = 4 ^ 2 by norm_num]
  exact Real.sqrt_sq (by norm_num)

theorem sqrt_nine : Real.sqrt 9 = 3 := by
  rw [show (9 : ℝ) = 3 ^ 2 by norm_num]
  exact Real.sqrt_sq (by norm_num)

/-- C32 at its failing input: a first QM molecule of three atoms with the
masses 2, 1, 1 at the distances 4, 1, 3 from their centroid `(4, 0, 0)`.
By the mass/distance ratio with each atom's own distance (ratios `1/2`, `1`,
`1/3`) atom 1 is selected; `execute` takes the distance of every atom at
`Positions[Points[i]]`, `i = 0` being the group index (ratios `1/2`, `1/4`,
`1/4`), and selects atom 0. -/
theorem C32_auto_drag_failing_input :
    chooseAtomDragged (exampleKernelDrag : KernelData ℝ) Real.sqrt exampleDragPositions 0 = 0 ∧
    ownDistanceDragLoop Real.sqrt (exampleDragPositions : List (Vec3 ℝ)) [0, 1, 2] [2, 1, 1]
      (4, 0, 0) [0, 1, 2] (-2) (-1) = 1 := by
  constructor
  · have hc : (List.range 3).foldl (fun (c : Vec3 ℝ) j =>
        (c.1 + (coordAt (exampleDragPositions : List (Vec3 ℝ)) (([0, 1, 2] : List Nat).getD j 0)).1
            / ((3 : Nat) : ℝ),
          c.2.1 + (coordAt (exampleDragPositions : List (Vec3 ℝ))
            (([0, 1, 2] : List Nat).getD j 0)).2.1 / ((3 : Nat) : ℝ),
          c.2.2 + (coordAt (exampleDragPositions : List (Vec3 ℝ))
            (([0, 1, 2] : List Nat).getD j 0)).2.2 / ((3 : Nat) : ℝ))) (0, 0, 0)
        = (4, 0, 0) := by
      simp [List.range_succ, coordAt, exampleDragPositions]
      norm_num
    simp only [chooseAtomDragged, exampleKernelDrag, exampleKernel, KernelData.qm,
      List.length_nil, lt_irrefl, if_false, List.getD_cons_zero, List.length_cons,
      Nat.zero_lt_succ, if_true, hc]
    have hr : List.range 3 = [0, 1, 2] := by simp [List.range_succ]
    have hd : Real.sqrt (0 + ((4 : ℝ) - 0) ^ 2 + (0 - 0) ^ 2 + (0 - 0) ^ 2) = 4 := by
      rw [show (0 + ((4 : ℝ) - 0) ^ 2 + (0 - 0) ^ 2 + (0 - 0) ^ 2) = 16 by norm_num]
      exact sqrt_sixteen
    simp only [hr, autoDragLoop, coordAt, exampleDragPositions, List.getD_cons_zero, hd]
    norm_num
  · have h0 : Real.sqrt (0 + ((4 : ℝ) - 0) ^ 2 + (0 - 0) ^ 2 + (0 - 0) ^ 2) = 4 := by
      rw [show (0 + ((4 : ℝ) - 0) ^ 2 + (0 - 0) ^ 2 + (0 - 0) ^ 2) = 16 by norm_num]
      exact sqrt_sixteen
    have h1 : Real.sqrt (0 + ((4 : ℝ) - 5) ^ 2 + (0 - 0) ^ 2 + (0 - 0) ^ 2) = 1 := by
      rw [show (0 + ((4 : ℝ) - 5) ^ 2 + (0 - 0) ^ 2 + (0 - 0) ^ 2) = 1 by norm_num]
      exact Real.sqrt_one
    have h2 : Real.sqrt (0 + ((4 : ℝ) - 7) ^ 2 + (0 - 0) ^ 2 + (0 - 0) ^ 2) = 3 := by
      rw [show (0 + ((4 : ℝ) - 7) ^ 2 + (0 - 0) ^ 2 + (0 - 0) ^ 2) = 9 by norm_num]
      exact sqrt_nine
    simp only [ownDistanceDragLoop, coordAt, exampleDragPositions, List.getD_cons_zero,
      List.getD_cons_succ, h0, h1, h2]
    norm_num

/-- C39 at its failing input: with no configured dragged atom and a first
QM molecule made of the single atom 0 of mass 2, the atom lies on the
centroid (`dr = 0`), its mass is not above 2.1 and `dr` is not above
`10e-5`, so no branch of the search assigns `AtomDragged`: the selection
ends with the sentinel `-2`. -/
theorem C39_auto_drag_failing_input :
    chooseAtomDragged (exampleKernelAuto : KernelData ℝ) Real.sqrt examplePositions 0 = -2 := by
  have hc : (List.range 1).foldl (fun (c : Vec3 ℝ) j =>
      (c.1 + (coordAt (examplePositions : List (Vec3 ℝ)) (([0] : List Nat).getD j 0)).1
          / ((1 : Nat) : ℝ),
        c.2.1 + (coordAt (examplePositions : List (Vec3 ℝ))
          (([0] : List Nat).getD j 0)).2.1 / ((1 : Nat) : ℝ),
        c.2.2 + (coordAt (examplePositions : List (Vec3 ℝ))
          (([0] : List Nat).getD j 0)).2.2 / ((1 : Nat) : ℝ))) (0, 0, 0)
      = (1, 0, 0) := by
    simp [List.range_succ, coordAt, examplePositions]
  simp only [chooseAtomDragged, exampleKernelAuto, exampleKernel, KernelData.qm,
    List.length_nil, lt_irrefl, if_false, List.getD_cons_zero, List.length_cons,
    Nat.zero_lt_succ, if_true, hc]
  have hr : List.range 1 = [0] := by simp [List.range_succ]
  have hd : Real.sqrt (0 + ((1 : ℝ) - 1) ^ 2 + (0 - 0) ^ 2 + (0 - 0) ^ 2) = 0 := by
    rw [show (0 + ((1 : ℝ) - 1) ^ 2 + (0 - 0) ^ 2 + (0 - 0) ^ 2) = 0 by norm_num]
    exact Real.sqrt_zero
  simp only [hr, autoDragLoop, coordAt, examplePositions, List.getD_cons_zero, hd]
  norm_num

end AutoDragFailure

section FailureBuffer
variable {α : Type} [LinearOrderedField α]

/-- Whether the evaluation of a group throws, and what, does not depend on
the values the members `COM` and `SystemTotalMass` had before. -/
theorem evalGroup_error_indep (K : KernelData α) (expF sqrtF : α → α) (COM COM' : Vec3 α)
    (STM STM' : α) (P : List (Vec3 α)) (i : Nat) (e : FlexError)
    (hev : evalGroup K expF sqrtF COM STM P i = .error e) :
    evalGroup K expF sqrtF COM' STM' P i = .error e := by
  have h := evalGroup_indep K expF sqrtF COM COM' STM STM' P i
  rw [hev] at h
  exact (map_eq_error_iff _ _ _).mp h.symm

/-- When the group loop of `execute` ends with an exception, the groups
split into those before the failing group, the failing group and the rest:
the failing group has QM and MM molecules and its evaluation throws, and the
loop over the groups before it succeeds and leaves the force buffer the
whole loop leaves. -/
theorem executeLoop_error_split (K : KernelData α) (expF sqrtF logF : α → α)
    (P : List (Vec3 α)) (l : List Nat) (E : α) (F : List (Vec3 α)) (COM : Vec3 α) (STM : α)
    (e : FlexError)
    (hfail : (executeLoop K expF sqrtF logF P l E F COM STM).outcome = .error e) :
    ∃ (pre : List Nat) (i : Nat) (post : List Nat) (E' : α),
      l = pre ++ i :: post ∧
      ((K.qm i).length ≠ 0 ∧ (K.mm i).length ≠ 0) ∧
      (∀ (COM0 : Vec3 α) (STM0 : α), evalGroup K expF sqrtF COM0 STM0 P i = .error e) ∧
      executeLoop K expF sqrtF logF P pre E F COM STM
        = ⟨.ok E', (executeLoop K expF sqrtF logF P l E F COM STM).Force⟩ := by
  induction l generalizing E F COM STM with
  | nil =>
    simp only [executeLoop] at hfail
    cases hfail
  | cons a l ih =>
    by_cases hq : (K.qm a).length ≠ 0 ∧ (K.mm a).length ≠ 0
    · cases hev : evalGroup K expF sqrtF COM STM P a with
      | error e' =>
        have hrun : executeLoop K expF sqrtF logF P (a :: l) E F COM STM = ⟨.error e', F⟩ := by
          rw [executeLoop, if_pos hq, hev]
        rw [hrun] at hfail ⊢
        injection hfail with he
        subst he
        refine ⟨[], a, l, E, rfl, hq, ?_, ?_⟩
        · intro COM0 STM0
          exact evalGroup_error_indep K expF sqrtF COM COM0 STM STM0 P a _ hev
        · rw [executeLoop]
      | ok r =>
        have hrun : executeLoop K expF sqrtF logF P (a :: l) E F COM STM
            = executeLoop K expF sqrtF logF P l (E + groupEnergy K logF r)
                (applyGroupForces K a r F) r.COM r.SystemTotalMass := by
          rw [executeLoop, if_pos hq, hev]
        rw [hrun] at hfail ⊢
        obtain ⟨pre, i, post, E', hl, hqi, herr, hpre⟩ := ih _ _ _ _ hfail
        refine ⟨a :: pre, i, post, E', by rw [hl]; rfl, hqi, herr, ?_⟩
        rw [executeLoop, if_pos hq, hev]
        exact hpre
    · have hrun : executeLoop K expF sqrtF logF P (a :: l) E F COM STM
          = executeLoop K expF sqrtF logF P l E F COM STM := by
        rw [executeLoop, if_neg hq]
      rw [hrun] at hfail ⊢
      obtain ⟨pre, i, post, E', hl, hqi, herr, hpre⟩ := ih _ _ _ _ hfail
      refine ⟨a :: pre, i, post, E', by rw [hl]; rfl, hqi, herr, ?_⟩
      rw [executeLoop, if_neg hq]
      exact hpre

/-- C40 (amended): `execute` has no rollback.  If it fails with the
convergence-failure or the degenerate-numerator error, the force buffer is
the one a successful evaluation of the groups before the failing group
leaves: it holds the contributions of exactly those groups.  In particular,
when the failing group is the first group with both QM and MM molecules,
the force buffer is left exactly as it was before the call. -/
theorem C40_failure_buffer (K : KernelData α) (expF sqrtF logF : α → α)
    (Positions Force : List (Vec3 α)) (includeForces includeEnergy : Bool) (e : FlexError)
    (hfail : (execute K expF sqrtF logF Positions Force includeForces includeEnergy).outcome
      = .error e) :
    (∃ (pre : List Nat) (i : Nat) (post : List Nat) (E' : α),
      List.range K.QMGroups.length = pre ++ i :: post ∧
      ((K.qm i).length ≠ 0 ∧ (K.mm i).length ≠ 0) ∧
      (∀ (COM0 : Vec3 α) (STM0 : α),
        evalGroup K expF sqrtF COM0 STM0 Positions i = .error e) ∧
      executeLoop K expF sqrtF logF Positions pre 0 Force (0, 0, 0) 0
        = ⟨.ok E', (execute K expF sqrtF logF Positions Force includeForces
            includeEnergy).Force⟩) ∧
    (∀ (i : Nat) (rest : List Nat) (e' : FlexError), qualifyingGroups K = i :: rest →
      evalGroup K expF sqrtF (0, 0, 0) 0 Positions i = .error e' →
      execute K expF sqrtF logF Positions Force includeForces includeEnergy
        = ⟨.error e', Force⟩) := by
  constructor
  · unfold execute at hfail ⊢
    exact executeLoop_error_split K expF sqrtF logF Positions _ 0 Force (0, 0, 0) 0 e hfail
  · intro i rest e' hq hev
    unfold execute
    exact executeLoop_first_error K expF sqrtF logF Positions _ i rest hq 0 Force (0, 0, 0) 0 e'
      (fun COM0 STM0 => evalGroup_error_indep K expF sqrtF (0, 0, 0) COM0 0 STM0 Positions i e'
        hev)

end FailureBuffer

section PairGradient
variable {α : Type} [LinearOrderedField α]

theorem penalGradient_short (expF : α → α) (seq : List Nat) (QMSize : Nat)
    (g : List (List (gInfo α))) (rC : List (Nat × α)) (m : Nat) (hlen : seq.length ≤ QMSize) :
    penalGradient expF seq QMSize g rC m = 0 := by
  unfold penalGradient
  rw [Finset.Ico_eq_empty_of_le hlen]
  simp

/-- For a group of one QM and one MM molecule the gradient of the
denominator is zero in every pass of the convergence loop. -/
theorem denominatorAt_pair_snd (expF : α → α) (cm : Int) (g : List (List (gInfo α)))
    (re : List (Nat × α)) (hl : List α) (h : α) (hexp : expF 0 = 1) (hh : h ≤ 1) (m : Nat) :
    (denominatorAt expF cm 1 1 g re hl h).2.getD m 0 = 0 := by
  have hub : ImpMMub hl 1 1 h = 0 := by
    rcases ImpMMub_cases hl 1 1 h with h0 | ⟨q, hq1, hq2, hq⟩
    · exact h0
    · have : q = 1 := by omega
      rw [hq, this]
      rfl
  have hrun : ∀ (node : List Char) (Q LB : Nat), node.length ≤ Q → node.length ≤ 1 →
      (ProdChild expF cm ⟨[], List.replicate (1 + 1) 0, 0⟩ node h Q LB g re).DerList.getD m 0
        = 0 := by
    intro node Q LB hQ h1
    have hcs : crossSum (nodeSeq node Q LB) Q g re = 0 :=
      crossSum_short _ _ _ _ (by rw [nodeSeq_length]; exact hQ)
    have hw : (CalcPenalFunc expF cm (nodeSeq node Q LB) Q g
        (List.replicate (List.replicate (1 + 1) (0 : α)).length 0) re h 1).1 = 1 := by
      rw [CalcPenalFunc_fst, hcs, neg_zero, hexp]
    unfold ProdChild
    rw [searchFuel_succ, ProdChildAux_leaf expF cm h Q LB g re _ _ node h1
      (by rw [hw]; exact hh) (by simp)]
    show (mergeDer _ _).getD m 0 = 0
    by_cases hm : m < 1 + 1
    · rw [mergeDer_getD _ _ m (by rw [List.length_replicate]; exact hm),
        CalcPenalFunc_snd_of_acc expF cm _ Q g _ re h 1
          (Or.inl (by rw [hcs, neg_zero, hexp]; exact hh)) m
          (by rw [List.length_replicate, List.length_replicate]; exact hm),
        penalGradient_short expF _ Q g re m (by rw [nodeSeq_length]; exact hQ)]
      interval_cases m <;> simp
    · rw [List.getD_eq_default _ _ (by
        rw [mergeDer_length, List.length_replicate]; exact not_lt.mp hm)]
  unfold denominatorAt
  simp only [hub]
  have hlb := (ImpQMlb_spec hl 1 h).1
  have hcases : ImpQMlb hl 1 h = 0 ∨ ImpQMlb hl 1 h = 1 := by omega
  rcases hcases with h0 | h1
  · rw [h0]
    have hp : perfect (((1 : Nat) : Int) - ((0 : Nat) : Int)) (0 - (((1 : Nat) : Int) - 1))
        = ['1'] := by
      have := perfect_replicate 1 0
      simpa using this
    rw [hp]
    exact hrun ['1'] _ 0 (by simp) (by simp)
  · rw [h1]
    have hp : perfect (((1 : Nat) : Int) - ((1 : Nat) : Int)) (0 - (((1 : Nat) : Int) - 1))
        = [] := by
      have := perfect_replicate 0 0
      simpa using this
    rw [hp]
    exact hrun [] _ 1 (by simp) (by simp)

/-- The evaluation of a group of one QM and one MM molecule: it succeeds
with denominator 1 and a zero denominator gradient, the numerator and its
gradient being those of the numerator partition. -/
theorem evalGroup_pair_full (K : KernelData α) (expF sqrtF : α → α) (COM0 : Vec3 α)
    (STM0 : α) (P : List (Vec3 α)) (i : Nat) (hq : (K.qm i).length = 1)
    (hm : (K.mm i).length = 1) (hexp : expF 0 = 1) (hh : K.hThre.getD i 0 ≤ 1)
    (hIt : 1 ≤ K.FlexiBLEMaxIt.getD i 0)
    (hpass : ¬ (|(groupNumerator K expF sqrtF COM0 STM0 P i).1| < 1.0e-14 ∧
      K.EnableTestOutput = 0)) :
    ∃ r, evalGroup K expF sqrtF COM0 STM0 P i = .ok r ∧ r.DenVal = 1 ∧
      r.NumeVal = (groupNumerator K expF sqrtF COM0 STM0 P i).1 ∧
      r.dNume_dr = (groupNumerator K expF sqrtF COM0 STM0 P i).2 ∧
      ∀ m, r.dDen_dr.getD m 0 = 0 := by
  have hone : (groupDenominator K expF sqrtF COM0 STM0 P i (K.hThre.getD i 0)).1 = 1 := by
    unfold groupDenominator
    rw [hq, hm]
    exact denominatorAt_pair expF K.CutoffMethod _ _ _ _ hexp hh
  obtain ⟨r, hr, hpair, hd, hn⟩ := evalGroup_saturated K expF sqrtF COM0 STM0 P i hpass hIt hone
  refine ⟨r, hr, hd, hn, (evalGroup_ok_NumeVal K expF sqrtF COM0 STM0 P i r hr).2.1, ?_⟩
  intro m
  have h2 : r.dDen_dr = (groupDenominator K expF sqrtF COM0 STM0 P i (K.hThre.getD i 0)).2 := by
    rw [← hpair]
  rw [h2]
  unfold groupDenominator
  rw [hq, hm]
  exact denominatorAt_pair_snd expF K.CutoffMethod _ _ _ _ hexp hh m

end PairGradient

section FailureBufferExample

theorem twoGroups_fields :
    ((exampleKernelTwoGroups : KernelData ℝ).qm 0).length = 1 ∧
    ((exampleKernelTwoGroups : KernelData ℝ).mm 0).length = 1 ∧
    ((exampleKernelTwoGroups : KernelData ℝ).qm 1).length = 1 ∧
    ((exampleKernelTwoGroups : KernelData ℝ).mm 1).length = 1 ∧
    chooseAtomDragged (exampleKernelTwoGroups : KernelData ℝ) Real.sqrt
      exampleTwoGroupPositions 0 = 0 ∧
    chooseAtomDragged (exampleKernelTwoGroups : KernelData ℝ) Real.sqrt
      exampleTwoGroupPositions 1 = 0 := by
  simp [exampleKernelTwoGroups, KernelData.qm, KernelData.mm, chooseAtomDragged]

theorem twoGroups_Calc_r (COM0 : Vec3 ℝ) (STM0 : ℝ) :
    (Calc_r (exampleKernelTwoGroups : KernelData ℝ) Real.sqrt COM0 STM0
      exampleTwoGroupPositions 0 0).rCA = [(0, 2), (1, 1)] ∧
    (Calc_r (exampleKernelTwoGroups : KernelData ℝ) Real.sqrt COM0 STM0
      exampleTwoGroupPositions 0 0).rCA_Vec = [(2, 0, 0), (-1, 0, 0)] ∧
    (Calc_r (exampleKernelTwoGroups : KernelData ℝ) Real.sqrt COM0 STM0
      exampleTwoGroupPositions 1 0).rCA = [(0, 1), (1, 2)] := by
  refine ⟨?_, ?_, ?_⟩
  · simp [Calc_r, exampleKernelTwoGroups, exampleTwoGroupPositions, sphereRecord,
      moleculePoint, KernelData.qm, KernelData.mm, KernelData.param, coordAt, List.range_succ]
    norm_num [sqrt_four]
  · simp [Calc_r, exampleKernelTwoGroups, exampleTwoGroupPositions, sphereRecord,
      moleculePoint, KernelData.qm, KernelData.mm, KernelData.param, coordAt, List.range_succ]
    norm_num
  · simp [Calc_r, exampleKernelTwoGroups, exampleTwoGroupPositions, sphereRecord,
      moleculePoint, KernelData.qm, KernelData.mm, KernelData.param, coordAt, List.range_succ]
    norm_num [sqrt_four]

theorem twoGroups_numerators (COM0 : Vec3 ℝ) (STM0 : ℝ) :
    (groupNumerator (exampleKernelTwoGroups : KernelData ℝ) Real.exp Real.sqrt COM0 STM0
      exampleTwoGroupPositions 0).1 = Real.exp (-(1 / 2)) ∧
    (groupNumerator (exampleKernelTwoGroups : KernelData ℝ) Real.exp Real.sqrt COM0 STM0
      exampleTwoGroupPositions 1).1 = 1 := by
  obtain ⟨hq0, hm0, hq1, hm1, ht0, ht1⟩ := twoGroups_fields
  obtain ⟨hr0, _, hr1⟩ := twoGroups_Calc_r COM0 STM0
  constructor
  · rw [pair_numerator _ _ _ _ _ _ _ (Or.inr (Or.inl rfl)) hq0 hm0, ht0, hr0]
    congr 1
    norm_num [recSecond, floorValue, CalcPairExpPart, exampleKernelTwoGroups]
  · rw [pair_numerator _ _ _ _ _ _ _ (Or.inr (Or.inl rfl)) hq1 hm1, ht1, hr1]
    norm_num [recSecond, floorValue, CalcPairExpPart, exampleKernelTwoGroups]

theorem twoGroups_second_fails (COM0 : Vec3 ℝ) (STM0 : ℝ) :
    evalGroup (exampleKernelTwoGroups : KernelData ℝ) Real.exp Real.sqrt COM0 STM0
      exampleTwoGroupPositions 1 = .error .maxIteration := by
  rw [← map_eq_error_iff (fun r : GroupEval ℝ => (r.DenVal, r.dDen_dr)), evalGroup_outcome,
    if_neg (by
      rw [(twoGroups_numerators COM0 STM0).2]
      norm_num)]
  have h0 : (exampleKernelTwoGroups : KernelData ℝ).FlexiBLEMaxIt.getD 1 0 = 0 := by
    simp [exampleKernelTwoGroups]
  rw [h0, convergenceLoop, if_neg (by decide)]
  rfl

end FailureBufferExample
section FailureBufferExample2

theorem twoGroups_gradient (COM0 : Vec3 ℝ) (STM0 : ℝ) :
    (groupNumerator (exampleKernelTwoGroups : KernelData ℝ) Real.exp Real.sqrt COM0 STM0
      exampleTwoGroupPositions 0).2.getD 0 0 = Real.exp (-(1 / 2)) * (-(5 / 4)) := by
  obtain ⟨hq0, hm0, _, _, ht0, _⟩ := twoGroups_fields
  obtain ⟨hr0, _, _⟩ := twoGroups_Calc_r COM0 STM0
  have hs : sortByDistance [(0, (2 : ℝ)), (1, 1)] = [(1, 1), (0, 2)] := by
    simp [sortByDistance, List.insertionSort, List.orderedInsert]
  have hf : floorZero [(1, (1 : ℝ)), (0, 2)] [(0, (2 : ℝ)), (1, 1)]
      = ([(1, 1), (0, 2)], [(0, 2), (1, 1)]) := by
    simp [floorZero, floorLoop, recSecond, List.range_succ]
  have hrec : groupRecords (exampleKernelTwoGroups : KernelData ℝ) Real.sqrt COM0 STM0
      exampleTwoGroupPositions 0 = ([(1, 1), (0, 2)], [(0, 2), (1, 1)]) := by
    unfold groupRecords
    rw [ht0, hr0, hs, hf]
  have htab : groupTable (exampleKernelTwoGroups : KernelData ℝ) Real.sqrt COM0 STM0
      exampleTwoGroupPositions 0 = [[⟨0, 0⟩, ⟨1 / 2, 5 / 4⟩], [⟨0, 0⟩, ⟨0, 0⟩]] := by
    unfold groupTable
    rw [hrec, hq0, hm0]
    norm_num [gExpPartTable, CalcPairExpPart, recSecond, List.range_succ,
      exampleKernelTwoGroups]
  unfold groupNumerator
  rw [CalcPenalFunc_snd_of_acc _ _ _ _ _ _ _ _ _ (Or.inr (Or.inr rfl)) 0
    (by rw [List.length_replicate, hq0]; decide), hrec, htab, hq0, hm0]
  have hI : Finset.Ico 1 (List.range (1 + 1)).length = {1} := by
    rw [List.length_range]
    rfl
  simp [penalGradient, crossSum, hI, molOf, recFirst, gAt, List.range_succ]
  rfl

/-- The run of `execute` on the two-group example: the first group
evaluates successfully and its forces are added to the buffer, the second
group throws the convergence failure. -/
theorem twoGroups_run (F : List (Vec3 ℝ)) (b1 b2 : Bool) :
    ∃ r, evalGroup (exampleKernelTwoGroups : KernelData ℝ) Real.exp Real.sqrt (0, 0, 0) 0
        exampleTwoGroupPositions 0 = .ok r ∧
      execute (exampleKernelTwoGroups : KernelData ℝ) Real.exp Real.sqrt Real.log
        exampleTwoGroupPositions F b1 b2
        = ⟨.error .maxIteration,
            applyDirect (exampleKernelTwoGroups : KernelData ℝ) 0 0 r.ForceList F⟩ ∧
      (r.ForceList.getD 0 (0, 0, 0)).1 = -(5 / 4) := by
  obtain ⟨hq0, hm0, hq1, hm1, ht0, _⟩ := twoGroups_fields
  obtain ⟨hr0, hv0, _⟩ := twoGroups_Calc_r (0, 0, 0) 0
  obtain ⟨hn0, _⟩ := twoGroups_numerators (0, 0, 0) 0
  have hexp : (0 : ℝ) < Real.exp (-(1 / 2)) := Real.exp_pos _
  obtain ⟨r, hev, hd, hn, hdn, hdd⟩ := evalGroup_pair_full
    (exampleKernelTwoGroups : KernelData ℝ) Real.exp Real.sqrt (0, 0, 0) 0
    exampleTwoGroupPositions 0 hq0 hm0 Real.exp_zero
    (by norm_num [exampleKernelTwoGroups]) (by simp [exampleKernelTwoGroups])
    (by
      rw [hn0, abs_of_pos hexp]
      intro h
      have h1 := h.1
      have h2 := Real.add_one_le_exp (-(1 / 2) : ℝ)
      norm_num at h1 h2
      linarith)
  obtain ⟨hAD, _, hvec, hrc, hdr, hdf, hFL⟩ := evalGroup_ok_fields _ _ _ _ _ _ _ r hev
  have hAD0 : r.AtomDragged = 0 := by rw [hAD, ht0]
  refine ⟨r, hev, ?_, ?_⟩
  · unfold execute
    simp only
    have hrange : List.range (exampleKernelTwoGroups : KernelData ℝ).QMGroups.length = [0, 1] := by
      simp [exampleKernelTwoGroups, List.range_succ]
    rw [hrange, executeLoop, if_pos ⟨by rw [hq0]; decide, by rw [hm0]; decide⟩, hev]
    simp only
    rw [executeLoop, if_pos ⟨by rw [hq1]; decide, by rw [hm1]; decide⟩,
      twoGroups_second_fails]
    simp only
    congr 1
    unfold applyGroupForces
    simp only
    rw [if_neg (by simp [exampleKernelTwoGroups]), hAD0]
  · have hlen : r.rCenter_Atom_Vec.length = r.rCenter_Atom.length := by
      rw [hrc, hvec, Calc_r_length_Vec]
      exact ((floorLoop_length _ _ _).2).symm
    rw [hFL, hdr, getD_buildForceList_nonneg _ 0 _ _ _ _ _ _ 0 (by rw [hAD0])
      (by rw [hq0]; decide) hlen, hdf, getD_map_range _ _ 0 _ (by rw [hq0]; decide)]
    simp only
    have hs : sortByDistance [(0, (2 : ℝ)), (1, 1)] = [(1, 1), (0, 2)] := by
      simp [sortByDistance, List.insertionSort, List.orderedInsert]
    have hf : floorZero [(1, (1 : ℝ)), (0, 2)] [(0, (2 : ℝ)), (1, 1)]
        = ([(1, 1), (0, 2)], [(0, 2), (1, 1)]) := by
      simp [floorZero, floorLoop, recSecond, List.range_succ]
    rw [hvec, hrc, hAD0, hv0, hr0, hs, hf, hd, hn, hdn, hdd 0, hn0,
      twoGroups_gradient (0, 0, 0) 0]
    simp only [List.getD_cons_zero, recSecond]
    field_simp
    ring

/-- Counterexample to C40 as stated: in the two-group example `execute`
fails with the convergence failure in the second group, and the force
buffer, which held zero forces before the call, holds the force
`Coe * (-5/4)` of the first group on atom 0. -/
theorem C40_failure_buffer_counterexample :
    (execute (exampleKernelTwoGroups : KernelData ℝ) Real.exp Real.sqrt Real.log
      exampleTwoGroupPositions [(0, 0, 0), (0, 0, 0), (0, 0, 0), (0, 0, 0)] true true).outcome
      = .error .maxIteration ∧
    ((execute (exampleKernelTwoGroups : KernelData ℝ) Real.exp Real.sqrt Real.log
      exampleTwoGroupPositions [(0, 0, 0), (0, 0, 0), (0, 0, 0), (0, 0, 0)] true true).Force.getD
        0 0).1 = Coe (300 : ℝ) * (-(5 / 4)) ∧
    (execute (exampleKernelTwoGroups : KernelData ℝ) Real.exp Real.sqrt Real.log
      exampleTwoGroupPositions [(0, 0, 0), (0, 0, 0), (0, 0, 0), (0, 0, 0)] true true).Force
      ≠ [(0, 0, 0), (0, 0, 0), (0, 0, 0), (0, 0, 0)] := by
  obtain ⟨r, _, hrun, hfl⟩ := twoGroups_run [(0, 0, 0), (0, 0, 0), (0, 0, 0), (0, 0, 0)] true true
  have hval : ((applyDirect (exampleKernelTwoGroups : KernelData ℝ) 0 0 r.ForceList
      [(0, 0, 0), (0, 0, 0), (0, 0, 0), (0, 0, 0)]).getD 0 0).1 = Coe (300 : ℝ) * (-(5 / 4)) := by
    have hfl' := hfl
    simp only [List.getD_eq_getElem?_getD, Prod.mk_zero_zero] at hfl'
    rw [applyDirect_getD_nonneg _ 0 0 _ _ (le_refl 0) 0 (by decide)]
    simp [exampleKernelTwoGroups, KernelData.qm, KernelData.mm, groupMolecule, List.range_succ,
      hfl']
  rw [hrun]
  refine ⟨rfl, hval, ?_⟩
  intro heq
  have h0 := hval
  simp only at heq
  rw [heq] at h0
  have hC : Coe (300 : ℝ) * (-(5 / 4)) ≠ 0 := by
    norm_num [Coe]
  exact hC h0.symm

end FailureBufferExample2
section FailureBufferWitness

/-- Witness of C40: in the two-group example `execute` fails in the second
group; the groups split at the failing one, and the buffer left is the one
the loop over the groups before it leaves. -/
theorem C40_failure_buffer_witness :
    (execute (exampleKernelTwoGroups : KernelData ℝ) Real.exp Real.sqrt Real.log
      exampleTwoGroupPositions [(0, 0, 0), (0, 0, 0), (0, 0, 0), (0, 0, 0)] true true).outcome
      = .error .maxIteration ∧
    ∃ (pre : List Nat) (i : Nat) (post : List Nat) (E' : ℝ),
      List.range (exampleKernelTwoGroups : KernelData ℝ).QMGroups.length = pre ++ i :: post ∧
      (((exampleKernelTwoGroups : KernelData ℝ).qm i).length ≠ 0 ∧
        ((exampleKernelTwoGroups : KernelData ℝ).mm i).length ≠ 0) ∧
      (∀ (COM0 : Vec3 ℝ) (STM0 : ℝ),
        evalGroup (exampleKernelTwoGroups : KernelData ℝ) Real.exp Real.sqrt COM0 STM0
          exampleTwoGroupPositions i = .error .maxIteration) ∧
      executeLoop (exampleKernelTwoGroups : KernelData ℝ) Real.exp Real.sqrt Real.log
          exampleTwoGroupPositions pre 0 [(0, 0, 0), (0, 0, 0), (0, 0, 0), (0, 0, 0)] (0, 0, 0) 0
        = ⟨.ok E', (execute (exampleKernelTwoGroups : KernelData ℝ) Real.exp Real.sqrt Real.log
            exampleTwoGroupPositions [(0, 0, 0), (0, 0, 0), (0, 0, 0), (0, 0, 0)] true
            true).Force⟩ := by
  have hfail : (execute (exampleKernelTwoGroups : KernelData ℝ) Real.exp Real.sqrt Real.log
      exampleTwoGroupPositions [(0, 0, 0), (0, 0, 0), (0, 0, 0), (0, 0, 0)] true true).outcome
      = .error .maxIteration := by
    obtain ⟨r, _, hrun, _⟩ := twoGroups_run [(0, 0, 0), (0, 0, 0), (0, 0, 0), (0, 0, 0)] true true
    rw [hrun]
  exact ⟨hfail, (C40_failure_buffer (exampleKernelTwoGroups : KernelData ℝ) Real.exp Real.sqrt
    Real.log exampleTwoGroupPositions [(0, 0, 0), (0, 0, 0), (0, 0, 0), (0, 0, 0)] true true
    .maxIteration hfail).1⟩

end FailureBufferWitness

end FlexiBLE
